import Mathlib

/-! Configuration resolution and job fan-out of prometheus-import-manager.

A shallow embedding of `core/config.go`, `core/file.go`, `targets/targets.go`, the
command line of `cmd/pim` (`flags.go`, `export` of `main.go`) and the helpers
`getDuration`, `cleanMiddleware` and `cleanPath` of the package `router`, with
the properties of the specification proved (or refuted) over it.

Conventions of the embedding.

* A Go `map[string]T` is an association list `List (String × T)` with pairwise
  distinct keys; the order of the list is the order in which a `range` loop
  visits the entries.  Go leaves that order unspecified, so a property of the
  program has to hold for every order.
* A method with a pointer receiver that returns `error` becomes a function
  returning the new receiver together with `Option Error` (`none` is `nil`).
* The file system, the package variable `envPrefix` and the YAML/JSON decoders
  are collected in a `World`, which every function that touches them takes as
  an argument.
* Calls to the logger only write log lines; they do not influence any returned
  value and are left out.
* A `nil` slice and an empty slice are both the empty list.
-/

set_option linter.unusedTactic false

namespace Pim

/-! ## Errors -/

/-- Go `error` values: sentinels (`os.ErrInvalid`, ...), errors without a cause,
and errors built by `fmt.Errorf` with one or two `%w` verbs. -/
inductive Error where
  | sentinel (msg : String)
  | plain (msg : String)
  | wrap (msg : String) (inner : Error)
  | wrap2 (msg : String) (first second : Error)
  deriving DecidableEq, Repr

/-- The method `Error()` of an error: its message. -/
def Error.message : Error → String
  | .sentinel msg => msg
  | .plain msg => msg
  | .wrap msg _ => msg
  | .wrap2 msg _ _ => msg

/-- Go `errors.Is`: the error or one of the errors it wraps is the target. -/
def Error.Is : Error → Error → Bool
  | .sentinel msg, target => decide (Error.sentinel msg = target)
  | .plain msg, target => decide (Error.plain msg = target)
  | .wrap msg inner, target => decide (Error.wrap msg inner = target) || inner.Is target
  | .wrap2 msg e1 e2, target =>
      decide (Error.wrap2 msg e1 e2 = target) || e1.Is target || e2.Is target

/-- Equality of results is decidable. -/
instance instDecidableEqExcept {α : Type} [DecidableEq α] : DecidableEq (Except Error α) :=
  fun a b =>
    match a, b with
    | .ok x, .ok y =>
      if h : x = y then isTrue (by rw [h]) else isFalse (fun e => h (Except.ok.inj e))
    | .error x, .error y =>
      if h : x = y then isTrue (by rw [h]) else isFalse (fun e => h (Except.error.inj e))
    | .ok _, .error _ => isFalse (fun e => Except.noConfusion e)
    | .error _, .ok _ => isFalse (fun e => Except.noConfusion e)

/-- Sentinel `os.ErrInvalid`. -/
def ErrInvalid : Error := .sentinel "invalid argument"

/-- Sentinel `os.ErrNotExist`. -/
def ErrNotExist : Error := .sentinel "file does not exist"

/-- Sentinel `os.ErrPermission`. -/
def ErrPermission : Error := .sentinel "permission denied"

/-- Sentinel `strconv.ErrSyntax`. -/
def ErrSyntax : Error := .sentinel "invalid syntax"

/-- Sentinel `strconv.ErrRange`. -/
def ErrRange : Error := .sentinel "value out of range"

/-! ## Strings (Go package `strings`, `strconv`, `path/filepath`) -/

/-- Go `strings.HasPrefix`. -/
def HasPrefix (s pre : String) : Bool := pre.data.isPrefixOf s.data

/-- Go `strings.TrimPrefix`. -/
def TrimPrefix (s pre : String) : String :=
  if HasPrefix s pre then String.mk (s.data.drop pre.data.length) else s

/-- The table behind Go `unicode.ToLower` above ASCII: the simple lower-case
mappings of the Unicode character database, 1407 code points in ranges as in
`unicode.CaseRanges` (Unicode 15.0, the version of Go 1.21, the first release
with the package `slices` that `core/config.go` imports).  An entry
`(lo, hi, step, to)` sends the code point `lo + k * step`, when it is at most
`hi`, to `to + k * step`; a code point without entry is its own lower case.
The capital I with dot, U+0130, goes to the ASCII `i`. -/
def lowerRanges : List (Nat × Nat × Nat × Nat) :=
  [(0xC0, 0xD6, 1, 0xE0), (0xD8, 0xDE, 1, 0xF8), (0x100, 0x12E, 2, 0x101),
   (0x130, 0x130, 1, 0x69), (0x132, 0x136, 2, 0x133), (0x139, 0x147, 2, 0x13A),
   (0x14A, 0x176, 2, 0x14B), (0x178, 0x178, 1, 0xFF), (0x179, 0x17D, 2, 0x17A),
   (0x181, 0x181, 1, 0x253), (0x182, 0x184, 2, 0x183), (0x186, 0x186, 1, 0x254),
   (0x187, 0x187, 1, 0x188), (0x189, 0x18A, 1, 0x256), (0x18B, 0x18B, 1, 0x18C),
   (0x18E, 0x18E, 1, 0x1DD), (0x18F, 0x18F, 1, 0x259), (0x190, 0x190, 1, 0x25B),
   (0x191, 0x191, 1, 0x192), (0x193, 0x193, 1, 0x260), (0x194, 0x194, 1, 0x263),
   (0x196, 0x196, 1, 0x269), (0x197, 0x197, 1, 0x268), (0x198, 0x198, 1, 0x199),
   (0x19C, 0x19C, 1, 0x26F), (0x19D, 0x19D, 1, 0x272), (0x19F, 0x19F, 1, 0x275),
   (0x1A0, 0x1A4, 2, 0x1A1), (0x1A6, 0x1A6, 1, 0x280), (0x1A7, 0x1A7, 1, 0x1A8),
   (0x1A9, 0x1A9, 1, 0x283), (0x1AC, 0x1AC, 1, 0x1AD), (0x1AE, 0x1AE, 1, 0x288),
   (0x1AF, 0x1AF, 1, 0x1B0), (0x1B1, 0x1B2, 1, 0x28A), (0x1B3, 0x1B5, 2, 0x1B4),
   (0x1B7, 0x1B7, 1, 0x292), (0x1B8, 0x1B8, 1, 0x1B9), (0x1BC, 0x1BC, 1, 0x1BD),
   (0x1C4, 0x1C4, 1, 0x1C6), (0x1C5, 0x1C5, 1, 0x1C6), (0x1C7, 0x1C7, 1, 0x1C9),
   (0x1C8, 0x1C8, 1, 0x1C9), (0x1CA, 0x1CA, 1, 0x1CC), (0x1CB, 0x1DB, 2, 0x1CC),
   (0x1DE, 0x1EE, 2, 0x1DF), (0x1F1, 0x1F1, 1, 0x1F3), (0x1F2, 0x1F4, 2, 0x1F3),
   (0x1F6, 0x1F6, 1, 0x195), (0x1F7, 0x1F7, 1, 0x1BF), (0x1F8, 0x21E, 2, 0x1F9),
   (0x220, 0x220, 1, 0x19E), (0x222, 0x232, 2, 0x223), (0x23A, 0x23A, 1, 0x2C65),
   (0x23B, 0x23B, 1, 0x23C), (0x23D, 0x23D, 1, 0x19A), (0x23E, 0x23E, 1, 0x2C66),
   (0x241, 0x241, 1, 0x242), (0x243, 0x243, 1, 0x180), (0x244, 0x244, 1, 0x289),
   (0x245, 0x245, 1, 0x28C), (0x246, 0x24E, 2, 0x247), (0x370, 0x372, 2, 0x371),
   (0x376, 0x376, 1, 0x377), (0x37F, 0x37F, 1, 0x3F3), (0x386, 0x386, 1, 0x3AC),
   (0x388, 0x38A, 1, 0x3AD), (0x38C, 0x38C, 1, 0x3CC), (0x38E, 0x38F, 1, 0x3CD),
   (0x391, 0x3A1, 1, 0x3B1), (0x3A3, 0x3AB, 1, 0x3C3), (0x3CF, 0x3CF, 1, 0x3D7),
   (0x3D8, 0x3EE, 2, 0x3D9), (0x3F4, 0x3F4, 1, 0x3B8), (0x3F7, 0x3F7, 1, 0x3F8),
   (0x3F9, 0x3F9, 1, 0x3F2), (0x3FA, 0x3FA, 1, 0x3FB), (0x3FD, 0x3FF, 1, 0x37B),
   (0x400, 0x40F, 1, 0x450), (0x410, 0x42F, 1, 0x430), (0x460, 0x480, 2, 0x461),
   (0x48A, 0x4BE, 2, 0x48B), (0x4C0, 0x4C0, 1, 0x4CF), (0x4C1, 0x4CD, 2, 0x4C2),
   (0x4D0, 0x52E, 2, 0x4D1), (0x531, 0x556, 1, 0x561), (0x10A0, 0x10C5, 1, 0x2D00),
   (0x10C7, 0x10C7, 1, 0x2D27), (0x10CD, 0x10CD, 1, 0x2D2D), (0x13A0, 0x13EF, 1, 0xAB70),
   (0x13F0, 0x13F5, 1, 0x13F8), (0x1C90, 0x1CBA, 1, 0x10D0), (0x1CBD, 0x1CBF, 1, 0x10FD),
   (0x1E00, 0x1E94, 2, 0x1E01), (0x1E9E, 0x1E9E, 1, 0xDF), (0x1EA0, 0x1EFE, 2, 0x1EA1),
   (0x1F08, 0x1F0F, 1, 0x1F00), (0x1F18, 0x1F1D, 1, 0x1F10), (0x1F28, 0x1F2F, 1, 0x1F20),
   (0x1F38, 0x1F3F, 1, 0x1F30), (0x1F48, 0x1F4D, 1, 0x1F40), (0x1F59, 0x1F5F, 2, 0x1F51),
   (0x1F68, 0x1F6F, 1, 0x1F60), (0x1F88, 0x1F8F, 1, 0x1F80), (0x1F98, 0x1F9F, 1, 0x1F90),
   (0x1FA8, 0x1FAF, 1, 0x1FA0), (0x1FB8, 0x1FB9, 1, 0x1FB0), (0x1FBA, 0x1FBB, 1, 0x1F70),
   (0x1FBC, 0x1FBC, 1, 0x1FB3), (0x1FC8, 0x1FCB, 1, 0x1F72), (0x1FCC, 0x1FCC, 1, 0x1FC3),
   (0x1FD8, 0x1FD9, 1, 0x1FD0), (0x1FDA, 0x1FDB, 1, 0x1F76), (0x1FE8, 0x1FE9, 1, 0x1FE0),
   (0x1FEA, 0x1FEB, 1, 0x1F7A), (0x1FEC, 0x1FEC, 1, 0x1FE5), (0x1FF8, 0x1FF9, 1, 0x1F78),
   (0x1FFA, 0x1FFB, 1, 0x1F7C), (0x1FFC, 0x1FFC, 1, 0x1FF3), (0x2126, 0x2126, 1, 0x3C9),
   (0x212A, 0x212A, 1, 0x6B), (0x212B, 0x212B, 1, 0xE5), (0x2132, 0x2132, 1, 0x214E),
   (0x2160, 0x216F, 1, 0x2170), (0x2183, 0x2183, 1, 0x2184), (0x24B6, 0x24CF, 1, 0x24D0),
   (0x2C00, 0x2C2F, 1, 0x2C30), (0x2C60, 0x2C60, 1, 0x2C61), (0x2C62, 0x2C62, 1, 0x26B),
   (0x2C63, 0x2C63, 1, 0x1D7D), (0x2C64, 0x2C64, 1, 0x27D), (0x2C67, 0x2C6B, 2, 0x2C68),
   (0x2C6D, 0x2C6D, 1, 0x251), (0x2C6E, 0x2C6E, 1, 0x271), (0x2C6F, 0x2C6F, 1, 0x250),
   (0x2C70, 0x2C70, 1, 0x252), (0x2C72, 0x2C72, 1, 0x2C73), (0x2C75, 0x2C75, 1, 0x2C76),
   (0x2C7E, 0x2C7F, 1, 0x23F), (0x2C80, 0x2CE2, 2, 0x2C81), (0x2CEB, 0x2CED, 2, 0x2CEC),
   (0x2CF2, 0x2CF2, 1, 0x2CF3), (0xA640, 0xA66C, 2, 0xA641), (0xA680, 0xA69A, 2, 0xA681),
   (0xA722, 0xA72E, 2, 0xA723), (0xA732, 0xA76E, 2, 0xA733), (0xA779, 0xA77B, 2, 0xA77A),
   (0xA77D, 0xA77D, 1, 0x1D79), (0xA77E, 0xA786, 2, 0xA77F), (0xA78B, 0xA78B, 1, 0xA78C),
   (0xA78D, 0xA78D, 1, 0x265), (0xA790, 0xA792, 2, 0xA791), (0xA796, 0xA7A8, 2, 0xA797),
   (0xA7AA, 0xA7AA, 1, 0x266), (0xA7AB, 0xA7AB, 1, 0x25C), (0xA7AC, 0xA7AC, 1, 0x261),
   (0xA7AD, 0xA7AD, 1, 0x26C), (0xA7AE, 0xA7AE, 1, 0x26A), (0xA7B0, 0xA7B0, 1, 0x29E),
   (0xA7B1, 0xA7B1, 1, 0x287), (0xA7B2, 0xA7B2, 1, 0x29D), (0xA7B3, 0xA7B3, 1, 0xAB53),
   (0xA7B4, 0xA7C2, 2, 0xA7B5), (0xA7C4, 0xA7C4, 1, 0xA794), (0xA7C5, 0xA7C5, 1, 0x282),
   (0xA7C6, 0xA7C6, 1, 0x1D8E), (0xA7C7, 0xA7C9, 2, 0xA7C8), (0xA7D0, 0xA7D0, 1, 0xA7D1),
   (0xA7D6, 0xA7D8, 2, 0xA7D7), (0xA7F5, 0xA7F5, 1, 0xA7F6), (0xFF21, 0xFF3A, 1, 0xFF41),
   (0x10400, 0x10427, 1, 0x10428), (0x104B0, 0x104D3, 1, 0x104D8),
   (0x10570, 0x1057A, 1, 0x10597), (0x1057C, 0x1058A, 1, 0x105A3),
   (0x1058C, 0x10592, 1, 0x105B3), (0x10594, 0x10595, 1, 0x105BB),
   (0x10C80, 0x10CB2, 1, 0x10CC0), (0x118A0, 0x118BF, 1, 0x118C0),
   (0x16E40, 0x16E5F, 1, 0x16E60), (0x1E900, 0x1E921, 1, 0x1E922)]

/-- Go `unicode.ToLower`: an ASCII rune by the shift of `A`-`Z`, any other rune
by the table of case ranges. -/
def unicode.ToLower (r : Char) : Char :=
  if r.toNat < 0x80 then r.toLower
  else
    match lowerRanges.find?
        (fun e => e.1 ≤ r.toNat ∧ r.toNat ≤ e.2.1 ∧ (r.toNat - e.1) % e.2.2.1 = 0) with
    | some e => Char.ofNat (e.2.2.2 + (r.toNat - e.1))
    | none => r

/-- Go `strings.ToLower`: every rune of the string mapped by `unicode.ToLower`
(the strings of the embedding are sequences of Unicode scalar values). -/
def ToLower (s : String) : String := String.mk (s.data.map unicode.ToLower)

/-- The pieces of a list of characters between commas. -/
def splitComma : List Char → List (List Char)
  | [] => [[]]
  | c :: cs =>
    if c = ',' then [] :: splitComma cs
    else
      match splitComma cs with
      | [] => [[c]]
      | p :: ps => (c :: p) :: ps

/-- Go `strings.Split(v, ",")`. -/
def Split (v : String) : List String := (splitComma v.data).map String.mk

/-- Go `strings.Join`. -/
def Join : List String → String → String
  | [], _ => ""
  | [a], _ => a
  | a :: b :: rest, sep => a ++ sep ++ Join (b :: rest) sep

/-- The table `lowerhex` of `strconv`: the hexadecimal digit of a number below 16. -/
def lowerhex (n : Nat) : Char := "0123456789abcdef".data.getD n '0'

/-- Go `strconv.IsPrint`, exact up to U+00FF (the printable ASCII characters and
U+00A1 to U+00FF without the soft hyphen U+00AD).  Above U+00FF Go consults
tables of the Unicode categories; here every such rune is taken as printable,
so that only the escapes of the controls, formats and unassigned code points
above U+00FF are not reproduced. -/
def IsPrint (r : Char) : Bool :=
  if r.toNat ≤ 0xFF then
    decide ((0x20 ≤ r.toNat ∧ r.toNat ≤ 0x7E) ∨ (0xA1 ≤ r.toNat ∧ r.toNat ≠ 0xAD))
  else true

/-- Function `appendEscapedRune` of `strconv`, for the double quote as the quote
character: the quote and the backslash get a backslash, a printable rune is
itself, the seven controls with a letter escape use it, another control below
the space and U+007F are `\x` with two digits, any further rune is `\u` with
four digits or `\U` with eight. -/
def appendEscapedRune (r : Char) : List Char :=
  if r = Char.ofNat 0x22 ∨ r = '\\' then ['\\', r]
  else if IsPrint r then [r]
  else if r.toNat = 0x07 then ['\\', 'a']
  else if r.toNat = 0x08 then ['\\', 'b']
  else if r.toNat = 0x0C then ['\\', 'f']
  else if r.toNat = 0x0A then ['\\', 'n']
  else if r.toNat = 0x0D then ['\\', 'r']
  else if r.toNat = 0x09 then ['\\', 't']
  else if r.toNat = 0x0B then ['\\', 'v']
  else if r.toNat < 0x20 ∨ r.toNat = 0x7F then
    ['\\', 'x', lowerhex (r.toNat / 16), lowerhex (r.toNat % 16)]
  else if r.toNat < 0x10000 then
    ['\\', 'u', lowerhex (r.toNat / 4096 % 16), lowerhex (r.toNat / 256 % 16),
      lowerhex (r.toNat / 16 % 16), lowerhex (r.toNat % 16)]
  else
    ['\\', 'U', lowerhex (r.toNat / 268435456 % 16), lowerhex (r.toNat / 16777216 % 16),
      lowerhex (r.toNat / 1048576 % 16), lowerhex (r.toNat / 65536 % 16),
      lowerhex (r.toNat / 4096 % 16), lowerhex (r.toNat / 256 % 16),
      lowerhex (r.toNat / 16 % 16), lowerhex (r.toNat % 16)]

/-- Go `strconv.Quote`: the string between double quotes, every rune escaped by
`appendEscapedRune`. -/
def Quote (s : String) : String :=
  String.mk (Char.ofNat 0x22 :: (s.data.flatMap appendEscapedRune ++ [Char.ofNat 0x22]))

/-- Go `strconv.ParseBool`; the message is that of `NumError.Error`, with the input
quoted by `strconv.Quote`. -/
def ParseBool (str : String) : Except Error Bool :=
  if str = "1" ∨ str = "t" ∨ str = "T" ∨ str = "TRUE" ∨ str = "true" ∨ str = "True" then
    .ok true
  else if str = "0" ∨ str = "f" ∨ str = "F" ∨ str = "FALSE" ∨ str = "false"
      ∨ str = "False" then
    .ok false
  else
    .error (.wrap ("strconv.ParseBool: parsing " ++ Quote str ++ ": invalid syntax") ErrSyntax)

/-- Go `strconv.Atoi` on a 64-bit platform: an optional sign, then one or more
decimal digits, the value within the range of `int`. -/
def Atoi (s : String) : Except Error Int :=
  let ds : List Char :=
    match s.data with
    | '-' :: r => r
    | '+' :: r => r
    | cs => cs
  if ds = [] ∨ ds.all Char.isDigit = false then
    .error (.wrap ("strconv.Atoi: parsing " ++ Quote s ++ ": invalid syntax") ErrSyntax)
  else
    let n : Nat := ds.foldl (fun a ch => 10 * a + (ch.toNat - 48)) 0
    let i : Int := if s.data.head? = some '-' then -(n : Int) else (n : Int)
    if i < -(2 : Int) ^ 63 ∨ (2 : Int) ^ 63 ≤ i then
      .error (.wrap ("strconv.Atoi: parsing " ++ Quote s ++ ": value out of range") ErrRange)
    else
      .ok i

/-- The loop of Go `filepath.Ext`, run over the reversed path. -/
def extScan : List Char → List Char → String
  | [], _ => ""
  | c :: rest, acc =>
    if c = '/' then ""
    else if c = '.' then String.mk ('.' :: acc)
    else extScan rest (c :: acc)

/-- Go `filepath.Ext`: the suffix beginning at the final dot of the final
element of the path, or the empty string. -/
def Ext (path : String) : String := extScan path.data.reverse []

/-! ## Maps -/

/-- The type `Flags` of `core/config.go`: a `map[string]string`. -/
abbrev Flags := List (String × String)

/-- The keys of a map are pairwise distinct. -/
def NodupKeys {β : Type} (m : List (String × β)) : Prop := (m.map Prod.fst).Nodup

/-- The assignment `m[k] = v`: the value of an existing key is replaced, a new
key becomes a new entry. -/
def mapSet {β : Type} : List (String × β) → String → β → List (String × β)
  | [], k, v => [(k, v)]
  | (k0, v0) :: rest, k, v =>
    if k0 = k then (k, v) :: rest else (k0, v0) :: mapSet rest k v

/-! ## Settings merger -/

/-- Function `parseEnvVars` of `core/config.go` (lines 178-192); `env` is listed in
the order the `range` loop visits it, and the result is `flags` after the
call. -/
def parseEnvVars (envPrefix : String) (flags : Flags) : Flags → Flags
  | [] => flags
  | (k, v) :: env =>
    if HasPrefix k envPrefix = false then parseEnvVars envPrefix flags env
    else
      if (flags.lookup (ToLower (TrimPrefix k envPrefix))).isNone then
        parseEnvVars envPrefix (mapSet flags (ToLower (TrimPrefix k envPrefix)) v) env
      else parseEnvVars envPrefix flags env

/-- Function `parseEnvVars` (lines 178-192) with the nil map among the values of
`flags`: `none` is the nil map, `some m` an allocated map.  Reading a nil map
finds no key (line 188), and the assignment of line 189 to a nil map is a
run-time panic, here the outer `none`. -/
def parseEnvVarsNil (envPrefix : String) : Option Flags → Flags → Option (Option Flags)
  | flags, [] => some flags
  | flags, (k, v) :: env =>
    if HasPrefix k envPrefix = false then parseEnvVarsNil envPrefix flags env
    else
      match flags with
      | none => none
      | some m =>
        if (m.lookup (ToLower (TrimPrefix k envPrefix))).isNone then
          parseEnvVarsNil envPrefix (some (mapSet m (ToLower (TrimPrefix k envPrefix)) v)) env
        else parseEnvVarsNil envPrefix (some m) env

/-! ## Configuration record -/

/-- Constant `DefaultExportFirst`. -/
def DefaultExportFirst : Bool := false

/-- Constant `DefaultExportType`. -/
def DefaultExportType : String := "file_sd"

/-- Constant `DefaultConfigFile`. -/
def DefaultConfigFile : String := "/etc/pim/pim.yml"

/-- Constant `DefaultSources`. -/
def DefaultSources : String := "/etc/pim/sources"

/-- Constant `DefaultTargetsDir`. -/
def DefaultTargetsDir : String := "/etc/prometheus/file_sd"

/-- Constant `DefaultTargetsFileSuffix`. -/
def DefaultTargetsFileSuffix : String := "_targets"

/-- Constant `DefaultJSONFileExt`. -/
def DefaultJSONFileExt : String := ".json"

/-- Constant `DefaultYAMLFileExt`. -/
def DefaultYAMLFileExt : String := ".yml"

/-- Constant `DefaultTargetsFileExt`. -/
def DefaultTargetsFileExt : String := DefaultJSONFileExt

/-- Constant `DefaultAPIHost`. -/
def DefaultAPIHost : String := "0.0.0.0"

/-- Constant `DefaultAPIPort`. -/
def DefaultAPIPort : String := "9900"

/-- Constant `DefaultShutdownTimeout`. -/
def DefaultShutdownTimeout : Int := 5

/-- Package variable `validExportTypes`. -/
def validExportTypes : List String := ["file_sd"]

/-- Package variable `validConfigExtensions`. -/
def validConfigExtensions : List String := [".yml", ".yaml", ".json"]

/-- Package variable `validTargetsExtensions`. -/
def validTargetsExtensions : List String := [".yml", ".yaml", ".json"]

/-- The struct `Config` of `core/config.go`. `ExportTypes` is a `map[string]bool`. -/
@[ext]
structure Config where
  Debug : Bool
  Flags : Flags
  ExportFirst : Bool
  RawExportTypes : List String
  ExportTypes : List (String × Bool)
  ConfigFile : String
  Sources : String
  TargetsDir : String
  TargetsFileExt : String
  TargetsFileSuffix : String
  APIHost : String
  APIPort : String
  TLSCertFile : String
  TLSKeyFile : String
  ShutdownTimeout : Int
  deriving DecidableEq, Repr

/-- Function `DefaultConfig` (lines 82-98); fields it does not name hold the zero
value of their type. -/
def DefaultConfig : Config where
  Debug := false
  Flags := []
  ExportFirst := DefaultExportFirst
  RawExportTypes := []
  ExportTypes := []
  ConfigFile := DefaultConfigFile
  Sources := DefaultSources
  TargetsDir := DefaultTargetsDir
  TargetsFileExt := DefaultTargetsFileExt
  TargetsFileSuffix := DefaultTargetsFileSuffix
  APIHost := DefaultAPIHost
  APIPort := DefaultAPIPort
  TLSCertFile := ""
  TLSKeyFile := ""
  ShutdownTimeout := DefaultShutdownTimeout

/-! ## Files and decoders -/

/-- What a decoder (`yaml.Unmarshal`, `json.Unmarshal`) stores into a `Config`:
for each exported field of the struct, the value of the document entry matched
to it, if the document has one.  The fields with a struct tag are matched by
their tag; `Debug`, `Flags`, `ExportTypes` and `ConfigFile` carry no tag and are
matched by their name. -/
structure FileDoc where
  Debug : Option Bool := none
  Flags : Option Flags := none
  ExportFirst : Option Bool := none
  RawExportTypes : Option (List String) := none
  ExportTypes : Option (List (String × Bool)) := none
  ConfigFile : Option String := none
  Sources : Option String := none
  TargetsDir : Option String := none
  TargetsFileExt : Option String := none
  TargetsFileSuffix : Option String := none
  APIHost : Option String := none
  APIPort : Option String := none
  TLSCertFile : Option String := none
  TLSKeyFile : Option String := none
  ShutdownTimeout : Option Int := none
  deriving DecidableEq, Repr

/-- Decoding a document object into an existing map keeps the entries of the map
and assigns the entries of the document. -/
def mapMerge {β : Type} (m : List (String × β)) (doc : List (String × β)) :
    List (String × β) :=
  doc.foldl (fun acc kv => mapSet acc kv.1 kv.2) m

/-- The effect of a decoder on the `Config` it is given: a field the document
names is overwritten, every other field is left as it was.  The two maps are
allocated by `DefaultConfig` and a document mapping is stored into them entry
by entry.  A document that gives `null` for `flags` or `exporttypes` would make
the map nil instead (and `processExportTypes` then faults on its first
assignment); such a document has no `FileDoc`, so the statements about every
`World` are about decoders that leave the two maps allocated. -/
def FileDoc.store (d : FileDoc) (c : Config) : Config where
  Debug := d.Debug.getD c.Debug
  Flags := match d.Flags with
    | some m => mapMerge c.Flags m
    | none => c.Flags
  ExportFirst := d.ExportFirst.getD c.ExportFirst
  RawExportTypes := d.RawExportTypes.getD c.RawExportTypes
  ExportTypes := match d.ExportTypes with
    | some m => mapMerge c.ExportTypes m
    | none => c.ExportTypes
  ConfigFile := d.ConfigFile.getD c.ConfigFile
  Sources := d.Sources.getD c.Sources
  TargetsDir := d.TargetsDir.getD c.TargetsDir
  TargetsFileExt := d.TargetsFileExt.getD c.TargetsFileExt
  TargetsFileSuffix := d.TargetsFileSuffix.getD c.TargetsFileSuffix
  APIHost := d.APIHost.getD c.APIHost
  APIPort := d.APIPort.getD c.APIPort
  TLSCertFile := d.TLSCertFile.getD c.TLSCertFile
  TLSKeyFile := d.TLSKeyFile.getD c.TLSKeyFile
  ShutdownTimeout := d.ShutdownTimeout.getD c.ShutdownTimeout

/-- The surroundings of the package `core`: the package variables `envPrefix`,
`tester` and `reader` (`core/file.go`, lines 17-28) and the two decoders.  A
decoder returns the fields it stored and the error it reports; both libraries
can report an error after having stored some fields (a value of the wrong
type for one key does not stop the other keys from being decoded). -/
structure World where
  envPrefix : String
  tester : String → Option Error
  reader : String → Except Error String
  yamlUnmarshal : String → FileDoc × Option Error
  jsonUnmarshal : String → FileDoc × Option Error

/-- Function `ReadFile` of `core/file.go` (lines 105-111). -/
def ReadFile (w : World) (file : String) : Except Error String :=
  if file = "" then .error ErrInvalid else w.reader file

/-- Function `ReadYAML` of `core/file.go` (lines 42-49), at the type `Config`. -/
def ReadYAML (w : World) (file : String) (c : Config) : Config × Option Error :=
  match ReadFile w file with
  | .error err => (c, some err)
  | .ok data => ((w.yamlUnmarshal data).1.store c, (w.yamlUnmarshal data).2)

/-- Function `ReadJSON` of `core/file.go` (lines 51-58), at the type `Config`. -/
def ReadJSON (w : World) (file : String) (c : Config) : Config × Option Error :=
  match ReadFile w file with
  | .error err => (c, some err)
  | .ok data => ((w.jsonUnmarshal data).1.store c, (w.jsonUnmarshal data).2)

/-! ## Configuration resolver -/

/-- Function `validateTargetsFileExt` (lines 162-176). -/
def validateTargetsFileExt (v : String) : Option Error :=
  if validTargetsExtensions.any (fun e => decide (v = e)) then none
  else
    some (.wrap (ErrInvalid.message ++ " targets_file_ext: " ++ v ++ ", must be one of: "
      ++ Join validTargetsExtensions ", ") ErrInvalid)

/-- Function `isValidExportTypes` (lines 194-196). -/
def isValidExportTypes (v : String) : Bool := validExportTypes.contains v

/-- The loop of `splitExportTypes` over the pieces of `v`. -/
def splitExportTypesLoop (v : String) (c : Config) : List String → Config × Option Error
  | [] => (c, none)
  | et :: rest =>
    if isValidExportTypes et = false then
      (c, some (.plain ("invalid export_types: " ++ v ++ "; must be one of: "
        ++ Join validExportTypes ", ")))
    else
      splitExportTypesLoop v { c with RawExportTypes := c.RawExportTypes ++ [et] } rest

/-- Method `Config.splitExportTypes` (lines 198-208). -/
def Config.splitExportTypes (c : Config) (v : String) : Config × Option Error :=
  splitExportTypesLoop v c (Split v)

/-- Method `Config.setConfigValue` (lines 210-262). -/
def Config.setConfigValue (c : Config) (k v : String) : Config × Option Error :=
  if k = "config_file" then (c, none)
  else if k = "debug" then
    match ParseBool v with
    | .error err =>
      (c, some (.wrap2 (k ++ ": " ++ ErrInvalid.message ++ ": " ++ err.message) ErrInvalid err))
    | .ok b => ({ c with Debug := b }, none)
  else if k = "export_first" then
    match ParseBool v with
    | .error err =>
      (c, some (.wrap2 (k ++ ": " ++ ErrInvalid.message ++ ": " ++ err.message) ErrInvalid err))
    | .ok b => ({ c with ExportFirst := b }, none)
  else if k = "export_types" then c.splitExportTypes v
  else if k = "targets_dir" then ({ c with TargetsDir := v }, none)
  else if k = "targets_file_ext" then
    match validateTargetsFileExt v with
    | some err => (c, some err)
    | none => ({ c with TargetsFileExt := v }, none)
  else if k = "targets_file_suffix" then ({ c with TargetsFileSuffix := v }, none)
  else if k = "sources" then ({ c with Sources := v }, none)
  else if k = "command" then (c, none)
  else if k = "http_api_host" then ({ c with APIHost := v }, none)
  else if k = "http_api_port" then ({ c with APIPort := v }, none)
  else if k = "http_tls_cert_file" then ({ c with TLSCertFile := v }, none)
  else if k = "http_tls_key_file" then ({ c with TLSKeyFile := v }, none)
  else if k = "http_shutdown_timeout" then
    match Atoi v with
    | .error _ =>
      (c, some (.wrap ("config: " ++ ErrInvalid.message ++ ": " ++ k ++ " was not an int '"
        ++ v ++ "'") ErrInvalid))
    | .ok timeout => ({ c with ShutdownTimeout := timeout }, none)
  else (c, some (.wrap ("config: " ++ ErrInvalid.message ++ ": " ++ k) ErrInvalid))

/-- Method `Config.parseConfigFile` (lines 264-289). -/
def Config.parseConfigFile (c : Config) (w : World) (file : String) : Config × Option Error :=
  if file = "" then (c, some (.wrap ("config: " ++ ErrInvalid.message) ErrInvalid))
  else
    match w.tester file with
    | some err => (c, some err)
    | none =>
      if Ext file = ".yml" ∨ Ext file = ".yaml" then ReadYAML w file c
      else if Ext file = ".json" then ReadJSON w file c
      else
        (c, some (.plain ("invalid config_targets_file_ext: " ++ Ext file
          ++ "; must be one of: " ++ Join validConfigExtensions ", ")))

/-- Method `Config.processExportTypes` (lines 291-304). -/
def Config.processExportTypes (c : Config) : Config :=
  let types := c.RawExportTypes.foldl (fun m v => mapSet m (ToLower v) true) c.ExportTypes
  { c with
    ExportTypes := if types.length = 0 then mapSet types DefaultExportType true else types
    RawExportTypes := [] }

/-- The loop `for k, v := range flags` of `NewConfig` (lines 147-153), over the
entries in the order they are visited: it stops at the first entry that
`setConfigValue` rejects. -/
def applySettings (c : Config) : Flags → Config × Option Error
  | [] => (c, none)
  | (k, v) :: rest =>
    match (c.setConfigValue k v).2 with
    | some err => ((c.setConfigValue k v).1, some err)
    | none => applySettings (c.setConfigValue k v).1 rest

/-- The configuration of `NewConfig` when it reaches the configuration file
(lines 115-130): the defaults, the path of `config_file` if the settings map has
one, and the value of `debug` if the map has one (the error of this early
`setConfigValue` call is dropped). -/
def startConfig (flags : Flags) : Config :=
  let c : Config :=
    match flags.lookup "config_file" with
    | some v => { DefaultConfig with ConfigFile := v }
    | none => DefaultConfig
  match flags.lookup "debug" with
  | some v => (c.setConfigValue "debug" v).1
  | none => c

/-- Function `NewConfig` (lines 110-160).  `flags` and `env` are the two maps it is
given, `env` in the order `parseEnvVars` visits it; `visit` lists the entries of
the merged settings map in the order the loop of lines 147-153 visits them, so
a call of the program has `visit` a permutation of
`parseEnvVars w.envPrefix flags env`. -/
def NewConfig (w : World) (flags env visit : Flags) : Config × Option Error :=
  let merged := parseEnvVars w.envPrefix flags env
  let c := startConfig merged
  let parsed := c.parseConfigFile w c.ConfigFile
  match parsed.2 with
  | some err =>
    if err.Is ErrNotExist = false then (parsed.1, some err)
    else
      match (applySettings parsed.1 visit).2 with
      | some e => ((applySettings parsed.1 visit).1, some e)
      | none => ({ (applySettings parsed.1 visit).1.processExportTypes with Flags := merged }, none)
  | none =>
    match (applySettings parsed.1 visit).2 with
    | some e => ((applySettings parsed.1 visit).1, some e)
    | none => ({ (applySettings parsed.1 visit).1.processExportTypes with Flags := merged }, none)

/-! ## Job fan-out (`targets/targets.go`) -/

/-- The struct `TargetGroup`; `Labels` is a `map[string]string`. -/
structure TargetGroup where
  Jobs : List String
  Labels : List (String × String)
  Targets : List String
  deriving DecidableEq, Repr

/-- The type `TargetGroups`, a slice of pointers; `none` is a nil pointer. -/
abbrev TargetGroups := List (Option TargetGroup)

/-- The type `TargetMap`, a `map[string]TargetGroups`. -/
abbrev TargetMap := List (String × TargetGroups)

/-- The expression `files[filename]`: the bucket of the key, the nil slice when the
map has no such key. -/
def bucket (files : TargetMap) (filename : String) : TargetGroups :=
  (files.lookup filename).getD []

/-- The inner loop of `splitByJob` (lines 157-168), over the jobs of one group. -/
def splitJobs (config : Config) (tg : TargetGroup) : List String → TargetMap → TargetMap
  | [], files => files
  | job :: jobs, files =>
    let filename := job ++ DefaultTargetsFileSuffix ++ config.TargetsFileExt
    let made := if bucket files filename = [] then mapSet files filename [] else files
    splitJobs config tg jobs
      (mapSet made filename
        (bucket made filename
          ++ [some { Jobs := [job], Labels := tg.Labels, Targets := tg.Targets }]))

/-- The outer loop of `splitByJob` (lines 156-169); reading the jobs of a nil group
is a run-time panic, here `none`. -/
def splitGroups (config : Config) : TargetGroups → TargetMap → Option TargetMap
  | [], files => some files
  | none :: _, _ => none
  | some tg :: rest, files => splitGroups config rest (splitJobs config tg tg.Jobs files)

/-- Method `TargetGroups.splitByJob` (lines 154-172). -/
def splitByJob (t : TargetGroups) (config : Config) : Option TargetMap :=
  splitGroups config t []

/-! ## Paths (Go package `path/filepath`, Unix) -/

/-- Go `strings.HasSuffix`. -/
def HasSuffix (s suffix : String) : Bool := suffix.data.isSuffixOf s.data

/-- The elements of a path: the pieces between slashes. -/
def splitSlash : List Char → List (List Char)
  | [] => [[]]
  | c :: cs =>
    if c = '/' then [] :: splitSlash cs
    else
      match splitSlash cs with
      | [] => [[c]]
      | p :: ps => (c :: p) :: ps

/-- The elements of a path written out again with one slash between them. -/
def joinSlash : List (List Char) → List Char
  | [] => []
  | [a] => a
  | a :: b :: rest => a ++ '/' :: joinSlash (b :: rest)

/-- One step of `filepath.Clean`: the elements kept so far (last one first) after
reading the element `e`.  An empty element and `.` are dropped; `..` removes
the last element kept, is dropped at the root, and is kept where the elements
kept so far are all `..`; every other element is kept. -/
def cleanStep (rooted : Bool) (kept : List (List Char)) (e : List Char) : List (List Char) :=
  if e = [] ∨ e = ['.'] then kept
  else if e = ['.', '.'] then
    match kept with
    | [] => if rooted then [] else [e]
    | top :: rest => if top = ['.', '.'] then e :: kept else rest
  else e :: kept

/-- The path that `filepath.Clean` writes for the elements kept. -/
def renderPath (rooted : Bool) (kept : List (List Char)) : String :=
  if rooted then String.mk ('/' :: joinSlash kept.reverse)
  else if kept = [] then "."
  else String.mk (joinSlash kept.reverse)

/-- Go `filepath.Clean`: the shortest path equivalent to `path` by purely lexical
processing. -/
def filepath.Clean (path : String) : String :=
  if path = "" then "."
  else
    renderPath (decide (path.data.head? = some '/'))
      ((splitSlash path.data).foldl (cleanStep (decide (path.data.head? = some '/'))) [])

/-- Go `filepath.Join` of two elements. -/
def filepath.Join (a b : String) : String :=
  if a ≠ "" then filepath.Clean (a ++ "/" ++ b)
  else if b ≠ "" then filepath.Clean b
  else ""

/-- The part of a path up to and including its last slash. -/
def uptoLastSlash (path : List Char) : List Char :=
  (path.reverse.dropWhile (fun c => decide (c ≠ '/'))).reverse

/-- Go `filepath.Dir`: all but the last element of the path, cleaned. -/
def filepath.Dir (path : String) : String :=
  filepath.Clean (String.mk (uptoLastSlash path.data))

/-- A single path element that names a file: not empty, without a slash, and
neither `.` nor `..`. -/
def isPlainName (name : String) : Bool :=
  decide (name.data ≠ [] ∧ '/' ∉ name.data ∧ name.data ≠ ['.'] ∧ name.data ≠ ['.', '.'])

/-- The elements that `filepath.Clean` keeps are well formed: none is empty, `.` or
holds a slash, and `..` is kept only in an unrooted path with nothing but `..`
below it. -/
def keptOk (rooted : Bool) : List (List Char) → Prop
  | [] => True
  | e :: rest =>
    e ≠ [] ∧ e ≠ ['.'] ∧ '/' ∉ e
      ∧ (e = ['.', '.'] → rooted = false ∧ ∀ x ∈ rest, x = ['.', '.'])
      ∧ keptOk rooted rest

/-! ## The file system seen by the package `targets` -/

/-- What `os.Stat` reports about an existing path. -/
structure FileInfo where
  IsDir : Bool
  deriving DecidableEq, Repr

/-- One call of the package variable `writer` (`os.WriteFile`): path, bytes and
permission bits. -/
structure WriteCall where
  file : String
  data : String
  perm : Nat
  deriving DecidableEq, Repr

/-- The operating system and the libraries as the package `targets` uses them:
`os.Stat`, `os.Lstat`, `filepath.Glob` on a pattern with metacharacters,
`os.ReadFile`, the package variable `writer` of `core/file.go`, the decoders of
`encoding/json` and `yaml.v2` into a `TargetGroups`, and the encoders
`json.MarshalIndent` (with its two string arguments) and `yaml.Marshal`.  What
`stat` reports is taken not to change while one function runs. -/
structure FileSys where
  stat : String → Except Error FileInfo
  lstat : String → Except Error FileInfo
  globMeta : String → Except Error (List String)
  readFile : String → Except Error String
  writer : String → String → Nat → Option Error
  jsonUnmarshal : String → Except Error TargetGroups
  yamlUnmarshal : String → Except Error TargetGroups
  jsonMarshalIndent : TargetGroups → String → String → Except Error String
  yamlMarshal : TargetGroups → Except Error String

/-- Go `os.IsNotExist` on the error of a `stat` call, a `*PathError` around the
error number of the system call; for such an error it agrees with
`errors.Is(err, os.ErrNotExist)`. -/
def IsNotExist (err : Error) : Bool := err.Is ErrNotExist

/-- The test `hasMeta` of `path/filepath`: the pattern holds one of the characters
that `Match` reads as an operator. -/
def hasMeta (pattern : String) : Bool :=
  pattern.data.any (fun c => decide (c = '*' ∨ c = '?' ∨ c = '[' ∨ c = '\\'))

/-- Go `filepath.Glob`: a pattern without metacharacters matches the path it
spells, if that path exists; other patterns are left to the file system. -/
def filepath.Glob (fs : FileSys) (pattern : String) : Except Error (List String) :=
  if hasMeta pattern = false then
    match fs.lstat pattern with
    | .error _ => .ok []
    | .ok _ => .ok [pattern]
  else fs.globMeta pattern

/-! ## Source locator and reader (`targets/targets.go`) -/

/-- Package variable `targetsSourceFiles`. -/
def targetsSourceFiles : List String := ["targets.yml", "targets.yaml", "targets.json"]

/-- The first loop of `findFiles` (lines 51-65), over the exact names; `none` when
the loop ends without returning. -/
def findExact (fs : FileSys) (sources : String) : List String →
    Option (Except Error (List String))
  | [] => none
  | p :: rest =>
    match fs.stat (filepath.Join sources p) with
    | .error err => if IsNotExist err then findExact fs sources rest else some (.error err)
    | .ok _ => some (.ok [filepath.Join sources p])

/-- The second loop of `findFiles` (lines 71-83), over the patterns, with the final
`return nil, os.ErrNotExist`. -/
def findPattern (fs : FileSys) (sources : String) : List String → Except Error (List String)
  | [] => .error ErrNotExist
  | p :: rest =>
    match filepath.Glob fs (filepath.Join sources ("_" ++ p)) with
    | .error err => .error err
    | .ok files => if files.length > 0 then .ok files else findPattern fs sources rest

/-- The two loops of `findFiles` (lines 50-83). -/
def findInDir (fs : FileSys) (sources : String) : Except Error (List String) :=
  match findExact fs sources targetsSourceFiles with
  | some result => result
  | none => findPattern fs sources targetsSourceFiles

/-- Function `findFiles` (lines 36-84). -/
def findFiles (fs : FileSys) (config : Config) : Except Error (List String) :=
  match fs.stat config.Sources with
  | .error err =>
    if IsNotExist err = false then
      .error (.wrap ("error reading source file " ++ config.Sources ++ ": " ++ err.message) err)
    else findInDir fs config.Sources
  | .ok info =>
    if info.IsDir = false then .ok [config.Sources]
    else findInDir fs config.Sources

/-- The body of the loop of `readSources` (lines 90-111) for one path: the groups
decoded from the file. -/
def readSource (fs : FileSys) (f : String) : Except Error TargetGroups :=
  match fs.readFile f with
  | .error err => .error err
  | .ok data =>
    if HasSuffix f DefaultJSONFileExt then fs.jsonUnmarshal data
    else if HasSuffix f DefaultYAMLFileExt ∨ HasSuffix f "yaml" then fs.yamlUnmarshal data
    else
      .error (.wrap (ErrInvalid.message ++ ": unknown file extension for file: " ++ f)
        ErrInvalid)

/-- The loop of `readSources` (lines 89-114), with the collection read so far. -/
def readSourcesLoop (fs : FileSys) : List String → TargetGroups → Except Error TargetGroups
  | [], tgs => .ok tgs
  | f :: rest, tgs =>
    match readSource fs f with
    | .error err => .error err
    | .ok t => readSourcesLoop fs rest (tgs ++ t)

/-- Function `readSources` (lines 86-121); every error comes with a nil
collection. -/
def readSources (fs : FileSys) (files : List String) : Except Error TargetGroups :=
  match readSourcesLoop fs files [] with
  | .error err => .error err
  | .ok tgs =>
    if tgs.length = 0 then .error (.plain "no content found in targets source file")
    else .ok tgs

/-- Function `NewTargetGroups` (lines 124-140). -/
def NewTargetGroups (fs : FileSys) (config : Config) : Except Error TargetGroups :=
  match findFiles fs config with
  | .error err => .error (.wrap ("error finding sources file: " ++ err.message) err)
  | .ok files =>
    if files.length = 0 then
      .error (.wrap (ErrNotExist.message ++ " in source dir: " ++ config.Sources
        ++ "; no target source files found") ErrNotExist)
    else readSources fs files

/-! ## Artifact writer -/

/-- Function `WriteFile` of `core/file.go` (lines 113-119): the error and the calls
of `writer` made. -/
def WriteFile (fs : FileSys) (file data : String) (perm : Nat) :
    Option Error × List WriteCall :=
  if file = "" then (some ErrInvalid, [])
  else (fs.writer file data perm, [{ file := file, data := data, perm := perm }])

/-- Function `WriteJSON` of `core/file.go` (lines 69-76), at the type
`TargetGroups`. -/
def WriteJSON (fs : FileSys) (file : String) (obj : TargetGroups) (perm : Nat) :
    Option Error × List WriteCall :=
  match fs.jsonMarshalIndent obj "" "  " with
  | .error err => (some err, [])
  | .ok data => WriteFile fs file data perm

/-- Function `WriteYAML` of `core/file.go` (lines 60-67), at the type
`TargetGroups`. -/
def WriteYAML (fs : FileSys) (file : String) (obj : TargetGroups) (perm : Nat) :
    Option Error × List WriteCall :=
  match fs.yamlMarshal obj with
  | .error err => (some err, [])
  | .ok data => WriteFile fs file data perm

/-- The body of the loop of `writeTargets` (lines 177-207) for one bucket. -/
def writeBucket (fs : FileSys) (config : Config) (filename : String) (tgs : TargetGroups) :
    Option Error × List WriteCall :=
  match fs.stat (filepath.Dir (filepath.Join config.TargetsDir filename)) with
  | .error _ =>
    (some (.wrap ("targets dir " ++ ErrNotExist.message ++ ": "
      ++ filepath.Dir (filepath.Join config.TargetsDir filename)) ErrNotExist), [])
  | .ok info =>
    if info.IsDir = false then
      (some (.wrap ("targets dir " ++ ErrNotExist.message ++ ": "
        ++ filepath.Dir (filepath.Join config.TargetsDir filename)) ErrNotExist), [])
    else if config.TargetsFileExt = DefaultJSONFileExt then
      WriteJSON fs (filepath.Join config.TargetsDir filename) tgs 0o644
    else WriteYAML fs (filepath.Join config.TargetsDir filename) tgs 0o644

/-- Function `writeTargets` (lines 175-211); `files` lists the buckets in the order
the `range` loop visits them.  The result is the error returned and the calls
of `writer` made, in order. -/
def writeTargets (fs : FileSys) (config : Config) : TargetMap → Option Error × List WriteCall
  | [] => (none, [])
  | (filename, tgs) :: rest =>
    match (writeBucket fs config filename tgs).1 with
    | some err => (some err, (writeBucket fs config filename tgs).2)
    | none =>
      ((writeTargets fs config rest).1,
        (writeBucket fs config filename tgs).2 ++ (writeTargets fs config rest).2)

/-- Method `TargetGroups.ExportTargets` (lines 143-152).  `visit` orders the buckets
of `splitByJob` as `writeTargets` visits them (it is the identity, or any other
rearrangement of a list); `none` is the panic of `splitByJob`. -/
def ExportTargets (fs : FileSys) (t : TargetGroups) (config : Config)
    (visit : TargetMap → TargetMap) : Option (Option Error × List WriteCall) :=
  match splitByJob t config with
  | none => none
  | some files => some (writeTargets fs config (visit files))

/-- Function `export` of `cmd/pim/main.go` (lines 134-154). -/
def main.export (fs : FileSys) (config : Config) (visit : TargetMap → TargetMap) :
    Option (Option Error × List WriteCall) :=
  match NewTargetGroups fs config with
  | .error err => some (some (.wrap ("export: error loading source: " ++ err.message) err), [])
  | .ok tgs =>
    match ExportTargets fs tgs config visit with
    | none => none
    | some (some err, calls) =>
      some (some (.wrap ("export: error exporting targets: " ++ err.message) err), calls)
    | some (none, calls) => some (none, calls)

/-! ## Command line (`cmd/pim/flags.go`, `cmd/pim/version.go`)

The functions of this part take the settings map by reference and assign to it;
here each returns the map after the call together with its results.  An index
expression on a slice with an index out of range is a run-time panic, here the
result `none`. -/

/-- Package variable `appNameLong`. -/
def appNameLong : String := "Prometheus Import Manager"

/-- Package variable `appNameShort`. -/
def appNameShort : String := "pim"

/-- Package variable `appVersion`. -/
def appVersion : String := "v0.1.0"

/-- Function `Version` (`version.go`). -/
def Version : String := appNameShort ++ " - " ++ appNameLong ++ " " ++ appVersion

/-- Package variable `help` (`flags.go`, lines 12-51). -/
def help : String :=
  "\n" ++
  "Usage:\n" ++
  "\tpim [options] <command> [command options]\n" ++
  "Options:\n" ++
  "\t--help\t\t\t\tPrint this help message.\n" ++
  "\t--version\t\t\tPrint the version.\n" ++
  "\t-c, --config-file <path>\tPath to the configuration file.\n" ++
  "\t--export-first\t\t\tExport targets before running any other commands.\n" ++
  "\t-e, --export-types <type>\tComma separated list of file export types (e.g. file_sd).\n" ++
  "\t-s, --sources <path>\t\tPath to file or directory to read in the traget groups from.\n" ++
  "\t-t, --targets <path>\t\tPath to the targets output directory.\n" ++
  "\t--targets-ext\t\tTargets output file extension (.yml, .ymal, .json, etc.).\n" ++
  "\t--targets-suffix <string>\tChange the suffix of the exported targets files.\n" ++
  "\t\t\t\t\tDefault \"_targets\". To remove use \"\".\n" ++
  "\t-v, --verbose\t\t\tEnable verbose logging.\n" ++
  "\n" ++
  "Commands:\n" ++
  "\texport\n" ++
  "\t\tpim [options] export [<sources> [targets_dir]]\n" ++
  "\n" ++
  "\t\tOptions:\n" ++
  "\t\tsources\t\t\tFile or directory to read in the target groups from.\n" ++
  "\t\ttargets_dir\t\tDirectory to write the targets files to.\n" ++
  "\t\n" ++
  "\trun\n" ++
  "\t\tpim [options] run [<url>]\n" ++
  "\n" ++
  "\t\tIf set --targets, --targets-suffix, and --targets-ext will be used to serve the\n" ++
  "\t\t/targets endpoint.\n" ++
  "\n" ++
  "\t\tOptions:\n" ++
  "\t\turl\t\t\tHost URL to bind to (e.g. http://0.0.0.0:9900)\n" ++
  "\t\tsources\t\t\tFile or directory to read in the target groups from. If\n" ++
  "\t\t\t\t\tsources is specified, export will be called before starting\n" ++
  "\t\t\t\t\tthe http server.\n" ++
  "\t\ttargets_dir\t\tDirectory to write the targets files to.\n" ++
  "\t\t--tls-certfile\t\tLocation of the cert file to use for tls.\n" ++
  "\t\t--tls-keyfile\t\tLocation of the key file to use for tls.\n" ++
  "\t\t--server-timeout\tServer shutdown timeout in seconds\n" ++
  ""

/-- Function `printHelp` (lines 56-60). -/
def printHelp : String := Version ++ "\n" ++ help

/-- Package variable `commands` of `main.go`. -/
def commands : List (String × Bool) := [("export", true), ("run", true)]

/-- The text before and the text after the first `sep` of a list of characters, if
there is one. -/
def cutFirst (sep : Char) : List Char → Option (List Char × List Char)
  | [] => none
  | c :: cs =>
    if c = sep then some ([], cs)
    else
      match cutFirst sep cs with
      | none => none
      | some (a, b) => some (c :: a, b)

/-- Go `strings.SplitN(s, sep, 2)` for a separator of one character: the text cut at
the first separator, or the text alone when it holds none. -/
def SplitN2 (s : String) (sep : Char) : List String :=
  match cutFirst sep s.data with
  | none => [s]
  | some (a, b) => [String.mk a, String.mk b]

/-- Function `getNextValue` (lines 62-84): the index of the value and the value. -/
def getNextValue (args : List String) (index : Nat) : Option (Except Error (Nat × String)) :=
  match args[index]? with
  | none => none
  | some f =>
    match SplitN2 f '=' with
    | [_, v] => some (.ok (index, v))
    | _ =>
      if (args.length : Int) - 1 < (index : Int) + 1 then
        some (.error (.wrap (ErrInvalid.message ++ ": missing value for " ++ f) ErrInvalid))
      else
        match args[index + 1]? with
        | none => none
        | some v =>
          if HasPrefix v "-" then
            some (.error (.wrap (ErrInvalid.message ++ ": value appears to be a flag " ++ f
              ++ ": " ++ v) ErrInvalid))
          else some (.ok (index + 1, v))

/-- The cases of the `switch` of `parseOptions` (lines 140-210). -/
inductive OptionCase where
  | printHelp
  | printVersion
  | valued (key : String)
  | switch (key value : String)
  | other
  deriving DecidableEq, Repr

/-- The case of the `switch` of `parseOptions` that the argument `f` selects, with
the settings key the case assigns. -/
def optionCase (f : String) : OptionCase :=
  if f = "--help" then .printHelp
  else if f = "--version" then .printVersion
  else if f = "-c" ∨ f = "--config-file" then .valued "config_file"
  else if f = "--export-first" then .switch "export_first" "true"
  else if f = "-e" ∨ f = "--export-types" then .valued "export_types"
  else if f = "-q" ∨ f = "--quiet" then .switch "quiet" "true"
  else if f = "-s" ∨ f = "--sources" then .valued "sources"
  else if f = "-t" ∨ f = "--targets" then .valued "targets_dir"
  else if f = "--targets-ext" then .valued "targets_file_ext"
  else if f = "--targets-suffix" then .valued "targets_file_suffix"
  else if f = "-v" ∨ f = "--verbose" then .switch "debug" "true"
  else .other

/-- The loop of `parseOptions` (lines 135-212) from the index `i` on, with the map
built so far.  The first argument bounds the number of iterations; the index
grows with each iteration, so the length of `args` is bound enough. -/
def parseOptionsLoop (args : List String) :
    Nat → Nat → Flags → Option (Except Error (Flags × List String))
  | 0, _, flags => some (.ok (flags, []))
  | fuel + 1, i, flags =>
    if args.length ≤ i then some (.ok (flags, []))
    else
      match args[i]? with
      | none => none
      | some f =>
        match optionCase f with
        | .printHelp => some (.ok ([("exit_0", "1"), ("print", printHelp)], []))
        | .printVersion => some (.ok ([("exit_0", "1"), ("print", Version)], []))
        | .valued key =>
          match getNextValue args i with
          | none => none
          | some (.error err) => some (.error (.wrap (err.message ++ " for " ++ f) err))
          | some (.ok (j, v)) => parseOptionsLoop args fuel (j + 1) (mapSet flags key v)
        | .switch key value => parseOptionsLoop args fuel (i + 1) (mapSet flags key value)
        | .other =>
          if (commands.lookup f).isSome then some (.ok (flags, args.drop i))
          else some (.error (.wrap ("failed: " ++ ErrInvalid.message ++ ": " ++ f) ErrInvalid))

/-- Function `parseOptions` (lines 128-213): the settings map and the arguments from
the command on. -/
def parseOptions (args : List String) : Option (Except Error (Flags × List String)) :=
  parseOptionsLoop args args.length 1 []

/-- The loop of `parseExportCommand` (lines 226-237), with the index of the next
argument. -/
def parseExportLoop : Nat → List String → Flags → List String → Flags × List String
  | _, [], flags, a => (flags, a)
  | i, v :: rest, flags, a =>
    if i = 0 then parseExportLoop (i + 1) rest (mapSet flags "command" v) a
    else if i = 1 then parseExportLoop (i + 1) rest (mapSet flags "sources" v) a
    else if i = 2 then parseExportLoop (i + 1) rest (mapSet flags "targets_dir" v) a
    else parseExportLoop (i + 1) rest flags (a ++ [v])

/-- Function `parseExportCommand` (lines 216-240): the settings map after the call
and the arguments left over. -/
def parseExportCommand (flags : Flags) (args : List String) :
    Flags × Except Error (List String) :=
  if args.length < 1 then
    (flags, .error (.wrap (ErrInvalid.message ++ ": no command found") ErrInvalid))
  else ((parseExportLoop 0 args flags []).1, .ok (parseExportLoop 0 args flags []).2)

/-- The loop of `parseRunOptions` (lines 298-332) from the index `i` on, with the map
and the list of plain arguments built so far; the first argument bounds the
number of iterations as in `parseOptionsLoop`. -/
def parseRunOptionsLoop (args : List String) :
    Nat → Nat → Flags → List String → Option (Flags × Except Error (List String))
  | 0, _, flags, a => some (flags, .ok a)
  | fuel + 1, i, flags, a =>
    if args.length ≤ i then some (flags, .ok a)
    else
      match args[i]? with
      | none => none
      | some f =>
        if HasPrefix f "-" = false then parseRunOptionsLoop args fuel (i + 1) flags (a ++ [f])
        else if f = "--tls-certfile" ∨ f = "--tls-keyfile" ∨ f = "--server-timeout" then
          match getNextValue args i with
          | none => none
          | some (.error err) => some (flags, .error (.wrap ("run: " ++ err.message) err))
          | some (.ok (j, v)) =>
            parseRunOptionsLoop args fuel (j + 1) (mapSet flags "http_tls_certfile" v) a
        else
          some (flags, .error (.wrap ("run: " ++ ErrInvalid.message ++ " " ++ f) ErrInvalid))

/-- Function `parseRunOptions` (lines 295-335): the three cases of its `switch`
assign the same key. -/
def parseRunOptions (flags : Flags) (args : List String) :
    Option (Flags × Except Error (List String)) :=
  parseRunOptionsLoop args args.length 0 flags []

/-- What the program reads of a `*url.URL`: the fields `Scheme` and `Host` and the
results of the methods `Hostname` and `Port`. -/
structure URL where
  Scheme : String
  Host : String
  Hostname : String
  Port : String
  deriving DecidableEq, Repr

/-- Function `setHttpHostFlags` (lines 337-356); `urlParse` is Go `url.Parse`. -/
def setHttpHostFlags (urlParse : String → Except Error URL) (flags : Flags) (value : String) :
    Flags × Option Error :=
  match urlParse value with
  | .error err => (flags, some (.wrap ("http url '" ++ value ++ "': " ++ err.message) err))
  | .ok u =>
    if u.Scheme = "" then
      (flags, some (.wrap ("http url '" ++ value ++ "': " ++ ErrInvalid.message
        ++ ": no scheme found; must be http or https") ErrInvalid))
    else if u.Host = "" then
      (flags, some (.wrap ("http url '" ++ value ++ "': " ++ ErrInvalid.message
        ++ ": no host found") ErrInvalid))
    else if u.Port ≠ "" then
      (mapSet (mapSet flags "http_api_host" u.Hostname) "http_api_port" u.Port, none)
    else (mapSet flags "http_api_host" u.Hostname, none)

/-- The loop of `parseRunCommand` (lines 275-292), with the index of the next
argument. -/
def parseRunLoop (urlParse : String → Except Error URL) :
    Nat → List String → Flags → List String → Flags × Except Error (List String)
  | _, [], flags, a => (flags, .ok a)
  | i, v :: rest, flags, a =>
    if i = 0 then parseRunLoop urlParse (i + 1) rest (mapSet flags "command" v) a
    else if i = 1 then
      match (setHttpHostFlags urlParse flags v).2 with
      | some err => ((setHttpHostFlags urlParse flags v).1, .error err)
      | none => parseRunLoop urlParse (i + 1) rest (setHttpHostFlags urlParse flags v).1 a
    else if i = 2 then
      parseRunLoop urlParse (i + 1) rest
        (mapSet (mapSet flags "sources" v) "http_export_first" "true") a
    else if i = 3 then parseRunLoop urlParse (i + 1) rest (mapSet flags "targets_dir" v) a
    else parseRunLoop urlParse (i + 1) rest flags (a ++ [v])

/-- Function `parseRunCommand` (lines 255-293). -/
def parseRunCommand (urlParse : String → Except Error URL) (flags : Flags)
    (args : List String) : Option (Flags × Except Error (List String)) :=
  if args.length < 1 then
    some (flags, .error (.wrap (ErrInvalid.message ++ ": no command found") ErrInvalid))
  else
    match parseRunOptions flags args with
    | none => none
    | some (flags1, .error err) => some (flags1, .error err)
    | some (flags1, .ok args1) => some (parseRunLoop urlParse 0 args1 flags1 [])

/-- The end of `parseArgs` (lines 110-118), after the command has been parsed. -/
def finishArgs (flags : Flags) (r : Except Error (List String)) : Except Error Flags :=
  match r with
  | .error err => .error err
  | .ok args =>
    match args with
    | [] => .ok flags
    | first :: _ =>
      .error (.wrap ((flags.lookup "command").getD "" ++ ": " ++ ErrInvalid.message ++ ": "
        ++ first) ErrInvalid)

/-- Function `parseArgs` (lines 88-119): the settings map, or the error with which
the nil map is returned. -/
def parseArgs (urlParse : String → Except Error URL) (args : List String) :
    Option (Except Error Flags) :=
  match parseOptions args with
  | none => none
  | some (.error err) => some (.error err)
  | some (.ok (flags, rest)) =>
    if (flags.lookup "exit_0").isSome then some (.ok flags)
    else
      match rest with
      | [] => some (.error (.wrap (ErrInvalid.message ++ ": no command found") ErrInvalid))
      | command :: _ =>
        if command = "export" then
          some (finishArgs (parseExportCommand flags rest).1 (parseExportCommand flags rest).2)
        else if command = "run" then
          match parseRunCommand urlParse flags rest with
          | none => none
          | some (flags1, r) => some (finishArgs flags1 r)
        else some (finishArgs flags (.ok rest))

/-- The loop of `parseOptions` as a function of the arguments not yet read: what the
loop returns when it stands at the first of them with the map `flags`.  It is
proved equal to `parseOptionsLoop` below (`parseOptionsLoop_eq`). -/
def parseOptionsFrom : List String → Flags → Except Error (Flags × List String)
  | [], flags => .ok (flags, [])
  | f :: rest, flags =>
    match optionCase f with
    | .printHelp => .ok ([("exit_0", "1"), ("print", printHelp)], [])
    | .printVersion => .ok ([("exit_0", "1"), ("print", Version)], [])
    | .valued key =>
      match rest with
      | [] =>
        .error (.wrap (ErrInvalid.message ++ ": missing value for " ++ f ++ " for " ++ f)
          (.wrap (ErrInvalid.message ++ ": missing value for " ++ f) ErrInvalid))
      | v :: rest2 =>
        if HasPrefix v "-" then
          .error (.wrap (ErrInvalid.message ++ ": value appears to be a flag " ++ f ++ ": " ++ v
              ++ " for " ++ f)
            (.wrap (ErrInvalid.message ++ ": value appears to be a flag " ++ f ++ ": " ++ v)
              ErrInvalid))
        else parseOptionsFrom rest2 (mapSet flags key v)
    | .switch key value => parseOptionsFrom rest (mapSet flags key value)
    | .other =>
      if (commands.lookup f).isSome then .ok (flags, f :: rest)
      else .error (.wrap ("failed: " ++ ErrInvalid.message ++ ": " ++ f) ErrInvalid)

/-- An option of the command line as it is written: its name and, for an option
that takes one, its value. -/
abbrev WrittenOption := String × Option String

/-- The arguments an option is written with. -/
def optionArgs (o : WrittenOption) : List String := o.1 :: o.2.toList

/-- The setting an option stands for: the key of its case in the `switch` of
`parseOptions` with the value written (which must not start with `-`) or, for
a switch, the value the case assigns; `none` for everything that is not an
option written in this way. -/
def optionSetting (o : WrittenOption) : Option (String × String) :=
  match optionCase o.1, o.2 with
  | .valued key, some v => if HasPrefix v "-" then none else some (key, v)
  | .switch key value, none => some (key, value)
  | _, _ => none

/-! ## Looking for a file (`core/file.go`) -/

/-- The first lines of `FindInDir` (lines 81-88): the text put before each name. -/
def dirPrefix (dir : String) : String :=
  if dir = "" then dir
  else if dir = "/" then dir
  else dir ++ "/"

/-- The loop of `FindInDir` (lines 95-100) and the return after it. -/
def FindInDirLoop (w : World) (dir : String) : List String → String × Option Error
  | [] => ("", some ErrNotExist)
  | name :: rest =>
    match w.tester (dir ++ name) with
    | none => (dir ++ name, none)
    | some _ => FindInDirLoop w dir rest

/-- Function `FindInDir` of `core/file.go` (lines 78-103). -/
def FindInDir (w : World) (dir : String) (fileNames : List String) : String × Option Error :=
  if fileNames.length = 0 ∨ (fileNames.length = 1 ∧ fileNames[0]? = some "") then
    ("", some ErrInvalid)
  else FindInDirLoop w (dirPrefix dir) fileNames

/-! ## Request metrics (`router/metrics.go`)

A `time.Duration` is an `int64` count of nanoseconds, here an integer; the sum of
two of them wraps around as the machine sum does. -/

/-- The value of an `int64` computation whose exact result is `x`. -/
def wrap64 (x : Int) : Int := (x + 2 ^ 63) % 2 ^ 64 - 2 ^ 63

/-- Constant `time.Hour`, in nanoseconds. -/
def Hour : Int := 3600000000000

/-- The loop of `getDuration` (lines 100-108): `total`, `min` and `max` after it. -/
def getDurationLoop : List Int → Int → Int → Int → Int × Int × Int
  | [], total, min, max => (total, min, max)
  | d :: rest, total, min, max =>
    getDurationLoop rest (wrap64 (total + d)) (if d < min then d else min)
      (if d > max then d else max)

/-- Function `getDuration` (lines 90-112): the durations `min`, `avg` and `max` whose
`Seconds()` it returns, in nanoseconds. -/
def getDuration (durations : List Int) : Int × Int × Int :=
  if durations.length = 0 then (0, 0, 0)
  else
    ((getDurationLoop durations 0 Hour 0).2.1,
      Int.tdiv (getDurationLoop durations 0 Hour 0).1 (durations.length : Int),
      (getDurationLoop durations 0 Hour 0).2.2)

/-! ## Router groups (`router/router.go`)

A middleware is a function value, and a function value may be nil: a list of
middleware is a list of optional values.  The argument of `cleanMiddleware` may
itself be the nil slice, which `none` stands for here. -/

/-- The loop of `cleanMiddleware` (lines 47-56) from the index `i` on; the first
argument bounds the number of iterations, for which the length of the list is
enough. -/
def cleanMiddlewareLoop {α : Type} : Nat → Nat → List (Option α) → List (Option α)
  | 0, _, middleware => middleware
  | fuel + 1, i, middleware =>
    if middleware.length ≤ i then middleware
    else
      match middleware[i]? with
      | some none =>
        if i = middleware.length - 1 then middleware.take i
        else cleanMiddlewareLoop fuel (i + 1) (middleware.take i ++ middleware.drop (i + 1))
      | _ => cleanMiddlewareLoop fuel (i + 1) middleware

/-- Function `cleanMiddleware` (lines 42-59); the result is never the nil slice. -/
def cleanMiddleware {α : Type} (middleware : Option (List (Option α))) :
    Option (List (Option α)) :=
  match middleware with
  | none => some []
  | some m => some (cleanMiddlewareLoop m.length 0 m)

/-- What the loop of `cleanMiddleware` does to the entries not yet visited: an entry
that is not nil is kept; a nil entry is removed, and the entry after it, which
takes its place, is passed over by the increment of the index. -/
def removeNilSkipping {α : Type} : List (Option α) → List (Option α)
  | [] => []
  | some f :: rest => some f :: removeNilSkipping rest
  | [none] => []
  | none :: x :: rest => x :: removeNilSkipping rest

/-- Function `compile` (lines 130-136): the handler wrapped by the middleware, the
last one innermost; calling a nil middleware is a run-time panic, here `none`. -/
def compile {H : Type} (h : H) : List (Option (H → H)) → Option H
  | [] => some h
  | m :: rest =>
    match compile h rest with
    | none => none
    | some inner =>
      match m with
      | none => none
      | some f => some (f inner)

/-- Go `duplicateSlashes.ReplaceAllString(path, "/")` for the pattern `/{2,}`: every
run of two or more slashes becomes one slash. -/
def collapseSlashes : List Char → List Char
  | [] => []
  | [c] => [c]
  | c :: d :: rest =>
    if c = '/' ∧ d = '/' then collapseSlashes (d :: rest)
    else c :: collapseSlashes (d :: rest)

/-- The path of `cleanPath` before the duplicate slashes are replaced (lines 27-37). -/
def trimPath (path : String) : List Char :=
  let p1 : List Char := if path = "" then ['/'] else path.data
  let p2 : List Char := if p1.head? ≠ some '/' then '/' :: p1 else p1
  if p2.length > 1 ∧ p2.getLast? = some '/' then p2.dropLast else p2

/-- Function `cleanPath` (lines 26-40). -/
def cleanPath (path : String) : String := String.mk (collapseSlashes (trimPath path))

/-! ## A target group as a document

The encoders and decoders of `FileSys` work on bytes.  Here the same step is
taken at the level of documents, as `FileDoc` does for `Config`: what a
`TargetGroup` becomes as a JSON or YAML mapping, and what a mapping becomes as
a `TargetGroup`. -/

/-- The two formats of the source and target files. -/
inductive Format where
  | json
  | yaml
  deriving DecidableEq, Repr

/-- The names of the fields `Jobs`, `Labels` and `Targets` in a document of each
format: the struct tags of `TargetGroup` (`targets/targets.go`, lines 16-20),
`json:"jobs,omitempty" yaml:"jobs,omitempty"` and so on. -/
def TargetGroup.tags : Format → String × String × String
  | .json => ("jobs", "labels", "targets")
  | .yaml => ("jobs", "labels", "targets")

/-- Modelled from the spec: a value in the document of a target group, a sequence
of strings or a mapping from strings to strings. -/
inductive DocValue where
  | strings (xs : List String)
  | mapping (m : List (String × String))
  deriving DecidableEq, Repr

/-- Modelled from the spec: the document of one target group, the entries of a
mapping under their names. -/
abbrev GroupDoc := List (String × DocValue)

/-- Modelled from the spec: the encoder of the writer (`json.MarshalIndent`,
`yaml.Marshal`) at one `TargetGroup`.  Each field is written under the name of
its tag, in the order of the struct, and a field that is empty is left out
(`omitempty`, in all three tags). -/
def encodeGroup (fmt : Format) (g : TargetGroup) : GroupDoc :=
  (if g.Jobs = [] then [] else [((TargetGroup.tags fmt).1, DocValue.strings g.Jobs)])
    ++ (if g.Labels = [] then []
      else [((TargetGroup.tags fmt).2.1, DocValue.mapping g.Labels)])
    ++ (if g.Targets = [] then []
      else [((TargetGroup.tags fmt).2.2, DocValue.strings g.Targets)])

/-- Modelled from the spec: the decoder of the reader (`json.Unmarshal`,
`yaml.Unmarshal`) into a fresh `TargetGroup`.  Each field takes the entry of
the document under the name of its tag; a field the document does not name
keeps its zero value. -/
def decodeGroup (fmt : Format) (d : GroupDoc) : TargetGroup where
  Jobs := match d.lookup (TargetGroup.tags fmt).1 with
    | some (.strings xs) => xs
    | _ => []
  Labels := match d.lookup (TargetGroup.tags fmt).2.1 with
    | some (.mapping m) => m
    | _ => []
  Targets := match d.lookup (TargetGroup.tags fmt).2.2 with
    | some (.strings xs) => xs
    | _ => []

/-- Modelled from the spec: the encoder at a collection, one document for each
group in order, a nil pointer as the null document (`none`). -/
def encodeGroups (fmt : Format) (tgs : TargetGroups) : List (Option GroupDoc) :=
  tgs.map (Option.map (encodeGroup fmt))

/-- Modelled from the spec: the decoder at a collection, one group for each
document in order, the null document as a nil pointer. -/
def decodeGroups (fmt : Format) (docs : List (Option GroupDoc)) : TargetGroups :=
  docs.map (Option.map (decodeGroup fmt))

/-- The settings keys that `parseEnvVars` derives from an environment: for each
name that starts with the configured head, in the order visited, the rest of
the name in lower case. -/
def envKeys (envPrefix : String) (env : Flags) : List String :=
  (env.filter (fun p => HasPrefix p.1 envPrefix)).map
    (fun p => ToLower (TrimPrefix p.1 envPrefix))

/-! ## Concrete file systems -/

/-- A file system with no file in it: the readability test and the read of every
path report not-exist (the empty path is invalid, as in `AssertReadable`). -/
def emptyWorld : World where
  envPrefix := "PIM_"
  tester := fun file =>
    if file = "" then some (.wrap "read: invalid argument" ErrInvalid)
    else some (.wrap ("stat " ++ file ++ ": no such file or directory") ErrNotExist)
  reader := fun file => .error (.wrap ("open " ++ file ++ ": no such file or directory")
    ErrNotExist)
  yamlUnmarshal := fun _ => ({}, none)
  jsonUnmarshal := fun _ => ({}, none)

/-- A file system whose only file is the readable file `path` with the bytes
`content`, on which the decoders store the fields `doc` and report `err`. -/
def oneFileWorld (path content : String) (doc : FileDoc) (err : Option Error) : World where
  envPrefix := "PIM_"
  tester := fun file =>
    if file = "" then some (.wrap "read: invalid argument" ErrInvalid)
    else if file = path then none
    else some (.wrap ("stat " ++ file ++ ": no such file or directory") ErrNotExist)
  reader := fun file =>
    if file = path then .ok content
    else .error (.wrap ("open " ++ file ++ ": no such file or directory") ErrNotExist)
  yamlUnmarshal := fun data => if data = content then (doc, err) else ({}, none)
  jsonUnmarshal := fun data => if data = content then (doc, err) else ({}, none)

/-- A file system given by tables: the directories `dirs`, the regular files `files`
with their bytes, what the decoders make of given bytes (`decoded`; other bytes
are a syntax error) and what the encoders write for given groups (`encoded`).
Every write succeeds, there are no symbolic links, and a pattern with
metacharacters matches nothing. -/
def tableFS (dirs : List String) (files : List (String × String))
    (decoded : List (String × TargetGroups)) (encoded : List (TargetGroups × String)) :
    FileSys where
  stat := fun p =>
    if p ∈ dirs then .ok { IsDir := true }
    else if (files.lookup p).isSome then .ok { IsDir := false }
    else .error (.wrap ("stat " ++ p ++ ": no such file or directory") ErrNotExist)
  lstat := fun p =>
    if p ∈ dirs then .ok { IsDir := true }
    else if (files.lookup p).isSome then .ok { IsDir := false }
    else .error (.wrap ("lstat " ++ p ++ ": no such file or directory") ErrNotExist)
  globMeta := fun _ => .ok []
  readFile := fun p =>
    match files.lookup p with
    | some data => .ok data
    | none => .error (.wrap ("open " ++ p ++ ": no such file or directory") ErrNotExist)
  writer := fun _ _ _ => none
  jsonUnmarshal := fun data =>
    match decoded.lookup data with
    | some t => .ok t
    | none => .error (.plain "invalid character looking for beginning of value")
  yamlUnmarshal := fun data =>
    match decoded.lookup data with
    | some t => .ok t
    | none => .error (.plain "yaml: did not find expected node content")
  jsonMarshalIndent := fun t _ _ =>
    match encoded.lookup t with
    | some data => .ok data
    | none => .error (.plain "json: unsupported value")
  yamlMarshal := fun t =>
    match encoded.lookup t with
    | some data => .ok data
    | none => .error (.plain "yaml: unsupported value")

/-- A file system whose only entry is the regular file `file`: `stat` of a path below
it fails with `ENOTDIR` (such a path cannot exist), `stat` of any other path
with `ENOENT`. -/
def underFileFS (file : String) : FileSys :=
  { tableFS [] [(file, "")] [] [] with
    stat := fun p =>
      if p = file then .ok { IsDir := false }
      else if HasPrefix p (file ++ "/") then
        .error (.wrap ("stat " ++ p ++ ": not a directory") (.sentinel "not a directory"))
      else .error (.wrap ("stat " ++ p ++ ": no such file or directory") ErrNotExist) }

/-- A collection with one group naming the job `node`. -/
def nodeGroups : TargetGroups :=
  [some { Jobs := ["node"], Labels := [("env", "prod")], Targets := ["10.0.0.1:9100"] }]

/-- A collection with one group naming the job `blackbox`. -/
def blackboxGroups : TargetGroups :=
  [some { Jobs := ["blackbox"], Labels := [], Targets := ["https://example.org"] }]

/-- A collection with one group that names no job. -/
def joblessGroups : TargetGroups :=
  [some { Jobs := [], Labels := [], Targets := ["10.0.0.1:9100"] }]

/-- A collection with one group naming the job `a/b`. -/
def nestedGroups : TargetGroups :=
  [some { Jobs := ["a/b"], Labels := [], Targets := ["10.0.0.1:9100"] }]

/-- A file system with the source directory `/etc/pim/sources`, holding the one file
`targets.yml` that decodes to `groups`, and the further directories `dirs`; the
encoders write `[node]`, `[blackbox]` and `[a/b]` for the collections above. -/
def sourceFS (dirs : List String) (groups : TargetGroups) : FileSys :=
  tableFS ("/etc/pim/sources" :: dirs) [("/etc/pim/sources/targets.yml", "groups")]
    [("groups", groups)]
    [(nodeGroups, "[node]"), (blackboxGroups, "[blackbox]"), (nestedGroups, "[a/b]")]

/-- The default configuration with the source directory `/etc/pim/sources`, the
targets directory `targetsDir` and the extension `.json`. -/
def exportConfig (targetsDir : String) : Config :=
  { DefaultConfig with
    Sources := "/etc/pim/sources", TargetsDir := targetsDir, TargetsFileExt := ".json" }

/-- A collection with one group naming the job `../x`. -/
def escapeGroups : TargetGroups :=
  [some { Jobs := ["../x"], Labels := [], Targets := ["10.0.0.1:9100"] }]

/-- A file system with the directories `/etc/prometheus`, `/etc/prometheus/file_sd` and
`/etc/prometheus/file_sd/a` and no file, whose encoders write `[../x]` and
`[a/b]` for the collections above. -/
def escapeFS : FileSys :=
  tableFS ["/etc/prometheus", "/etc/prometheus/file_sd", "/etc/prometheus/file_sd/a"] [] []
    [(escapeGroups, "[../x]"), (nestedGroups, "[a/b]")]

/-- Go `url.Parse` on the one address `http://0.0.0.0:9900`; every other text is
reported as an error. -/
def hostURL (value : String) : Except Error URL :=
  if value = "http://0.0.0.0:9900" then
    .ok { Scheme := "http", Host := "0.0.0.0:9900", Hostname := "0.0.0.0", Port := "9900" }
  else .error (.plain ("parse \"" ++ value ++ "\": invalid URI for request"))

/-- A file system whose source file `targets.json` holds `[null]`, which the decoder
makes a collection with one nil pointer. -/
def nullFS : FileSys :=
  tableFS ["/etc/pim/sources", "/etc/prometheus/file_sd"]
    [("/etc/pim/sources/targets.json", "[null]")] [("[null]", [none])] []

/-- A file system with the readable files `paths` and nothing else. -/
def readableWorld (paths : List String) : World :=
  { emptyWorld with
    tester := fun file =>
      if file = "" then some (.wrap "read: invalid argument" ErrInvalid)
      else if file ∈ paths then none
      else some (.wrap ("stat " ++ file ++ ": no such file or directory") ErrNotExist) }

/-! ## Lemmas on maps -/

theorem lookup_mapSet_of_ne {β : Type} (m : List (String × β)) (k k0 : String) (v : β)
    (h : k0 ≠ k) : (mapSet m k v).lookup k0 = m.lookup k0 := by
  induction m with
  | nil =>
    have hb : (k0 == k) = false := by simpa using h
    simp [mapSet, List.lookup, hb]
  | cons p rest ih =>
    obtain ⟨k1, v1⟩ := p
    by_cases h1 : k1 = k
    · subst h1
      have hb : (k0 == k1) = false := by simpa using h
      simp [mapSet, List.lookup, hb]
    · by_cases h2 : k0 = k1
      · subst h2
        simp [mapSet, h1, List.lookup]
      · have hb : (k0 == k1) = false := by simpa using h2
        simp [mapSet, h1, List.lookup, hb, ih]

theorem parseEnvVars_lookup_of_some (envPrefix : String) (env flags : Flags) (k v : String)
    (h : flags.lookup k = some v) : (parseEnvVars envPrefix flags env).lookup k = some v := by
  induction env generalizing flags with
  | nil => simpa [parseEnvVars] using h
  | cons p env ih =>
    obtain ⟨n, x⟩ := p
    unfold parseEnvVars
    split_ifs with h1 h2
    · exact ih flags h
    · apply ih
      have hne : k ≠ ToLower (TrimPrefix n envPrefix) := by
        intro hk
        rw [← hk, h] at h2
        simp at h2
      rw [lookup_mapSet_of_ne _ _ _ _ hne]
      exact h
    · exact ih flags h

/-- C1: `parseEnvVars` never overwrites a key that the settings map already holds:
every key of `flags` keeps its value, whatever the environment contains. -/
theorem parseEnvVars_keeps_flags (envPrefix : String) (flags env : Flags) (k v : String)
    (h : flags.lookup k = some v) : (parseEnvVars envPrefix flags env).lookup k = some v :=
  parseEnvVars_lookup_of_some envPrefix env flags k v h

theorem parseEnvVars_keeps_flags_witness :
    List.lookup "sources" [("sources", "/a")] = some "/a" ∧
      (parseEnvVars "PIM_" [("sources", "/a")] [("PIM_SOURCES", "/b")]).lookup "sources"
        = some "/a" :=
  ⟨by decide, parseEnvVars_keeps_flags _ _ _ _ _ (by decide)⟩

/-! ## Unknown keys -/

theorem ErrInvalid_Is_wrap (msg : String) : (Error.wrap msg ErrInvalid).Is ErrInvalid = true := by
  simp [Error.Is, ErrInvalid]

theorem Is_wrap_NotExist (msg : String) :
    (Error.wrap msg ErrNotExist).Is ErrNotExist = true := by
  simp [Error.Is, ErrNotExist]

theorem setConfigValue_unknown (c : Config) (k v : String)
    (hk : k ∉ ["config_file", "debug", "export_first", "export_types", "targets_dir",
      "targets_file_ext", "targets_file_suffix", "sources", "command", "http_api_host",
      "http_api_port", "http_tls_cert_file", "http_tls_key_file", "http_shutdown_timeout"]) :
    c.setConfigValue k v
      = (c, some (.wrap ("config: " ++ ErrInvalid.message ++ ": " ++ k) ErrInvalid)) := by
  simp only [List.mem_cons, List.mem_singleton, not_or, List.not_mem_nil, not_false_eq_true,
    and_true] at hk
  obtain ⟨h1, h2, h3, h4, h5, h6, h7, h8, h9, h10, h11, h12, h13, h14⟩ := hk
  simp [Config.setConfigValue, h1, h2, h3, h4, h5, h6, h7, h8, h9, h10, h11, h12, h13, h14]

theorem applySettings_error_of_mem (k v : String)
    (hbad : ∀ c : Config, (c.setConfigValue k v).2 ≠ none) :
    ∀ (l : Flags) (c : Config), (k, v) ∈ l → (applySettings c l).2 ≠ none := by
  intro l
  induction l with
  | nil => intro c h; simp at h
  | cons p rest ih =>
    intro c h
    obtain ⟨k0, v0⟩ := p
    unfold applySettings
    cases hres : (c.setConfigValue k0 v0).2 with
    | some err => simp
    | none =>
      simp only []
      rcases List.mem_cons.1 h with heq | hmem
      · have hk : k = k0 := (Prod.mk.inj heq).1
        have hv : v = v0 := (Prod.mk.inj heq).2
        subst hk; subst hv
        exact absurd hres (hbad c)
      · exact ih _ hmem

theorem NewConfig_error_of_applySettings (w : World) (flags env visit : Flags)
    (h : ∀ c : Config, (applySettings c visit).2 ≠ none) :
    (NewConfig w flags env visit).2 ≠ none := by
  unfold NewConfig
  simp only []
  split
  · split
    · simp
    · split
      · simp
      · rename_i hnone
        exact absurd hnone (h _)
  · split
    · simp
    · rename_i hnone
      exact absurd hnone (h _)

/-- C3: a key outside the recognised set is a hard error: `setConfigValue` rejects it
with an error wrapping `os.ErrInvalid` (leaving the configuration as it was),
and `NewConfig` returns an error whenever the merged settings map holds such a
key, in whatever order the map is visited. -/
theorem unknown_key_is_hard_error (k v : String)
    (hk : k ∉ ["config_file", "debug", "export_first", "export_types", "targets_dir",
      "targets_file_ext", "targets_file_suffix", "sources", "command", "http_api_host",
      "http_api_port", "http_tls_cert_file", "http_tls_key_file", "http_shutdown_timeout"]) :
    (∀ c : Config, ∃ err, c.setConfigValue k v = (c, some err) ∧ err.Is ErrInvalid = true) ∧
    (∀ (w : World) (flags env visit : Flags),
      visit.Perm (parseEnvVars w.envPrefix flags env) →
      (k, v) ∈ parseEnvVars w.envPrefix flags env →
      ∃ err, (NewConfig w flags env visit).2 = some err) := by
  refine ⟨fun c => ⟨_, setConfigValue_unknown c k v hk, ErrInvalid_Is_wrap _⟩, ?_⟩
  intro w flags env visit hperm hmem
  have hbad : ∀ c : Config, (c.setConfigValue k v).2 ≠ none := by
    intro c
    rw [setConfigValue_unknown c k v hk]
    simp
  have hne := NewConfig_error_of_applySettings w flags env visit
    (fun c => applySettings_error_of_mem k v hbad visit c (hperm.mem_iff.2 hmem))
  exact Option.ne_none_iff_exists'.1 hne

theorem unknown_key_is_hard_error_witness :
    "no_match" ∉ ["config_file", "debug", "export_first", "export_types", "targets_dir",
      "targets_file_ext", "targets_file_suffix", "sources", "command", "http_api_host",
      "http_api_port", "http_tls_cert_file", "http_tls_key_file", "http_shutdown_timeout"]
    ∧ (∃ err, DefaultConfig.setConfigValue "no_match" "value" = (DefaultConfig, some err)
        ∧ err.Is ErrInvalid = true)
    ∧ (∃ err, (NewConfig emptyWorld [("sources", "/s")] [("PIM_NO_MATCH", "value")]
        [("no_match", "value"), ("sources", "/s")]).2 = some err) :=
  have h := unknown_key_is_hard_error "no_match" "value" (by decide)
  ⟨by decide, h.1 DefaultConfig,
    h.2 emptyWorld [("sources", "/s")] [("PIM_NO_MATCH", "value")]
      [("no_match", "value"), ("sources", "/s")] (by decide) (by decide)⟩

/-! ## Maps with distinct keys -/

theorem lookup_cons_of_ne {β : Type} (rest : List (String × β)) (k k0 : String) (v0 : β)
    (h : k0 ≠ k) : List.lookup k ((k0, v0) :: rest) = List.lookup k rest := by
  have hb : (k == k0) = false := by simpa using fun e : k = k0 => h e.symm
  simp [List.lookup, hb]

theorem lookup_none_of_not_mem_keys {β : Type} (l : List (String × β)) (k : String)
    (h : k ∉ l.map Prod.fst) : l.lookup k = none := by
  induction l with
  | nil => rfl
  | cons p rest ih =>
    obtain ⟨k0, v0⟩ := p
    have h0 : k0 ≠ k := fun e => h (by simp [e])
    rw [lookup_cons_of_ne rest k k0 v0 h0]
    exact ih (fun hm => h (by simp [List.mem_map] at hm ⊢; exact Or.inr hm))

theorem mem_keys_of_lookup_some {β : Type} (l : List (String × β)) (k : String) (v : β)
    (h : l.lookup k = some v) : (k, v) ∈ l := by
  induction l with
  | nil => simp at h
  | cons p rest ih =>
    obtain ⟨k0, v0⟩ := p
    by_cases h0 : k0 = k
    · subst h0
      simp at h
      simp [h]
    · rw [lookup_cons_of_ne rest k k0 v0 h0] at h
      exact List.mem_cons_of_mem _ (ih h)

theorem lookup_some_of_mem {β : Type} (l : List (String × β)) (k : String) (v : β)
    (hnd : NodupKeys l) (h : (k, v) ∈ l) : l.lookup k = some v := by
  induction l with
  | nil => simp at h
  | cons p rest ih =>
    obtain ⟨k0, v0⟩ := p
    have hnd0 : k0 ∉ rest.map Prod.fst ∧ NodupKeys rest := by
      simpa [NodupKeys] using hnd
    rcases List.mem_cons.1 h with heq | hmem
    · obtain ⟨rfl, rfl⟩ := Prod.mk.inj heq
      simp
    · have h0 : k0 ≠ k := by
        intro e
        subst e
        exact hnd0.1 (List.mem_map.2 ⟨(k0, v), hmem, rfl⟩)
      rw [lookup_cons_of_ne rest k k0 v0 h0]
      exact ih hnd0.2 hmem

theorem lookup_perm {β : Type} (l l2 : List (String × β)) (k : String)
    (hnd : NodupKeys l) (hp : l.Perm l2) : l.lookup k = l2.lookup k := by
  have hnd2 : NodupKeys l2 := (List.Perm.nodup_iff (hp.map Prod.fst)).1 hnd
  cases h2 : l2.lookup k with
  | some v =>
    exact lookup_some_of_mem l k v hnd (hp.mem_iff.2 (mem_keys_of_lookup_some l2 k v h2))
  | none =>
    cases h1 : l.lookup k with
    | none => rfl
    | some v =>
      have := lookup_some_of_mem l2 k v hnd2 (hp.mem_iff.1 (mem_keys_of_lookup_some l k v h1))
      rw [h2] at this
      exact absurd this (by simp)

theorem mapSet_of_lookup_none {β : Type} (m : List (String × β)) (k : String) (v : β)
    (h : m.lookup k = none) : mapSet m k v = m ++ [(k, v)] := by
  induction m with
  | nil => rfl
  | cons p rest ih =>
    obtain ⟨k0, v0⟩ := p
    by_cases h0 : k0 = k
    · subst h0
      simp at h
    · rw [lookup_cons_of_ne rest k k0 v0 h0] at h
      simp [mapSet, h0, ih h]

theorem not_mem_keys_of_lookup_none {β : Type} (l : List (String × β)) (k : String)
    (h : l.lookup k = none) : k ∉ l.map Prod.fst := by
  intro hm
  obtain ⟨p, hp, hk⟩ := List.mem_map.1 hm
  have := (List.lookup_eq_none_iff.1 h) p hp
  simp [hk] at this

theorem nodupKeys_append_new {β : Type} (m : List (String × β)) (k : String) (v : β)
    (hnd : NodupKeys m) (h : m.lookup k = none) : NodupKeys (m ++ [(k, v)]) := by
  have hk := not_mem_keys_of_lookup_none m k h
  unfold NodupKeys at hnd ⊢
  rw [List.map_append, List.nodup_append]
  refine ⟨hnd, by simp, ?_⟩
  intro a ha hb
  simp at hb
  subst hb
  exact hk ha

theorem lookup_none_of_append_none {β : Type} (m m2 : List (String × β)) (k : String)
    (h : (m ++ m2).lookup k = none) : m.lookup k = none := by
  apply lookup_none_of_not_mem_keys
  intro hmem
  apply not_mem_keys_of_lookup_none _ k h
  rw [List.map_append]
  exact List.mem_append_left _ hmem

theorem lookup_append_single_none {β : Type} (m : List (String × β)) (k k0 : String) (x : β)
    (h : m.lookup k = none) (hne : k ≠ k0) : (m ++ [(k0, x)]).lookup k = none := by
  apply lookup_none_of_not_mem_keys
  intro hmem
  rw [List.map_append] at hmem
  rcases List.mem_append.1 hmem with h1 | h1
  · exact not_mem_keys_of_lookup_none _ k h h1
  · simp at h1
    exact hne h1

theorem parseEnvVars_nodupKeys (envPrefix : String) (env flags : Flags)
    (hnd : NodupKeys flags) : NodupKeys (parseEnvVars envPrefix flags env) := by
  induction env generalizing flags with
  | nil => simpa [parseEnvVars] using hnd
  | cons p env ih =>
    obtain ⟨n, x⟩ := p
    unfold parseEnvVars
    split_ifs with h1 h2
    · exact ih flags hnd
    · have hnone : flags.lookup (ToLower (TrimPrefix n envPrefix)) = none := by
        simpa using h2
      rw [mapSet_of_lookup_none _ _ _ hnone]
      exact ih _ (nodupKeys_append_new flags _ x hnd hnone)
    · exact ih flags hnd

/-! ## What one call of `setConfigValue` changes -/

theorem splitExportTypesLoop_frame (v : String) (l : List String) (c : Config) :
    (splitExportTypesLoop v c l).1
      = { c with RawExportTypes := (splitExportTypesLoop v c l).1.RawExportTypes } := by
  induction l generalizing c with
  | nil => rfl
  | cons et rest ih =>
    unfold splitExportTypesLoop
    split_ifs with h
    · rfl
    · rw [ih]

theorem splitExportTypesLoop_error (v : String) (l : List String) (c c2 : Config) :
    (splitExportTypesLoop v c l).2 = (splitExportTypesLoop v c2 l).2 := by
  induction l generalizing c c2 with
  | nil => rfl
  | cons et rest ih =>
    unfold splitExportTypesLoop
    split_ifs with h
    · rfl
    · exact ih _ _

theorem splitExportTypesLoop_raw (v : String) (l : List String) (c : Config)
    (h : (splitExportTypesLoop v c l).2 = none) :
    (splitExportTypesLoop v c l).1.RawExportTypes = c.RawExportTypes ++ l
      ∧ ∀ et ∈ l, isValidExportTypes et = true := by
  induction l generalizing c with
  | nil => simp [splitExportTypesLoop]
  | cons et rest ih =>
    unfold splitExportTypesLoop at h ⊢
    split_ifs at h ⊢ with h1
    have := ih _ h
    ·
      refine ⟨by simpa using this.1, ?_⟩
      intro x hx
      rcases List.mem_cons.1 hx with rfl | hx
      · simpa using h1
      · exact this.2 x hx

theorem splitExportTypesLoop_raw_indep (v : String) (l : List String) (c c2 : Config)
    (h : c.RawExportTypes = c2.RawExportTypes) :
    (splitExportTypesLoop v c l).1.RawExportTypes
      = (splitExportTypesLoop v c2 l).1.RawExportTypes := by
  induction l generalizing c c2 with
  | nil => exact h
  | cons et rest ih =>
    unfold splitExportTypesLoop
    split_ifs with h1
    · exact h
    · exact ih _ _ (by simp [h])

theorem key_cases (k : String) :
    k = "config_file" ∨ k = "debug" ∨ k = "export_first" ∨ k = "export_types"
      ∨ k = "targets_dir" ∨ k = "targets_file_ext" ∨ k = "targets_file_suffix"
      ∨ k = "sources" ∨ k = "command" ∨ k = "http_api_host" ∨ k = "http_api_port"
      ∨ k = "http_tls_cert_file" ∨ k = "http_tls_key_file" ∨ k = "http_shutdown_timeout"
      ∨ k ∉ ["config_file", "debug", "export_first", "export_types", "targets_dir",
        "targets_file_ext", "targets_file_suffix", "sources", "command", "http_api_host",
        "http_api_port", "http_tls_cert_file", "http_tls_key_file",
        "http_shutdown_timeout"] := by
  simp only [List.mem_cons, List.mem_singleton, List.not_mem_nil, or_false]
  tauto

theorem setConfigValue_error_indep (c c2 : Config) (k v : String) :
    (c.setConfigValue k v).2 = (c2.setConfigValue k v).2 := by
  rcases key_cases k with h | h | h | h | h | h | h | h | h | h | h | h | h | h | h
  all_goals first
    | (rw [setConfigValue_unknown c k v h, setConfigValue_unknown c2 k v h])
    | (subst h; simp [Config.setConfigValue]; done)
    | (subst h; simp only [Config.setConfigValue]; simp; cases ParseBool v <;> rfl)
    | (subst h; simp only [Config.setConfigValue]; simp; cases validateTargetsFileExt v <;> rfl)
    | (subst h; simp only [Config.setConfigValue]; simp; cases Atoi v <;> rfl)
    | (subst h; simp only [Config.setConfigValue]; simp
       exact splitExportTypesLoop_error _ _ _ _)

/-- Every field of the configuration after one call of `setConfigValue`. -/
theorem setConfigValue_fields (c : Config) (k v : String) :
    ((c.setConfigValue k v).1.Debug = if k = "debug" then
        (match ParseBool v with
          | .ok b => b
          | .error _ => c.Debug) else c.Debug)
    ∧ (c.setConfigValue k v).1.Flags = c.Flags
    ∧ ((c.setConfigValue k v).1.ExportFirst = if k = "export_first" then
        (match ParseBool v with
          | .ok b => b
          | .error _ => c.ExportFirst) else c.ExportFirst)
    ∧ ((c.setConfigValue k v).1.RawExportTypes = if k = "export_types" then
        (splitExportTypesLoop v { DefaultConfig with RawExportTypes := c.RawExportTypes }
          (Split v)).1.RawExportTypes else c.RawExportTypes)
    ∧ (c.setConfigValue k v).1.ExportTypes = c.ExportTypes
    ∧ (c.setConfigValue k v).1.ConfigFile = c.ConfigFile
    ∧ ((c.setConfigValue k v).1.Sources = if k = "sources" then v else c.Sources)
    ∧ ((c.setConfigValue k v).1.TargetsDir = if k = "targets_dir" then v else c.TargetsDir)
    ∧ ((c.setConfigValue k v).1.TargetsFileExt = if k = "targets_file_ext" then
        (match validateTargetsFileExt v with
          | none => v
          | some _ => c.TargetsFileExt) else c.TargetsFileExt)
    ∧ ((c.setConfigValue k v).1.TargetsFileSuffix
        = if k = "targets_file_suffix" then v else c.TargetsFileSuffix)
    ∧ ((c.setConfigValue k v).1.APIHost = if k = "http_api_host" then v else c.APIHost)
    ∧ ((c.setConfigValue k v).1.APIPort = if k = "http_api_port" then v else c.APIPort)
    ∧ ((c.setConfigValue k v).1.TLSCertFile
        = if k = "http_tls_cert_file" then v else c.TLSCertFile)
    ∧ ((c.setConfigValue k v).1.TLSKeyFile
        = if k = "http_tls_key_file" then v else c.TLSKeyFile)
    ∧ ((c.setConfigValue k v).1.ShutdownTimeout = if k = "http_shutdown_timeout" then
        (match Atoi v with
          | .ok t => t
          | .error _ => c.ShutdownTimeout) else c.ShutdownTimeout) := by
  rcases key_cases k with h | h | h | h | h | h | h | h | h | h | h | h | h | h | h
  all_goals first
    | (rw [setConfigValue_unknown c k v h]
       simp only [List.mem_cons, List.mem_singleton, List.not_mem_nil, or_false, not_or] at h
       simp [h]; done)
    | (subst h; simp [Config.setConfigValue]; done)
    | (subst h; simp only [Config.setConfigValue]; simp; cases ParseBool v <;> simp; done)
    | (subst h; simp only [Config.setConfigValue]; simp
       cases validateTargetsFileExt v <;> simp; done)
    | (subst h; simp only [Config.setConfigValue]; simp; cases Atoi v <;> simp; done)
    | (subst h; simp only [Config.setConfigValue]; simp
       unfold Config.splitExportTypes; rw [splitExportTypesLoop_frame]; simp
       exact splitExportTypesLoop_raw_indep _ _ _ _ rfl)

/-! ## The loop over the settings map -/

/-- A field that only the key `key` can change holds, after the loop has run to
its end over a map with distinct keys, the value `g` computes from the entry of
`key`, or its starting value when the map has no such entry. -/
theorem applySettings_field {α : Type} (π : Config → α) (key : String) (g : α → String → α)
    (hframe : ∀ (c : Config) (k v : String), k ≠ key → π (c.setConfigValue k v).1 = π c)
    (hset : ∀ (c : Config) (v : String), π (c.setConfigValue key v).1 = g (π c) v) :
    ∀ (l : Flags) (c : Config), NodupKeys l → (applySettings c l).2 = none →
      π (applySettings c l).1 = (match l.lookup key with
        | some v => g (π c) v
        | none => π c) := by
  intro l
  induction l with
  | nil => intro c _ _; rfl
  | cons p rest ih =>
    intro c hnd hok
    obtain ⟨k0, v0⟩ := p
    have hnd0 : k0 ∉ rest.map Prod.fst ∧ NodupKeys rest := by
      simpa [NodupKeys] using hnd
    unfold applySettings at hok ⊢
    cases hres : (c.setConfigValue k0 v0).2 with
    | some err => rw [hres] at hok; simp at hok
    | none =>
      rw [hres] at hok
      simp only [] at hok ⊢
      rw [ih _ hnd0.2 hok]
      by_cases hk : k0 = key
      · subst hk
        rw [lookup_none_of_not_mem_keys rest k0 hnd0.1]
        simp [hset]
      · rw [lookup_cons_of_ne rest key k0 v0 hk, hframe c k0 v0 hk]

/-- Every field of the configuration after the loop has run to its end over a
map with distinct keys, in terms of the entries of the map. -/
theorem applySettings_fields (l : Flags) (c : Config) (hnd : NodupKeys l)
    (hok : (applySettings c l).2 = none) :
    ((applySettings c l).1.Debug = match l.lookup "debug" with
        | some v => (match ParseBool v with
          | .ok b => b
          | .error _ => c.Debug)
        | none => c.Debug)
    ∧ (applySettings c l).1.Flags = c.Flags
    ∧ ((applySettings c l).1.ExportFirst = match l.lookup "export_first" with
        | some v => (match ParseBool v with
          | .ok b => b
          | .error _ => c.ExportFirst)
        | none => c.ExportFirst)
    ∧ ((applySettings c l).1.RawExportTypes = match l.lookup "export_types" with
        | some v => (splitExportTypesLoop v { DefaultConfig with RawExportTypes := c.RawExportTypes }
            (Split v)).1.RawExportTypes
        | none => c.RawExportTypes)
    ∧ (applySettings c l).1.ExportTypes = c.ExportTypes
    ∧ (applySettings c l).1.ConfigFile = c.ConfigFile
    ∧ (applySettings c l).1.Sources = (l.lookup "sources").getD c.Sources
    ∧ (applySettings c l).1.TargetsDir = (l.lookup "targets_dir").getD c.TargetsDir
    ∧ ((applySettings c l).1.TargetsFileExt = match l.lookup "targets_file_ext" with
        | some v => (match validateTargetsFileExt v with
          | none => v
          | some _ => c.TargetsFileExt)
        | none => c.TargetsFileExt)
    ∧ (applySettings c l).1.TargetsFileSuffix
        = (l.lookup "targets_file_suffix").getD c.TargetsFileSuffix
    ∧ (applySettings c l).1.APIHost = (l.lookup "http_api_host").getD c.APIHost
    ∧ (applySettings c l).1.APIPort = (l.lookup "http_api_port").getD c.APIPort
    ∧ (applySettings c l).1.TLSCertFile = (l.lookup "http_tls_cert_file").getD c.TLSCertFile
    ∧ (applySettings c l).1.TLSKeyFile = (l.lookup "http_tls_key_file").getD c.TLSKeyFile
    ∧ ((applySettings c l).1.ShutdownTimeout = match l.lookup "http_shutdown_timeout" with
        | some v => (match Atoi v with
          | .ok t => t
          | .error _ => c.ShutdownTimeout)
        | none => c.ShutdownTimeout) := by
  refine ⟨?_, ?_, ?_, ?_, ?_, ?_, ?_, ?_, ?_, ?_, ?_, ?_, ?_, ?_, ?_⟩
  · exact applySettings_field (fun c => c.Debug) "debug"
      (fun d v => match ParseBool v with
        | .ok b => b
        | .error _ => d)
      (fun c k v hk => by simp [(setConfigValue_fields c k v), hk])
      (fun c v => by simp [(setConfigValue_fields c "debug" v)]) l c hnd hok
  · have := applySettings_field (fun c => c.Flags) "" (fun d _ => d)
      (fun c k v _ => by simp [(setConfigValue_fields c k v)])
      (fun c v => by simp [(setConfigValue_fields c "" v)]) l c hnd hok
    cases hl : l.lookup "" <;> simpa [hl] using this
  · exact applySettings_field (fun c => c.ExportFirst) "export_first"
      (fun d v => match ParseBool v with
        | .ok b => b
        | .error _ => d)
      (fun c k v hk => by simp [(setConfigValue_fields c k v), hk])
      (fun c v => by simp [(setConfigValue_fields c "export_first" v)]) l c hnd hok
  · exact applySettings_field (fun c => c.RawExportTypes) "export_types"
      (fun r v => (splitExportTypesLoop v { DefaultConfig with RawExportTypes := r }
        (Split v)).1.RawExportTypes)
      (fun c k v hk => by simp [(setConfigValue_fields c k v), hk])
      (fun c v => by simp [(setConfigValue_fields c "export_types" v)]) l c hnd hok
  · have := applySettings_field (fun c => c.ExportTypes) "" (fun d _ => d)
      (fun c k v _ => by simp [(setConfigValue_fields c k v)])
      (fun c v => by simp [(setConfigValue_fields c "" v)]) l c hnd hok
    cases hl : l.lookup "" <;> simpa [hl] using this
  · have := applySettings_field (fun c => c.ConfigFile) "" (fun d _ => d)
      (fun c k v _ => by simp [(setConfigValue_fields c k v)])
      (fun c v => by simp [(setConfigValue_fields c "" v)]) l c hnd hok
    cases hl : l.lookup "" <;> simpa [hl] using this
  · have := applySettings_field (fun c => c.Sources) "sources" (fun _ v => v)
      (fun c k v hk => by simp [(setConfigValue_fields c k v), hk])
      (fun c v => by simp [(setConfigValue_fields c "sources" v)]) l c hnd hok
    cases hl : l.lookup "sources" <;> simpa [hl] using this
  · have := applySettings_field (fun c => c.TargetsDir) "targets_dir" (fun _ v => v)
      (fun c k v hk => by simp [(setConfigValue_fields c k v), hk])
      (fun c v => by simp [(setConfigValue_fields c "targets_dir" v)]) l c hnd hok
    cases hl : l.lookup "targets_dir" <;> simpa [hl] using this
  · exact applySettings_field (fun c => c.TargetsFileExt) "targets_file_ext"
      (fun t v => match validateTargetsFileExt v with
        | none => v
        | some _ => t)
      (fun c k v hk => by simp [(setConfigValue_fields c k v), hk])
      (fun c v => by simp [(setConfigValue_fields c "targets_file_ext" v)]) l c hnd hok
  · have := applySettings_field (fun c => c.TargetsFileSuffix) "targets_file_suffix"
      (fun _ v => v)
      (fun c k v hk => by simp [(setConfigValue_fields c k v), hk])
      (fun c v => by simp [(setConfigValue_fields c "targets_file_suffix" v)]) l c hnd hok
    cases hl : l.lookup "targets_file_suffix" <;> simpa [hl] using this
  · have := applySettings_field (fun c => c.APIHost) "http_api_host" (fun _ v => v)
      (fun c k v hk => by simp [(setConfigValue_fields c k v), hk])
      (fun c v => by simp [(setConfigValue_fields c "http_api_host" v)]) l c hnd hok
    cases hl : l.lookup "http_api_host" <;> simpa [hl] using this
  · have := applySettings_field (fun c => c.APIPort) "http_api_port" (fun _ v => v)
      (fun c k v hk => by simp [(setConfigValue_fields c k v), hk])
      (fun c v => by simp [(setConfigValue_fields c "http_api_port" v)]) l c hnd hok
    cases hl : l.lookup "http_api_port" <;> simpa [hl] using this
  · have := applySettings_field (fun c => c.TLSCertFile) "http_tls_cert_file" (fun _ v => v)
      (fun c k v hk => by simp [(setConfigValue_fields c k v), hk])
      (fun c v => by simp [(setConfigValue_fields c "http_tls_cert_file" v)]) l c hnd hok
    cases hl : l.lookup "http_tls_cert_file" <;> simpa [hl] using this
  · have := applySettings_field (fun c => c.TLSKeyFile) "http_tls_key_file" (fun _ v => v)
      (fun c k v hk => by simp [(setConfigValue_fields c k v), hk])
      (fun c v => by simp [(setConfigValue_fields c "http_tls_key_file" v)]) l c hnd hok
    cases hl : l.lookup "http_tls_key_file" <;> simpa [hl] using this
  · exact applySettings_field (fun c => c.ShutdownTimeout) "http_shutdown_timeout"
      (fun d v => match Atoi v with
        | .ok t => t
        | .error _ => d)
      (fun c k v hk => by simp [(setConfigValue_fields c k v), hk])
      (fun c v => by simp [(setConfigValue_fields c "http_shutdown_timeout" v)]) l c hnd hok

theorem applySettings_ok_iff (l : Flags) (c : Config) :
    (applySettings c l).2 = none
      ↔ ∀ k v, (k, v) ∈ l → (DefaultConfig.setConfigValue k v).2 = none := by
  induction l generalizing c with
  | nil => simp [applySettings]
  | cons p rest ih =>
    obtain ⟨k0, v0⟩ := p
    unfold applySettings
    cases hres : (c.setConfigValue k0 v0).2 with
    | some err =>
      simp only []
      constructor
      · intro h; simp at h
      · intro h
        have := h k0 v0 (List.mem_cons_self _ _)
        rw [setConfigValue_error_indep DefaultConfig c k0 v0, hres] at this
        simp at this
    | none =>
      simp only []
      rw [ih]
      constructor
      · intro h k v hm
        rcases List.mem_cons.1 hm with heq | hm
        · obtain ⟨rfl, rfl⟩ := Prod.mk.inj heq
          rw [setConfigValue_error_indep DefaultConfig c k v, hres]
        · exact h k v hm
      · intro h k v hm
        exact h k v (List.mem_cons_of_mem _ hm)

/-! ## Successful resolutions -/

theorem NewConfig_ok (w : World) (flags env visit : Flags)
    (hok : (NewConfig w flags env visit).2 = none) :
    (applySettings ((startConfig (parseEnvVars w.envPrefix flags env)).parseConfigFile w
        (startConfig (parseEnvVars w.envPrefix flags env)).ConfigFile).1 visit).2 = none
    ∧ (NewConfig w flags env visit).1
      = { (applySettings ((startConfig (parseEnvVars w.envPrefix flags env)).parseConfigFile w
            (startConfig (parseEnvVars w.envPrefix flags env)).ConfigFile).1
            visit).1.processExportTypes with
          Flags := parseEnvVars w.envPrefix flags env } := by
  unfold NewConfig at hok ⊢
  simp only [] at hok ⊢
  cases ha : (applySettings ((startConfig (parseEnvVars w.envPrefix flags env)).parseConfigFile w
      (startConfig (parseEnvVars w.envPrefix flags env)).ConfigFile).1 visit).2 with
  | some e =>
    rw [ha] at hok
    cases hp : ((startConfig (parseEnvVars w.envPrefix flags env)).parseConfigFile w
      (startConfig (parseEnvVars w.envPrefix flags env)).ConfigFile).2 with
    | none => rw [hp] at hok; simp at hok
    | some err =>
      rw [hp] at hok
      by_cases hIs : err.Is ErrNotExist = false
      · simp [hIs] at hok
      · simp [hIs] at hok
  | none =>
    refine ⟨rfl, ?_⟩
    cases hp : ((startConfig (parseEnvVars w.envPrefix flags env)).parseConfigFile w
      (startConfig (parseEnvVars w.envPrefix flags env)).ConfigFile).2 with
    | none => simp
    | some err =>
      rw [hp] at hok
      by_cases hIs : err.Is ErrNotExist = false
      · simp [hIs] at hok
      · simp [hIs]

theorem startConfig_fields (flags : Flags) :
    (startConfig flags).Flags = [] ∧ (startConfig flags).ExportFirst = DefaultExportFirst
    ∧ (startConfig flags).RawExportTypes = [] ∧ (startConfig flags).ExportTypes = []
    ∧ (startConfig flags).ConfigFile = (flags.lookup "config_file").getD DefaultConfigFile
    ∧ (startConfig flags).Sources = DefaultSources
    ∧ (startConfig flags).TargetsDir = DefaultTargetsDir
    ∧ (startConfig flags).TargetsFileExt = DefaultTargetsFileExt
    ∧ (startConfig flags).TargetsFileSuffix = DefaultTargetsFileSuffix
    ∧ (startConfig flags).APIHost = DefaultAPIHost
    ∧ (startConfig flags).APIPort = DefaultAPIPort
    ∧ (startConfig flags).TLSCertFile = ""
    ∧ (startConfig flags).TLSKeyFile = ""
    ∧ (startConfig flags).ShutdownTimeout = DefaultShutdownTimeout
    ∧ (startConfig flags).Debug = (match flags.lookup "debug" with
        | some v => (match ParseBool v with
          | .ok b => b
          | .error _ => false)
        | none => false) := by
  unfold startConfig
  cases flags.lookup "config_file" <;> cases flags.lookup "debug" <;>
    simp [DefaultConfig, setConfigValue_fields]

theorem processExportTypes_fields (c : Config) :
    c.processExportTypes.Debug = c.Debug ∧ c.processExportTypes.ExportFirst = c.ExportFirst
    ∧ c.processExportTypes.ConfigFile = c.ConfigFile
    ∧ c.processExportTypes.Sources = c.Sources
    ∧ c.processExportTypes.TargetsDir = c.TargetsDir
    ∧ c.processExportTypes.TargetsFileExt = c.TargetsFileExt
    ∧ c.processExportTypes.TargetsFileSuffix = c.TargetsFileSuffix
    ∧ c.processExportTypes.APIHost = c.APIHost
    ∧ c.processExportTypes.APIPort = c.APIPort
    ∧ c.processExportTypes.TLSCertFile = c.TLSCertFile
    ∧ c.processExportTypes.TLSKeyFile = c.TLSKeyFile
    ∧ c.processExportTypes.ShutdownTimeout = c.ShutdownTimeout
    ∧ c.processExportTypes.RawExportTypes = [] := by
  simp [Config.processExportTypes]

theorem nodupKeys_of_perm {β : Type} (l l2 : List (String × β)) (hnd : NodupKeys l)
    (hp : l2.Perm l) : NodupKeys l2 :=
  (List.Perm.nodup_iff (hp.map Prod.fst)).2 hnd

/-- After a successful `NewConfig`, a field that only the key `key` can change holds
what `g` computes from the entry of `key` in the merged map, or what the
configuration file stage left when the merged map has no such entry. -/
theorem NewConfig_field {α : Type} (π : Config → α) (key : String) (g : α → String → α)
    (hframe : ∀ (c : Config) (k v : String), k ≠ key → π (c.setConfigValue k v).1 = π c)
    (hset : ∀ (c : Config) (v : String), π (c.setConfigValue key v).1 = g (π c) v)
    (hproc : ∀ c : Config, π c.processExportTypes = π c)
    (hflags : ∀ (c : Config) (m : Flags), π { c with Flags := m } = π c)
    (w : World) (flags env visit : Flags) (hnd : NodupKeys flags)
    (hperm : visit.Perm (parseEnvVars w.envPrefix flags env))
    (hok : (NewConfig w flags env visit).2 = none) :
    π (NewConfig w flags env visit).1
      = (match (parseEnvVars w.envPrefix flags env).lookup key with
        | some v => g (π ((startConfig (parseEnvVars w.envPrefix flags env)).parseConfigFile w
            (startConfig (parseEnvVars w.envPrefix flags env)).ConfigFile).1) v
        | none => π ((startConfig (parseEnvVars w.envPrefix flags env)).parseConfigFile w
            (startConfig (parseEnvVars w.envPrefix flags env)).ConfigFile).1) := by
  obtain ⟨hloop, hres⟩ := NewConfig_ok w flags env visit hok
  have hndm := parseEnvVars_nodupKeys w.envPrefix env flags hnd
  have hndv := nodupKeys_of_perm _ visit hndm hperm
  rw [hres, hflags, hproc, applySettings_field π key g hframe hset visit _ hndv hloop,
    lookup_perm visit _ key hndv hperm]

theorem settings_entry_valid (w : World) (flags env visit : Flags)
    (hperm : visit.Perm (parseEnvVars w.envPrefix flags env))
    (hok : (NewConfig w flags env visit).2 = none) (k v : String)
    (h : (parseEnvVars w.envPrefix flags env).lookup k = some v) :
    (DefaultConfig.setConfigValue k v).2 = none := by
  obtain ⟨hloop, _⟩ := NewConfig_ok w flags env visit hok
  exact (applySettings_ok_iff visit _).1 hloop k v
    (hperm.mem_iff.2 (mem_keys_of_lookup_some _ k v h))

theorem validateTargetsFileExt_of_ok (v : String)
    (h : (DefaultConfig.setConfigValue "targets_file_ext" v).2 = none) :
    validateTargetsFileExt v = none := by
  simp only [Config.setConfigValue] at h
  simp at h
  cases hv : validateTargetsFileExt v with
  | none => rfl
  | some e => rw [hv] at h; simp at h

/-- C2: settings win over the configuration file and the defaults.  After a
successful `NewConfig`, each of the eight string settings that the merged map
holds is the value of its field, whatever the configuration file stored
there; and a field that neither the merged map nor the file sets (the file
stage leaves it as it found it) holds its built-in default. -/
theorem NewConfig_settings_win (w : World) (flags env visit : Flags) (hnd : NodupKeys flags)
    (hperm : visit.Perm (parseEnvVars w.envPrefix flags env))
    (hok : (NewConfig w flags env visit).2 = none) :
    let merged := parseEnvVars w.envPrefix flags env
    let start := startConfig merged
    let filed := (start.parseConfigFile w start.ConfigFile).1
    let c := (NewConfig w flags env visit).1
    ((∀ v, merged.lookup "targets_dir" = some v → c.TargetsDir = v)
      ∧ (∀ v, merged.lookup "targets_file_ext" = some v → c.TargetsFileExt = v)
      ∧ (∀ v, merged.lookup "targets_file_suffix" = some v → c.TargetsFileSuffix = v)
      ∧ (∀ v, merged.lookup "sources" = some v → c.Sources = v)
      ∧ (∀ v, merged.lookup "http_api_host" = some v → c.APIHost = v)
      ∧ (∀ v, merged.lookup "http_api_port" = some v → c.APIPort = v)
      ∧ (∀ v, merged.lookup "http_tls_cert_file" = some v → c.TLSCertFile = v)
      ∧ (∀ v, merged.lookup "http_tls_key_file" = some v → c.TLSKeyFile = v))
    ∧ ((merged.lookup "targets_dir" = none → filed.TargetsDir = start.TargetsDir →
          c.TargetsDir = DefaultTargetsDir)
      ∧ (merged.lookup "targets_file_ext" = none → filed.TargetsFileExt = start.TargetsFileExt →
          c.TargetsFileExt = DefaultTargetsFileExt)
      ∧ (merged.lookup "targets_file_suffix" = none →
          filed.TargetsFileSuffix = start.TargetsFileSuffix →
          c.TargetsFileSuffix = DefaultTargetsFileSuffix)
      ∧ (merged.lookup "sources" = none → filed.Sources = start.Sources →
          c.Sources = DefaultSources)
      ∧ (merged.lookup "http_api_host" = none → filed.APIHost = start.APIHost →
          c.APIHost = DefaultAPIHost)
      ∧ (merged.lookup "http_api_port" = none → filed.APIPort = start.APIPort →
          c.APIPort = DefaultAPIPort)
      ∧ (merged.lookup "http_tls_cert_file" = none → filed.TLSCertFile = start.TLSCertFile →
          c.TLSCertFile = "")
      ∧ (merged.lookup "http_tls_key_file" = none → filed.TLSKeyFile = start.TLSKeyFile →
          c.TLSKeyFile = "")) := by
  intro merged start filed c
  have hS := startConfig_fields merged
  have hdir := NewConfig_field (fun c => c.TargetsDir) "targets_dir" (fun _ v => v)
    (fun c k v hk => by simp [(setConfigValue_fields c k v), hk])
    (fun c v => by simp [(setConfigValue_fields c "targets_dir" v)])
    (fun c => (processExportTypes_fields c).2.2.2.2.1) (fun _ _ => rfl)
    w flags env visit hnd hperm hok
  have hext := NewConfig_field (fun c => c.TargetsFileExt) "targets_file_ext"
    (fun t v => match validateTargetsFileExt v with
      | none => v
      | some _ => t)
    (fun c k v hk => by simp [(setConfigValue_fields c k v), hk])
    (fun c v => by simp [(setConfigValue_fields c "targets_file_ext" v)])
    (fun c => (processExportTypes_fields c).2.2.2.2.2.1) (fun _ _ => rfl)
    w flags env visit hnd hperm hok
  have hsuf := NewConfig_field (fun c => c.TargetsFileSuffix) "targets_file_suffix"
    (fun _ v => v)
    (fun c k v hk => by simp [(setConfigValue_fields c k v), hk])
    (fun c v => by simp [(setConfigValue_fields c "targets_file_suffix" v)])
    (fun c => (processExportTypes_fields c).2.2.2.2.2.2.1) (fun _ _ => rfl)
    w flags env visit hnd hperm hok
  have hsrc := NewConfig_field (fun c => c.Sources) "sources" (fun _ v => v)
    (fun c k v hk => by simp [(setConfigValue_fields c k v), hk])
    (fun c v => by simp [(setConfigValue_fields c "sources" v)])
    (fun c => (processExportTypes_fields c).2.2.2.1) (fun _ _ => rfl)
    w flags env visit hnd hperm hok
  have hhost := NewConfig_field (fun c => c.APIHost) "http_api_host" (fun _ v => v)
    (fun c k v hk => by simp [(setConfigValue_fields c k v), hk])
    (fun c v => by simp [(setConfigValue_fields c "http_api_host" v)])
    (fun c => (processExportTypes_fields c).2.2.2.2.2.2.2.1) (fun _ _ => rfl)
    w flags env visit hnd hperm hok
  have hport := NewConfig_field (fun c => c.APIPort) "http_api_port" (fun _ v => v)
    (fun c k v hk => by simp [(setConfigValue_fields c k v), hk])
    (fun c v => by simp [(setConfigValue_fields c "http_api_port" v)])
    (fun c => (processExportTypes_fields c).2.2.2.2.2.2.2.2.1) (fun _ _ => rfl)
    w flags env visit hnd hperm hok
  have hcert := NewConfig_field (fun c => c.TLSCertFile) "http_tls_cert_file" (fun _ v => v)
    (fun c k v hk => by simp [(setConfigValue_fields c k v), hk])
    (fun c v => by simp [(setConfigValue_fields c "http_tls_cert_file" v)])
    (fun c => (processExportTypes_fields c).2.2.2.2.2.2.2.2.2.1) (fun _ _ => rfl)
    w flags env visit hnd hperm hok
  have hkey := NewConfig_field (fun c => c.TLSKeyFile) "http_tls_key_file" (fun _ v => v)
    (fun c k v hk => by simp [(setConfigValue_fields c k v), hk])
    (fun c v => by simp [(setConfigValue_fields c "http_tls_key_file" v)])
    (fun c => (processExportTypes_fields c).2.2.2.2.2.2.2.2.2.2.1) (fun _ _ => rfl)
    w flags env visit hnd hperm hok
  simp only [] at hdir hext hsuf hsrc hhost hport hcert hkey
  refine ⟨⟨?_, ?_, ?_, ?_, ?_, ?_, ?_, ?_⟩, ⟨?_, ?_, ?_, ?_, ?_, ?_, ?_, ?_⟩⟩
  · intro v hv; show (NewConfig w flags env visit).1.TargetsDir = v; rw [hdir, hv]
  · intro v hv
    show (NewConfig w flags env visit).1.TargetsFileExt = v
    rw [hext, hv]
    simp only []
    rw [validateTargetsFileExt_of_ok v
      (settings_entry_valid w flags env visit hperm hok "targets_file_ext" v hv)]
  · intro v hv; show (NewConfig w flags env visit).1.TargetsFileSuffix = v; rw [hsuf, hv]
  · intro v hv; show (NewConfig w flags env visit).1.Sources = v; rw [hsrc, hv]
  · intro v hv; show (NewConfig w flags env visit).1.APIHost = v; rw [hhost, hv]
  · intro v hv; show (NewConfig w flags env visit).1.APIPort = v; rw [hport, hv]
  · intro v hv; show (NewConfig w flags env visit).1.TLSCertFile = v; rw [hcert, hv]
  · intro v hv; show (NewConfig w flags env visit).1.TLSKeyFile = v; rw [hkey, hv]
  · intro hn hf
    show (NewConfig w flags env visit).1.TargetsDir = _
    rw [hdir, hn]; simp only []; rw [hf]; exact hS.2.2.2.2.2.2.1
  · intro hn hf
    show (NewConfig w flags env visit).1.TargetsFileExt = _
    rw [hext, hn]; simp only []; rw [hf]; exact hS.2.2.2.2.2.2.2.1
  · intro hn hf
    show (NewConfig w flags env visit).1.TargetsFileSuffix = _
    rw [hsuf, hn]; simp only []; rw [hf]; exact hS.2.2.2.2.2.2.2.2.1
  · intro hn hf
    show (NewConfig w flags env visit).1.Sources = _
    rw [hsrc, hn]; simp only []; rw [hf]; exact hS.2.2.2.2.2.1
  · intro hn hf
    show (NewConfig w flags env visit).1.APIHost = _
    rw [hhost, hn]; simp only []; rw [hf]; exact hS.2.2.2.2.2.2.2.2.2.1
  · intro hn hf
    show (NewConfig w flags env visit).1.APIPort = _
    rw [hport, hn]; simp only []; rw [hf]; exact hS.2.2.2.2.2.2.2.2.2.2.1
  · intro hn hf
    show (NewConfig w flags env visit).1.TLSCertFile = _
    rw [hcert, hn]; simp only []; rw [hf]; exact hS.2.2.2.2.2.2.2.2.2.2.2.1
  · intro hn hf
    show (NewConfig w flags env visit).1.TLSKeyFile = _
    rw [hkey, hn]; simp only []; rw [hf]; exact hS.2.2.2.2.2.2.2.2.2.2.2.2.1

theorem NewConfig_settings_win_witness :
    NodupKeys [("targets_dir", "/flag")]
    ∧ (NewConfig (oneFileWorld "/etc/pim/pim.yml" "targets_dir: /file\n"
        { TargetsDir := some "/file" } none) [("targets_dir", "/flag")]
        [("PIM_SOURCES", "/env")] [("sources", "/env"), ("targets_dir", "/flag")]).2 = none
    ∧ (NewConfig (oneFileWorld "/etc/pim/pim.yml" "targets_dir: /file\n"
        { TargetsDir := some "/file" } none) [("targets_dir", "/flag")]
        [("PIM_SOURCES", "/env")] [("sources", "/env"), ("targets_dir", "/flag")]).1.TargetsDir
        = "/flag"
    ∧ (NewConfig (oneFileWorld "/etc/pim/pim.yml" "targets_dir: /file\n"
        { TargetsDir := some "/file" } none) [("targets_dir", "/flag")]
        [("PIM_SOURCES", "/env")] [("sources", "/env"), ("targets_dir", "/flag")]).1.APIPort
        = DefaultAPIPort :=
  ⟨by unfold NodupKeys; decide, by decide,
    (NewConfig_settings_win (oneFileWorld "/etc/pim/pim.yml" "targets_dir: /file\n"
        { TargetsDir := some "/file" } none) [("targets_dir", "/flag")]
        [("PIM_SOURCES", "/env")] [("sources", "/env"), ("targets_dir", "/flag")]
        (by unfold NodupKeys; decide) (by decide) (by decide)).1.1 "/flag" (by decide),
    (NewConfig_settings_win (oneFileWorld "/etc/pim/pim.yml" "targets_dir: /file\n"
        { TargetsDir := some "/file" } none) [("targets_dir", "/flag")]
        [("PIM_SOURCES", "/env")] [("sources", "/env"), ("targets_dir", "/flag")]
        (by unfold NodupKeys; decide) (by decide) (by decide)).2.2.2.2.2.2.1 (by decide)
        (by decide)⟩

/-! ## A missing configuration file -/

theorem isValidExportTypes_iff (et : String) : isValidExportTypes et = true ↔ et = "file_sd" := by
  simp [isValidExportTypes, validExportTypes]

theorem exportTypes_fold (l : List String) (h : ∀ et ∈ l, et = "file_sd") :
    ∀ m : List (String × Bool), (m = [] ∨ m = [("file_sd", true)]) →
      (l.foldl (fun m v => mapSet m (ToLower v) true) m = [] ∧ l = [] ∧ m = [])
      ∨ l.foldl (fun m v => mapSet m (ToLower v) true) m = [("file_sd", true)] := by
  induction l with
  | nil =>
    intro m hm
    rcases hm with rfl | rfl
    · exact Or.inl ⟨rfl, rfl, rfl⟩
    · exact Or.inr rfl
  | cons et rest ih =>
    intro m hm
    have het : et = "file_sd" := h et (List.mem_cons_self _ _)
    have hlow : ToLower "file_sd" = "file_sd" := by decide
    have hstep : mapSet m (ToLower et) true = [("file_sd", true)] := by
      subst het
      rw [hlow]
      rcases hm with rfl | rfl <;> simp [mapSet]
    rcases ih (fun x hx => h x (List.mem_cons_of_mem _ hx)) _ (Or.inr hstep) with h1 | h1
    · rw [hstep] at h1
      exact absurd h1.2.2 (by simp)
    · right
      simpa [List.foldl] using h1

theorem processExportTypes_default (c : Config) (hE : c.ExportTypes = [])
    (hR : ∀ et ∈ c.RawExportTypes, isValidExportTypes et = true) :
    c.processExportTypes.ExportTypes = [("file_sd", true)] := by
  have h := exportTypes_fold c.RawExportTypes
    (fun et het => (isValidExportTypes_iff et).1 (hR et het)) [] (Or.inl rfl)
  unfold Config.processExportTypes
  rw [hE]
  rcases h with h | h
  · simp [h.1, mapSet, DefaultExportType]
  · simp [h]

theorem parseConfigFile_missing (w : World) (c : Config) (file : String) (e : Error)
    (hpath : file ≠ "") (hmiss : w.tester file = some e) :
    c.parseConfigFile w file = (c, some e) := by
  unfold Config.parseConfigFile
  simp [hpath, hmiss]

theorem NewConfig_of_missing (w : World) (flags env visit : Flags) (e : Error)
    (hpath : (startConfig (parseEnvVars w.envPrefix flags env)).ConfigFile ≠ "")
    (hmiss : w.tester (startConfig (parseEnvVars w.envPrefix flags env)).ConfigFile = some e)
    (hIs : e.Is ErrNotExist = true)
    (hloop : (applySettings (startConfig (parseEnvVars w.envPrefix flags env)) visit).2 = none) :
    NewConfig w flags env visit
      = ({ (applySettings (startConfig (parseEnvVars w.envPrefix flags env))
              visit).1.processExportTypes with
            Flags := parseEnvVars w.envPrefix flags env }, none) := by
  unfold NewConfig
  simp only []
  rw [parseConfigFile_missing w _ _ e hpath hmiss]
  simp [hIs, hloop]

theorem ParseBool_of_debug_ok (v : String)
    (h : (DefaultConfig.setConfigValue "debug" v).2 = none) : ∃ b, ParseBool v = .ok b := by
  simp only [Config.setConfigValue] at h
  simp at h
  cases hv : ParseBool v with
  | ok b => exact ⟨b, rfl⟩
  | error e => rw [hv] at h; simp at h

theorem ParseBool_of_export_first_ok (v : String)
    (h : (DefaultConfig.setConfigValue "export_first" v).2 = none) :
    ∃ b, ParseBool v = .ok b := by
  simp only [Config.setConfigValue] at h
  simp at h
  cases hv : ParseBool v with
  | ok b => exact ⟨b, rfl⟩
  | error e => rw [hv] at h; simp at h

theorem Atoi_of_timeout_ok (v : String)
    (h : (DefaultConfig.setConfigValue "http_shutdown_timeout" v).2 = none) :
    ∃ t, Atoi v = .ok t := by
  simp only [Config.setConfigValue] at h
  simp at h
  cases hv : Atoi v with
  | ok t => exact ⟨t, rfl⟩
  | error e => rw [hv] at h; simp at h

theorem split_of_export_types_ok (v : String)
    (h : (DefaultConfig.setConfigValue "export_types" v).2 = none) :
    (splitExportTypesLoop v DefaultConfig (Split v)).2 = none := by
  simp only [Config.setConfigValue] at h
  simpa [Config.splitExportTypes] using h

/-- C5: a configuration file that does not exist is tolerated.  When the path of the
configuration file is not empty and the readability test reports not-exist for
it, and `setConfigValue` accepts every entry of the merged settings map,
`NewConfig` succeeds; `Flags` is the merged map, `ExportTypes` is the set with
the one member `file_sd`, and every other field holds the value of its entry in
the merged map, or its built-in default when the map has no such entry. -/
theorem NewConfig_missing_config_file (w : World) (flags env visit : Flags)
    (hnd : NodupKeys flags)
    (hperm : visit.Perm (parseEnvVars w.envPrefix flags env))
    (hpath : ((parseEnvVars w.envPrefix flags env).lookup "config_file").getD DefaultConfigFile
      ≠ "")
    (hmiss : ∃ e, w.tester (((parseEnvVars w.envPrefix flags env).lookup "config_file").getD
      DefaultConfigFile) = some e ∧ e.Is ErrNotExist = true)
    (hvalid : ∀ k v, (parseEnvVars w.envPrefix flags env).lookup k = some v →
      (DefaultConfig.setConfigValue k v).2 = none) :
    let merged := parseEnvVars w.envPrefix flags env
    let c := (NewConfig w flags env visit).1
    (NewConfig w flags env visit).2 = none
    ∧ c.Flags = merged
    ∧ c.ExportTypes = [(DefaultExportType, true)]
    ∧ c.RawExportTypes = []
    ∧ c.ConfigFile = (merged.lookup "config_file").getD DefaultConfigFile
    ∧ c.Sources = (merged.lookup "sources").getD DefaultSources
    ∧ c.TargetsDir = (merged.lookup "targets_dir").getD DefaultTargetsDir
    ∧ c.TargetsFileExt = (merged.lookup "targets_file_ext").getD DefaultTargetsFileExt
    ∧ c.TargetsFileSuffix = (merged.lookup "targets_file_suffix").getD DefaultTargetsFileSuffix
    ∧ c.APIHost = (merged.lookup "http_api_host").getD DefaultAPIHost
    ∧ c.APIPort = (merged.lookup "http_api_port").getD DefaultAPIPort
    ∧ c.TLSCertFile = (merged.lookup "http_tls_cert_file").getD ""
    ∧ c.TLSKeyFile = (merged.lookup "http_tls_key_file").getD ""
    ∧ (match merged.lookup "debug" with
        | some v => ParseBool v = .ok c.Debug
        | none => c.Debug = false)
    ∧ (match merged.lookup "export_first" with
        | some v => ParseBool v = .ok c.ExportFirst
        | none => c.ExportFirst = DefaultExportFirst)
    ∧ (match merged.lookup "http_shutdown_timeout" with
        | some v => Atoi v = .ok c.ShutdownTimeout
        | none => c.ShutdownTimeout = DefaultShutdownTimeout) := by
  intro merged c
  obtain ⟨e, hm, hIs⟩ := hmiss
  have hS := startConfig_fields merged
  have hndm : NodupKeys merged := parseEnvVars_nodupKeys w.envPrefix env flags hnd
  have hndv : NodupKeys visit := nodupKeys_of_perm _ visit hndm hperm
  have hloop : (applySettings (startConfig merged) visit).2 = none :=
    (applySettings_ok_iff visit _).2 (fun k v hmem =>
      hvalid k v (lookup_some_of_mem merged k v hndm (hperm.mem_iff.1 hmem)))
  have hN : NewConfig w flags env visit
      = ({ (applySettings (startConfig merged) visit).1.processExportTypes with
            Flags := merged }, none) :=
    NewConfig_of_missing w flags env visit e (by rw [hS.2.2.2.2.1]; exact hpath)
      (by rw [hS.2.2.2.2.1]; exact hm) hIs hloop
  have hF := applySettings_fields visit (startConfig merged) hndv hloop
  have hL : ∀ k, visit.lookup k = merged.lookup k := fun k => lookup_perm visit merged k hndv hperm
  have hP := processExportTypes_fields (applySettings (startConfig merged) visit).1
  simp only [hL] at hF
  obtain ⟨fDebug, _, fFirst, fRaw, fTypes, fFile, fSrc, fDir, fExt, fSuf, fHost, fPort, fCert,
    fKey, fTime⟩ := hF
  obtain ⟨_, sFirst, sRaw, sTypes, sFile, sSrc, sDir, sExt, sSuf, sHost, sPort, sCert, sKey,
    sTime, sDebug⟩ := hS
  obtain ⟨pDebug, pFirst, pFile, pSrc, pDir, pExt, pSuf, pHost, pPort, pCert, pKey, pTime,
    pRaw⟩ := hP
  have hc : c = { (applySettings (startConfig merged) visit).1.processExportTypes with
      Flags := merged } := by
    show (NewConfig w flags env visit).1 = _
    rw [hN]
  refine ⟨by rw [hN], by rw [hc], ?_, by rw [hc]; exact pRaw, by rw [hc]; simp [pFile, fFile, sFile],
    by rw [hc]; simp [pSrc, fSrc, sSrc], by rw [hc]; simp [pDir, fDir, sDir], ?_,
    by rw [hc]; simp [pSuf, fSuf, sSuf], by rw [hc]; simp [pHost, fHost, sHost],
    by rw [hc]; simp [pPort, fPort, sPort], by rw [hc]; simp [pCert, fCert, sCert],
    by rw [hc]; simp [pKey, fKey, sKey], ?_, ?_, ?_⟩
  · rw [hc]
    apply processExportTypes_default _ (by rw [fTypes, sTypes])
    rw [fRaw, sRaw]
    cases hl : merged.lookup "export_types" with
    | none => simp
    | some v =>
      simp only []
      have hv := split_of_export_types_ok v (hvalid "export_types" v hl)
      have hr := splitExportTypesLoop_raw v (Split v) DefaultConfig hv
      have hd : ({ DefaultConfig with RawExportTypes := [] } : Config) = DefaultConfig := rfl
      rw [hd, hr.1]
      intro et het
      exact hr.2 et (by simpa [DefaultConfig] using het)
  · rw [hc]
    show (applySettings (startConfig merged) visit).1.processExportTypes.TargetsFileExt = _
    rw [pExt, fExt, sExt]
    cases hl : merged.lookup "targets_file_ext" with
    | none => simp
    | some v =>
      simp only []
      rw [validateTargetsFileExt_of_ok v (hvalid "targets_file_ext" v hl)]
      simp
  · have hd : c.Debug = (applySettings (startConfig merged) visit).1.Debug := by
      rw [hc]; exact pDebug
    rw [hd, fDebug, sDebug]
    cases hl : merged.lookup "debug" with
    | none => simp
    | some v =>
      obtain ⟨b, hb⟩ := ParseBool_of_debug_ok v (hvalid "debug" v hl)
      simp [hb]
  · have hd : c.ExportFirst = (applySettings (startConfig merged) visit).1.ExportFirst := by
      rw [hc]; exact pFirst
    rw [hd, fFirst]
    cases hl : merged.lookup "export_first" with
    | none => simpa using sFirst
    | some v =>
      obtain ⟨b, hb⟩ := ParseBool_of_export_first_ok v (hvalid "export_first" v hl)
      simp [hb]
  · have hd : c.ShutdownTimeout = (applySettings (startConfig merged) visit).1.ShutdownTimeout := by
      rw [hc]; exact pTime
    rw [hd, fTime]
    cases hl : merged.lookup "http_shutdown_timeout" with
    | none => simpa using sTime
    | some v =>
      obtain ⟨t, ht⟩ := Atoi_of_timeout_ok v (hvalid "http_shutdown_timeout" v hl)
      simp [ht]

theorem NewConfig_missing_config_file_witness :
    NodupKeys [("debug", "true")]
    ∧ emptyWorld.tester DefaultConfigFile
        = some (.wrap "stat /etc/pim/pim.yml: no such file or directory" ErrNotExist)
    ∧ (NewConfig emptyWorld [("debug", "true")] [] [("debug", "true")]).2 = none
    ∧ (NewConfig emptyWorld [("debug", "true")] [] [("debug", "true")]).1.Flags
        = [("debug", "true")]
    ∧ (NewConfig emptyWorld [("debug", "true")] [] [("debug", "true")]).1.ExportTypes
        = [("file_sd", true)]
    ∧ (NewConfig emptyWorld [("debug", "true")] [] [("debug", "true")]).1.Sources
        = "/etc/pim/sources" :=
  have h := NewConfig_missing_config_file emptyWorld [("debug", "true")] []
    [("debug", "true")] (by unfold NodupKeys; decide) (by decide) (by decide)
    ⟨_, rfl, by decide⟩
    (by
      intro k v hl
      have hm : (k, v) ∈ [("debug", "true")] := mem_keys_of_lookup_some _ k v hl
      have hkv : (k, v) = ("debug", "true") := by simpa using hm
      rw [(Prod.mk.inj hkv).1, (Prod.mk.inj hkv).2]
      decide)
  ⟨by unfold NodupKeys; decide, by decide, h.1, h.2.1, h.2.2.1, h.2.2.2.2.2.1⟩

/-! ## The order in which the maps are visited -/

theorem envKeys_cons (envPrefix : String) (n x : String) (rest : Flags) :
    envKeys envPrefix ((n, x) :: rest)
      = if HasPrefix n envPrefix = true then
          ToLower (TrimPrefix n envPrefix) :: envKeys envPrefix rest
        else envKeys envPrefix rest := by
  unfold envKeys
  by_cases h : HasPrefix n envPrefix = true <;> simp [List.filter, h]

theorem mem_envKeys (envPrefix : String) (env : Flags) (n v : String) (hm : (n, v) ∈ env)
    (hp : HasPrefix n envPrefix = true) :
    ToLower (TrimPrefix n envPrefix) ∈ envKeys envPrefix env := by
  unfold envKeys
  exact List.mem_map.2 ⟨(n, v), List.mem_filter.2 ⟨hm, by simpa using hp⟩, rfl⟩

/-- The entries of the merged map, when no two names of the environment give the
same settings key: the entries of `flags`, and for each key that `flags` lacks
the value of the environment name that gives this key. -/
theorem parseEnvVars_mem_iff (envPrefix : String) (env flags : Flags)
    (hd : (envKeys envPrefix env).Nodup) (k v : String) :
    (k, v) ∈ parseEnvVars envPrefix flags env
      ↔ (k, v) ∈ flags ∨ (flags.lookup k = none ∧ ∃ n, (n, v) ∈ env
          ∧ HasPrefix n envPrefix = true ∧ ToLower (TrimPrefix n envPrefix) = k) := by
  induction env generalizing flags with
  | nil => simp [parseEnvVars]
  | cons p rest ih =>
    obtain ⟨n0, x0⟩ := p
    rw [envKeys_cons] at hd
    unfold parseEnvVars
    split_ifs with h1 h2
    · have hd2 : (envKeys envPrefix rest).Nodup := by simpa [h1] using hd
      rw [ih flags hd2]
      constructor
      · rintro (h | ⟨hn, n, hm, hp, hk⟩)
        · exact Or.inl h
        · exact Or.inr ⟨hn, n, List.mem_cons_of_mem _ hm, hp, hk⟩
      · rintro (h | ⟨hn, n, hm, hp, hk⟩)
        · exact Or.inl h
        · rcases List.mem_cons.1 hm with heq | hm
          · obtain ⟨rfl, rfl⟩ := Prod.mk.inj heq
            rw [h1] at hp
            exact absurd hp (by simp)
          · exact Or.inr ⟨hn, n, hm, hp, hk⟩
    · have hp0 : HasPrefix n0 envPrefix = true := by simpa using h1
      have hd2 : ToLower (TrimPrefix n0 envPrefix) ∉ envKeys envPrefix rest
          ∧ (envKeys envPrefix rest).Nodup := by simpa [hp0] using hd
      have hnone : flags.lookup (ToLower (TrimPrefix n0 envPrefix)) = none := by
        simpa using h2
      rw [mapSet_of_lookup_none _ _ _ hnone, ih _ hd2.2]
      constructor
      · rintro (h | ⟨hn, n, hm, hp, hk⟩)
        · rcases List.mem_append.1 h with h | h
          · exact Or.inl h
          · simp at h
            obtain ⟨rfl, rfl⟩ := h
            exact Or.inr ⟨hnone, n0, List.mem_cons_self _ _, hp0, rfl⟩
        · exact Or.inr ⟨lookup_none_of_append_none flags _ k hn, n,
            List.mem_cons_of_mem _ hm, hp, hk⟩
      · rintro (h | ⟨hn, n, hm, hp, hk⟩)
        · exact Or.inl (List.mem_append_left _ h)
        · rcases List.mem_cons.1 hm with heq | hm
          · obtain ⟨rfl, rfl⟩ := Prod.mk.inj heq
            subst hk
            exact Or.inl (List.mem_append_right _ (by simp))
          · have hne : k ≠ ToLower (TrimPrefix n0 envPrefix) := by
              intro e
              apply hd2.1
              rw [← e, ← hk]
              exact mem_envKeys envPrefix rest n v hm hp
            exact Or.inr ⟨lookup_append_single_none flags k _ x0 hn hne, n, hm, hp, hk⟩
    · have hd2 : (envKeys envPrefix rest).Nodup := by
        by_cases hp0 : HasPrefix n0 envPrefix = true
        · rw [if_pos hp0] at hd
          exact (List.nodup_cons.1 hd).2
        · rw [if_neg hp0] at hd
          exact hd
      rw [ih flags hd2]
      constructor
      · rintro (h | ⟨hn, n, hm, hp, hk⟩)
        · exact Or.inl h
        · exact Or.inr ⟨hn, n, List.mem_cons_of_mem _ hm, hp, hk⟩
      · rintro (h | ⟨hn, n, hm, hp, hk⟩)
        · exact Or.inl h
        · rcases List.mem_cons.1 hm with heq | hm
          · obtain ⟨rfl, rfl⟩ := Prod.mk.inj heq
            rw [hk] at h2
            rw [hn] at h2
            simp at h2
          · exact Or.inr ⟨hn, n, hm, hp, hk⟩

theorem envKeys_perm (envPrefix : String) (env env2 : Flags) (he : env.Perm env2) :
    (envKeys envPrefix env).Perm (envKeys envPrefix env2) := by
  unfold envKeys
  exact (he.filter _).map _

/-- The merged map does not depend on the order in which the two maps are listed,
when no two names of the environment give the same settings key. -/
theorem parseEnvVars_perm (envPrefix : String) (flags flags2 env env2 : Flags)
    (hnd : NodupKeys flags) (hd : (envKeys envPrefix env).Nodup)
    (hf : flags.Perm flags2) (he : env.Perm env2) :
    (parseEnvVars envPrefix flags env).Perm (parseEnvVars envPrefix flags2 env2) := by
  have hnd2 : NodupKeys flags2 := nodupKeys_of_perm flags flags2 hnd hf.symm
  have hd2 : (envKeys envPrefix env2).Nodup :=
    (List.Perm.nodup_iff (envKeys_perm envPrefix env env2 he)).1 hd
  have hm1 : (parseEnvVars envPrefix flags env).Nodup :=
    List.Nodup.of_map Prod.fst (parseEnvVars_nodupKeys envPrefix env flags hnd)
  have hm2 : (parseEnvVars envPrefix flags2 env2).Nodup :=
    List.Nodup.of_map Prod.fst (parseEnvVars_nodupKeys envPrefix env2 flags2 hnd2)
  rw [List.perm_ext_iff_of_nodup hm1 hm2]
  rintro ⟨k, v⟩
  rw [parseEnvVars_mem_iff envPrefix env flags hd k v,
    parseEnvVars_mem_iff envPrefix env2 flags2 hd2 k v, hf.mem_iff,
    lookup_perm flags flags2 k hnd hf]
  constructor
  · rintro (h | ⟨hn, n, hm, hp, hk⟩)
    · exact Or.inl h
    · exact Or.inr ⟨hn, n, he.mem_iff.1 hm, hp, hk⟩
  · rintro (h | ⟨hn, n, hm, hp, hk⟩)
    · exact Or.inl h
    · exact Or.inr ⟨hn, n, he.mem_iff.2 hm, hp, hk⟩

theorem startConfig_perm (m m2 : Flags) (hnd : NodupKeys m) (hp : m.Perm m2) :
    startConfig m = startConfig m2 := by
  unfold startConfig
  rw [lookup_perm m m2 "config_file" hnd hp, lookup_perm m m2 "debug" hnd hp]

/-- A loop that runs to its end over a map with distinct keys runs to its end in
every other visiting order of the map, with the same configuration. -/
theorem applySettings_perm (l l2 : Flags) (c : Config) (hnd : NodupKeys l) (hp : l.Perm l2)
    (hok : (applySettings c l).2 = none) :
    (applySettings c l2).2 = none ∧ (applySettings c l2).1 = (applySettings c l).1 := by
  have hok2 : (applySettings c l2).2 = none :=
    (applySettings_ok_iff l2 c).2 (fun k v hm =>
      (applySettings_ok_iff l c).1 hok k v (hp.mem_iff.2 hm))
  have hnd2 : NodupKeys l2 := nodupKeys_of_perm l l2 hnd hp.symm
  have h1 := applySettings_fields l c hnd hok
  have h2 := applySettings_fields l2 c hnd2 hok2
  simp only [← lookup_perm l l2 _ hnd hp] at h2
  obtain ⟨a1, a2, a3, a4, a5, a6, a7, a8, a9, a10, a11, a12, a13, a14, a15⟩ := h1
  obtain ⟨b1, b2, b3, b4, b5, b6, b7, b8, b9, b10, b11, b12, b13, b14, b15⟩ := h2
  exact ⟨hok2, Config.ext (b1.trans a1.symm) (b2.trans a2.symm) (b3.trans a3.symm)
    (b4.trans a4.symm) (b5.trans a5.symm) (b6.trans a6.symm) (b7.trans a7.symm)
    (b8.trans a8.symm) (b9.trans a9.symm) (b10.trans a10.symm) (b11.trans a11.symm)
    (b12.trans a12.symm) (b13.trans a13.symm) (b14.trans a14.symm) (b15.trans a15.symm)⟩

theorem NewConfig_of_loop_ok (w : World) (flags env visit : Flags)
    (hfile : ∀ err, ((startConfig (parseEnvVars w.envPrefix flags env)).parseConfigFile w
        (startConfig (parseEnvVars w.envPrefix flags env)).ConfigFile).2 = some err →
        err.Is ErrNotExist = true)
    (hloop : (applySettings ((startConfig (parseEnvVars w.envPrefix flags env)).parseConfigFile w
        (startConfig (parseEnvVars w.envPrefix flags env)).ConfigFile).1 visit).2 = none) :
    NewConfig w flags env visit
      = ({ (applySettings ((startConfig (parseEnvVars w.envPrefix flags env)).parseConfigFile w
            (startConfig (parseEnvVars w.envPrefix flags env)).ConfigFile).1
            visit).1.processExportTypes with
          Flags := parseEnvVars w.envPrefix flags env }, none) := by
  unfold NewConfig
  simp only []
  rw [hloop]
  cases hp : ((startConfig (parseEnvVars w.envPrefix flags env)).parseConfigFile w
      (startConfig (parseEnvVars w.envPrefix flags env)).ConfigFile).2 with
  | none => rfl
  | some err => simp [hfile err hp]

theorem NewConfig_file_stage (w : World) (flags env visit : Flags)
    (hok : (NewConfig w flags env visit).2 = none) (err : Error)
    (hp : ((startConfig (parseEnvVars w.envPrefix flags env)).parseConfigFile w
        (startConfig (parseEnvVars w.envPrefix flags env)).ConfigFile).2 = some err) :
    err.Is ErrNotExist = true := by
  unfold NewConfig at hok
  simp only [] at hok
  rw [hp] at hok
  by_cases hIs : err.Is ErrNotExist = false
  · simp [hIs] at hok
  · simpa using hIs

theorem NewConfig_of_fatal (w : World) (flags env visit : Flags) (err : Error)
    (hp : ((startConfig (parseEnvVars w.envPrefix flags env)).parseConfigFile w
        (startConfig (parseEnvVars w.envPrefix flags env)).ConfigFile).2 = some err)
    (hIs : err.Is ErrNotExist = false) :
    NewConfig w flags env visit
      = (((startConfig (parseEnvVars w.envPrefix flags env)).parseConfigFile w
          (startConfig (parseEnvVars w.envPrefix flags env)).ConfigFile).1, some err) := by
  unfold NewConfig
  simp only []
  rw [hp]
  simp [hIs]

theorem NewConfig_perm_ok (w : World) (flags flags2 env env2 visit visit2 : Flags)
    (hnd : NodupKeys flags) (hd : (envKeys w.envPrefix env).Nodup)
    (hf : flags.Perm flags2) (he : env.Perm env2)
    (hv : visit.Perm (parseEnvVars w.envPrefix flags env))
    (hv2 : visit2.Perm (parseEnvVars w.envPrefix flags2 env2))
    (hok : (NewConfig w flags env visit).2 = none) :
    NewConfig w flags2 env2 visit2
      = ({ (NewConfig w flags env visit).1 with
            Flags := parseEnvVars w.envPrefix flags2 env2 }, none) := by
  have hm := parseEnvVars_perm w.envPrefix flags flags2 env env2 hnd hd hf he
  have hndm := parseEnvVars_nodupKeys w.envPrefix env flags hnd
  have hst := startConfig_perm _ _ hndm hm
  obtain ⟨hloop, hres⟩ := NewConfig_ok w flags env visit hok
  have hfile := NewConfig_file_stage w flags env visit hok
  have hndv := nodupKeys_of_perm _ visit hndm hv
  have hvv : visit.Perm visit2 := hv.trans (hm.trans hv2.symm)
  obtain ⟨hloop2, hcfg2⟩ := applySettings_perm visit visit2 _ hndv hvv hloop
  rw [hst] at hfile hloop2 hcfg2
  rw [NewConfig_of_loop_ok w flags2 env2 visit2 hfile hloop2, hcfg2, hres, hst]

/-- C4 (amended): the visiting orders matter only in two ways.  When no two names of
the environment give the same settings key (the rest of the name after the
head, lower-cased by `strings.ToLower`, which maps every Unicode letter),
listing the two maps in another order gives the same merged map; a resolution that succeeds then succeeds in
every visiting order with the same configuration (`Flags` being the merged
map, equal as a map), one that fails at the configuration file has the same
outcome in every order, and one that fails on a settings entry fails in every
order. -/
theorem NewConfig_order_independent (w : World)
    (flags flags2 env env2 visit visit2 : Flags)
    (hnd : NodupKeys flags) (hd : (envKeys w.envPrefix env).Nodup)
    (hf : flags.Perm flags2) (he : env.Perm env2)
    (hv : visit.Perm (parseEnvVars w.envPrefix flags env))
    (hv2 : visit2.Perm (parseEnvVars w.envPrefix flags2 env2)) :
    (parseEnvVars w.envPrefix flags2 env2).Perm (parseEnvVars w.envPrefix flags env)
    ∧ ((NewConfig w flags env visit).2 = none →
        NewConfig w flags2 env2 visit2
          = ({ (NewConfig w flags env visit).1 with
                Flags := parseEnvVars w.envPrefix flags2 env2 }, none))
    ∧ (∀ err, ((startConfig (parseEnvVars w.envPrefix flags env)).parseConfigFile w
          (startConfig (parseEnvVars w.envPrefix flags env)).ConfigFile).2 = some err →
        err.Is ErrNotExist = false →
        NewConfig w flags2 env2 visit2 = NewConfig w flags env visit)
    ∧ ((NewConfig w flags env visit).2 ≠ none → (NewConfig w flags2 env2 visit2).2 ≠ none) := by
  have hm := parseEnvVars_perm w.envPrefix flags flags2 env env2 hnd hd hf he
  have hndm := parseEnvVars_nodupKeys w.envPrefix env flags hnd
  have hst := startConfig_perm _ _ hndm hm
  refine ⟨hm.symm, NewConfig_perm_ok w flags flags2 env env2 visit visit2 hnd hd hf he hv hv2,
    ?_, ?_⟩
  · intro err hp hIs
    rw [NewConfig_of_fatal w flags env visit err hp hIs]
    rw [hst] at hp ⊢
    exact NewConfig_of_fatal w flags2 env2 visit2 err hp hIs
  · intro hfail hok2
    have hnd2 : NodupKeys flags2 := nodupKeys_of_perm flags flags2 hnd hf.symm
    have hd2 : (envKeys w.envPrefix env2).Nodup :=
      (List.Perm.nodup_iff (envKeys_perm w.envPrefix env env2 he)).1 hd
    have := NewConfig_perm_ok w flags2 flags env2 env visit2 visit hnd2 hd2 hf.symm he.symm
      hv2 hv hok2
    rw [this] at hfail
    exact hfail rfl

theorem NewConfig_order_independent_witness :
    NodupKeys [("debug", "true"), ("sources", "/s")]
    ∧ (envKeys "PIM_" [("PIM_TARGETS_DIR", "/t"), ("HOME", "/root")]).Nodup
    ∧ NewConfig emptyWorld [("sources", "/s"), ("debug", "true")]
        [("HOME", "/root"), ("PIM_TARGETS_DIR", "/t")]
        [("targets_dir", "/t"), ("sources", "/s"), ("debug", "true")]
      = ({ (NewConfig emptyWorld [("debug", "true"), ("sources", "/s")]
              [("PIM_TARGETS_DIR", "/t"), ("HOME", "/root")]
              [("debug", "true"), ("sources", "/s"), ("targets_dir", "/t")]).1 with
            Flags := [("sources", "/s"), ("debug", "true"), ("targets_dir", "/t")] }, none) :=
  ⟨by unfold NodupKeys; decide, by decide,
    (NewConfig_order_independent emptyWorld [("debug", "true"), ("sources", "/s")]
      [("sources", "/s"), ("debug", "true")] [("PIM_TARGETS_DIR", "/t"), ("HOME", "/root")]
      [("HOME", "/root"), ("PIM_TARGETS_DIR", "/t")]
      [("debug", "true"), ("sources", "/s"), ("targets_dir", "/t")]
      [("targets_dir", "/t"), ("sources", "/s"), ("debug", "true")]
      (by unfold NodupKeys; decide) (by decide) (by decide) (by decide) (by decide)
      (by decide)).2.1 (by decide)⟩

/-- C4 (as stated) fails.  The two names `PIM_SOURCES` and `PIM_sources` give the
same settings key, and the one visited first wins: the two visiting orders of
this environment resolve to different `Sources`.  And of two settings entries
that `setConfigValue` rejects, the one visited first supplies the error.  The
lower-casing is that of every Unicode letter: `PIM_TARGETS_DIR` and
`PIM_TARGETS_DİR` (capital I with dot) both give the key `targets_dir`, and
again the one visited first wins. -/
theorem NewConfig_order_dependent :
    List.Perm [("PIM_SOURCES", "/a"), ("PIM_sources", "/b")]
      [("PIM_sources", "/b"), ("PIM_SOURCES", "/a")]
    ∧ (NewConfig emptyWorld [] [("PIM_SOURCES", "/a"), ("PIM_sources", "/b")]
        [("sources", "/a")]).2 = none
    ∧ (NewConfig emptyWorld [] [("PIM_SOURCES", "/a"), ("PIM_sources", "/b")]
        [("sources", "/a")]).1.Sources = "/a"
    ∧ (NewConfig emptyWorld [] [("PIM_sources", "/b"), ("PIM_SOURCES", "/a")]
        [("sources", "/b")]).2 = none
    ∧ (NewConfig emptyWorld [] [("PIM_sources", "/b"), ("PIM_SOURCES", "/a")]
        [("sources", "/b")]).1.Sources = "/b"
    ∧ (NewConfig emptyWorld [("debug", "x"), ("export_first", "y")] []
        [("debug", "x"), ("export_first", "y")]).2
      ≠ (NewConfig emptyWorld [("debug", "x"), ("export_first", "y")] []
        [("export_first", "y"), ("debug", "x")]).2
    ∧ (NewConfig emptyWorld [] [("PIM_TARGETS_DIR", "/t"), ("PIM_TARGETS_DİR", "/i")]
        [("targets_dir", "/t")]) = ({ DefaultConfig with
          Flags := [("targets_dir", "/t")], ExportTypes := [("file_sd", true)],
          TargetsDir := "/t" }, none)
    ∧ (NewConfig emptyWorld [] [("PIM_TARGETS_DİR", "/i"), ("PIM_TARGETS_DIR", "/t")]
        [("targets_dir", "/i")]) = ({ DefaultConfig with
          Flags := [("targets_dir", "/i")], ExportTypes := [("file_sd", true)],
          TargetsDir := "/i" }, none) := by
  decide

/-! ## A configuration file that cannot be used -/

theorem store_empty (c : Config) : ({} : FileDoc).store c = c := rfl

theorem parseConfigFile_store (c : Config) (w : World) (file : String) :
    ∃ d : FileDoc, (c.parseConfigFile w file).1 = d.store c := by
  unfold Config.parseConfigFile
  split_ifs with h1 h2 h3
  · exact ⟨{}, rfl⟩
  · cases w.tester file with
    | some e => exact ⟨{}, rfl⟩
    | none =>
      simp only []
      unfold ReadYAML
      cases ReadFile w file with
      | error e => exact ⟨{}, rfl⟩
      | ok data => exact ⟨_, rfl⟩
  · cases w.tester file with
    | some e => exact ⟨{}, rfl⟩
    | none =>
      simp only []
      unfold ReadJSON
      cases ReadFile w file with
      | error e => exact ⟨{}, rfl⟩
      | ok data => exact ⟨_, rfl⟩
  · cases w.tester file with
    | some e => exact ⟨{}, rfl⟩
    | none => exact ⟨{}, rfl⟩

theorem parseConfigFile_error_atomic (c : Config) (w : World) (file : String)
    (hyaml : ∀ data, w.tester file = none → (Ext file = ".yml" ∨ Ext file = ".yaml") →
      ReadFile w file = .ok data → (w.yamlUnmarshal data).2 ≠ none →
      (w.yamlUnmarshal data).1 = {})
    (hjson : ∀ data, w.tester file = none → Ext file = ".json" →
      ReadFile w file = .ok data → (w.jsonUnmarshal data).2 ≠ none →
      (w.jsonUnmarshal data).1 = {})
    (herr : (c.parseConfigFile w file).2 ≠ none) : (c.parseConfigFile w file).1 = c := by
  unfold Config.parseConfigFile at herr ⊢
  split_ifs at herr ⊢ with h1 h2 h3
  · rfl
  · cases ht : w.tester file with
    | some e => rfl
    | none =>
      rw [ht] at herr
      simp only [] at herr ⊢
      unfold ReadYAML at herr ⊢
      cases hr : ReadFile w file with
      | error e => rfl
      | ok data =>
        rw [hr] at herr
        simp only [] at herr ⊢
        rw [hyaml data ht h2 hr herr]
        rfl
  · cases ht : w.tester file with
    | some e => rfl
    | none =>
      rw [ht] at herr
      simp only [] at herr ⊢
      unfold ReadJSON at herr ⊢
      cases hr : ReadFile w file with
      | error e => rfl
      | ok data =>
        rw [hr] at herr
        simp only [] at herr ⊢
        rw [hjson data ht h3 hr herr]
        rfl
  · cases w.tester file <;> rfl

theorem startConfig_congr (m1 m2 : Flags)
    (h1 : m1.lookup "config_file" = m2.lookup "config_file")
    (h2 : m1.lookup "debug" = m2.lookup "debug") : startConfig m1 = startConfig m2 := by
  unfold startConfig
  rw [h1, h2]

theorem startConfig_eq (merged : Flags) :
    startConfig merged
      = { DefaultConfig with
          ConfigFile := (merged.lookup "config_file").getD DefaultConfigFile
          Debug := (match merged.lookup "debug" with
            | some v => (match ParseBool v with
              | .ok b => b
              | .error _ => false)
            | none => false) } := by
  obtain ⟨s1, s2, s3, s4, s5, s6, s7, s8, s9, s10, s11, s12, s13, s14, s15⟩ :=
    startConfig_fields merged
  exact Config.ext s15 s1 s2 s3 s4 s5 s6 s7 s8 s9 s10 s11 s12 s13 s14

theorem parseConfigFile_before_decoding (c : Config) (w : World) (file : String)
    (h : file = "" ∨ (∃ e, w.tester file = some e) ∨ (∃ e, ReadFile w file = .error e)
      ∨ (Ext file ≠ ".yml" ∧ Ext file ≠ ".yaml" ∧ Ext file ≠ ".json")) :
    (c.parseConfigFile w file).1 = c := by
  unfold Config.parseConfigFile
  by_cases h0 : file = ""
  · rw [if_pos h0]
  · rw [if_neg h0]
    cases ht : w.tester file with
    | some e => rfl
    | none =>
      simp only []
      rcases h with h | ⟨e, h⟩ | ⟨e, h⟩ | ⟨h1, h2, h3⟩
      · exact absurd h h0
      · rw [ht] at h
        cases h
      · split_ifs
        · unfold ReadYAML
          rw [h]
        · unfold ReadJSON
          rw [h]
        · rfl
      · rw [if_neg (by rintro (x | x); exact h1 x; exact h2 x), if_neg h3]

theorem parseConfigFile_yaml (c : Config) (w : World) (file data : String)
    (ht : w.tester file = none) (hext : Ext file = ".yml" ∨ Ext file = ".yaml")
    (hr : ReadFile w file = .ok data) :
    c.parseConfigFile w file = ((w.yamlUnmarshal data).1.store c, (w.yamlUnmarshal data).2) := by
  have h0 : file ≠ "" := by
    intro h
    rw [h] at hext
    revert hext
    decide
  unfold Config.parseConfigFile
  rw [if_neg h0, ht]
  simp only []
  rw [if_pos hext]
  unfold ReadYAML
  rw [hr]

theorem parseConfigFile_json (c : Config) (w : World) (file data : String)
    (ht : w.tester file = none) (hext : Ext file = ".json")
    (hr : ReadFile w file = .ok data) :
    c.parseConfigFile w file = ((w.jsonUnmarshal data).1.store c, (w.jsonUnmarshal data).2) := by
  have h0 : file ≠ "" := by
    intro h
    rw [h] at hext
    revert hext
    decide
  have hy : ¬ (Ext file = ".yml" ∨ Ext file = ".yaml") := by
    rw [hext]
    decide
  unfold Config.parseConfigFile
  rw [if_neg h0, ht]
  simp only []
  rw [if_neg hy, if_pos hext]
  unfold ReadJSON
  rw [hr]

/-- C6 (amended): when the configuration file stage fails with an error other than
not-exist, `NewConfig` returns that error and the configuration as the failed
stage left it.  Let `start` be the defaults changed by `config_file` and
`debug`.  When the stage fails before decoding (empty path, file not readable,
failed read, unknown extension) the configuration is `start`.  When the decoder
fails, the error is the decoder's and the configuration is `start` with
exactly the fields this decoder stored for the bytes of the file, every other
field as in `start`; a decoder that stored nothing leaves `start`, with
`ExportTypes` and `Flags` empty.  No entry of the settings map other than
`config_file` and `debug` has any effect (two calls whose merged maps agree on
these two keys return the same), the export types are not processed (the raw
list is not moved into `ExportTypes`, no default is inserted) and `Flags` is
not assigned the merged map. -/
theorem NewConfig_fatal_file_error (w : World) (flags env visit : Flags) (err : Error)
    (hp : ((startConfig (parseEnvVars w.envPrefix flags env)).parseConfigFile w
        (startConfig (parseEnvVars w.envPrefix flags env)).ConfigFile).2 = some err)
    (hIs : err.Is ErrNotExist = false) :
    let merged := parseEnvVars w.envPrefix flags env
    let file := (merged.lookup "config_file").getD DefaultConfigFile
    let start : Config :=
      { DefaultConfig with
        ConfigFile := file
        Debug := (match merged.lookup "debug" with
          | some v => (match ParseBool v with
            | .ok b => b
            | .error _ => false)
          | none => false) }
    let c := (NewConfig w flags env visit).1
    (NewConfig w flags env visit).2 = some err
    ∧ ((file = "" ∨ (∃ e, w.tester file = some e) ∨ (∃ e, ReadFile w file = .error e)
          ∨ (Ext file ≠ ".yml" ∧ Ext file ≠ ".yaml" ∧ Ext file ≠ ".json")) → c = start)
    ∧ (∀ data, w.tester file = none → (Ext file = ".yml" ∨ Ext file = ".yaml") →
        ReadFile w file = .ok data →
        (w.yamlUnmarshal data).2 = some err ∧ c = (w.yamlUnmarshal data).1.store start)
    ∧ (∀ data, w.tester file = none → Ext file = ".json" → ReadFile w file = .ok data →
        (w.jsonUnmarshal data).2 = some err ∧ c = (w.jsonUnmarshal data).1.store start)
    ∧ (∀ d : FileDoc, c = d.store start →
        c.RawExportTypes = d.RawExportTypes.getD []
        ∧ (d.ExportTypes = none → c.ExportTypes = [])
        ∧ (d.Flags = none → c.Flags = [])
        ∧ (d = {} → c = start))
    ∧ (∀ flags2 env2 visit2 : Flags,
        (parseEnvVars w.envPrefix flags2 env2).lookup "config_file"
          = merged.lookup "config_file" →
        (parseEnvVars w.envPrefix flags2 env2).lookup "debug" = merged.lookup "debug" →
        NewConfig w flags2 env2 visit2 = NewConfig w flags env visit)
    ∧ ((∀ data, w.tester file = none → (Ext file = ".yml" ∨ Ext file = ".yaml") →
          ReadFile w file = .ok data → (w.yamlUnmarshal data).2 ≠ none →
          (w.yamlUnmarshal data).1 = {}) →
        (∀ data, w.tester file = none → Ext file = ".json" →
          ReadFile w file = .ok data → (w.jsonUnmarshal data).2 ≠ none →
          (w.jsonUnmarshal data).1 = {}) →
        c = start ∧ c.ExportTypes = [] ∧ c.Flags = []) := by
  intro merged file start c
  have hN := NewConfig_of_fatal w flags env visit err hp hIs
  have hstart : startConfig merged = start := startConfig_eq merged
  have hfile : (startConfig merged).ConfigFile = file := by rw [hstart]
  have hc : c = (start.parseConfigFile w file).1 := by
    show (NewConfig w flags env visit).1 = _
    rw [hN]
    show ((startConfig merged).parseConfigFile w (startConfig merged).ConfigFile).1 = _
    rw [hfile, hstart]
  have hp2 : (start.parseConfigFile w file).2 = some err := by
    have := hp
    change ((startConfig merged).parseConfigFile w (startConfig merged).ConfigFile).2 = _
      at this
    rw [hfile, hstart] at this
    exact this
  refine ⟨by rw [hN], ?_, ?_, ?_, ?_, ?_, ?_⟩
  · intro h
    rw [hc]
    exact parseConfigFile_before_decoding start w file h
  · intro data ht hext hr
    rw [parseConfigFile_yaml start w file data ht hext hr] at hp2
    rw [hc, parseConfigFile_yaml start w file data ht hext hr]
    exact ⟨hp2, rfl⟩
  · intro data ht hext hr
    rw [parseConfigFile_json start w file data ht hext hr] at hp2
    rw [hc, parseConfigFile_json start w file data ht hext hr]
    exact ⟨hp2, rfl⟩
  · intro d hd
    refine ⟨by rw [hd]; rfl, ?_, ?_, ?_⟩
    · intro h
      rw [hd]
      show (match d.ExportTypes with
        | some m => mapMerge start.ExportTypes m
        | none => start.ExportTypes) = []
      rw [h]
      rfl
    · intro h
      rw [hd]
      show (match d.Flags with
        | some m => mapMerge start.Flags m
        | none => start.Flags) = []
      rw [h]
      rfl
    · intro h
      rw [hd, h]
      rfl
  · intro flags2 env2 visit2 h1 h2
    have hs2 : startConfig (parseEnvVars w.envPrefix flags2 env2) = startConfig merged :=
      startConfig_congr _ _ h1 h2
    have hp3 : ((startConfig (parseEnvVars w.envPrefix flags2 env2)).parseConfigFile w
        (startConfig (parseEnvVars w.envPrefix flags2 env2)).ConfigFile).2 = some err := by
      rw [hs2]
      exact hp
    rw [NewConfig_of_fatal w flags2 env2 visit2 err hp3 hIs, hN, hs2]
  · intro hyaml hjson
    have hcs : c = start := by
      rw [hc]
      apply parseConfigFile_error_atomic _ w _ hyaml hjson (by rw [hp2]; simp)
    exact ⟨hcs, by rw [hcs]; rfl, by rw [hcs]; rfl⟩

theorem NewConfig_fatal_file_error_witness :
    ((NewConfig (oneFileWorld "/etc/pim/pim.yml" "sources: /x\nhttp_shutdown_timeout: abc\n"
        { Sources := some "/x" }
        (some (.plain "yaml: unmarshal errors: line 2: cannot unmarshal !!str abc into int")))
        [("debug", "true"), ("sources", "/s")] [] [("debug", "true"), ("sources", "/s")]).2
      = some (.plain "yaml: unmarshal errors: line 2: cannot unmarshal !!str abc into int")
    ∧ (NewConfig (oneFileWorld "/etc/pim/pim.yml" "sources: /x\nhttp_shutdown_timeout: abc\n"
        { Sources := some "/x" }
        (some (.plain "yaml: unmarshal errors: line 2: cannot unmarshal !!str abc into int")))
        [("debug", "true"), ("sources", "/s")] [] [("debug", "true"), ("sources", "/s")]).1
      = { DefaultConfig with Debug := true, Sources := "/x" })
    ∧ (NewConfig (oneFileWorld "/tmp/pim.yml" "this is not a valid config" {}
        (some (.plain "yaml: unmarshal errors: cannot unmarshal !!str into core.Config")))
        [("config_file", "/tmp/pim.yml"), ("debug", "true")] []
        [("config_file", "/tmp/pim.yml"), ("debug", "true")]).1
      = { DefaultConfig with ConfigFile := "/tmp/pim.yml", Debug := true } :=
  have h := NewConfig_fatal_file_error
    (oneFileWorld "/etc/pim/pim.yml" "sources: /x\nhttp_shutdown_timeout: abc\n"
      { Sources := some "/x" }
      (some (.plain "yaml: unmarshal errors: line 2: cannot unmarshal !!str abc into int")))
    [("debug", "true"), ("sources", "/s")] [] [("debug", "true"), ("sources", "/s")]
    (.plain "yaml: unmarshal errors: line 2: cannot unmarshal !!str abc into int")
    (by decide) (by decide)
  have h2 := NewConfig_fatal_file_error
    (oneFileWorld "/tmp/pim.yml" "this is not a valid config" {}
      (some (.plain "yaml: unmarshal errors: cannot unmarshal !!str into core.Config")))
    [("config_file", "/tmp/pim.yml"), ("debug", "true")] []
    [("config_file", "/tmp/pim.yml"), ("debug", "true")]
    (.plain "yaml: unmarshal errors: cannot unmarshal !!str into core.Config")
    (by decide) (by decide)
  ⟨⟨h.1, (h.2.2.1 "sources: /x\nhttp_shutdown_timeout: abc\n" (by decide) (by decide)
      rfl).2.trans (by decide)⟩,
    ((h2.2.2.1 "this is not a valid config" (by decide) (by decide) rfl).2).trans (by decide)⟩

/-- C6 (as stated) fails.  The configuration file holds a usable `sources` entry and
an `http_shutdown_timeout` that is not an integer: the decoder stores `Sources`,
then reports the type error; `NewConfig` returns that error with a configuration
whose `Sources` is the value of the file, not the default, although the settings
map is empty. -/
theorem NewConfig_keeps_fields_of_failed_decode :
    (NewConfig (oneFileWorld "/etc/pim/pim.yml" "sources: /x\nhttp_shutdown_timeout: abc\n"
        { Sources := some "/x" }
        (some (.plain "yaml: unmarshal errors: line 2: cannot unmarshal !!str abc into int")))
        [] [] [])
      = ({ DefaultConfig with Sources := "/x" },
          some (.plain "yaml: unmarshal errors: line 2: cannot unmarshal !!str abc into int"))
    ∧ (Error.plain "yaml: unmarshal errors: line 2: cannot unmarshal !!str abc into int").Is
        ErrNotExist = false
    ∧ ({ DefaultConfig with Sources := "/x" } : Config) ≠ DefaultConfig := by
  decide

/-! ## Values that are not validated -/

/-- C7 (code): an export type that the configuration file names is not checked
against the allow-list.  With `export_types: [http]` in the file and an empty
settings map, `NewConfig` succeeds and `ExportTypes` holds `http`, which
`isValidExportTypes` rejects and `setConfigValue` refuses from a flag. -/
theorem NewConfig_export_type_of_file_unchecked :
    (NewConfig (oneFileWorld "/etc/pim/pim.yml" "export_types:\n  - http\n"
        { RawExportTypes := some ["http"] } none) [] [] [])
      = ({ DefaultConfig with ExportTypes := [("http", true)] }, none)
    ∧ isValidExportTypes "http" = false
    ∧ (DefaultConfig.setConfigValue "export_types" "http").2 ≠ none := by
  decide

/-- C8 (code): a targets extension that the configuration file names is not
validated.  With `targets_file_ext: .txt` in the file and an empty settings
map, `NewConfig` succeeds with `TargetsFileExt = ".txt"`, a value that
`validateTargetsFileExt` rejects and `setConfigValue` refuses from a flag. -/
theorem NewConfig_targets_ext_of_file_unchecked :
    (NewConfig (oneFileWorld "/etc/pim/pim.yml" "targets_file_ext: .txt\n"
        { TargetsFileExt := some ".txt" } none) [] [] [])
      = ({ DefaultConfig with TargetsFileExt := ".txt", ExportTypes := [("file_sd", true)] },
          none)
    ∧ ".txt" ∉ validTargetsExtensions
    ∧ validateTargetsFileExt ".txt" ≠ none
    ∧ (DefaultConfig.setConfigValue "targets_file_ext" ".txt").2 ≠ none := by
  decide

/-- C9 (code): the error of `setConfigValue` for an export type outside the
allow-list does not wrap `os.ErrInvalid`, unlike the errors for an unknown key,
a bad extension, a bad boolean and a bad integer. -/
theorem setConfigValue_export_types_error_not_invalid :
    (DefaultConfig.setConfigValue "export_types" "http").2
      = some (.plain "invalid export_types: http; must be one of: file_sd")
    ∧ (Error.plain "invalid export_types: http; must be one of: file_sd").Is ErrInvalid = false
    ∧ (∃ e, (DefaultConfig.setConfigValue "no_match" "value").2 = some e
        ∧ e.Is ErrInvalid = true)
    ∧ (∃ e, (DefaultConfig.setConfigValue "targets_file_ext" ".txt").2 = some e
        ∧ e.Is ErrInvalid = true)
    ∧ (∃ e, (DefaultConfig.setConfigValue "debug" "maybe").2 = some e
        ∧ e.Is ErrInvalid = true)
    ∧ (∃ e, (DefaultConfig.setConfigValue "http_shutdown_timeout" "soon").2 = some e
        ∧ e.Is ErrInvalid = true) := by
  refine ⟨by decide, by decide, ⟨_, rfl, by decide⟩, ⟨_, rfl, by decide⟩, ⟨_, rfl, by decide⟩,
    ⟨_, rfl, by decide⟩⟩

/-! ## Job fan-out -/

/-- C10 (code): `splitByJob` builds the key from the constant `_targets`, not from the
suffix of the configuration.  With the suffix set to the empty string (and
with `_sd_targets`), the entries of the job `node` are filed under
`node_targets.json`; no key `node.json` exists. -/
theorem splitByJob_ignores_configured_suffix :
    splitByJob [some { Jobs := ["node"], Labels := [("env", "prod")], Targets := ["n1:9100"] }]
        { DefaultConfig with TargetsFileSuffix := "" }
      = some [("node_targets.json",
          [some { Jobs := ["node"], Labels := [("env", "prod")], Targets := ["n1:9100"] }])]
    ∧ splitByJob [some { Jobs := ["node"], Labels := [("env", "prod")], Targets := ["n1:9100"] }]
        { DefaultConfig with TargetsFileSuffix := "_sd_targets" }
      = some [("node_targets.json",
          [some { Jobs := ["node"], Labels := [("env", "prod")], Targets := ["n1:9100"] }])]
    ∧ "node" ++ "" ++ DefaultConfig.TargetsFileExt = "node.json" := by
  decide

/-! ## Source locator -/

/-- C12: when `Sources` names an existing path that is not a directory, `findFiles`
returns the one-element list holding `Sources`, whatever the name of the file
and whatever the file system holds elsewhere (no other path is looked at). -/
theorem findFiles_of_file (fs : FileSys) (config : Config)
    (h : fs.stat config.Sources = .ok { IsDir := false }) :
    findFiles fs config = .ok [config.Sources] := by
  unfold findFiles
  rw [h]
  rfl

theorem findExact_first (fs : FileSys) (sources : String) (pre post : List String)
    (p : String) (info : FileInfo)
    (hpre : ∀ q ∈ pre, ∃ err, fs.stat (filepath.Join sources q) = .error err
      ∧ IsNotExist err = true)
    (hp : fs.stat (filepath.Join sources p) = .ok info) :
    findExact fs sources (pre ++ p :: post) = some (.ok [filepath.Join sources p]) := by
  induction pre with
  | nil =>
    simp only [List.nil_append, findExact]
    rw [hp]
  | cons q rest ih =>
    obtain ⟨err, he, hne⟩ := hpre q (List.mem_cons_self _ _)
    simp only [List.cons_append, findExact]
    rw [he]
    simp only [hne, if_true]
    exact ih (fun x hx => hpre x (List.mem_cons_of_mem _ hx))

/-- C13: when `Sources` is a directory, the exact names before `p` in the order
`targets.yml`, `targets.yaml`, `targets.json` do not exist and `p` exists,
`findFiles` returns the single path of `p` in the directory, whatever exists
under the later names and whatever the pattern search would find. -/
theorem findFiles_exact_name (fs : FileSys) (config : Config) (pre post : List String)
    (p : String) (info : FileInfo)
    (hdir : fs.stat config.Sources = .ok { IsDir := true })
    (hsplit : targetsSourceFiles = pre ++ p :: post)
    (hpre : ∀ q ∈ pre, ∃ err, fs.stat (filepath.Join config.Sources q) = .error err
      ∧ IsNotExist err = true)
    (hp : fs.stat (filepath.Join config.Sources p) = .ok info) :
    findFiles fs config = .ok [filepath.Join config.Sources p] := by
  unfold findFiles
  rw [hdir]
  simp only [Bool.true_eq_false, if_false]
  unfold findInDir
  rw [hsplit, findExact_first fs config.Sources pre post p info hpre hp]

theorem findFiles_of_file_witness :
    (tableFS ["/etc/pim"] [("/etc/pim/groups.txt", "[]")] [] []).stat "/etc/pim/groups.txt"
      = .ok { IsDir := false }
    ∧ findFiles (tableFS ["/etc/pim"] [("/etc/pim/groups.txt", "[]")] [] [])
        { DefaultConfig with Sources := "/etc/pim/groups.txt" }
      = .ok ["/etc/pim/groups.txt"] :=
  ⟨rfl, findFiles_of_file (tableFS ["/etc/pim"] [("/etc/pim/groups.txt", "[]")] [] [])
    { DefaultConfig with Sources := "/etc/pim/groups.txt" } rfl⟩

theorem findFiles_exact_name_witness :
    findFiles (tableFS ["/etc/pim/sources"]
        [("/etc/pim/sources/targets.yaml", ""), ("/etc/pim/sources/targets.json", ""),
          ("/etc/pim/sources/_targets.yml", "")] [] []) DefaultConfig
      = .ok ["/etc/pim/sources/targets.yaml"] :=
  findFiles_exact_name (tableFS ["/etc/pim/sources"]
      [("/etc/pim/sources/targets.yaml", ""), ("/etc/pim/sources/targets.json", ""),
        ("/etc/pim/sources/_targets.yml", "")] [] []) DefaultConfig
    ["targets.yml"] ["targets.json"] "targets.yaml" { IsDir := false } rfl rfl
    (by
      intro q hq
      have hq2 : q = "targets.yml" := by simpa using hq
      rw [hq2]
      exact ⟨_, rfl, by decide⟩)
    rfl

theorem findExact_ok_nonempty (fs : FileSys) (sources : String) (l files : List String)
    (h : findExact fs sources l = some (.ok files)) : files ≠ [] := by
  induction l with
  | nil => simp [findExact] at h
  | cons p rest ih =>
    unfold findExact at h
    cases hs : fs.stat (filepath.Join sources p) with
    | error err =>
      rw [hs] at h
      by_cases hne : IsNotExist err = true
      · simp only [hne, if_true] at h
        exact ih h
      · simp [hne] at h
    | ok info =>
      rw [hs] at h
      simp only [Option.some.injEq, Except.ok.injEq] at h
      rw [← h]
      simp

theorem findExact_none_iff (fs : FileSys) (sources : String) (l : List String)
    (h1 : ∀ p ∈ l, ∀ err, fs.stat (filepath.Join sources p) = .error err →
      IsNotExist err = true) :
    findExact fs sources l = none
      ↔ ∀ p ∈ l, ∀ info, fs.stat (filepath.Join sources p) ≠ .ok info := by
  induction l with
  | nil => simp [findExact]
  | cons p rest ih =>
    have ih2 := ih (fun q hq => h1 q (List.mem_cons_of_mem _ hq))
    unfold findExact
    cases hs : fs.stat (filepath.Join sources p) with
    | error err =>
      have hne := h1 p (List.mem_cons_self _ _) err hs
      simp only [hne, if_true]
      rw [ih2]
      constructor
      · intro h q hq info
        rcases List.mem_cons.1 hq with rfl | hq
        · rw [hs]; simp
        · exact h q hq info
      · intro h q hq info
        exact h q (List.mem_cons_of_mem _ hq) info
    | ok info =>
      simp only []
      constructor
      · intro h; simp at h
      · intro h
        exact absurd hs (h p (List.mem_cons_self _ _) info)

theorem findExact_no_error (fs : FileSys) (sources : String) (l : List String)
    (h1 : ∀ p ∈ l, ∀ err, fs.stat (filepath.Join sources p) = .error err →
      IsNotExist err = true) (err : Error) :
    findExact fs sources l ≠ some (.error err) := by
  induction l with
  | nil => simp [findExact]
  | cons p rest ih =>
    unfold findExact
    cases hs : fs.stat (filepath.Join sources p) with
    | error e =>
      have hne := h1 p (List.mem_cons_self _ _) e hs
      simp only [hne, if_true]
      exact ih (fun q hq => h1 q (List.mem_cons_of_mem _ hq))
    | ok info => simp

theorem findPattern_ok_nonempty (fs : FileSys) (sources : String) (l files : List String)
    (h : findPattern fs sources l = .ok files) : files ≠ [] := by
  induction l with
  | nil => simp [findPattern] at h
  | cons p rest ih =>
    unfold findPattern at h
    cases hg : filepath.Glob fs (filepath.Join sources ("_" ++ p)) with
    | error err => rw [hg] at h; simp at h
    | ok found =>
      rw [hg] at h
      simp only [] at h
      by_cases hl : found.length > 0
      · simp only [hl, if_true, Except.ok.injEq] at h
        rw [← h]
        intro hnil
        rw [hnil] at hl
        simp at hl
      · simp only [hl, if_false] at h
        exact ih h

theorem findPattern_error_iff (fs : FileSys) (sources : String) (l : List String)
    (h2 : ∀ p ∈ l, ∀ err, filepath.Glob fs (filepath.Join sources ("_" ++ p)) ≠ .error err) :
    ((∃ err, findPattern fs sources l = .error err)
      ↔ ∀ p ∈ l, filepath.Glob fs (filepath.Join sources ("_" ++ p)) = .ok [])
    ∧ (∀ err, findPattern fs sources l = .error err → err = ErrNotExist) := by
  induction l with
  | nil => simp [findPattern]
  | cons p rest ih =>
    obtain ⟨ih1, ih2⟩ := ih (fun q hq => h2 q (List.mem_cons_of_mem _ hq))
    unfold findPattern
    cases hg : filepath.Glob fs (filepath.Join sources ("_" ++ p)) with
    | error err => exact absurd hg (h2 p (List.mem_cons_self _ _) err)
    | ok found =>
      simp only []
      by_cases hl : found.length > 0
      · simp only [hl, if_true]
        refine ⟨⟨fun ⟨e, he⟩ => by simp at he, fun h => ?_⟩, fun e he => by simp at he⟩
        have := h p (List.mem_cons_self _ _)
        rw [hg] at this
        simp only [Except.ok.injEq] at this
        rw [this] at hl
        simp at hl
      · simp only [hl, if_false]
        have hnil : found = [] := by
          cases found with
          | nil => rfl
          | cons a b => simp at hl
        refine ⟨?_, ih2⟩
        rw [ih1]
        constructor
        · intro h q hq
          rcases List.mem_cons.1 hq with rfl | hq
          · rw [hg, hnil]
          · exact h q hq
        · intro h q hq
          exact h q (List.mem_cons_of_mem _ hq)

theorem findInDir_ok_nonempty (fs : FileSys) (sources : String) (files : List String)
    (h : findInDir fs sources = .ok files) : files ≠ [] := by
  unfold findInDir at h
  cases he : findExact fs sources targetsSourceFiles with
  | none =>
    rw [he] at h
    exact findPattern_ok_nonempty fs sources _ files h
  | some r =>
    rw [he] at h
    simp only [] at h
    rw [h] at he
    exact findExact_ok_nonempty fs sources _ files he

theorem findInDir_error_iff (fs : FileSys) (sources : String)
    (h1 : ∀ p ∈ targetsSourceFiles, ∀ err, fs.stat (filepath.Join sources p) = .error err →
      IsNotExist err = true)
    (h2 : ∀ p ∈ targetsSourceFiles, ∀ err,
      filepath.Glob fs (filepath.Join sources ("_" ++ p)) ≠ .error err) :
    ((∃ err, findInDir fs sources = .error err)
      ↔ (∀ p ∈ targetsSourceFiles, ∀ info, fs.stat (filepath.Join sources p) ≠ .ok info)
        ∧ ∀ p ∈ targetsSourceFiles,
          filepath.Glob fs (filepath.Join sources ("_" ++ p)) = .ok [])
    ∧ (∀ err, findInDir fs sources = .error err → err = ErrNotExist) := by
  obtain ⟨hp1, hp2⟩ := findPattern_error_iff fs sources targetsSourceFiles h2
  have hn := findExact_none_iff fs sources targetsSourceFiles h1
  unfold findInDir
  cases he : findExact fs sources targetsSourceFiles with
  | none =>
    simp only []
    refine ⟨?_, hp2⟩
    rw [hp1]
    constructor
    · intro h; exact ⟨hn.1 he, h⟩
    · intro h; exact h.2
  | some r =>
    simp only []
    cases r with
    | error err => exact absurd he (findExact_no_error fs sources _ h1 err)
    | ok files =>
      refine ⟨⟨fun ⟨e, h⟩ => by simp at h, fun h => ?_⟩, fun e h => by simp at h⟩
      have := hn.2 h.1
      rw [he] at this
      simp at this

/-- C15 (amended): provided no `stat` call fails for a reason other than not-exist and
no pattern search fails, `findFiles` fails exactly when `stat` does not report
`Sources` as an existing non-directory, none of the three exact names exists
under it and none of the three pattern searches finds a path; the error is
then `os.ErrNotExist`.  A `stat` of `Sources` that fails for another reason
gives an error that wraps this cause and not `os.ErrNotExist`.  On success the
list returned is never empty. -/
theorem findFiles_not_found (fs : FileSys) (config : Config) :
    ((∀ err, fs.stat config.Sources = .error err → IsNotExist err = true) →
      (∀ p ∈ targetsSourceFiles, ∀ err,
        fs.stat (filepath.Join config.Sources p) = .error err → IsNotExist err = true) →
      (∀ p ∈ targetsSourceFiles, ∀ err,
        filepath.Glob fs (filepath.Join config.Sources ("_" ++ p)) ≠ .error err) →
      ((∃ err, findFiles fs config = .error err ∧ err.Is ErrNotExist = true)
        ↔ (fs.stat config.Sources ≠ .ok { IsDir := false }
          ∧ (∀ p ∈ targetsSourceFiles, ∀ info,
              fs.stat (filepath.Join config.Sources p) ≠ .ok info)
          ∧ ∀ p ∈ targetsSourceFiles,
              filepath.Glob fs (filepath.Join config.Sources ("_" ++ p)) = .ok []))
      ∧ (∀ err, findFiles fs config = .error err → err = ErrNotExist))
    ∧ (∀ err, fs.stat config.Sources = .error err → IsNotExist err = false →
        findFiles fs config = .error
            (.wrap ("error reading source file " ++ config.Sources ++ ": " ++ err.message) err)
          ∧ (Error.wrap ("error reading source file " ++ config.Sources ++ ": "
              ++ err.message) err).Is ErrNotExist = false)
    ∧ (∀ files, findFiles fs config = .ok files → files ≠ []) := by
  refine ⟨?_, ?_, ?_⟩
  · intro h0 h1 h2
    obtain ⟨hd1, hd2⟩ := findInDir_error_iff fs config.Sources h1 h2
    have key : findFiles fs config = .ok [config.Sources]
          ∧ fs.stat config.Sources = .ok { IsDir := false }
        ∨ findFiles fs config = findInDir fs config.Sources
          ∧ fs.stat config.Sources ≠ .ok { IsDir := false } := by
      unfold findFiles
      cases hs : fs.stat config.Sources with
      | error err =>
        right
        simp [h0 err hs]
      | ok info =>
        cases info with
        | mk d =>
          cases d with
          | true => right; simp
          | false => left; simp
    rcases key with ⟨hf, hs⟩ | ⟨hf, hs⟩
    · rw [hf]
      refine ⟨⟨fun ⟨e, h, _⟩ => by simp at h, fun h => absurd hs h.1⟩, fun e h => by simp at h⟩
    · rw [hf]
      refine ⟨⟨fun ⟨e, h, _⟩ => ⟨hs, hd1.1 ⟨e, h⟩⟩, fun h => ?_⟩, hd2⟩
      obtain ⟨e, he⟩ := hd1.2 h.2
      refine ⟨e, he, ?_⟩
      rw [hd2 e he]
      decide
  · intro err hs hne
    constructor
    · unfold findFiles
      rw [hs]
      simp only [hne, if_true]
    · unfold IsNotExist at hne
      have hd : decide (Error.wrap ("error reading source file " ++ config.Sources ++ ": "
          ++ err.message) err = ErrNotExist) = false := by
        simp [ErrNotExist]
      simp only [Error.Is, hd, hne, Bool.or_false]
  · intro files h
    unfold findFiles at h
    cases hs : fs.stat config.Sources with
    | error err =>
      rw [hs] at h
      by_cases hne : IsNotExist err = false
      · simp [hne] at h
      · simp only [hne, if_false] at h
        exact findInDir_ok_nonempty fs _ files h
    | ok info =>
      rw [hs] at h
      simp only [] at h
      by_cases hd : info.IsDir = false
      · simp only [hd, if_true, Except.ok.injEq] at h
        rw [← h]
        simp
      · simp only [hd, if_false] at h
        exact findInDir_ok_nonempty fs _ files h

theorem tableFS_stat_error (dirs : List String) (files : List (String × String))
    (decoded : List (String × TargetGroups)) (encoded : List (TargetGroups × String))
    (p : String) (err : Error) (h : (tableFS dirs files decoded encoded).stat p = .error err) :
    IsNotExist err = true := by
  simp only [tableFS] at h
  split_ifs at h
  simp only [Except.error.injEq] at h
  rw [← h]
  simp [IsNotExist, Error.Is, ErrNotExist]

theorem tableFS_glob_no_error (dirs : List String) (files : List (String × String))
    (decoded : List (String × TargetGroups)) (encoded : List (TargetGroups × String))
    (pattern : String) (err : Error) :
    filepath.Glob (tableFS dirs files decoded encoded) pattern ≠ .error err := by
  unfold filepath.Glob
  split_ifs
  · cases (tableFS dirs files decoded encoded).lstat pattern <;> simp
  · simp [tableFS]

theorem tableFS_stat_ok (dirs : List String) (files : List (String × String))
    (decoded : List (String × TargetGroups)) (encoded : List (TargetGroups × String))
    (p : String) (info : FileInfo) (h : (tableFS dirs files decoded encoded).stat p = .ok info) :
    p ∈ dirs ∨ (files.lookup p).isSome = true := by
  simp only [tableFS] at h
  split_ifs at h with h1 h2
  · exact Or.inl h1
  · exact Or.inr h2

theorem findFiles_not_found_witness :
    (∃ err, findFiles (tableFS ["/tmp/sources"] [] [] [])
        { DefaultConfig with Sources := "/tmp/sources" } = .error err
      ∧ err.Is ErrNotExist = true)
    ∧ findFiles (tableFS ["/tmp/sources"] [] [] [])
        { DefaultConfig with Sources := "/tmp/sources" } = .error ErrNotExist :=
  have h := (findFiles_not_found (tableFS ["/tmp/sources"] [] [] [])
      { DefaultConfig with Sources := "/tmp/sources" }).1
    (fun err he => tableFS_stat_error _ _ _ _ _ err he)
    (fun _ _ err he => tableFS_stat_error _ _ _ _ _ err he)
    (fun _ _ err => tableFS_glob_no_error _ _ _ _ _ err)
  ⟨h.1.2 ⟨by decide, by
      intro p hp info hs
      have hp2 : p = "targets.yml" ∨ p = "targets.yaml" ∨ p = "targets.json" := by
        simpa [targetsSourceFiles] using hp
      have hin := tableFS_stat_ok _ _ _ _ _ info hs
      rcases hp2 with e | e | e <;> rw [e] at hin <;> revert hin <;> decide, by
      intro p hp
      have hp2 : p = "targets.yml" ∨ p = "targets.yaml" ∨ p = "targets.json" := by
        simpa [targetsSourceFiles] using hp
      rcases hp2 with e | e | e <;> rw [e] <;> rfl⟩, rfl⟩

/-- C15 (as stated) fails.  `/etc/passwd` is a regular file, so the path
`/etc/passwd/sources` does not exist at all; `stat` reports `ENOTDIR` for it,
which is not a not-exist error, and `findFiles` returns an error that wraps
this cause and does not wrap `os.ErrNotExist`. -/
theorem findFiles_missing_path_not_wrapped :
    (underFileFS "/etc/passwd").stat "/etc/passwd/sources"
      = .error (.wrap "stat /etc/passwd/sources: not a directory" (.sentinel "not a directory"))
    ∧ findFiles (underFileFS "/etc/passwd") { DefaultConfig with Sources := "/etc/passwd/sources" }
      = .error (.wrap
          "error reading source file /etc/passwd/sources: stat /etc/passwd/sources: not a directory"
          (.wrap "stat /etc/passwd/sources: not a directory" (.sentinel "not a directory")))
    ∧ (Error.wrap
          "error reading source file /etc/passwd/sources: stat /etc/passwd/sources: not a directory"
          (.wrap "stat /etc/passwd/sources: not a directory"
            (.sentinel "not a directory"))).Is ErrNotExist = false :=
  ⟨rfl, rfl, by decide⟩

/-! ## Source reader -/

theorem readSourcesLoop_ok (fs : FileSys) (g : String → TargetGroups) (files : List String)
    (acc : TargetGroups) (h : ∀ f ∈ files, readSource fs f = .ok (g f)) :
    readSourcesLoop fs files acc = .ok (acc ++ files.flatMap g) := by
  induction files generalizing acc with
  | nil => simp [readSourcesLoop]
  | cons f rest ih =>
    unfold readSourcesLoop
    rw [h f (List.mem_cons_self _ _)]
    simp only []
    rw [ih _ (fun x hx => h x (List.mem_cons_of_mem _ hx))]
    simp [List.append_assoc]

theorem readSourcesLoop_error (fs : FileSys) (g : String → TargetGroups)
    (pre post : List String) (f : String) (err : Error) (acc : TargetGroups)
    (hpre : ∀ p ∈ pre, readSource fs p = .ok (g p)) (hf : readSource fs f = .error err) :
    readSourcesLoop fs (pre ++ f :: post) acc = .error err := by
  induction pre generalizing acc with
  | nil =>
    simp only [List.nil_append, readSourcesLoop]
    rw [hf]
  | cons p rest ih =>
    simp only [List.cons_append, readSourcesLoop]
    rw [hpre p (List.mem_cons_self _ _)]
    exact ih _ (fun x hx => hpre x (List.mem_cons_of_mem _ hx))

theorem readSource_decoded (fs : FileSys) (f data : String) (t : TargetGroups)
    (hr : fs.readFile f = .ok data)
    (hd : (HasSuffix f DefaultJSONFileExt = true ∧ fs.jsonUnmarshal data = .ok t)
      ∨ (HasSuffix f DefaultJSONFileExt = false
        ∧ (HasSuffix f DefaultYAMLFileExt = true ∨ HasSuffix f "yaml" = true)
        ∧ fs.yamlUnmarshal data = .ok t)) :
    readSource fs f = .ok t := by
  unfold readSource
  rw [hr]
  simp only []
  rcases hd with ⟨hj, hd⟩ | ⟨hj, hy, hd⟩
  · rw [if_pos hj, hd]
  · rw [if_neg (by rw [hj]; decide), if_pos hy, hd]

theorem readSource_failed (fs : FileSys) (f : String) (err : Error)
    (h : fs.readFile f = .error err
      ∨ ∃ data, fs.readFile f = .ok data
        ∧ ((HasSuffix f DefaultJSONFileExt = true ∧ fs.jsonUnmarshal data = .error err)
          ∨ (HasSuffix f DefaultJSONFileExt = false
            ∧ (HasSuffix f DefaultYAMLFileExt = true ∨ HasSuffix f "yaml" = true)
            ∧ fs.yamlUnmarshal data = .error err)
          ∨ (HasSuffix f DefaultJSONFileExt = false ∧ HasSuffix f DefaultYAMLFileExt = false
            ∧ HasSuffix f "yaml" = false
            ∧ err = .wrap (ErrInvalid.message ++ ": unknown file extension for file: " ++ f)
                ErrInvalid))) :
    readSource fs f = .error err := by
  unfold readSource
  rcases h with hr | ⟨data, hr, hd⟩
  · rw [hr]
  · rw [hr]
    simp only []
    rcases hd with ⟨hj, hd⟩ | ⟨hj, hy, hd⟩ | ⟨hj, hy1, hy2, he⟩
    · rw [if_pos hj, hd]
    · rw [if_neg (by rw [hj]; decide), if_pos hy, hd]
    · rw [if_neg (by rw [hj]; decide), if_neg (by rw [hy1, hy2]; decide), he]

theorem readSourcesLoop_stops (fs : FileSys) (pre post : List String) (f : String)
    (err : Error) (acc : TargetGroups) (hf : readSource fs f = .error err) :
    ∃ e, readSourcesLoop fs (pre ++ f :: post) acc = .error e := by
  induction pre generalizing acc with
  | nil =>
    refine ⟨err, ?_⟩
    simp only [List.nil_append, readSourcesLoop]
    rw [hf]
  | cons p rest ih =>
    simp only [List.cons_append, readSourcesLoop]
    cases readSource fs p with
    | error e => exact ⟨e, rfl⟩
    | ok t => exact ih _

/-- C16: in terms of the file system alone.  When every path is read (`data f` are
the bytes of `f`) and the decoder chosen by the ending of its name (`.json`:
the JSON decoder; otherwise `.yml` or `yaml`: the YAML decoder) gives the
groups `g f`, and the files hold at least one group together, `readSources`
returns the groups of the files one after the other, in the order of the paths
and of each file.  When a path `f` cannot be read, or its decoder reports an
error, or its name has none of the endings, `readSources` returns an error and
no collection whatever the other paths are; and when the paths before `f` read
and decode, the error is that of `f`: the error of the read, the error of the
decoder, or the error wrapping `os.ErrInvalid` that names the file. -/
theorem readSources_concat (fs : FileSys) :
    (∀ (files : List String) (data : String → String) (g : String → TargetGroups),
      (∀ f ∈ files, fs.readFile f = .ok (data f)
        ∧ ((HasSuffix f DefaultJSONFileExt = true ∧ fs.jsonUnmarshal (data f) = .ok (g f))
          ∨ (HasSuffix f DefaultJSONFileExt = false
            ∧ (HasSuffix f DefaultYAMLFileExt = true ∨ HasSuffix f "yaml" = true)
            ∧ fs.yamlUnmarshal (data f) = .ok (g f)))) →
      files.flatMap g ≠ [] → readSources fs files = .ok (files.flatMap g))
    ∧ (∀ (pre post : List String) (f : String) (err : Error),
      (fs.readFile f = .error err
        ∨ ∃ data, fs.readFile f = .ok data
          ∧ ((HasSuffix f DefaultJSONFileExt = true ∧ fs.jsonUnmarshal data = .error err)
            ∨ (HasSuffix f DefaultJSONFileExt = false
              ∧ (HasSuffix f DefaultYAMLFileExt = true ∨ HasSuffix f "yaml" = true)
              ∧ fs.yamlUnmarshal data = .error err)
            ∨ (HasSuffix f DefaultJSONFileExt = false ∧ HasSuffix f DefaultYAMLFileExt = false
              ∧ HasSuffix f "yaml" = false
              ∧ err = .wrap (ErrInvalid.message ++ ": unknown file extension for file: " ++ f)
                  ErrInvalid))) →
      (∃ e, readSources fs (pre ++ f :: post) = .error e)
      ∧ ((∀ p ∈ pre, ∃ data t, fs.readFile p = .ok data
            ∧ ((HasSuffix p DefaultJSONFileExt = true ∧ fs.jsonUnmarshal data = .ok t)
              ∨ (HasSuffix p DefaultJSONFileExt = false
                ∧ (HasSuffix p DefaultYAMLFileExt = true ∨ HasSuffix p "yaml" = true)
                ∧ fs.yamlUnmarshal data = .ok t))) →
          readSources fs (pre ++ f :: post) = .error err)) := by
  constructor
  · intro files data g h hne
    have hsrc : ∀ f ∈ files, readSource fs f = .ok (g f) := fun f hf =>
      readSource_decoded fs f (data f) (g f) (h f hf).1 (h f hf).2
    unfold readSources
    rw [readSourcesLoop_ok fs g files [] hsrc]
    simp only [List.nil_append]
    have hlen : (files.flatMap g).length ≠ 0 := fun h0 => hne (List.length_eq_zero.1 h0)
    show (if (files.flatMap g).length = 0 then _ else _) = _
    rw [if_neg hlen]
  · intro pre post f err hfail
    have hf := readSource_failed fs f err hfail
    constructor
    · obtain ⟨e, he⟩ := readSourcesLoop_stops fs pre post f err [] hf
      refine ⟨e, ?_⟩
      unfold readSources
      rw [he]
    · intro hpre
      have hg : ∀ p ∈ pre, ∃ t, readSource fs p = .ok t := by
        intro p hp
        obtain ⟨data, t, hr, hd⟩ := hpre p hp
        exact ⟨t, readSource_decoded fs p data t hr hd⟩
      have hg2 : ∀ p ∈ pre, readSource fs p
          = .ok (match readSource fs p with
            | .ok t => t
            | .error _ => []) := by
        intro p hp
        obtain ⟨t, ht⟩ := hg p hp
        rw [ht]
      unfold readSources
      rw [readSourcesLoop_error fs _ pre post f err [] hg2 hf]

/-- C17: when every path reads and decodes and no file holds a group (this includes
the empty list of paths), `readSources` returns no collection and the
`no content` error, which wraps neither `os.ErrNotExist` nor `os.ErrInvalid`. -/
theorem readSources_no_content (fs : FileSys) (files : List String)
    (h : ∀ f ∈ files, readSource fs f = .ok []) :
    readSources fs files = .error (.plain "no content found in targets source file")
    ∧ (Error.plain "no content found in targets source file").Is ErrNotExist = false
    ∧ (Error.plain "no content found in targets source file").Is ErrInvalid = false := by
  refine ⟨?_, by decide, by decide⟩
  unfold readSources
  have hnil : files.flatMap (fun _ => ([] : TargetGroups)) = [] := by
    induction files with
    | nil => rfl
    | cons f rest ih =>
      rw [List.flatMap_cons, ih (fun x hx => h x (List.mem_cons_of_mem _ hx))]
      rfl
  rw [readSourcesLoop_ok fs (fun _ => []) files [] h, hnil]
  rfl

theorem readSources_concat_witness :
    readSources (tableFS [] [("/src/a_targets.yml", "A"), ("/src/b_targets.json", "B")]
        [("A", [some { Jobs := ["a"], Labels := [], Targets := ["a1"] }]),
          ("B", [some { Jobs := ["b"], Labels := [], Targets := ["b1"] },
            some { Jobs := ["c"], Labels := [], Targets := ["c1"] }])] [])
        ["/src/b_targets.json", "/src/a_targets.yml"]
      = .ok [some { Jobs := ["b"], Labels := [], Targets := ["b1"] },
          some { Jobs := ["c"], Labels := [], Targets := ["c1"] },
          some { Jobs := ["a"], Labels := [], Targets := ["a1"] }]
    ∧ readSources (tableFS [] [("/src/a_targets.yml", "A"), ("/src/b_targets.json", "B")]
        [("A", [some { Jobs := ["a"], Labels := [], Targets := ["a1"] }])] [])
        ["/src/a_targets.yml", "/src/b_targets.json", "/src/a_targets.yml"]
      = .error (.plain "invalid character looking for beginning of value")
    ∧ readSources (tableFS [] [("/src/a_targets.yml", "A")]
        [("A", [some { Jobs := ["a"], Labels := [], Targets := ["a1"] }])] [])
        ["/src/a_targets.yml", "/src/missing.yml"]
      = .error (.wrap "open /src/missing.yml: no such file or directory" ErrNotExist)
    ∧ readSources (tableFS [] [("/src/a_targets.yml", "A"), ("/src/targets.txt", "A")]
        [("A", [some { Jobs := ["a"], Labels := [], Targets := ["a1"] }])] [])
        ["/src/a_targets.yml", "/src/targets.txt"]
      = .error (.wrap "invalid argument: unknown file extension for file: /src/targets.txt"
          ErrInvalid) :=
  ⟨(readSources_concat (tableFS [] [("/src/a_targets.yml", "A"), ("/src/b_targets.json", "B")]
        [("A", [some { Jobs := ["a"], Labels := [], Targets := ["a1"] }]),
          ("B", [some { Jobs := ["b"], Labels := [], Targets := ["b1"] },
            some { Jobs := ["c"], Labels := [], Targets := ["c1"] }])] [])).1
      ["/src/b_targets.json", "/src/a_targets.yml"]
      (fun f => if f = "/src/a_targets.yml" then "A" else "B")
      (fun f => if f = "/src/a_targets.yml"
        then [some { Jobs := ["a"], Labels := [], Targets := ["a1"] }]
        else [some { Jobs := ["b"], Labels := [], Targets := ["b1"] },
          some { Jobs := ["c"], Labels := [], Targets := ["c1"] }])
      (by
        intro f hf
        have hf2 : f = "/src/b_targets.json" ∨ f = "/src/a_targets.yml" := by simpa using hf
        rcases hf2 with h | h
        · rw [h]
          exact ⟨rfl, Or.inl ⟨by decide, rfl⟩⟩
        · rw [h]
          exact ⟨rfl, Or.inr ⟨by decide, Or.inl (by decide), rfl⟩⟩)
      (by decide),
    ((readSources_concat (tableFS [] [("/src/a_targets.yml", "A"), ("/src/b_targets.json", "B")]
        [("A", [some { Jobs := ["a"], Labels := [], Targets := ["a1"] }])] [])).2
      ["/src/a_targets.yml"] ["/src/a_targets.yml"] "/src/b_targets.json"
      (.plain "invalid character looking for beginning of value")
      (Or.inr ⟨"B", rfl, Or.inl ⟨by decide, rfl⟩⟩)).2
      (by
        intro p hp
        have hp2 : p = "/src/a_targets.yml" := by simpa using hp
        rw [hp2]
        exact ⟨"A", [some { Jobs := ["a"], Labels := [], Targets := ["a1"] }], rfl,
          Or.inr ⟨by decide, Or.inl (by decide), rfl⟩⟩),
    ((readSources_concat (tableFS [] [("/src/a_targets.yml", "A")]
        [("A", [some { Jobs := ["a"], Labels := [], Targets := ["a1"] }])] [])).2
      ["/src/a_targets.yml"] [] "/src/missing.yml"
      (.wrap "open /src/missing.yml: no such file or directory" ErrNotExist)
      (Or.inl rfl)).2
      (by
        intro p hp
        have hp2 : p = "/src/a_targets.yml" := by simpa using hp
        rw [hp2]
        exact ⟨"A", [some { Jobs := ["a"], Labels := [], Targets := ["a1"] }], rfl,
          Or.inr ⟨by decide, Or.inl (by decide), rfl⟩⟩),
    ((readSources_concat (tableFS [] [("/src/a_targets.yml", "A"), ("/src/targets.txt", "A")]
        [("A", [some { Jobs := ["a"], Labels := [], Targets := ["a1"] }])] [])).2
      ["/src/a_targets.yml"] [] "/src/targets.txt"
      (.wrap "invalid argument: unknown file extension for file: /src/targets.txt" ErrInvalid)
      (Or.inr ⟨"A", rfl, Or.inr (Or.inr ⟨by decide, by decide, by decide, by decide⟩)⟩)).2
      (by
        intro p hp
        have hp2 : p = "/src/a_targets.yml" := by simpa using hp
        rw [hp2]
        exact ⟨"A", [some { Jobs := ["a"], Labels := [], Targets := ["a1"] }], rfl,
          Or.inr ⟨by decide, Or.inl (by decide), rfl⟩⟩)⟩

theorem readSources_no_content_witness :
    readSource (tableFS [] [("/src/targets.yml", "")] [("", [])] []) "/src/targets.yml" = .ok []
    ∧ readSources (tableFS [] [("/src/targets.yml", "")] [("", [])] []) ["/src/targets.yml"]
      = .error (.plain "no content found in targets source file") :=
  ⟨rfl, (readSources_no_content (tableFS [] [("/src/targets.yml", "")] [("", [])] [])
    ["/src/targets.yml"]
    (by
      intro f hf
      have hf2 : f = "/src/targets.yml" := by simpa using hf
      rw [hf2]
      rfl)).1⟩

/-- C18 (code): `readSources` takes every path that ends in `yaml`, with or without a
dot before it, for a YAML file.  The readable file `targets.notyaml`, whose
extension is `.notyaml`, and the file `myyaml`, which has no extension, are
decoded as YAML and their groups returned; no error wrapping `os.ErrInvalid`
is raised. -/
theorem readSources_yaml_without_dot :
    readSources (tableFS [] [("/src/targets.notyaml", "- jobs: [node]\n")]
        [("- jobs: [node]\n", [some { Jobs := ["node"], Labels := [], Targets := [] }])] [])
        ["/src/targets.notyaml"]
      = .ok [some { Jobs := ["node"], Labels := [], Targets := [] }]
    ∧ Ext "/src/targets.notyaml" = ".notyaml"
    ∧ readSources (tableFS [] [("/src/myyaml", "- jobs: [node]\n")]
        [("- jobs: [node]\n", [some { Jobs := ["node"], Labels := [], Targets := [] }])] [])
        ["/src/myyaml"]
      = .ok [some { Jobs := ["node"], Labels := [], Targets := [] }]
    ∧ Ext "/src/myyaml" = ""
    ∧ (∃ err, readSources (tableFS [] [("/src/targets.txt", "- jobs: [node]\n")]
        [("- jobs: [node]\n", [some { Jobs := ["node"], Labels := [], Targets := [] }])] [])
        ["/src/targets.txt"] = .error err ∧ err.Is ErrInvalid = true) :=
  ⟨rfl, by decide, rfl, by decide, ⟨_, rfl, by decide⟩⟩

/-- C14 (code): the pattern that `findFiles` hands to `filepath.Glob` is the directory
joined with `_targets.yml` (then `.yaml`, `.json`), with no `*` in it, so only a
file of exactly that name matches.  A directory holding `blackbox_targets.yml`
and `node_targets.yml` gives the error `os.ErrNotExist`; the same directory
with a file named `_targets.yml` gives that file alone. -/
theorem findFiles_pattern_has_no_star :
    findFiles (tableFS ["/etc/pim/sources"]
        [("/etc/pim/sources/blackbox_targets.yml", ""),
          ("/etc/pim/sources/node_targets.yml", "")] [] []) DefaultConfig
      = .error ErrNotExist
    ∧ hasMeta (filepath.Join "/etc/pim/sources" ("_" ++ "targets.yml")) = false
    ∧ filepath.Join "/etc/pim/sources" ("_" ++ "targets.yml") = "/etc/pim/sources/_targets.yml"
    ∧ findFiles (tableFS ["/etc/pim/sources"]
        [("/etc/pim/sources/blackbox_targets.yml", ""),
          ("/etc/pim/sources/_targets.yml", "")] [] []) DefaultConfig
      = .ok ["/etc/pim/sources/_targets.yml"] :=
  ⟨rfl, by decide, by decide, rfl⟩

/-! ## Job fan-out: the buckets -/

theorem lookup_mapSet_self {β : Type} (m : List (String × β)) (k : String) (v : β) :
    (mapSet m k v).lookup k = some v := by
  induction m with
  | nil => simp [mapSet]
  | cons p rest ih =>
    obtain ⟨k0, v0⟩ := p
    by_cases h : k0 = k
    · subst h
      simp [mapSet]
    · simp only [mapSet, h, if_false]
      rw [lookup_cons_of_ne _ _ _ _ h]
      exact ih

theorem keys_mapSet {β : Type} (m : List (String × β)) (k : String) (v : β) :
    (mapSet m k v).map Prod.fst
      = if k ∈ m.map Prod.fst then m.map Prod.fst else m.map Prod.fst ++ [k] := by
  induction m with
  | nil => simp [mapSet]
  | cons p rest ih =>
    obtain ⟨k0, v0⟩ := p
    by_cases h : k0 = k
    · subst h
      simp [mapSet]
    · have hne : ¬ k = k0 := fun e => h e.symm
      simp only [mapSet, h, if_false, List.map_cons, ih, List.mem_cons, hne, false_or]
      split_ifs <;> simp

theorem nodupKeys_mapSet {β : Type} (m : List (String × β)) (k : String) (v : β)
    (h : NodupKeys m) : NodupKeys (mapSet m k v) := by
  unfold NodupKeys at h ⊢
  rw [keys_mapSet]
  split_ifs with hk
  · exact h
  · rw [List.nodup_append]
    refine ⟨h, by simp, ?_⟩
    intro a ha hb
    simp at hb
    subst hb
    exact hk ha

/-- The number of entries in all buckets of a map. -/
theorem total_mapSet (m : TargetMap) (k : String) (v : TargetGroups) :
    ((mapSet m k v).map (fun kv => kv.2.length)).sum + (bucket m k).length
      = (m.map (fun kv => kv.2.length)).sum + v.length := by
  induction m with
  | nil => simp [mapSet, bucket]
  | cons p rest ih =>
    obtain ⟨k0, v0⟩ := p
    by_cases h : k0 = k
    · subst h
      simp [mapSet, bucket]
      omega
    · have hb : bucket ((k0, v0) :: rest) k = bucket rest k := by
        unfold bucket
        rw [lookup_cons_of_ne _ _ _ _ h]
      simp only [mapSet, h, if_false, List.map_cons, List.sum_cons, hb]
      omega

/-- One pass of the inner loop of `splitByJob`: the bucket of `filename` gets the
entry `e` at its end, every other bucket is left alone. -/
theorem bucket_step (files : TargetMap) (filename k : String) (e : Option TargetGroup) :
    bucket (mapSet
        (if bucket files filename = [] then mapSet files filename [] else files) filename
        (bucket (if bucket files filename = [] then mapSet files filename [] else files)
          filename ++ [e])) k
      = bucket files k ++ (if filename = k then [e] else []) := by
  have hmade : bucket (if bucket files filename = [] then mapSet files filename [] else files)
      filename = bucket files filename := by
    split_ifs with h
    · unfold bucket
      rw [lookup_mapSet_self]
      exact h.symm
    · rfl
  by_cases hk : filename = k
  · subst hk
    rw [hmade, if_pos rfl]
    unfold bucket
    rw [lookup_mapSet_self]
    rfl
  · rw [if_neg hk, List.append_nil]
    unfold bucket
    rw [lookup_mapSet_of_ne _ _ _ _ (fun e => hk e.symm)]
    split_ifs with h
    · rw [lookup_mapSet_of_ne _ _ _ _ (fun e => hk e.symm)]
    · rfl

theorem lookup_step_none (files : TargetMap) (filename k : String) (e : Option TargetGroup) :
    (mapSet
        (if bucket files filename = [] then mapSet files filename [] else files) filename
        (bucket (if bucket files filename = [] then mapSet files filename [] else files)
          filename ++ [e])).lookup k = none
      ↔ files.lookup k = none ∧ filename ≠ k := by
  by_cases hk : filename = k
  · subst hk
    rw [lookup_mapSet_self]
    simp
  · rw [lookup_mapSet_of_ne _ _ _ _ (fun e => hk e.symm)]
    split_ifs with h
    · rw [lookup_mapSet_of_ne _ _ _ _ (fun e => hk e.symm)]
      simp [hk]
    · simp [hk]

theorem nodupKeys_step (files : TargetMap) (filename : String) (e : Option TargetGroup)
    (h : NodupKeys files) :
    NodupKeys (mapSet
        (if bucket files filename = [] then mapSet files filename [] else files) filename
        (bucket (if bucket files filename = [] then mapSet files filename [] else files)
          filename ++ [e])) := by
  apply nodupKeys_mapSet
  split_ifs
  · exact nodupKeys_mapSet _ _ _ h
  · exact h

theorem total_step (files : TargetMap) (filename : String) (e : Option TargetGroup) :
    ((mapSet
        (if bucket files filename = [] then mapSet files filename [] else files) filename
        (bucket (if bucket files filename = [] then mapSet files filename [] else files)
          filename ++ [e])).map (fun kv => kv.2.length)).sum
      = (files.map (fun kv => kv.2.length)).sum + 1 := by
  have h1 := total_mapSet
    (if bucket files filename = [] then mapSet files filename [] else files) filename
    (bucket (if bucket files filename = [] then mapSet files filename [] else files)
      filename ++ [e])
  have h2 : ((if bucket files filename = [] then mapSet files filename [] else files).map
      (fun kv => kv.2.length)).sum = (files.map (fun kv => kv.2.length)).sum := by
    split_ifs with h
    · have := total_mapSet files filename []
      rw [h] at this
      simpa using this
    · rfl
  rw [h2] at h1
  simp only [List.length_append, List.length_singleton] at h1
  omega

theorem splitJobs_bucket (config : Config) (tg : TargetGroup) (jobs : List String)
    (files : TargetMap) (k : String) :
    bucket (splitJobs config tg jobs files) k
      = bucket files k
        ++ (jobs.filter (fun j =>
              decide (j ++ DefaultTargetsFileSuffix ++ config.TargetsFileExt = k))).map
            (fun j => some { Jobs := [j], Labels := tg.Labels, Targets := tg.Targets }) := by
  induction jobs generalizing files with
  | nil => simp [splitJobs]
  | cons job rest ih =>
    simp only [splitJobs]
    rw [ih, bucket_step]
    by_cases hk : job ++ DefaultTargetsFileSuffix ++ config.TargetsFileExt = k
    · simp [List.filter, hk]
    · simp [List.filter, hk]

theorem splitJobs_lookup_none (config : Config) (tg : TargetGroup) (jobs : List String)
    (files : TargetMap) (k : String) :
    (splitJobs config tg jobs files).lookup k = none
      ↔ files.lookup k = none
        ∧ ∀ j ∈ jobs, j ++ DefaultTargetsFileSuffix ++ config.TargetsFileExt ≠ k := by
  induction jobs generalizing files with
  | nil => simp [splitJobs]
  | cons job rest ih =>
    simp only [splitJobs]
    rw [ih, lookup_step_none]
    constructor
    · rintro ⟨⟨h1, h2⟩, h3⟩
      refine ⟨h1, ?_⟩
      intro j hj
      rcases List.mem_cons.1 hj with rfl | hj
      · exact h2
      · exact h3 j hj
    · rintro ⟨h1, h2⟩
      exact ⟨⟨h1, h2 job (List.mem_cons_self _ _)⟩,
        fun j hj => h2 j (List.mem_cons_of_mem _ hj)⟩

theorem splitJobs_nodupKeys (config : Config) (tg : TargetGroup) (jobs : List String)
    (files : TargetMap) (h : NodupKeys files) :
    NodupKeys (splitJobs config tg jobs files) := by
  induction jobs generalizing files with
  | nil => simpa [splitJobs] using h
  | cons job rest ih =>
    simp only [splitJobs]
    exact ih _ (nodupKeys_step files _ _ h)

theorem splitJobs_total (config : Config) (tg : TargetGroup) (jobs : List String)
    (files : TargetMap) :
    ((splitJobs config tg jobs files).map (fun kv => kv.2.length)).sum
      = (files.map (fun kv => kv.2.length)).sum + jobs.length := by
  induction jobs generalizing files with
  | nil => simp [splitJobs]
  | cons job rest ih =>
    simp only [splitJobs]
    rw [ih, total_step, List.length_cons]
    omega

/-- The outer loop of `splitByJob` on a collection without nil pointer: it ends, and
for every key the bucket of the key has gained the entries of the jobs filed
under that key, in the order met. -/
theorem splitGroups_spec (config : Config) (groups : List TargetGroup) (files : TargetMap) :
    ∃ m, splitGroups config (groups.map some) files = some m
      ∧ (∀ k, bucket m k = bucket files k ++ groups.flatMap (fun g =>
          (g.Jobs.filter (fun j =>
            decide (j ++ DefaultTargetsFileSuffix ++ config.TargetsFileExt = k))).map
          (fun j => some { Jobs := [j], Labels := g.Labels, Targets := g.Targets })))
      ∧ (∀ k, m.lookup k = none ↔ files.lookup k = none ∧ ∀ g ∈ groups, ∀ j ∈ g.Jobs,
          j ++ DefaultTargetsFileSuffix ++ config.TargetsFileExt ≠ k)
      ∧ (NodupKeys files → NodupKeys m)
      ∧ (m.map (fun kv => kv.2.length)).sum
          = (files.map (fun kv => kv.2.length)).sum + (groups.map (fun g => g.Jobs.length)).sum := by
  induction groups generalizing files with
  | nil =>
    refine ⟨files, rfl, ?_, ?_, fun h => h, ?_⟩
    · intro k; simp
    · intro k; simp
    · simp
  | cons g rest ih =>
    obtain ⟨m, hm, hb, hl, hn, ht⟩ := ih (splitJobs config g g.Jobs files)
    refine ⟨m, ?_, ?_, ?_, ?_, ?_⟩
    · simp only [List.map_cons, splitGroups]
      exact hm
    · intro k
      rw [hb k, splitJobs_bucket, List.flatMap_cons, List.append_assoc]
    · intro k
      rw [hl k, splitJobs_lookup_none]
      constructor
      · rintro ⟨⟨h1, h2⟩, h3⟩
        refine ⟨h1, ?_⟩
        intro x hx
        rcases List.mem_cons.1 hx with rfl | hx
        · exact h2
        · exact h3 x hx
      · rintro ⟨h1, h2⟩
        exact ⟨⟨h1, h2 g (List.mem_cons_self _ _)⟩,
          fun x hx => h2 x (List.mem_cons_of_mem _ hx)⟩
    · intro h
      exact hn (splitJobs_nodupKeys config g g.Jobs files h)
    · rw [ht, splitJobs_total, List.map_cons, List.sum_cons]
      omega

theorem append_right_cancel_string (a b suffix : String) (h : a ++ suffix = b ++ suffix) :
    a = b := by
  have hd : (a ++ suffix).data = (b ++ suffix).data := by rw [h]
  simp only [String.data_append] at hd
  exact String.ext (List.append_cancel_right hd)

theorem filename_injective (config : Config) (a b : String)
    (h : a ++ DefaultTargetsFileSuffix ++ config.TargetsFileExt
      = b ++ DefaultTargetsFileSuffix ++ config.TargetsFileExt) : a = b :=
  append_right_cancel_string a b _ (append_right_cancel_string _ _ _ h)

/-- C11: for a collection of groups (no nil pointer) `splitByJob` returns a map with
distinct keys in which the bucket of a job `j` is, in the order met, one entry
`{jobs = [j], labels = g.labels, targets = g.targets}` for each occurrence of
`j` in the jobs of a group `g`; the map has no bucket for a job that occurs
nowhere and no bucket that is not the bucket of a job that occurs; the buckets
hold as many entries in all as the groups have jobs; and the empty collection
gives the empty map. -/
theorem splitByJob_buckets (config : Config) (groups : List TargetGroup) :
    ∃ m, splitByJob (groups.map some) config = some m
      ∧ NodupKeys m
      ∧ (∀ j, bucket m (j ++ DefaultTargetsFileSuffix ++ config.TargetsFileExt)
          = groups.flatMap (fun g => (g.Jobs.filter (fun x => decide (x = j))).map
              (fun _ => some { Jobs := [j], Labels := g.Labels, Targets := g.Targets })))
      ∧ (∀ j, m.lookup (j ++ DefaultTargetsFileSuffix ++ config.TargetsFileExt) = none
          ↔ ∀ g ∈ groups, j ∉ g.Jobs)
      ∧ (∀ k ∈ m.map Prod.fst, ∃ g ∈ groups, ∃ j ∈ g.Jobs,
          k = j ++ DefaultTargetsFileSuffix ++ config.TargetsFileExt)
      ∧ (m.map (fun kv => kv.2.length)).sum = (groups.map (fun g => g.Jobs.length)).sum
      ∧ (groups = [] → m = []) := by
  obtain ⟨m, hm, hb, hl, hn, ht⟩ := splitGroups_spec config groups []
  refine ⟨m, hm, hn (by simp [NodupKeys]), ?_, ?_, ?_, ?_, ?_⟩
  · intro j
    rw [hb]
    simp only [bucket, List.lookup_nil, Option.getD_none, List.nil_append]
    congr 1
    funext g
    have hf : (fun x => decide (x ++ DefaultTargetsFileSuffix ++ config.TargetsFileExt
        = j ++ DefaultTargetsFileSuffix ++ config.TargetsFileExt))
        = (fun x => decide (x = j)) := by
      funext x
      by_cases hx : x = j
      · simp [hx]
      · have hne : ¬ x ++ DefaultTargetsFileSuffix ++ config.TargetsFileExt
            = j ++ DefaultTargetsFileSuffix ++ config.TargetsFileExt :=
          fun e => hx (filename_injective config x j e)
        simp [hx, hne]
    rw [hf]
    apply List.map_congr_left
    intro x hx
    have hxj : x = j := by simpa using (List.mem_filter.1 hx).2
    rw [hxj]
  · intro j
    rw [hl]
    constructor
    · rintro ⟨_, h⟩ g hg hj
      exact h g hg j hj rfl
    · intro h
      refine ⟨rfl, ?_⟩
      intro g hg x hx e
      have hxj := filename_injective config x j e
      rw [hxj] at hx
      exact h g hg hx
  · intro k hk
    by_contra hcon
    have hnone : m.lookup k = none := by
      rw [hl]
      refine ⟨rfl, ?_⟩
      intro g hg j hj e
      exact hcon ⟨g, hg, j, hj, e.symm⟩
    exact not_mem_keys_of_lookup_none m k hnone hk
  · simpa using ht
  · intro hg
    rw [hg] at hm
    simp only [List.map_nil, splitGroups, Option.some.injEq] at hm
    exact hm.symm

/-! ## Paths: the directory of a file joined to a directory -/

theorem splitSlash_ne_nil (l : List Char) : splitSlash l ≠ [] := by
  induction l with
  | nil => simp [splitSlash]
  | cons c cs ih =>
    unfold splitSlash
    split_ifs
    · simp
    · cases h : splitSlash cs <;> simp

theorem splitSlash_no_slash (l : List Char) (h : '/' ∉ l) : splitSlash l = [l] := by
  induction l with
  | nil => rfl
  | cons c cs ih =>
    have hc : c ≠ '/' := fun e => h (by simp [e])
    have hcs : '/' ∉ cs := fun e => h (List.mem_cons_of_mem _ e)
    unfold splitSlash
    rw [if_neg hc, ih hcs]

theorem splitSlash_cons (c : Char) (cs : List Char) :
    splitSlash (c :: cs)
      = if c = '/' then [] :: splitSlash cs
        else (match splitSlash cs with
          | [] => [[c]]
          | p :: ps => (c :: p) :: ps) := rfl

theorem splitSlash_append (a b : List Char) :
    splitSlash (a ++ '/' :: b) = splitSlash a ++ splitSlash b := by
  induction a with
  | nil =>
    rw [List.nil_append, splitSlash_cons, if_pos rfl]
    rfl
  | cons c cs ih =>
    rw [List.cons_append, splitSlash_cons, splitSlash_cons, ih]
    by_cases hc : c = '/'
    · rw [if_pos hc, if_pos hc]
      rfl
    · rw [if_neg hc, if_neg hc]
      cases h : splitSlash cs with
      | nil => exact absurd h (splitSlash_ne_nil cs)
      | cons p ps => rfl

theorem joinSlash_append_single (xs : List (List Char)) (k : List Char) (h : xs ≠ []) :
    joinSlash (xs ++ [k]) = joinSlash xs ++ '/' :: k := by
  induction xs with
  | nil => exact absurd rfl h
  | cons a rest ih =>
    cases rest with
    | nil => rfl
    | cons b rest2 =>
      show a ++ '/' :: joinSlash ((b :: rest2) ++ [k])
        = (a ++ '/' :: joinSlash (b :: rest2)) ++ '/' :: k
      rw [ih (by simp)]
      simp

theorem splitSlash_joinSlash (xs : List (List Char)) (h : xs ≠ [])
    (hs : ∀ e ∈ xs, '/' ∉ e) : splitSlash (joinSlash xs) = xs := by
  induction xs with
  | nil => exact absurd rfl h
  | cons a rest ih =>
    cases rest with
    | nil =>
      simp only [joinSlash]
      exact splitSlash_no_slash a (hs a (List.mem_cons_self _ _))
    | cons b rest2 =>
      simp only [joinSlash]
      rw [splitSlash_append, splitSlash_no_slash a (hs a (List.mem_cons_self _ _)),
        ih (by simp) (fun e he => hs e (List.mem_cons_of_mem _ he))]
      rfl

theorem uptoLastSlash_no_slash (k : List Char) (h : '/' ∉ k) : uptoLastSlash k = [] := by
  unfold uptoLastSlash
  have : k.reverse.dropWhile (fun c => decide (c ≠ '/')) = [] := by
    rw [List.dropWhile_eq_nil_iff]
    intro x hx
    have hx2 : x ∈ k := List.mem_reverse.1 hx
    have : x ≠ '/' := fun e => h (e ▸ hx2)
    simpa using this
  rw [this]
  rfl

theorem uptoLastSlash_append (pre k : List Char) (h : '/' ∉ k) :
    uptoLastSlash (pre ++ '/' :: k) = pre ++ ['/'] := by
  unfold uptoLastSlash
  have hrev : (pre ++ '/' :: k).reverse = k.reverse ++ '/' :: pre.reverse := by simp
  rw [hrev, List.dropWhile_append]
  have hk : k.reverse.dropWhile (fun c => decide (c ≠ '/')) = [] := by
    rw [List.dropWhile_eq_nil_iff]
    intro x hx
    have hx2 : x ∈ k := List.mem_reverse.1 hx
    have : x ≠ '/' := fun e => h (e ▸ hx2)
    simpa using this
  rw [hk]
  simp [List.dropWhile]

theorem keptOk_tail (rooted : Bool) (a b : List (List Char)) (h : keptOk rooted (a ++ b)) :
    keptOk rooted b := by
  induction a with
  | nil => exact h
  | cons e rest ih => exact ih h.2.2.2.2

theorem keptOk_slash_free (rooted : Bool) (st : List (List Char)) (h : keptOk rooted st) :
    ∀ e ∈ st, '/' ∉ e := by
  induction st with
  | nil => intro e he; simp at he
  | cons a rest ih =>
    intro e he
    rcases List.mem_cons.1 he with rfl | he
    · exact h.2.2.1
    · exact ih h.2.2.2.2 e he

theorem cleanStep_skip (rooted : Bool) (st : List (List Char)) (e : List Char)
    (h : e = [] ∨ e = ['.']) : cleanStep rooted st e = st := by
  unfold cleanStep
  rw [if_pos h]

theorem cleanStep_dotdot_nil (rooted : Bool) :
    cleanStep rooted [] ['.', '.'] = if rooted = true then [] else [['.', '.']] := by
  unfold cleanStep
  rw [if_neg (by decide), if_pos rfl]

theorem cleanStep_dotdot_cons (rooted : Bool) (top : List Char) (rest : List (List Char)) :
    cleanStep rooted (top :: rest) ['.', '.']
      = if top = ['.', '.'] then ['.', '.'] :: top :: rest else rest := by
  unfold cleanStep
  rw [if_neg (by decide), if_pos rfl]

theorem cleanStep_push (rooted : Bool) (st : List (List Char)) (e : List Char)
    (h1 : ¬ (e = [] ∨ e = ['.'])) (h2 : e ≠ ['.', '.']) : cleanStep rooted st e = e :: st := by
  unfold cleanStep
  rw [if_neg h1, if_neg h2]

theorem keptOk_cleanStep (rooted : Bool) (st : List (List Char)) (e : List Char)
    (h : keptOk rooted st) (he : '/' ∉ e) : keptOk rooted (cleanStep rooted st e) := by
  by_cases h1 : e = [] ∨ e = ['.']
  · rw [cleanStep_skip rooted st e h1]
    exact h
  · by_cases h2 : e = ['.', '.']
    · subst h2
      cases st with
      | nil =>
        rw [cleanStep_dotdot_nil]
        by_cases hr : rooted = true
        · rw [if_pos hr]
          trivial
        · rw [if_neg hr]
          exact ⟨by decide, by decide, by decide, fun _ => ⟨by simpa using hr, by simp⟩, trivial⟩
      | cons top rest =>
        rw [cleanStep_dotdot_cons]
        by_cases ht : top = ['.', '.']
        · rw [if_pos ht]
          obtain ⟨hr, hall⟩ := h.2.2.2.1 ht
          refine ⟨by decide, by decide, by decide, fun _ => ⟨hr, ?_⟩, h⟩
          intro x hx
          rcases List.mem_cons.1 hx with rfl | hx
          · exact ht
          · exact hall x hx
        · rw [if_neg ht]
          exact h.2.2.2.2
    · rw [cleanStep_push rooted st e h1 h2]
      exact ⟨fun e0 => h1 (Or.inl e0), fun e0 => h1 (Or.inr e0), he,
        fun e0 => absurd e0 h2, h⟩

theorem keptOk_foldl (rooted : Bool) (es st : List (List Char)) (h : keptOk rooted st)
    (hs : ∀ e ∈ es, '/' ∉ e) : keptOk rooted (es.foldl (cleanStep rooted) st) := by
  induction es generalizing st with
  | nil => exact h
  | cons e rest ih =>
    simp only [List.foldl_cons]
    exact ih _ (keptOk_cleanStep rooted st e h (hs e (List.mem_cons_self _ _)))
      (fun x hx => hs x (List.mem_cons_of_mem _ hx))

theorem cleanStep_keep (rooted : Bool) (st : List (List Char)) (e : List Char)
    (h : keptOk rooted (e :: st)) : cleanStep rooted st e = e :: st := by
  obtain ⟨h1, h2, _, h4, _⟩ := h
  have hn : ¬ (e = [] ∨ e = ['.']) := fun hh => hh.elim h1 h2
  by_cases hd : e = ['.', '.']
  · obtain ⟨hr, hall⟩ := h4 hd
    subst hd
    cases st with
    | nil =>
      rw [cleanStep_dotdot_nil, hr]
      rfl
    | cons top rest =>
      rw [cleanStep_dotdot_cons, if_pos (hall top (List.mem_cons_self _ _))]
  · exact cleanStep_push rooted st e hn hd

/-- Cleaning the elements of a cleaned path changes nothing. -/
theorem foldl_cleanStep_kept (rooted : Bool) (es st : List (List Char))
    (h : keptOk rooted (es.reverse ++ st)) :
    es.foldl (cleanStep rooted) st = es.reverse ++ st := by
  induction es generalizing st with
  | nil => rfl
  | cons e rest ih =>
    have h2 : keptOk rooted (rest.reverse ++ e :: st) := by
      simpa [List.reverse_cons, List.append_assoc] using h
    simp only [List.foldl_cons]
    rw [cleanStep_keep rooted st e (keptOk_tail rooted _ _ h2), ih _ h2]
    simp [List.reverse_cons, List.append_assoc]

theorem Clean_eq_render (path : String) :
    filepath.Clean path
      = renderPath (decide (path.data.head? = some '/'))
          ((splitSlash path.data).foldl (cleanStep (decide (path.data.head? = some '/'))) []) := by
  unfold filepath.Clean
  by_cases h : path = ""
  · rw [if_pos h, h]
    decide
  · rw [if_neg h]

theorem keptOk_of_path (path : String) :
    keptOk (decide (path.data.head? = some '/'))
      ((splitSlash path.data).foldl (cleanStep (decide (path.data.head? = some '/'))) []) := by
  apply keptOk_foldl _ _ [] (by simp [keptOk])
  intro e he
  have key : ∀ l : List Char, ∀ x ∈ splitSlash l, '/' ∉ x := by
    intro l
    induction l with
    | nil => intro x hx; simp [splitSlash] at hx; rw [hx]; simp
    | cons c cs ih =>
      intro x hx
      rw [splitSlash_cons] at hx
      by_cases hc : c = '/'
      · rw [if_pos hc] at hx
        rcases List.mem_cons.1 hx with rfl | hx
        · simp
        · exact ih x hx
      · rw [if_neg hc] at hx
        cases hsp : splitSlash cs with
        | nil => exact absurd hsp (splitSlash_ne_nil cs)
        | cons p ps =>
          rw [hsp] at hx ih
          rcases List.mem_cons.1 hx with rfl | hx
          · intro hm
            rcases List.mem_cons.1 hm with e0 | hm
            · exact hc e0.symm
            · exact ih p (List.mem_cons_self _ _) hm
          · exact ih x (List.mem_cons_of_mem _ hx)
  exact key _ e he

/-- Joining a plain file name to a directory keeps the name as the last element of
the cleaned directory. -/
theorem Join_plain (dir name : String) (hn : isPlainName name = true) :
    filepath.Join dir name
      = renderPath (decide (dir.data.head? = some '/'))
          (name.data :: (splitSlash dir.data).foldl
            (cleanStep (decide (dir.data.head? = some '/'))) []) := by
  have hp : name.data ≠ [] ∧ '/' ∉ name.data ∧ name.data ≠ ['.'] ∧ name.data ≠ ['.', '.'] := by
    simpa [isPlainName] using hn
  obtain ⟨h1, h2, h3, h4⟩ := hp
  have hpush : ∀ r st, cleanStep r st name.data = name.data :: st := fun r st =>
    cleanStep_push r st name.data (fun hh => hh.elim h1 h3) h4
  have hhead : name.data.head? ≠ some '/' := by
    cases hd : name.data with
    | nil => simp
    | cons c cs =>
      rw [hd] at h2
      simp only [List.head?_cons, ne_eq, Option.some.injEq]
      intro e
      exact h2 (by simp [e])
  unfold filepath.Join
  by_cases hdir : dir = ""
  · have hne : name ≠ "" := by
      intro e
      rw [e] at h1
      exact h1 rfl
    rw [if_neg (by simpa using hdir), if_pos hne, Clean_eq_render, hdir]
    have hr : decide (name.data.head? = some '/') = false := by simpa using hhead
    rw [hr, splitSlash_no_slash _ h2]
    simp only [List.foldl_cons, List.foldl_nil, hpush]
    rfl
  · rw [if_pos hdir, Clean_eq_render]
    have hdata : (dir ++ "/" ++ name).data = dir.data ++ '/' :: name.data := by
      simp [String.data_append]
    have hdne : dir.data ≠ [] := by
      intro e
      exact hdir (String.ext e)
    have hh : (dir.data ++ '/' :: name.data).head? = dir.data.head? := by
      cases hd : dir.data with
      | nil => exact absurd hd hdne
      | cons c cs => rfl
    rw [hdata, hh, splitSlash_append, splitSlash_no_slash _ h2, List.foldl_append]
    simp only [List.foldl_cons, List.foldl_nil, hpush]

theorem joinSlash_head (xs : List (List Char)) (hne : xs ≠ [])
    (h : ∀ e ∈ xs, e ≠ [] ∧ '/' ∉ e) (tail : List Char) :
    (joinSlash xs ++ tail).head? ≠ some '/' := by
  cases xs with
  | nil => exact absurd rfl hne
  | cons a rest =>
    obtain ⟨ha1, ha2⟩ := h a (List.mem_cons_self _ _)
    cases a with
    | nil => exact absurd rfl ha1
    | cons c cs =>
      have hc : c ≠ '/' := fun e => ha2 (by simp [e])
      cases rest with
      | nil => simpa [joinSlash] using hc
      | cons b rest2 => simpa [joinSlash] using hc

theorem keptOk_nonempty (rooted : Bool) (st : List (List Char)) (h : keptOk rooted st) :
    ∀ e ∈ st, e ≠ [] ∧ '/' ∉ e := by
  induction st with
  | nil => intro e he; simp at he
  | cons a rest ih =>
    intro e he
    rcases List.mem_cons.1 he with rfl | he
    · exact ⟨h.1, h.2.2.1⟩
    · exact ih h.2.2.2.2 e he

theorem Clean_mk_kept (rooted : Bool) (S : List (List Char)) (hS : keptOk rooted S)
    (hne : S ≠ []) (d : List Char)
    (hd : d = (if rooted = true then '/' :: joinSlash S.reverse else joinSlash S.reverse)
      ++ ['/']) :
    filepath.Clean (String.mk d) = renderPath rooted S := by
  have hel := keptOk_nonempty rooted S hS
  have hrev : S.reverse ≠ [] := by simpa using hne
  have hrevel : ∀ e ∈ S.reverse, e ≠ [] ∧ '/' ∉ e := fun e he => hel e (List.mem_reverse.1 he)
  have hsplit : splitSlash (joinSlash S.reverse ++ ['/']) = S.reverse ++ [[]] := by
    rw [splitSlash_append, splitSlash_joinSlash _ hrev (fun e he => (hrevel e he).2)]
    rfl
  have hfold : ∀ r2, r2 = rooted →
      (S.reverse ++ [[]]).foldl (cleanStep r2) [] = S := by
    intro r2 hr2
    rw [hr2, List.foldl_append, foldl_cleanStep_kept rooted S.reverse []
      (by simpa using hS)]
    simp only [List.foldl_cons, List.foldl_nil, List.reverse_reverse, List.append_nil]
    exact cleanStep_skip rooted S [] (Or.inl rfl)
  rw [Clean_eq_render]
  show renderPath (decide (d.head? = some '/'))
    ((splitSlash d).foldl (cleanStep (decide (d.head? = some '/'))) []) = _
  cases rooted with
  | true =>
    have hd2 : d = '/' :: (joinSlash S.reverse ++ ['/']) := by rw [hd]; rfl
    have hhead : decide (d.head? = some '/') = true := by rw [hd2]; rfl
    have hsp : splitSlash d = [] :: (S.reverse ++ [[]]) := by
      rw [hd2, splitSlash_cons, if_pos rfl, hsplit]
    rw [hhead, hsp, List.foldl_cons, cleanStep_skip true [] [] (Or.inl rfl), hfold true rfl]
  | false =>
    have hd2 : d = joinSlash S.reverse ++ ['/'] := by rw [hd]; rfl
    have hhead : decide (d.head? = some '/') = false := by
      rw [hd2]
      simpa using joinSlash_head S.reverse hrev hrevel ['/']
    rw [hhead, hd2, hsplit, hfold false rfl]

/-- The directory of a plain file name joined to a directory is the cleaned
directory. -/
theorem Dir_Join_plain (dir name : String) (hn : isPlainName name = true) :
    filepath.Dir (filepath.Join dir name) = filepath.Clean dir := by
  have hp : name.data ≠ [] ∧ '/' ∉ name.data ∧ name.data ≠ ['.'] ∧ name.data ≠ ['.', '.'] := by
    simpa [isPlainName] using hn
  obtain ⟨h1, h2, _, _⟩ := hp
  have hS := keptOk_of_path dir
  rw [Join_plain dir name hn, Clean_eq_render dir]
  generalize decide (dir.data.head? = some '/') = rooted at hS ⊢
  generalize (splitSlash dir.data).foldl (cleanStep rooted) [] = S at hS ⊢
  unfold filepath.Dir
  by_cases hne : S = []
  · subst hne
    cases rooted with
    | true =>
      have : (renderPath true [name.data]).data = [] ++ '/' :: name.data := rfl
      rw [this, uptoLastSlash_append _ _ h2]
      decide
    | false =>
      have : (renderPath false [name.data]).data = name.data := rfl
      rw [this, uptoLastSlash_no_slash _ h2]
      decide
  · have hrev : S.reverse ≠ [] := by simpa using hne
    have hdata : (renderPath rooted (name.data :: S)).data
        = (if rooted = true then '/' :: joinSlash S.reverse else joinSlash S.reverse)
          ++ '/' :: name.data := by
      cases rooted with
      | true =>
        show '/' :: joinSlash ((name.data :: S).reverse) = _
        rw [List.reverse_cons, joinSlash_append_single _ _ hrev]
        rfl
      | false =>
        show joinSlash ((name.data :: S).reverse) = _
        rw [List.reverse_cons, joinSlash_append_single _ _ hrev]
        rfl
    rw [hdata, uptoLastSlash_append _ _ h2]
    exact Clean_mk_kept rooted S hS hne _ rfl

theorem Dir_Join_plain_witness :
    isPlainName "node_targets.json" = true
    ∧ filepath.Dir (filepath.Join "/etc/prometheus//file_sd/" "node_targets.json")
      = "/etc/prometheus/file_sd" :=
  ⟨by decide, (Dir_Join_plain "/etc/prometheus//file_sd/" "node_targets.json"
    (by decide)).trans (by decide)⟩

theorem renderPath_ne_empty (rooted : Bool) (S : List (List Char)) (hS : keptOk rooted S) :
    renderPath rooted S ≠ "" := by
  unfold renderPath
  cases rooted with
  | true =>
    intro h
    have := congrArg String.data h
    simp at this
  | false =>
    simp only [Bool.false_eq_true, if_false]
    by_cases hne : S = []
    · rw [if_pos hne]
      decide
    · rw [if_neg hne]
      intro h
      have hd : joinSlash S.reverse = [] := congrArg String.data h
      have hrev : S.reverse ≠ [] := by simpa using hne
      have := joinSlash_head S.reverse hrev
        (fun e he => keptOk_nonempty false S hS e (List.mem_reverse.1 he)) ['/']
      cases hS2 : S.reverse with
      | nil => exact hrev hS2
      | cons a rest =>
        have ha := (keptOk_nonempty false S hS a (List.mem_reverse.1 (by rw [hS2]; simp))).1
        rw [hS2] at hd
        cases rest with
        | nil => exact ha (by simpa [joinSlash] using hd)
        | cons b rest2 =>
          simp only [joinSlash] at hd
          exact ha (List.append_eq_nil.1 hd).1

theorem Clean_ne_empty (path : String) : filepath.Clean path ≠ "" := by
  rw [Clean_eq_render]
  exact renderPath_ne_empty _ _ (keptOk_of_path path)

theorem Join_ne_empty (a b : String) (h : b ≠ "" ∨ a ≠ "") : filepath.Join a b ≠ "" := by
  unfold filepath.Join
  by_cases ha : a = ""
  · have hb : b ≠ "" := h.elim id (fun h2 => absurd ha h2)
    rw [if_neg (by simpa using ha), if_pos hb]
    exact Clean_ne_empty b
  · rw [if_pos ha]
    exact Clean_ne_empty _

/-! ## Artifact writer -/

theorem writeBucket_missing (fs : FileSys) (config : Config) (filename : String)
    (tgs : TargetGroups)
    (h : ∀ info, fs.stat (filepath.Dir (filepath.Join config.TargetsDir filename)) = .ok info →
      info.IsDir = false) :
    writeBucket fs config filename tgs
      = (some (.wrap ("targets dir " ++ ErrNotExist.message ++ ": "
          ++ filepath.Dir (filepath.Join config.TargetsDir filename)) ErrNotExist), []) := by
  unfold writeBucket
  cases hs : fs.stat (filepath.Dir (filepath.Join config.TargetsDir filename)) with
  | error e => rfl
  | ok info =>
    simp only []
    rw [if_pos (h info hs)]

theorem writeBucket_ok (fs : FileSys) (config : Config) (filename data : String)
    (tgs : TargetGroups)
    (hdir : fs.stat (filepath.Dir (filepath.Join config.TargetsDir filename))
      = .ok { IsDir := true })
    (hname : filename ≠ "" ∨ config.TargetsDir ≠ "")
    (henc : (if config.TargetsFileExt = DefaultJSONFileExt
      then fs.jsonMarshalIndent tgs "" "  " else fs.yamlMarshal tgs) = .ok data)
    (hwr : fs.writer (filepath.Join config.TargetsDir filename) data 0o644 = none) :
    writeBucket fs config filename tgs
      = (none,
          [{ file := filepath.Join config.TargetsDir filename, data := data, perm := 0o644 }])
    := by
  have hfile := Join_ne_empty config.TargetsDir filename hname
  unfold writeBucket
  rw [hdir]
  simp only [Bool.true_eq_false, if_false]
  by_cases hext : config.TargetsFileExt = DefaultJSONFileExt
  · rw [if_pos hext] at henc ⊢
    unfold WriteJSON
    rw [henc]
    simp only []
    unfold WriteFile
    rw [if_neg hfile, hwr]
  · rw [if_neg hext] at henc ⊢
    unfold WriteYAML
    rw [henc]
    simp only []
    unfold WriteFile
    rw [if_neg hfile, hwr]

theorem writeTargets_fails (fs : FileSys) (config : Config) (files : TargetMap)
    (hne : files ≠ [])
    (hdir : ∀ kv ∈ files, ∀ info,
      fs.stat (filepath.Dir (filepath.Join config.TargetsDir kv.1)) = .ok info →
      info.IsDir = false) :
    ∃ err, writeTargets fs config files = (some err, []) ∧ err.Is ErrNotExist = true := by
  cases files with
  | nil => exact absurd rfl hne
  | cons kv rest =>
    obtain ⟨filename, tgs⟩ := kv
    refine ⟨.wrap ("targets dir " ++ ErrNotExist.message ++ ": "
      ++ filepath.Dir (filepath.Join config.TargetsDir filename)) ErrNotExist, ?_,
      Is_wrap_NotExist _⟩
    unfold writeTargets
    rw [writeBucket_missing fs config filename tgs
      (hdir (filename, tgs) (List.mem_cons_self _ _))]

theorem key_isPlainName (config : Config) (j : String) (hj : '/' ∉ j.data)
    (hext : '/' ∉ config.TargetsFileExt.data) :
    isPlainName (j ++ DefaultTargetsFileSuffix ++ config.TargetsFileExt) = true := by
  have hdata : (j ++ DefaultTargetsFileSuffix ++ config.TargetsFileExt).data
      = j.data ++ (['_', 't', 'a', 'r', 'g', 'e', 't', 's'] ++ config.TargetsFileExt.data) := by
    simp [String.data_append, DefaultTargetsFileSuffix]
  have hlen : 8 ≤ (j ++ DefaultTargetsFileSuffix ++ config.TargetsFileExt).data.length := by
    rw [hdata]
    simp only [List.length_append, List.length_cons, List.length_nil]
    omega
  unfold isPlainName
  rw [decide_eq_true_iff]
  refine ⟨?_, ?_, ?_, ?_⟩
  · intro h
    rw [h] at hlen
    simp at hlen
  · rw [hdata]
    simp [hj, hext]
  · intro h
    rw [h] at hlen
    simp at hlen
  · intro h
    rw [h] at hlen
    simp at hlen

theorem splitByJob_keys (config : Config) (groups : List TargetGroup)
    (hsome : ∃ g ∈ groups, g.Jobs ≠ []) :
    ∃ m, splitByJob (groups.map some) config = some m ∧ m ≠ []
      ∧ ∀ k ∈ m.map Prod.fst, ∃ g ∈ groups, ∃ j ∈ g.Jobs,
          k = j ++ DefaultTargetsFileSuffix ++ config.TargetsFileExt := by
  obtain ⟨m, hm, _, hl, _, _⟩ := splitGroups_spec config groups []
  refine ⟨m, hm, ?_, ?_⟩
  · intro hnil
    obtain ⟨g, hg, hj⟩ := hsome
    obtain ⟨j, hjm⟩ := List.exists_mem_of_ne_nil _ hj
    have hnone : m.lookup (j ++ DefaultTargetsFileSuffix ++ config.TargetsFileExt) = none := by
      rw [hnil]
      rfl
    exact ((hl _).1 hnone).2 g hg j hjm rfl
  · intro k hk
    by_contra hcon
    have hnone : m.lookup k = none := by
      rw [hl]
      refine ⟨rfl, ?_⟩
      intro g hg j hj e
      exact hcon ⟨g, hg, j, hj, e.symm⟩
    exact not_mem_keys_of_lookup_none m k hnone hk

theorem ExportTargets_fails (fs : FileSys) (config : Config) (groups : List TargetGroup)
    (visit : TargetMap → TargetMap)
    (hdir : ∀ info, fs.stat (filepath.Clean config.TargetsDir) = .ok info → info.IsDir = false)
    (hvisit : ∀ m, (visit m).Perm m)
    (hsome : ∃ g ∈ groups, g.Jobs ≠ [])
    (hjobs : ∀ g ∈ groups, ∀ j ∈ g.Jobs, '/' ∉ j.data)
    (hext : '/' ∉ config.TargetsFileExt.data) :
    ∃ err, ExportTargets fs (groups.map some) config visit = some (some err, [])
      ∧ err.Is ErrNotExist = true := by
  obtain ⟨m, hm, hne, hkeys⟩ := splitByJob_keys config groups hsome
  have hne2 : visit m ≠ [] := by
    intro h
    have hp := hvisit m
    rw [h] at hp
    exact hne hp.symm.eq_nil
  obtain ⟨err, he, his⟩ := writeTargets_fails fs config (visit m) hne2 (by
    intro kv hkv info hst
    have hmem : kv ∈ m := (hvisit m).mem_iff.1 hkv
    obtain ⟨g, hg, j, hj, hk⟩ := hkeys kv.1 (List.mem_map_of_mem _ hmem)
    have hplain : isPlainName kv.1 = true := by
      rw [hk]
      exact key_isPlainName config j (hjobs g hg j hj) hext
    rw [Dir_Join_plain _ _ hplain] at hst
    exact hdir info hst)
  refine ⟨err, ?_, his⟩
  unfold ExportTargets
  rw [hm]
  simp only []
  rw [he]

theorem splitByJob_jobless (config : Config) (groups : List TargetGroup)
    (hjobs : ∀ g ∈ groups, g.Jobs = []) : splitByJob (groups.map some) config = some [] := by
  obtain ⟨m, hm, _, hl, _, _⟩ := splitGroups_spec config groups []
  have hnil : m = [] := by
    cases hmm : m with
    | nil => rfl
    | cons kv rest =>
      exfalso
      have hnone : m.lookup kv.1 = none := by
        rw [hl]
        refine ⟨rfl, ?_⟩
        intro g hg j hj
        rw [hjobs g hg] at hj
        cases hj
      apply not_mem_keys_of_lookup_none m kv.1 hnone
      rw [hmm]
      simp
  rw [hnil] at hm
  exact hm

/-- C19 (amended): the directory in question is the cleaned path
`filepath.Clean(TargetsDir)`, the one `filepath.Join` builds the file names on
(`.` for the empty `TargetsDir` and for `missing/..`), not `TargetsDir` as
written.  When `stat` of the cleaned path fails or reports no directory,
`writeTargets` fails with an error wrapping `os.ErrNotExist` without calling the
writer for every bucket map that is not empty and whose keys are plain file
names (not empty, without a slash, not `.` or `..`); consequently
`ExportTargets`, and `export` of a parsed source, fail in the same way for every
collection of groups without nil pointer in which some group names a job, when
no job name and not the extension holds a slash, in whatever order the buckets
are visited.  For the empty bucket map `writeTargets` returns nil, so a
collection none of whose groups names a job is exported without error and
without a write. -/
theorem writeTargets_missing_dir (fs : FileSys) (config : Config)
    (hdir : ∀ info, fs.stat (filepath.Clean config.TargetsDir) = .ok info →
      info.IsDir = false) :
    (∀ files : TargetMap, files ≠ [] → (∀ kv ∈ files, isPlainName kv.1 = true) →
      ∃ err, writeTargets fs config files = (some err, []) ∧ err.Is ErrNotExist = true)
    ∧ (∀ (groups : List TargetGroup) (visit : TargetMap → TargetMap),
        (∀ m, (visit m).Perm m) → (∃ g ∈ groups, g.Jobs ≠ []) →
        (∀ g ∈ groups, ∀ j ∈ g.Jobs, '/' ∉ j.data) → '/' ∉ config.TargetsFileExt.data →
        (∃ err, ExportTargets fs (groups.map some) config visit = some (some err, [])
          ∧ err.Is ErrNotExist = true)
        ∧ (NewTargetGroups fs config = .ok (groups.map some) →
            ∃ err, main.export fs config visit = some (some err, [])
              ∧ err.Is ErrNotExist = true))
    ∧ writeTargets fs config [] = (none, [])
    ∧ (∀ (groups : List TargetGroup) (visit : TargetMap → TargetMap),
        (∀ m, (visit m).Perm m) → (∀ g ∈ groups, g.Jobs = []) →
        ExportTargets fs (groups.map some) config visit = some (none, [])
        ∧ (NewTargetGroups fs config = .ok (groups.map some) →
            main.export fs config visit = some (none, []))) := by
  refine ⟨?_, ?_, rfl, ?_⟩
  · intro files hne hplain
    apply writeTargets_fails fs config files hne
    intro kv hkv info hst
    rw [Dir_Join_plain _ _ (hplain kv hkv)] at hst
    exact hdir info hst
  rotate_left
  · intro groups visit hvisit hjobs
    have hv : visit [] = [] := (hvisit []).eq_nil
    have he : ExportTargets fs (groups.map some) config visit = some (none, []) := by
      unfold ExportTargets
      rw [splitByJob_jobless config groups hjobs]
      simp only []
      rw [hv]
      rfl
    refine ⟨he, ?_⟩
    intro hload
    unfold main.export
    rw [hload]
    simp only []
    rw [he]
  · intro groups visit hvisit hsome hjobs hext
    obtain ⟨err, he, his⟩ :=
      ExportTargets_fails fs config groups visit hdir hvisit hsome hjobs hext
    refine ⟨⟨err, he, his⟩, ?_⟩
    intro hload
    refine ⟨.wrap ("export: error exporting targets: " ++ err.message) err, ?_, ?_⟩
    · unfold main.export
      rw [hload]
      simp only []
      rw [he]
    · simp [Error.Is, his]

theorem writeTargets_missing_dir_witness :
    (∃ err, writeTargets (sourceFS [] nodeGroups) (exportConfig "/missing")
        [("node_targets.json", nodeGroups)] = (some err, []) ∧ err.Is ErrNotExist = true)
    ∧ (∃ err, main.export (sourceFS [] nodeGroups) (exportConfig "/missing") id
        = some (some err, []) ∧ err.Is ErrNotExist = true) :=
  have h := writeTargets_missing_dir (sourceFS [] nodeGroups) (exportConfig "/missing")
    (by
      intro info hst
      have he : (sourceFS [] nodeGroups).stat (filepath.Clean (exportConfig "/missing").TargetsDir)
          = .error (.wrap "stat /missing: no such file or directory" ErrNotExist) := by decide
      rw [he] at hst
      cases hst)
  ⟨h.1 [("node_targets.json", nodeGroups)] (by decide) (by decide),
    (h.2.1 [{ Jobs := ["node"], Labels := [("env", "prod")], Targets := ["10.0.0.1:9100"] }] id
      (fun m => List.Perm.refl m) ⟨_, List.mem_cons_self _ _, by decide⟩
      (by decide) (by decide)).2 (by decide)⟩

/-- C19 (as stated) fails: with a missing targets directory `writeTargets` returns nil
for the empty bucket map, and `export` of a parsed source whose only group
names no job succeeds.  And the path whose existence decides is the cleaned
one: with the empty `TargetsDir`, and with `missing/..`, `stat` of `TargetsDir`
fails (no such directory), yet the cleaned path `.` exists and the bucket
`node_targets.json` is written, into the working directory. -/
theorem writeTargets_empty_map_succeeds :
    (sourceFS [] joblessGroups).stat "/missing"
      = .error (.wrap "stat /missing: no such file or directory" ErrNotExist)
    ∧ writeTargets (sourceFS [] joblessGroups) (exportConfig "/missing") [] = (none, [])
    ∧ NewTargetGroups (sourceFS [] joblessGroups) (exportConfig "/missing") = .ok joblessGroups
    ∧ main.export (sourceFS [] joblessGroups) (exportConfig "/missing") id = some (none, [])
    ∧ (sourceFS ["."] nodeGroups).stat ""
      = .error (.wrap "stat : no such file or directory" ErrNotExist)
    ∧ filepath.Clean "" = "."
    ∧ writeTargets (sourceFS ["."] nodeGroups) (exportConfig "")
        [("node_targets.json", nodeGroups)]
      = (none, [{ file := "node_targets.json", data := "[node]", perm := 0o644 }])
    ∧ main.export (sourceFS ["."] nodeGroups) (exportConfig "") id
      = some (none, [{ file := "node_targets.json", data := "[node]", perm := 0o644 }])
    ∧ (sourceFS ["."] nodeGroups).stat "missing/.."
      = .error (.wrap "stat missing/..: no such file or directory" ErrNotExist)
    ∧ filepath.Clean "missing/.." = "."
    ∧ writeTargets (sourceFS ["."] nodeGroups) (exportConfig "missing/..")
        [("node_targets.json", nodeGroups)]
      = (none, [{ file := "node_targets.json", data := "[node]", perm := 0o644 }]) := by
  decide

theorem Join_plain_injective (dir a b : String) (ha : isPlainName a = true)
    (hb : isPlainName b = true) (h : filepath.Join dir a = filepath.Join dir b) : a = b := by
  rw [Join_plain dir a ha, Join_plain dir b hb] at h
  generalize decide (dir.data.head? = some '/') = rooted at h
  generalize (splitSlash dir.data).foldl (cleanStep rooted) [] = S at h
  have hd := congrArg String.data h
  unfold renderPath at hd
  have key : joinSlash ((a.data :: S).reverse) = joinSlash ((b.data :: S).reverse) := by
    cases rooted with
    | false =>
      simp only [Bool.false_eq_true, if_false, if_neg (List.cons_ne_nil _ _)] at hd
      exact hd
    | true =>
      simp only [if_true] at hd
      exact (List.cons.inj hd).2
  rw [List.reverse_cons, List.reverse_cons] at key
  by_cases hS : S.reverse = []
  · rw [hS] at key
    exact String.ext key
  · rw [joinSlash_append_single _ _ hS, joinSlash_append_single _ _ hS] at key
    exact String.ext (List.cons.inj (List.append_cancel_left key)).2

/-- The writes of `writeTargets` when nothing fails: if, for every bucket, the
directory of `TargetsDir` joined with the key is an existing directory, the
groups of the bucket encode (as JSON with two-space indentation when
`TargetsFileExt` is `.json`, as YAML otherwise) and the write succeeds, then
`writeTargets` returns nil and has called the writer exactly once for each
bucket, in the order visited, with the path `TargetsDir` joined with the key,
the encoded bytes and the permission 0644.  For a key that is a plain file
name the directory is the cleaned `TargetsDir`, and the paths of distinct such
keys are distinct. -/
theorem writeTargets_writes (fs : FileSys) (config : Config) (files : TargetMap)
    (enc : TargetGroups → String)
    (hdir : ∀ kv ∈ files,
      fs.stat (filepath.Dir (filepath.Join config.TargetsDir kv.1)) = .ok { IsDir := true })
    (hname : ∀ kv ∈ files, kv.1 ≠ "" ∨ config.TargetsDir ≠ "")
    (henc : ∀ kv ∈ files, (if config.TargetsFileExt = DefaultJSONFileExt
      then fs.jsonMarshalIndent kv.2 "" "  " else fs.yamlMarshal kv.2) = .ok (enc kv.2))
    (hwr : ∀ kv ∈ files,
      fs.writer (filepath.Join config.TargetsDir kv.1) (enc kv.2) 0o644 = none) :
    writeTargets fs config files
      = (none, files.map (fun kv =>
          { file := filepath.Join config.TargetsDir kv.1, data := enc kv.2, perm := 0o644 }))
    ∧ (∀ kv ∈ files, isPlainName kv.1 = true →
        filepath.Dir (filepath.Join config.TargetsDir kv.1)
          = filepath.Clean config.TargetsDir)
    ∧ (NodupKeys files → (∀ kv ∈ files, isPlainName kv.1 = true) →
        (files.map (fun kv => filepath.Join config.TargetsDir kv.1)).Nodup) := by
  refine ⟨?_, fun kv _ hp => Dir_Join_plain _ _ hp, ?_⟩
  rotate_left
  · intro hnd hplain
    have hmap : files.map (fun kv => filepath.Join config.TargetsDir kv.1)
        = (files.map Prod.fst).map (filepath.Join config.TargetsDir) := by
      rw [List.map_map]
      rfl
    rw [hmap]
    apply List.Nodup.map_on _ hnd
    intro a ha b hb hab
    obtain ⟨x, hx, rfl⟩ := List.mem_map.1 ha
    obtain ⟨y, hy, rfl⟩ := List.mem_map.1 hb
    exact Join_plain_injective _ _ _ (hplain x hx) (hplain y hy) hab
  induction files with
  | nil => rfl
  | cons kv rest ih =>
    obtain ⟨filename, tgs⟩ := kv
    have hb := writeBucket_ok fs config filename (enc tgs) tgs
      (hdir (filename, tgs) (List.mem_cons_self _ _))
      (hname (filename, tgs) (List.mem_cons_self _ _))
      (henc (filename, tgs) (List.mem_cons_self _ _))
      (hwr (filename, tgs) (List.mem_cons_self _ _))
    have ih2 := ih (fun x hx => hdir x (List.mem_cons_of_mem _ hx))
      (fun x hx => hname x (List.mem_cons_of_mem _ hx))
      (fun x hx => henc x (List.mem_cons_of_mem _ hx))
      (fun x hx => hwr x (List.mem_cons_of_mem _ hx))
    unfold writeTargets
    rw [hb, ih2]
    rfl

theorem writeTargets_writes_witness :
    writeTargets (sourceFS ["/etc/prometheus/file_sd"] nodeGroups)
        (exportConfig "/etc/prometheus/file_sd//")
        [("node_targets.json", nodeGroups), ("blackbox_targets.json", blackboxGroups)]
      = (none,
          [{ file := "/etc/prometheus/file_sd/node_targets.json", data := "[node]",
              perm := 0o644 },
            { file := "/etc/prometheus/file_sd/blackbox_targets.json", data := "[blackbox]",
              perm := 0o644 }]) :=
  (writeTargets_writes (sourceFS ["/etc/prometheus/file_sd"] nodeGroups)
    (exportConfig "/etc/prometheus/file_sd//")
    [("node_targets.json", nodeGroups), ("blackbox_targets.json", blackboxGroups)]
    (fun t => if t = nodeGroups then "[node]" else "[blackbox]")
    (by
      intro kv hkv
      have h : kv = ("node_targets.json", nodeGroups)
          ∨ kv = ("blackbox_targets.json", blackboxGroups) := by simpa using hkv
      rcases h with h | h <;> rw [h] <;> decide)
    (by
      intro kv hkv
      have h : kv = ("node_targets.json", nodeGroups)
          ∨ kv = ("blackbox_targets.json", blackboxGroups) := by simpa using hkv
      rcases h with h | h <;> rw [h] <;> decide)
    (by
      intro kv hkv
      have h : kv = ("node_targets.json", nodeGroups)
          ∨ kv = ("blackbox_targets.json", blackboxGroups) := by simpa using hkv
      rcases h with h | h <;> rw [h] <;> decide)
    (by
      intro kv hkv
      have h : kv = ("node_targets.json", nodeGroups)
          ∨ kv = ("blackbox_targets.json", blackboxGroups) := by simpa using hkv
      rcases h with h | h <;> rw [h] <;> decide)).1.trans (by decide)

/-- C20 (code): the key of a bucket holds the job name unchecked, so a job name with
a path separator breaks "one file per bucket, in `TargetsDir`".  The targets
directory exists, every encoding and every write succeeds, yet for the job
`a/b` the bucket `a/b_targets.json` is not written: the directory checked is
`TargetsDir/a`, and `writeTargets` returns the not-exist error without calling
the writer.  And the buckets `x_targets.json` and `./x_targets.json` (jobs `x`
and `./x`) are written to one and the same file, the second over the
first. -/
theorem writeTargets_not_one_file_per_bucket :
    (sourceFS ["/etc/prometheus/file_sd"] nestedGroups).stat "/etc/prometheus/file_sd"
      = .ok { IsDir := true }
    ∧ splitByJob nestedGroups (exportConfig "/etc/prometheus/file_sd")
      = some [("a/b_targets.json", nestedGroups)]
    ∧ (sourceFS ["/etc/prometheus/file_sd"] nestedGroups).jsonMarshalIndent nestedGroups "" "  "
      = .ok "[a/b]"
    ∧ (sourceFS ["/etc/prometheus/file_sd"] nestedGroups).writer
        "/etc/prometheus/file_sd/a/b_targets.json" "[a/b]" 0o644 = none
    ∧ writeTargets (sourceFS ["/etc/prometheus/file_sd"] nestedGroups)
        (exportConfig "/etc/prometheus/file_sd") [("a/b_targets.json", nestedGroups)]
      = (some (.wrap ("targets dir " ++ ErrNotExist.message ++ ": /etc/prometheus/file_sd/a")
          ErrNotExist), [])
    ∧ writeTargets (sourceFS ["/etc/prometheus/file_sd"] nestedGroups)
        (exportConfig "/etc/prometheus/file_sd")
        [("x_targets.json", nodeGroups), ("./x_targets.json", blackboxGroups)]
      = (none,
          [{ file := "/etc/prometheus/file_sd/x_targets.json", data := "[node]",
              perm := 0o644 },
            { file := "/etc/prometheus/file_sd/x_targets.json", data := "[blackbox]",
              perm := 0o644 }])
    ∧ splitByJob [some { Jobs := ["x"], Labels := [], Targets := ["10.0.0.1:9100"] },
          some { Jobs := ["./x"], Labels := [], Targets := ["10.0.0.2:9100"] }]
        (exportConfig "/etc/prometheus/file_sd")
      = some [("x_targets.json",
            [some { Jobs := ["x"], Labels := [], Targets := ["10.0.0.1:9100"] }]),
          ("./x_targets.json",
            [some { Jobs := ["./x"], Labels := [], Targets := ["10.0.0.2:9100"] }])]
    ∧ filepath.Join "/etc/prometheus/file_sd" "x_targets.json"
      = filepath.Join "/etc/prometheus/file_sd" "./x_targets.json" := by
  decide

/-- For bucket keys that are plain file names (as every key made from a job name
without path separator is) one file is written per bucket: when the cleaned
`TargetsDir` is an existing directory and every encoding and every write
succeeds, `writeTargets` returns nil having called the writer exactly once for
each bucket, in the order visited, with the path `TargetsDir` joined with the
key, whose directory is the cleaned `TargetsDir`, the encoded bytes and the
permission 0644; the paths of the buckets are pairwise distinct. -/
theorem writeTargets_plain_keys (fs : FileSys) (config : Config) (files : TargetMap)
    (enc : TargetGroups → String)
    (hplain : ∀ kv ∈ files, isPlainName kv.1 = true) (hnd : NodupKeys files)
    (hdir : fs.stat (filepath.Clean config.TargetsDir) = .ok { IsDir := true })
    (henc : ∀ kv ∈ files, (if config.TargetsFileExt = DefaultJSONFileExt
      then fs.jsonMarshalIndent kv.2 "" "  " else fs.yamlMarshal kv.2) = .ok (enc kv.2))
    (hwr : ∀ kv ∈ files,
      fs.writer (filepath.Join config.TargetsDir kv.1) (enc kv.2) 0o644 = none) :
    writeTargets fs config files
      = (none, files.map (fun kv =>
          { file := filepath.Join config.TargetsDir kv.1, data := enc kv.2, perm := 0o644 }))
    ∧ (∀ kv ∈ files, filepath.Dir (filepath.Join config.TargetsDir kv.1)
        = filepath.Clean config.TargetsDir)
    ∧ (files.map (fun kv => filepath.Join config.TargetsDir kv.1)).Nodup := by
  have hne : ∀ kv ∈ files, kv.1 ≠ "" ∨ config.TargetsDir ≠ "" := by
    intro kv hkv
    left
    intro h
    have hp := hplain kv hkv
    rw [h] at hp
    revert hp
    decide
  have h := writeTargets_writes fs config files enc
    (fun kv hkv => by rw [Dir_Join_plain _ _ (hplain kv hkv)]; exact hdir) hne henc hwr
  exact ⟨h.1, fun kv hkv => Dir_Join_plain _ _ (hplain kv hkv), h.2.2 hnd hplain⟩

/-! ## The directory of the written files -/

theorem writeBucket_calls (fs : FileSys) (config : Config) (filename : String)
    (tgs : TargetGroups) :
    ∀ call ∈ (writeBucket fs config filename tgs).2,
      call.file = filepath.Join config.TargetsDir filename := by
  intro call hcall
  have hW : ∀ data, ∀ x ∈ (WriteFile fs (filepath.Join config.TargetsDir filename) data 0o644).2,
      x.file = filepath.Join config.TargetsDir filename := by
    intro data x hx
    unfold WriteFile at hx
    by_cases hf : filepath.Join config.TargetsDir filename = ""
    · rw [if_pos hf] at hx
      simp at hx
    · rw [if_neg hf] at hx
      simp only [List.mem_singleton] at hx
      rw [hx]
  unfold writeBucket at hcall
  cases hs : fs.stat (filepath.Dir (filepath.Join config.TargetsDir filename)) with
  | error e =>
    rw [hs] at hcall
    simp at hcall
  | ok info =>
    rw [hs] at hcall
    simp only [] at hcall
    by_cases hd : info.IsDir = false
    · rw [if_pos hd] at hcall
      simp at hcall
    · rw [if_neg hd] at hcall
      by_cases hext : config.TargetsFileExt = DefaultJSONFileExt
      · rw [if_pos hext] at hcall
        unfold WriteJSON at hcall
        cases he : fs.jsonMarshalIndent tgs "" "  " with
        | error e =>
          rw [he] at hcall
          simp at hcall
        | ok data =>
          rw [he] at hcall
          exact hW data call hcall
      · rw [if_neg hext] at hcall
        unfold WriteYAML at hcall
        cases he : fs.yamlMarshal tgs with
        | error e =>
          rw [he] at hcall
          simp at hcall
        | ok data =>
          rw [he] at hcall
          exact hW data call hcall

theorem writeTargets_calls (fs : FileSys) (config : Config) (files : TargetMap) :
    ∀ call ∈ (writeTargets fs config files).2,
      ∃ kv ∈ files, call.file = filepath.Join config.TargetsDir kv.1 := by
  induction files with
  | nil =>
    intro call hcall
    simp [writeTargets] at hcall
  | cons kv rest ih =>
    obtain ⟨filename, tgs⟩ := kv
    intro call hcall
    unfold writeTargets at hcall
    cases hb : (writeBucket fs config filename tgs).1 with
    | some err =>
      rw [hb] at hcall
      exact ⟨(filename, tgs), List.mem_cons_self _ _,
        writeBucket_calls fs config filename tgs call hcall⟩
    | none =>
      rw [hb] at hcall
      rcases List.mem_append.1 hcall with h | h
      · exact ⟨(filename, tgs), List.mem_cons_self _ _,
          writeBucket_calls fs config filename tgs call h⟩
      · obtain ⟨kv, hkv, hfile⟩ := ih call h
        exact ⟨kv, List.mem_cons_of_mem _ hkv, hfile⟩

/-- For bucket keys that are plain file names every file written lies directly in
`TargetsDir`: this holds for the buckets of all job names without a slash when
the extension holds none. -/
theorem writeTargets_plain_in_targets_dir (fs : FileSys) (config : Config) (files : TargetMap)
    (hplain : ∀ kv ∈ files, isPlainName kv.1 = true) :
    ∀ call ∈ (writeTargets fs config files).2,
      filepath.Dir call.file = filepath.Clean config.TargetsDir := by
  intro call hcall
  obtain ⟨kv, hkv, hfile⟩ := writeTargets_calls fs config files call hcall
  rw [hfile]
  exact Dir_Join_plain _ _ (hplain kv hkv)

/-- C21 (code): the path written is `TargetsDir` joined with the bucket key, and the key
holds the job name as it is.  For the job `../x` and the targets directory
`/etc/prometheus/file_sd` the export writes `/etc/prometheus/x_targets.json`,
whose directory is `/etc/prometheus`; for the job `a/b` it writes
`/etc/prometheus/file_sd/a/b_targets.json`, whose directory is the
subdirectory `a`. -/
theorem writeTargets_leaves_targets_dir :
    splitByJob escapeGroups (exportConfig "/etc/prometheus/file_sd")
      = some [("../x_targets.json", escapeGroups)]
    ∧ ExportTargets escapeFS escapeGroups (exportConfig "/etc/prometheus/file_sd") id
      = some (none,
          [{ file := "/etc/prometheus/x_targets.json", data := "[../x]", perm := 0o644 }])
    ∧ filepath.Dir "/etc/prometheus/x_targets.json" = "/etc/prometheus"
    ∧ filepath.Clean (exportConfig "/etc/prometheus/file_sd").TargetsDir
      = "/etc/prometheus/file_sd"
    ∧ ExportTargets escapeFS nestedGroups (exportConfig "/etc/prometheus/file_sd") id
      = some (none,
          [{ file := "/etc/prometheus/file_sd/a/b_targets.json", data := "[a/b]",
              perm := 0o644 }])
    ∧ filepath.Dir "/etc/prometheus/file_sd/a/b_targets.json" = "/etc/prometheus/file_sd/a" := by
  decide

/-! ## The stages of `export` -/

theorem Error.Is_self (e : Error) : e.Is e = true := by
  cases e <;> simp [Error.Is]

theorem Error.Is_wrap_inner (msg : String) (e : Error) : (Error.wrap msg e).Is e = true := by
  simp [Error.Is, Error.Is_self]

theorem ExportTargets_total (fs : FileSys) (config : Config) (groups : List TargetGroup)
    (visit : TargetMap → TargetMap) :
    ∃ r, ExportTargets fs (groups.map some) config visit = some r := by
  obtain ⟨m, hm, _⟩ := splitGroups_spec config groups []
  refine ⟨writeTargets fs config (visit m), ?_⟩
  unfold ExportTargets splitByJob
  rw [hm]

/-- C22: `export` runs its stages in order and stops at the first failure.  When
`NewTargetGroups` fails with `err`, it returns the error with the text
`export: error loading source: ` followed by the text of `err`, which wraps
`err`, and calls the writer not at all; when the sources load and
`ExportTargets` fails with `err`, it returns the error with the text
`export: error exporting targets: ` followed by the text of `err`, which
wraps `err`; when both succeed it returns nil.  For every loaded collection
without nil pointer it returns one of these. -/
theorem export_stages (fs : FileSys) (config : Config) (visit : TargetMap → TargetMap) :
    (∀ err, NewTargetGroups fs config = .error err →
      main.export fs config visit
        = some (some (.wrap ("export: error loading source: " ++ err.message) err), [])
      ∧ (Error.wrap ("export: error loading source: " ++ err.message) err).Is err = true)
    ∧ (∀ tgs, NewTargetGroups fs config = .ok tgs →
        (∀ err calls, ExportTargets fs tgs config visit = some (some err, calls) →
          main.export fs config visit
            = some (some (.wrap ("export: error exporting targets: " ++ err.message) err),
                calls)
          ∧ (Error.wrap ("export: error exporting targets: " ++ err.message) err).Is err
            = true)
        ∧ (∀ calls, ExportTargets fs tgs config visit = some (none, calls) →
            main.export fs config visit = some (none, calls)))
    ∧ (∀ groups : List TargetGroup, NewTargetGroups fs config = .ok (groups.map some) →
        ∃ result calls, ExportTargets fs (groups.map some) config visit = some (result, calls)
          ∧ main.export fs config visit
            = some (result.map
                (fun err => .wrap ("export: error exporting targets: " ++ err.message) err),
              calls)) := by
  refine ⟨?_, ?_, ?_⟩
  · intro err h
    refine ⟨?_, Error.Is_wrap_inner _ _⟩
    unfold main.export
    rw [h]
  · intro tgs h
    constructor
    · intro err calls he
      refine ⟨?_, Error.Is_wrap_inner _ _⟩
      unfold main.export
      rw [h]
      simp only []
      rw [he]
    · intro calls he
      unfold main.export
      rw [h]
      simp only []
      rw [he]
  · intro groups h
    obtain ⟨r, hr⟩ := ExportTargets_total fs config groups visit
    obtain ⟨result, calls⟩ := r
    refine ⟨result, calls, hr, ?_⟩
    unfold main.export
    rw [h]
    simp only []
    rw [hr]
    cases result <;> rfl

theorem export_stages_witness :
    main.export (sourceFS [] nodeGroups)
        { exportConfig "/etc/prometheus/file_sd" with Sources := "/missing" } id
      = some (some (.wrap
          ("export: error loading source: error finding sources file: " ++ ErrNotExist.message)
          (.wrap ("error finding sources file: " ++ ErrNotExist.message) ErrNotExist)), []) :=
  ((export_stages (sourceFS [] nodeGroups)
    { exportConfig "/etc/prometheus/file_sd" with Sources := "/missing" } id).1
    (.wrap ("error finding sources file: " ++ ErrNotExist.message) ErrNotExist)
    (by decide)).1

/-! ## The keys of the merged settings map -/

theorem mem_keys_of_lookup_isSome {β : Type} (l : List (String × β)) (k : String)
    (h : (l.lookup k).isNone = false) : k ∈ l.map Prod.fst := by
  cases hl : l.lookup k with
  | none => rw [hl] at h; simp at h
  | some v => exact List.mem_map_of_mem Prod.fst (mem_keys_of_lookup_some l k v hl)

theorem parseEnvVars_keys_iff (envPrefix : String) (env flags : Flags) (k : String) :
    k ∈ (parseEnvVars envPrefix flags env).map Prod.fst
      ↔ k ∈ flags.map Prod.fst ∨ k ∈ envKeys envPrefix env := by
  induction env generalizing flags with
  | nil => simp [parseEnvVars, envKeys]
  | cons p env ih =>
    obtain ⟨n, x⟩ := p
    unfold parseEnvVars
    rw [envKeys_cons]
    by_cases h1 : HasPrefix n envPrefix = false
    · rw [if_pos h1, if_neg (by simp [h1]), ih]
    · have h1t : HasPrefix n envPrefix = true := by simpa using h1
      rw [if_neg h1, if_pos h1t]
      by_cases h2 : (flags.lookup (ToLower (TrimPrefix n envPrefix))).isNone = true
      · rw [if_pos h2, ih, keys_mapSet]
        have hnone : flags.lookup (ToLower (TrimPrefix n envPrefix)) = none := by
          simpa using h2
        rw [if_neg (not_mem_keys_of_lookup_none _ _ hnone)]
        simp only [List.mem_append, List.mem_singleton, List.mem_cons]
        tauto
      · rw [if_neg h2, ih]
        have hmem := mem_keys_of_lookup_isSome flags _ (by simpa using h2)
        simp only [List.mem_cons]
        constructor
        · rintro (h | h)
          · exact Or.inl h
          · exact Or.inr (Or.inr h)
        · rintro (h | h | h)
          · exact Or.inl h
          · rw [h]; exact Or.inl hmem
          · exact Or.inr h

theorem parseEnvVars_added (envPrefix : String) (env flags : Flags) (k v : String)
    (hnone : flags.lookup k = none)
    (hsome : (parseEnvVars envPrefix flags env).lookup k = some v) :
    ∃ n, (n, v) ∈ env ∧ HasPrefix n envPrefix = true
      ∧ ToLower (TrimPrefix n envPrefix) = k := by
  induction env generalizing flags with
  | nil =>
    simp only [parseEnvVars] at hsome
    rw [hnone] at hsome
    cases hsome
  | cons p env ih =>
    obtain ⟨n, x⟩ := p
    unfold parseEnvVars at hsome
    by_cases h1 : HasPrefix n envPrefix = false
    · rw [if_pos h1] at hsome
      obtain ⟨m, hm, hp, hk⟩ := ih flags hnone hsome
      exact ⟨m, List.mem_cons_of_mem _ hm, hp, hk⟩
    · have h1t : HasPrefix n envPrefix = true := by simpa using h1
      rw [if_neg h1] at hsome
      by_cases h2 : (flags.lookup (ToLower (TrimPrefix n envPrefix))).isNone = true
      · rw [if_pos h2] at hsome
        by_cases hk : k = ToLower (TrimPrefix n envPrefix)
        · have hset : (mapSet flags (ToLower (TrimPrefix n envPrefix)) x).lookup k = some x := by
            rw [hk]
            exact lookup_mapSet_self _ _ _
          have := parseEnvVars_lookup_of_some envPrefix env _ k x hset
          rw [this] at hsome
          have hvx : x = v := Option.some.inj hsome
          exact ⟨n, by rw [hvx]; exact List.mem_cons_self _ _, h1t, hk.symm⟩
        · have hset : (mapSet flags (ToLower (TrimPrefix n envPrefix)) x).lookup k = none := by
            rw [lookup_mapSet_of_ne _ _ _ _ hk]
            exact hnone
          obtain ⟨m, hm, hp, hk2⟩ := ih _ hset hsome
          exact ⟨m, List.mem_cons_of_mem _ hm, hp, hk2⟩
      · rw [if_neg h2] at hsome
        obtain ⟨m, hm, hp, hk⟩ := ih flags hnone hsome
        exact ⟨m, List.mem_cons_of_mem _ hm, hp, hk⟩

theorem parseEnvVars_filter (envPrefix : String) (env flags : Flags) :
    parseEnvVars envPrefix flags env
      = parseEnvVars envPrefix flags (env.filter (fun nv => HasPrefix nv.1 envPrefix)) := by
  induction env generalizing flags with
  | nil => rfl
  | cons p env ih =>
    obtain ⟨n, x⟩ := p
    by_cases h1 : HasPrefix n envPrefix = false
    · rw [List.filter_cons_of_neg (by simp [h1])]
      show (if HasPrefix n envPrefix = false then parseEnvVars envPrefix flags env else _) = _
      rw [if_pos h1]
      exact ih flags
    · have h1t : HasPrefix n envPrefix = true := by simpa using h1
      rw [List.filter_cons_of_pos (by simp [h1t])]
      unfold parseEnvVars
      rw [if_neg h1, if_neg h1]
      by_cases h2 : (flags.lookup (ToLower (TrimPrefix n envPrefix))).isNone = true
      · rw [if_pos h2, if_pos h2]
        exact ih _
      · rw [if_neg h2, if_neg h2]
        exact ih _

theorem parseEnvVarsNil_some (envPrefix : String) (env flags : Flags) :
    parseEnvVarsNil envPrefix (some flags) env
      = some (some (parseEnvVars envPrefix flags env)) := by
  induction env generalizing flags with
  | nil => rfl
  | cons nv env ih =>
    obtain ⟨n, x⟩ := nv
    unfold parseEnvVarsNil parseEnvVars
    by_cases h1 : HasPrefix n envPrefix = false
    · rw [if_pos h1, if_pos h1]
      exact ih flags
    · rw [if_neg h1, if_neg h1]
      simp only []
      by_cases h2 : (flags.lookup (ToLower (TrimPrefix n envPrefix))).isNone = true
      · rw [if_pos h2, if_pos h2]
        exact ih _
      · rw [if_neg h2, if_neg h2]
        exact ih _

theorem parseEnvVarsNil_none (envPrefix : String) (env : Flags) :
    ((∀ nv ∈ env, HasPrefix nv.1 envPrefix = false) →
      parseEnvVarsNil envPrefix none env = some none)
    ∧ ((∃ nv ∈ env, HasPrefix nv.1 envPrefix = true) →
      parseEnvVarsNil envPrefix none env = none) := by
  induction env with
  | nil =>
    refine ⟨fun _ => rfl, ?_⟩
    rintro ⟨nv, hnv, _⟩
    cases hnv
  | cons nv env ih =>
    obtain ⟨n, x⟩ := nv
    constructor
    · intro h
      unfold parseEnvVarsNil
      rw [if_pos (h (n, x) (List.mem_cons_self _ _))]
      exact ih.1 (fun y hy => h y (List.mem_cons_of_mem _ hy))
    · rintro ⟨y, hy, hyp⟩
      unfold parseEnvVarsNil
      by_cases h1 : HasPrefix n envPrefix = false
      · rw [if_pos h1]
        rcases List.mem_cons.1 hy with e | e
        · rw [e] at hyp
          rw [h1] at hyp
          cases hyp
        · exact ih.2 ⟨y, e, hyp⟩
      · rw [if_neg h1]

/-- C24 (amended): for every allocated settings map and every environment, the keys of
the map after `parseEnvVars` are the keys it had together with the lower-cased
rest (`strings.ToLower`, every Unicode letter) of every name of the
environment that starts with the configured head; a key the map had keeps its
value; a key that was added carries the value of a variable whose name starts
with the head and normalises to the key; the variables whose names do not
start with the head (`pim_sources` for the head `PIM_`) have no effect at all,
and without any name that starts with the head the map is returned as it was.
Distinct keys stay distinct.  For the nil map the function returns without
effect when no name starts with the head, and faults at the first name that
does. -/
theorem parseEnvVars_key_set (envPrefix : String) (flags env : Flags) :
    (∀ k, k ∈ (parseEnvVars envPrefix flags env).map Prod.fst
      ↔ k ∈ flags.map Prod.fst ∨ k ∈ envKeys envPrefix env)
    ∧ (∀ k v, flags.lookup k = some v → (parseEnvVars envPrefix flags env).lookup k = some v)
    ∧ (∀ k v, flags.lookup k = none → (parseEnvVars envPrefix flags env).lookup k = some v →
        ∃ n, (n, v) ∈ env ∧ HasPrefix n envPrefix = true
          ∧ ToLower (TrimPrefix n envPrefix) = k)
    ∧ parseEnvVars envPrefix flags env
      = parseEnvVars envPrefix flags (env.filter (fun nv => HasPrefix nv.1 envPrefix))
    ∧ ((∀ nv ∈ env, HasPrefix nv.1 envPrefix = false) →
        parseEnvVars envPrefix flags env = flags)
    ∧ (NodupKeys flags → NodupKeys (parseEnvVars envPrefix flags env))
    ∧ parseEnvVars "PIM_" [("debug", "true")]
        [("pim_sources", "/a"), ("HOME", "/root"), ("PIM_Targets_Dir", "/t")]
      = [("debug", "true"), ("targets_dir", "/t")]
    ∧ parseEnvVars "PIM_" [("debug", "true")]
        [("PIM_TARGETS_DİR", "/i"), ("PIM_ÉCOLE", "/e"), ("PIM_TARGETS_DIR", "/t")]
      = [("debug", "true"), ("targets_dir", "/i"), ("école", "/e")]
    ∧ parseEnvVarsNil envPrefix (some flags) env
      = some (some (parseEnvVars envPrefix flags env))
    ∧ ((∀ nv ∈ env, HasPrefix nv.1 envPrefix = false) →
        parseEnvVarsNil envPrefix none env = some none)
    ∧ ((∃ nv ∈ env, HasPrefix nv.1 envPrefix = true) →
        parseEnvVarsNil envPrefix none env = none) := by
  refine ⟨parseEnvVars_keys_iff envPrefix env flags,
    fun k v h => parseEnvVars_lookup_of_some envPrefix env flags k v h,
    fun k v h1 h2 => parseEnvVars_added envPrefix env flags k v h1 h2,
    parseEnvVars_filter envPrefix env flags, ?_,
    parseEnvVars_nodupKeys envPrefix env flags, by decide, by decide,
    parseEnvVarsNil_some envPrefix env flags, (parseEnvVarsNil_none envPrefix env).1,
    (parseEnvVarsNil_none envPrefix env).2⟩
  intro h
  rw [parseEnvVars_filter]
  have hnil : env.filter (fun nv => HasPrefix nv.1 envPrefix) = [] := by
    rw [List.filter_eq_nil_iff]
    intro nv hnv
    simp [h nv hnv]
  rw [hnil]
  rfl

/-- C24 (as stated) fails for the nil settings map: with one variable that starts with
the head, `parseEnvVars` reads the nil map (no key found) and assigns to it,
which is a run-time panic; no map with the key `sources` results.  Without
such a variable the nil map is left as it is. -/
theorem parseEnvVars_nil_map_faults :
    parseEnvVarsNil "PIM_" none [("PIM_SOURCES", "/s")] = none
    ∧ parseEnvVarsNil "PIM_" none [("HOME", "/root"), ("PIM_SOURCES", "/s")] = none
    ∧ parseEnvVarsNil "PIM_" none [("HOME", "/root")] = some none
    ∧ parseEnvVarsNil "PIM_" (some []) [("PIM_SOURCES", "/s")]
      = some (some [("sources", "/s")]) := by
  decide

/-! ## The extension of the targets files -/

/-- C28: `setConfigValue("targets_file_ext", v)` succeeds exactly when `v` is `.yml`,
`.yaml` or `.json`, and then stores `v` in `TargetsFileExt` and changes nothing
else; for every other `v` (the empty string, `txt`, `json`, `.JSON`) it leaves
the configuration as it was and returns the error
`invalid argument targets_file_ext: v, must be one of: .yml, .yaml, .json`,
which wraps `os.ErrInvalid`. -/
theorem setConfigValue_targets_file_ext (c : Config) (v : String) :
    ((c.setConfigValue "targets_file_ext" v).2 = none
      ↔ v = ".yml" ∨ v = ".yaml" ∨ v = ".json")
    ∧ (v = ".yml" ∨ v = ".yaml" ∨ v = ".json" →
        c.setConfigValue "targets_file_ext" v = ({ c with TargetsFileExt := v }, none))
    ∧ (¬ (v = ".yml" ∨ v = ".yaml" ∨ v = ".json") →
        c.setConfigValue "targets_file_ext" v
          = (c, some (.wrap ("invalid argument targets_file_ext: " ++ v
              ++ ", must be one of: .yml, .yaml, .json") ErrInvalid))
        ∧ (Error.wrap ("invalid argument targets_file_ext: " ++ v
              ++ ", must be one of: .yml, .yaml, .json") ErrInvalid).Is ErrInvalid = true)
    ∧ (c.setConfigValue "targets_file_ext" "").2 ≠ none
    ∧ (c.setConfigValue "targets_file_ext" "txt").2 ≠ none
    ∧ (c.setConfigValue "targets_file_ext" "json").2 ≠ none
    ∧ (c.setConfigValue "targets_file_ext" ".JSON").2 ≠ none := by
  have hmsg : ∀ u : String, ErrInvalid.message ++ " targets_file_ext: " ++ u
      ++ ", must be one of: " ++ Join validTargetsExtensions ", "
      = "invalid argument targets_file_ext: " ++ u ++ ", must be one of: .yml, .yaml, .json" := by
    intro u
    have h1 : Join validTargetsExtensions ", " = ".yml, .yaml, .json" := by decide
    have h2 : ErrInvalid.message ++ " targets_file_ext: " = "invalid argument targets_file_ext: " := by
      decide
    have h3 : ", must be one of: " ++ ".yml, .yaml, .json"
        = ", must be one of: .yml, .yaml, .json" := by decide
    rw [h1, h2, String.append_assoc _ ", must be one of: " _, h3]
  have hgood : v = ".yml" ∨ v = ".yaml" ∨ v = ".json" →
      c.setConfigValue "targets_file_ext" v = ({ c with TargetsFileExt := v }, none) := by
    intro h
    rcases h with h | h | h <;> subst h <;>
      simp [Config.setConfigValue, validateTargetsFileExt, validTargetsExtensions]
  have hbad : ∀ u : String, ¬ (u = ".yml" ∨ u = ".yaml" ∨ u = ".json") →
      c.setConfigValue "targets_file_ext" u
        = (c, some (.wrap ("invalid argument targets_file_ext: " ++ u
            ++ ", must be one of: .yml, .yaml, .json") ErrInvalid)) := by
    intro u h
    have hv : validateTargetsFileExt u = some (.wrap ("invalid argument targets_file_ext: " ++ u
        ++ ", must be one of: .yml, .yaml, .json") ErrInvalid) := by
      unfold validateTargetsFileExt
      have hany : validTargetsExtensions.any (fun e => decide (u = e)) = false := by
        simp only [validTargetsExtensions, List.any_cons, List.any_nil, Bool.or_false,
          Bool.or_eq_false_iff, decide_eq_false_iff_not]
        exact ⟨fun e => h (Or.inl e), fun e => h (Or.inr (Or.inl e)),
          fun e => h (Or.inr (Or.inr e))⟩
      rw [hany]
      simp only [Bool.false_eq_true, if_false]
      rw [hmsg]
    simp [Config.setConfigValue, hv]
  refine ⟨?_, hgood, fun h => ⟨hbad v h, ErrInvalid_Is_wrap _⟩, ?_, ?_, ?_, ?_⟩
  · constructor
    · intro h
      by_contra hcon
      rw [hbad v hcon] at h
      simp at h
    · intro h
      rw [hgood h]
  · rw [hbad "" (by decide)]; simp
  · rw [hbad "txt" (by decide)]; simp
  · rw [hbad "json" (by decide)]; simp
  · rw [hbad ".JSON" (by decide)]; simp

/-! ## Failing assignments -/

theorem splitExportTypesLoop_takeWhile (v : String) (l : List String) (c : Config) :
    (splitExportTypesLoop v c l).1
      = { c with RawExportTypes := c.RawExportTypes ++ l.takeWhile isValidExportTypes } := by
  induction l generalizing c with
  | nil => simp [splitExportTypesLoop]
  | cons et rest ih =>
    unfold splitExportTypesLoop
    by_cases h : isValidExportTypes et = false
    · rw [if_pos h]
      simp [List.takeWhile, h]
    · have ht : isValidExportTypes et = true := by simpa using h
      rw [if_neg h, ih]
      simp [List.takeWhile, ht]

theorem setConfigValue_error_atomic (c : Config) (k v : String) (hk : k ≠ "export_types")
    (herr : (c.setConfigValue k v).2 ≠ none) : (c.setConfigValue k v).1 = c := by
  rcases key_cases k with h | h | h | h | h | h | h | h | h | h | h | h | h | h | h
  · subst h; simp [Config.setConfigValue]
  · subst h
    cases hp : ParseBool v with
    | error e => simp [Config.setConfigValue, hp]
    | ok b => simp [Config.setConfigValue, hp] at herr
  · subst h
    cases hp : ParseBool v with
    | error e => simp [Config.setConfigValue, hp]
    | ok b => simp [Config.setConfigValue, hp] at herr
  · exact absurd h hk
  · subst h; simp [Config.setConfigValue] at herr
  · subst h
    cases hp : validateTargetsFileExt v with
    | some e => simp [Config.setConfigValue, hp]
    | none => simp [Config.setConfigValue, hp] at herr
  · subst h; simp [Config.setConfigValue] at herr
  · subst h; simp [Config.setConfigValue] at herr
  · subst h; simp [Config.setConfigValue]
  · subst h; simp [Config.setConfigValue] at herr
  · subst h; simp [Config.setConfigValue] at herr
  · subst h; simp [Config.setConfigValue] at herr
  · subst h; simp [Config.setConfigValue] at herr
  · subst h
    cases hp : Atoi v with
    | error e => simp [Config.setConfigValue, hp]
    | ok b => simp [Config.setConfigValue, hp] at herr
  · rw [setConfigValue_unknown c k v h]

/-- C25 (code): `setConfigValue("export_types", "file_sd,http")` returns an error and has
appended `file_sd` to `RawExportTypes`: `splitExportTypes` appends every piece
it accepts before it meets the piece it rejects.  For every value the
configuration after the call is the one before with the accepted pieces at
the head of the list appended; with the empty value nothing is appended.  For
every other key a call that returns an error leaves every field as it was. -/
theorem setConfigValue_export_types_not_atomic :
    DefaultConfig.setConfigValue "export_types" "file_sd,http"
      = ({ DefaultConfig with RawExportTypes := ["file_sd"] },
          some (.plain "invalid export_types: file_sd,http; must be one of: file_sd"))
    ∧ DefaultConfig.RawExportTypes = []
    ∧ (∀ (c : Config) (v : String), (c.setConfigValue "export_types" v).1
        = { c with
            RawExportTypes := c.RawExportTypes ++ (Split v).takeWhile isValidExportTypes })
    ∧ (∀ c : Config, (c.setConfigValue "export_types" "").1 = c
        ∧ (c.setConfigValue "export_types" "").2 ≠ none)
    ∧ (∀ (c : Config) (k v : String), k ≠ "export_types" → (c.setConfigValue k v).2 ≠ none →
        (c.setConfigValue k v).1 = c) := by
  have h3 : ∀ (c : Config) (v : String), (c.setConfigValue "export_types" v).1
      = { c with
          RawExportTypes := c.RawExportTypes ++ (Split v).takeWhile isValidExportTypes } := by
    intro c v
    simp only [Config.setConfigValue, Config.splitExportTypes]
    simp only [String.reduceEq, if_false, if_true]
    exact splitExportTypesLoop_takeWhile v (Split v) c
  refine ⟨by decide, rfl, h3, ?_, setConfigValue_error_atomic⟩
  intro c
  constructor
  · rw [h3]
    have : (Split "").takeWhile isValidExportTypes = [] := by decide
    rw [this]
    simp
  · rw [setConfigValue_error_indep c DefaultConfig]
    decide

/-! ## Export types -/

theorem keys_foldl_mapSet (f : String → String) (l : List String) (m : List (String × Bool))
    (k : String) :
    k ∈ (l.foldl (fun m v => mapSet m (f v) true) m).map Prod.fst
      ↔ k ∈ m.map Prod.fst ∨ k ∈ l.map f := by
  induction l generalizing m with
  | nil => simp
  | cons a rest ih =>
    rw [List.foldl_cons, ih, keys_mapSet]
    by_cases h : f a ∈ m.map Prod.fst
    · rw [if_pos h]
      simp only [List.map_cons, List.mem_cons]
      constructor
      · rintro (h1 | h1)
        · exact Or.inl h1
        · exact Or.inr (Or.inr h1)
      · rintro (h1 | h1 | h1)
        · exact Or.inl h1
        · rw [h1]; exact Or.inl h
        · exact Or.inr h1
    · rw [if_neg h]
      simp only [List.mem_append, List.mem_singleton, List.map_cons, List.mem_cons]
      tauto

theorem lookup_foldl_mapSet_keep (f : String → String) (l : List String)
    (m : List (String × Bool)) (k : String) (h : m.lookup k = some true) :
    (l.foldl (fun m v => mapSet m (f v) true) m).lookup k = some true := by
  induction l generalizing m with
  | nil => exact h
  | cons a rest ih =>
    rw [List.foldl_cons]
    apply ih
    by_cases hk : k = f a
    · rw [hk]
      exact lookup_mapSet_self _ _ _
    · rw [lookup_mapSet_of_ne _ _ _ _ hk]
      exact h

theorem lookup_foldl_mapSet_new (f : String → String) (l : List String)
    (m : List (String × Bool)) (v : String) (hv : v ∈ l) :
    (l.foldl (fun m v => mapSet m (f v) true) m).lookup (f v) = some true := by
  induction l generalizing m with
  | nil => simp at hv
  | cons a rest ih =>
    rw [List.foldl_cons]
    rcases List.mem_cons.1 hv with h | h
    · rw [h]
      exact lookup_foldl_mapSet_keep f rest _ _ (lookup_mapSet_self _ _ _)
    · exact ih _ h

theorem lookup_foldl_mapSet_old (f : String → String) (l : List String)
    (m : List (String × Bool)) (k : String) (hk : k ∉ l.map f) :
    (l.foldl (fun m v => mapSet m (f v) true) m).lookup k = m.lookup k := by
  induction l generalizing m with
  | nil => rfl
  | cons a rest ih =>
    rw [List.foldl_cons, ih _ (fun h => hk (by simp [h]))]
    exact lookup_mapSet_of_ne _ _ _ _ (fun h => hk (by simp [h]))

theorem nodupKeys_foldl_mapSet (f : String → String) (l : List String)
    (m : List (String × Bool)) (h : NodupKeys m) :
    NodupKeys (l.foldl (fun m v => mapSet m (f v) true) m) := by
  induction l generalizing m with
  | nil => exact h
  | cons a rest ih =>
    rw [List.foldl_cons]
    exact ih _ (nodupKeys_mapSet _ _ _ h)

/-- C26 (amended): `processExportTypes` adds the lower-cased form (`strings.ToLower`,
every Unicode letter: `É` gives `é`) of every entry of `RawExportTypes` to
`ExportTypes`, with the value true, and keeps the entries the set had; if the
set is then empty it inserts `file_sd`.  Afterwards
`ExportTypes` is never empty and `RawExportTypes` is nil, and no other field
has changed.  When no raw type was given and the set was empty before the
call, the set is `file_sd` alone; when no raw type was given and the set was
not empty, it is the set as it was. -/
theorem processExportTypes_spec (c : Config) :
    (∀ k, k ∈ c.processExportTypes.ExportTypes.map Prod.fst
      ↔ k ∈ c.ExportTypes.map Prod.fst ∨ k ∈ c.RawExportTypes.map ToLower
        ∨ (k = DefaultExportType ∧ c.ExportTypes = [] ∧ c.RawExportTypes = []))
    ∧ (∀ v ∈ c.RawExportTypes, c.processExportTypes.ExportTypes.lookup (ToLower v) = some true)
    ∧ (∀ k, k ∉ c.RawExportTypes.map ToLower → c.ExportTypes ≠ [] →
        c.processExportTypes.ExportTypes.lookup k = c.ExportTypes.lookup k)
    ∧ c.processExportTypes.ExportTypes ≠ []
    ∧ c.processExportTypes.RawExportTypes = []
    ∧ c.processExportTypes
      = { c with ExportTypes := c.processExportTypes.ExportTypes, RawExportTypes := [] }
    ∧ (c.RawExportTypes = [] → c.ExportTypes = [] →
        c.processExportTypes.ExportTypes = [(DefaultExportType, true)])
    ∧ (c.RawExportTypes = [] → c.ExportTypes ≠ [] →
        c.processExportTypes.ExportTypes = c.ExportTypes)
    ∧ (NodupKeys c.ExportTypes → NodupKeys c.processExportTypes.ExportTypes)
    ∧ ({ DefaultConfig with RawExportTypes := ["FILE_SD", "É", "file_sd"] }
        : Config).processExportTypes.ExportTypes
      = [("file_sd", true), ("é", true)] := by
  have hE : c.processExportTypes.ExportTypes
      = if (c.RawExportTypes.foldl (fun m v => mapSet m (ToLower v) true) c.ExportTypes).length = 0
        then mapSet (c.RawExportTypes.foldl (fun m v => mapSet m (ToLower v) true) c.ExportTypes)
          DefaultExportType true
        else c.RawExportTypes.foldl (fun m v => mapSet m (ToLower v) true) c.ExportTypes := rfl
  have hkeys := keys_foldl_mapSet ToLower c.RawExportTypes c.ExportTypes
  generalize hT : c.RawExportTypes.foldl (fun m v => mapSet m (ToLower v) true) c.ExportTypes
    = types at hE hkeys
  have hempty : types = [] ↔ c.ExportTypes = [] ∧ c.RawExportTypes = [] := by
    constructor
    · intro h
      rw [h] at hkeys
      constructor
      · cases hx : c.ExportTypes with
        | nil => rfl
        | cons a rest =>
          have := (hkeys a.1).2 (Or.inl (by rw [hx]; simp))
          simp at this
      · cases hx : c.RawExportTypes with
        | nil => rfl
        | cons a rest =>
          have := (hkeys (ToLower a)).2 (Or.inr (by rw [hx]; simp))
          simp at this
    · rintro ⟨h1, h2⟩
      rw [← hT, h1, h2]
      rfl
  refine ⟨?_, ?_, ?_, ?_, rfl, rfl, ?_, ?_, ?_, by decide⟩
  · intro k
    rw [hE]
    by_cases hl : types.length = 0
    · have hnil : types = [] := List.length_eq_zero.1 hl
      obtain ⟨h1, h2⟩ := hempty.1 hnil
      rw [if_pos hl, hnil, h1, h2]
      simp [mapSet]
    · have hne : types ≠ [] := fun h => hl (by rw [h]; rfl)
      rw [if_neg hl, hkeys]
      constructor
      · rintro (h | h)
        · exact Or.inl h
        · exact Or.inr (Or.inl h)
      · rintro (h | h | ⟨_, h1, h2⟩)
        · exact Or.inl h
        · exact Or.inr h
        · exact absurd (hempty.2 ⟨h1, h2⟩) hne
  · intro v hv
    rw [hE]
    have hnew := lookup_foldl_mapSet_new ToLower c.RawExportTypes c.ExportTypes v hv
    rw [hT] at hnew
    by_cases hl : types.length = 0
    · rw [List.length_eq_zero.1 hl] at hnew
      simp at hnew
    · rw [if_neg hl]
      exact hnew
  · intro k hk hne
    rw [hE]
    have hold := lookup_foldl_mapSet_old ToLower c.RawExportTypes c.ExportTypes k hk
    rw [hT] at hold
    have hl : types.length ≠ 0 := fun h =>
      hne (hempty.1 (List.length_eq_zero.1 h)).1
    rw [if_neg hl]
    exact hold
  · rw [hE]
    by_cases hl : types.length = 0
    · rw [if_pos hl, List.length_eq_zero.1 hl]
      simp [mapSet]
    · rw [if_neg hl]
      exact fun h => hl (by rw [h]; rfl)
  · intro h2 h1
    rw [hE, hempty.2 ⟨h1, h2⟩]
    rfl
  · intro h2 hne
    rw [hE]
    have hl : types.length ≠ 0 := fun h =>
      hne (hempty.1 (List.length_eq_zero.1 h)).1
    rw [if_neg hl, ← hT, h2]
    rfl
  · intro hnd
    rw [hE]
    have hn := nodupKeys_foldl_mapSet ToLower c.RawExportTypes c.ExportTypes hnd
    rw [hT] at hn
    by_cases hl : types.length = 0
    · rw [if_pos hl]
      exact nodupKeys_mapSet _ _ _ hn
    · rw [if_neg hl]
      exact hn

/-- C26 (as stated) fails: for a configuration whose set of export types already
holds `http` (a configuration file can store it) and that has no raw type,
`processExportTypes` leaves the set as it is, without `file_sd`. -/
theorem processExportTypes_keeps_stored_types :
    ({ DefaultConfig with ExportTypes := [("http", true)] } : Config).RawExportTypes = []
    ∧ ({ DefaultConfig with ExportTypes := [("http", true)] } : Config).processExportTypes.ExportTypes
      = [("http", true)]
    ∧ (NewConfig (oneFileWorld "/etc/pim/pim.yml" "exporttypes:\n  http: true\n"
        { ExportTypes := some [("http", true)] } none) [] [] [])
      = ({ DefaultConfig with ExportTypes := [("http", true)] }, none) := by
  decide

/-! ## The extension of the configuration file -/

theorem parseConfigFile_extension (c : Config) (w : World) (file : String)
    (hext : Ext file ∉ validConfigExtensions) :
    (file = "" →
      c.parseConfigFile w file = (c, some (.wrap ("config: " ++ ErrInvalid.message) ErrInvalid)))
    ∧ (file ≠ "" → ∀ e, w.tester file = some e → c.parseConfigFile w file = (c, some e))
    ∧ (file ≠ "" → w.tester file = none →
        c.parseConfigFile w file
          = (c, some (.plain ("invalid config_targets_file_ext: " ++ Ext file
              ++ "; must be one of: .yml, .yaml, .json")))) := by
  have h1 : ¬ (Ext file = ".yml" ∨ Ext file = ".yaml") := by
    intro h
    apply hext
    rcases h with h | h <;> rw [h] <;> decide
  have h2 : ¬ Ext file = ".json" := by
    intro h
    apply hext
    rw [h]
    decide
  refine ⟨?_, ?_, ?_⟩
  · intro h
    unfold Config.parseConfigFile
    rw [if_pos h]
  · intro h e he
    unfold Config.parseConfigFile
    rw [if_neg h, he]
  · intro h he
    unfold Config.parseConfigFile
    rw [if_neg h, he]
    simp only []
    rw [if_neg h1, if_neg h2]
    have hj : Join validConfigExtensions ", " = ".yml, .yaml, .json" := by decide
    have h3 : "; must be one of: " ++ ".yml, .yaml, .json"
        = "; must be one of: .yml, .yaml, .json" := by decide
    rw [hj, String.append_assoc _ "; must be one of: " _, h3]

theorem NewConfig_of_not_exist (w : World) (flags env visit : Flags) (e : Error)
    (hp : (startConfig (parseEnvVars w.envPrefix flags env)).parseConfigFile w
        (startConfig (parseEnvVars w.envPrefix flags env)).ConfigFile
      = (startConfig (parseEnvVars w.envPrefix flags env), some e))
    (hIs : e.Is ErrNotExist = true) :
    (NewConfig w flags env visit).2
      = (applySettings (startConfig (parseEnvVars w.envPrefix flags env)) visit).2 := by
  simp only [NewConfig]
  rw [hp]
  simp only []
  rw [if_neg (by simp [hIs])]
  cases h : (applySettings (startConfig (parseEnvVars w.envPrefix flags env)) visit).2 <;> rfl

/-- C27 (amended): for a `config_file` value whose extension is none of `.yml`, `.yaml`,
`.json`, `NewConfig` returns an error whenever the path is empty or the
readability test of the path does not report not-exist: the error wrapping
`os.ErrInvalid` for the empty path, the error of the test when the test
fails, and the error that names the extension and the three valid ones when
the test passes.  When the test reports that the path does not exist, the
extension is not looked at and `NewConfig` goes on to the settings loop, whose
outcome is its outcome. -/
theorem NewConfig_config_file_extension (w : World) (flags env visit : Flags) (file : String)
    (hfile : (parseEnvVars w.envPrefix flags env).lookup "config_file" = some file)
    (hext : Ext file ∉ validConfigExtensions) :
    (file = "" →
      (NewConfig w flags env visit).2 = some (.wrap ("config: " ++ ErrInvalid.message) ErrInvalid))
    ∧ (file ≠ "" → ∀ e, w.tester file = some e → e.Is ErrNotExist = false →
        (NewConfig w flags env visit).2 = some e)
    ∧ (file ≠ "" → w.tester file = none →
        (NewConfig w flags env visit).2
          = some (.plain ("invalid config_targets_file_ext: " ++ Ext file
              ++ "; must be one of: .yml, .yaml, .json")))
    ∧ (file ≠ "" → ∀ e, w.tester file = some e → e.Is ErrNotExist = true →
        (NewConfig w flags env visit).2
          = (applySettings (startConfig (parseEnvVars w.envPrefix flags env)) visit).2) := by
  have hcf : (startConfig (parseEnvVars w.envPrefix flags env)).ConfigFile = file := by
    rw [(startConfig_fields _).2.2.2.2.1, hfile]
    rfl
  obtain ⟨p1, p2, p3⟩ :=
    parseConfigFile_extension (startConfig (parseEnvVars w.envPrefix flags env)) w file hext
  refine ⟨?_, ?_, ?_, ?_⟩
  · intro h
    rw [NewConfig_of_fatal w flags env visit _ (by rw [hcf, p1 h]) (by decide)]
  · intro h e he hIs
    rw [NewConfig_of_fatal w flags env visit e (by rw [hcf, p2 h e he]) hIs]
  · intro h he
    rw [NewConfig_of_fatal w flags env visit _ (by rw [hcf, p3 h he])
      (by simp [Error.Is, ErrNotExist])]
  · intro h e he hIs
    exact NewConfig_of_not_exist w flags env visit e (by rw [hcf, p2 h e he]) hIs

theorem NewConfig_config_file_extension_witness :
    (NewConfig (oneFileWorld "/tmp/pim.txt" "sources: /x\n" { Sources := some "/x" } none)
        [("config_file", "/tmp/pim.txt")] [] [("config_file", "/tmp/pim.txt")]).2
      = some (.plain "invalid config_targets_file_ext: .txt; must be one of: .yml, .yaml, .json") :=
  ((NewConfig_config_file_extension
    (oneFileWorld "/tmp/pim.txt" "sources: /x\n" { Sources := some "/x" } none)
    [("config_file", "/tmp/pim.txt")] [] [("config_file", "/tmp/pim.txt")] "/tmp/pim.txt"
    (by decide) (by decide)).2.2.1 (by decide) (by decide)).trans (by decide)

/-- C27 (as stated) fails: no file exists at `/tmp/pim.txt`, whose extension is `.txt`,
and `NewConfig` with `config_file = /tmp/pim.txt` succeeds with the defaults. -/
theorem NewConfig_missing_file_with_bad_extension :
    Ext "/tmp/pim.txt" = ".txt"
    ∧ emptyWorld.tester "/tmp/pim.txt"
      = some (.wrap "stat /tmp/pim.txt: no such file or directory" ErrNotExist)
    ∧ NewConfig emptyWorld [("config_file", "/tmp/pim.txt")] [] [("config_file", "/tmp/pim.txt")]
      = ({ DefaultConfig with
            ConfigFile := "/tmp/pim.txt", ExportTypes := [("file_sd", true)],
            Flags := [("config_file", "/tmp/pim.txt")] }, none) := by
  decide

/-! ## The run command -/

theorem NewConfig_rejects_key (w : World) (flags env visit : Flags) (k v : String)
    (hk : k ∉ ["config_file", "debug", "export_first", "export_types", "targets_dir",
      "targets_file_ext", "targets_file_suffix", "sources", "command", "http_api_host",
      "http_api_port", "http_tls_cert_file", "http_tls_key_file", "http_shutdown_timeout"])
    (hl : flags.lookup k = some v)
    (hperm : visit.Perm (parseEnvVars w.envPrefix flags env)) :
    (NewConfig w flags env visit).2 ≠ none := by
  apply NewConfig_error_of_applySettings
  intro c
  apply applySettings_error_of_mem k v
  · intro c2
    rw [setConfigValue_unknown c2 k v hk]
    simp
  · apply hperm.mem_iff.2
    exact mem_keys_of_lookup_some _ k v (parseEnvVars_lookup_of_some w.envPrefix env flags k v hl)

/-- C29 (code): for `pim run --tls-certfile /etc/pim/cert.pem --tls-keyfile
/etc/pim/key.pem --server-timeout 30` `parseArgs` returns the settings map
with the two keys `http_tls_certfile = 30` and `command = run`: the three
options assign the same key, each value replacing the one before.
`setConfigValue` does not know this key, so `NewConfig` returns an error
wrapping `os.ErrInvalid` for every environment, file system and visiting
order, and no field of a `Config` is ever set from the three options. -/
theorem run_options_assign_unknown_key :
    parseArgs hostURL ["pim", "run", "--tls-certfile", "/etc/pim/cert.pem", "--tls-keyfile",
        "/etc/pim/key.pem", "--server-timeout", "30"]
      = some (.ok [("http_tls_certfile", "30"), ("command", "run")])
    ∧ (∀ c : Config, c.setConfigValue "http_tls_certfile" "30"
        = (c, some (.wrap "config: invalid argument: http_tls_certfile" ErrInvalid)))
    ∧ (∀ (w : World) (env visit : Flags),
        visit.Perm (parseEnvVars w.envPrefix [("http_tls_certfile", "30"), ("command", "run")] env) →
        (NewConfig w [("http_tls_certfile", "30"), ("command", "run")] env visit).2 ≠ none)
    ∧ (NewConfig emptyWorld [("http_tls_certfile", "30"), ("command", "run")] []
        [("command", "run"), ("http_tls_certfile", "30")]).2
      = some (.wrap "config: invalid argument: http_tls_certfile" ErrInvalid) := by
  refine ⟨by decide, ?_, ?_, by decide⟩
  · intro c
    rw [setConfigValue_unknown c _ _ (by decide)]
    rfl
  · intro w env visit hperm
    exact NewConfig_rejects_key w _ env visit "http_tls_certfile" "30" (by decide) (by decide)
      hperm

/-- C30 (code): for `pim run http://0.0.0.0:9900 /etc/pim/sources` `parseArgs` returns a
settings map that holds `sources` and, with it, the key `http_export_first`.
`setConfigValue` does not know this key, so `NewConfig` returns an error
wrapping `os.ErrInvalid` for every environment, file system and visiting
order: no `Config` is made and the handler is not reached.  The same holds for
every address that parses with a scheme and a host and every sources
argument. -/
theorem run_sources_assigns_unknown_key :
    parseArgs hostURL ["pim", "run", "http://0.0.0.0:9900", "/etc/pim/sources"]
      = some (.ok [("command", "run"), ("http_api_host", "0.0.0.0"), ("http_api_port", "9900"),
          ("sources", "/etc/pim/sources"), ("http_export_first", "true")])
    ∧ (∀ c : Config, c.setConfigValue "http_export_first" "true"
        = (c, some (.wrap "config: invalid argument: http_export_first" ErrInvalid)))
    ∧ (NewConfig emptyWorld
        [("command", "run"), ("http_api_host", "0.0.0.0"), ("http_api_port", "9900"),
          ("sources", "/etc/pim/sources"), ("http_export_first", "true")] []
        [("command", "run"), ("http_api_host", "0.0.0.0"), ("http_api_port", "9900"),
          ("sources", "/etc/pim/sources"), ("http_export_first", "true")]).2
      = some (.wrap "config: invalid argument: http_export_first" ErrInvalid)
    ∧ (∀ (urlParse : String → Except Error URL) (address sources : String) (u : URL),
        urlParse address = .ok u → u.Scheme ≠ "" → u.Host ≠ "" →
        HasPrefix address "-" = false → HasPrefix sources "-" = false →
        ∃ flags, parseArgs urlParse ["pim", "run", address, sources] = some (.ok flags)
          ∧ flags.lookup "http_export_first" = some "true"
          ∧ ∀ (w : World) (env visit : Flags),
              visit.Perm (parseEnvVars w.envPrefix flags env) →
              (NewConfig w flags env visit).2 ≠ none) := by
  refine ⟨by decide, ?_, by decide, ?_⟩
  · intro c
    rw [setConfigValue_unknown c _ _ (by decide)]
    rfl
  · intro urlParse address sources u hu hs hh ha hsrc
    have h1 : parseOptions ["pim", "run", address, sources]
        = some (.ok ([], ["run", address, sources])) := by
      have hc : optionCase "run" = .other := by decide
      have hl : (commands.lookup "run").isSome = true := by decide
      simp [parseOptions, parseOptionsLoop, hc, hl]
    have hrun : HasPrefix "run" "-" = false := by decide
    have h2 : parseRunOptions [] ["run", address, sources]
        = some ([], .ok ["run", address, sources]) := by
      simp [parseRunOptions, parseRunOptionsLoop, hrun, ha, hsrc]
    have h3 : ∃ flags, parseRunLoop urlParse 0 ["run", address, sources] [] []
          = (flags, .ok [])
        ∧ flags.lookup "http_export_first" = some "true" := by
      by_cases hp : u.Port = ""
      · refine ⟨mapSet (mapSet (mapSet (mapSet [] "command" "run") "http_api_host" u.Hostname)
          "sources" sources) "http_export_first" "true", ?_, lookup_mapSet_self _ _ _⟩
        simp [parseRunLoop, setHttpHostFlags, hu, hs, hh, hp]
      · refine ⟨mapSet (mapSet (mapSet (mapSet (mapSet [] "command" "run") "http_api_host"
          u.Hostname) "http_api_port" u.Port) "sources" sources) "http_export_first" "true",
          ?_, lookup_mapSet_self _ _ _⟩
        simp [parseRunLoop, setHttpHostFlags, hu, hs, hh, hp]
    obtain ⟨flags, hf, hlook⟩ := h3
    refine ⟨flags, ?_, hlook, ?_⟩
    · unfold parseArgs
      rw [h1]
      simp only [List.lookup, Option.isSome_none, Bool.false_eq_true, if_false]
      simp only [String.reduceEq, if_false, if_true]
      unfold parseRunCommand
      simp only [List.length_cons, List.length_nil]
      rw [if_neg (by omega), h2]
      simp only []
      rw [hf]
      rfl
    · intro w env visit hperm
      exact NewConfig_rejects_key w flags env visit "http_export_first" "true" (by decide)
        hlook hperm

/-! ## The options loop as a function of the arguments not yet read -/

theorem optionCase_valued (f key : String) (h : optionCase f = .valued key) :
    (f = "-c" ∨ f = "--config-file") ∧ key = "config_file"
    ∨ (f = "-e" ∨ f = "--export-types") ∧ key = "export_types"
    ∨ (f = "-s" ∨ f = "--sources") ∧ key = "sources"
    ∨ (f = "-t" ∨ f = "--targets") ∧ key = "targets_dir"
    ∨ f = "--targets-ext" ∧ key = "targets_file_ext"
    ∨ f = "--targets-suffix" ∧ key = "targets_file_suffix" := by
  unfold optionCase at h
  by_cases h1 : f = "--help"
  · rw [if_pos h1] at h; cases h
  rw [if_neg h1] at h
  by_cases h2 : f = "--version"
  · rw [if_pos h2] at h; cases h
  rw [if_neg h2] at h
  by_cases h3 : f = "-c" ∨ f = "--config-file"
  · rw [if_pos h3] at h
    exact Or.inl ⟨h3, (OptionCase.valued.inj h).symm⟩
  rw [if_neg h3] at h
  by_cases h4 : f = "--export-first"
  · rw [if_pos h4] at h; cases h
  rw [if_neg h4] at h
  by_cases h5 : f = "-e" ∨ f = "--export-types"
  · rw [if_pos h5] at h
    exact Or.inr (Or.inl ⟨h5, (OptionCase.valued.inj h).symm⟩)
  rw [if_neg h5] at h
  by_cases h6 : f = "-q" ∨ f = "--quiet"
  · rw [if_pos h6] at h; cases h
  rw [if_neg h6] at h
  by_cases h7 : f = "-s" ∨ f = "--sources"
  · rw [if_pos h7] at h
    exact Or.inr (Or.inr (Or.inl ⟨h7, (OptionCase.valued.inj h).symm⟩))
  rw [if_neg h7] at h
  by_cases h8 : f = "-t" ∨ f = "--targets"
  · rw [if_pos h8] at h
    exact Or.inr (Or.inr (Or.inr (Or.inl ⟨h8, (OptionCase.valued.inj h).symm⟩)))
  rw [if_neg h8] at h
  by_cases h9 : f = "--targets-ext"
  · rw [if_pos h9] at h
    exact Or.inr (Or.inr (Or.inr (Or.inr (Or.inl ⟨h9, (OptionCase.valued.inj h).symm⟩))))
  rw [if_neg h9] at h
  by_cases h10 : f = "--targets-suffix"
  · rw [if_pos h10] at h
    exact Or.inr (Or.inr (Or.inr (Or.inr (Or.inr ⟨h10, (OptionCase.valued.inj h).symm⟩))))
  rw [if_neg h10] at h
  by_cases h11 : f = "-v" ∨ f = "--verbose"
  · rw [if_pos h11] at h; cases h
  rw [if_neg h11] at h
  cases h

theorem optionCase_switch (f key value : String) (h : optionCase f = .switch key value) :
    (f = "--export-first" ∧ key = "export_first"
    ∨ (f = "-q" ∨ f = "--quiet") ∧ key = "quiet"
    ∨ (f = "-v" ∨ f = "--verbose") ∧ key = "debug") ∧ value = "true" := by
  unfold optionCase at h
  by_cases h1 : f = "--help"
  · rw [if_pos h1] at h; cases h
  rw [if_neg h1] at h
  by_cases h2 : f = "--version"
  · rw [if_pos h2] at h; cases h
  rw [if_neg h2] at h
  by_cases h3 : f = "-c" ∨ f = "--config-file"
  · rw [if_pos h3] at h; cases h
  rw [if_neg h3] at h
  by_cases h4 : f = "--export-first"
  · rw [if_pos h4] at h
    exact ⟨Or.inl ⟨h4, (OptionCase.switch.inj h).1.symm⟩, (OptionCase.switch.inj h).2.symm⟩
  rw [if_neg h4] at h
  by_cases h5 : f = "-e" ∨ f = "--export-types"
  · rw [if_pos h5] at h; cases h
  rw [if_neg h5] at h
  by_cases h6 : f = "-q" ∨ f = "--quiet"
  · rw [if_pos h6] at h
    exact ⟨Or.inr (Or.inl ⟨h6, (OptionCase.switch.inj h).1.symm⟩), (OptionCase.switch.inj h).2.symm⟩
  rw [if_neg h6] at h
  by_cases h7 : f = "-s" ∨ f = "--sources"
  · rw [if_pos h7] at h; cases h
  rw [if_neg h7] at h
  by_cases h8 : f = "-t" ∨ f = "--targets"
  · rw [if_pos h8] at h; cases h
  rw [if_neg h8] at h
  by_cases h9 : f = "--targets-ext"
  · rw [if_pos h9] at h; cases h
  rw [if_neg h9] at h
  by_cases h10 : f = "--targets-suffix"
  · rw [if_pos h10] at h; cases h
  rw [if_neg h10] at h
  by_cases h11 : f = "-v" ∨ f = "--verbose"
  · rw [if_pos h11] at h
    exact ⟨Or.inr (Or.inr ⟨h11, (OptionCase.switch.inj h).1.symm⟩), (OptionCase.switch.inj h).2.symm⟩
  rw [if_neg h11] at h
  cases h

theorem SplitN2_of_valued (f key : String) (h : optionCase f = .valued key) :
    SplitN2 f '=' = [f] := by
  rcases optionCase_valued f key h with ⟨e | e, _⟩ | ⟨e | e, _⟩ | ⟨e | e, _⟩ | ⟨e | e, _⟩
    | ⟨e, _⟩ | ⟨e, _⟩ <;> subst e <;> decide

theorem getNextValue_last (args : List String) (i : Nat) (f key : String)
    (hd : args.drop i = [f]) (hc : optionCase f = .valued key) :
    getNextValue args i
      = some (.error (.wrap (ErrInvalid.message ++ ": missing value for " ++ f) ErrInvalid)) := by
  have hlen : args.length - i = 1 := by
    have := congrArg List.length hd
    simpa using this
  have hf : args[i]? = some f := by
    have := List.getElem?_drop (L := args) (i := i) (j := 0)
    rw [hd] at this
    simpa using this.symm
  unfold getNextValue
  rw [hf]
  simp only []
  rw [SplitN2_of_valued f key hc]
  simp only []
  rw [if_pos (by omega)]

theorem getNextValue_next (args : List String) (i : Nat) (f v key : String)
    (rest : List String) (hd : args.drop i = f :: v :: rest)
    (hc : optionCase f = .valued key) :
    getNextValue args i
      = if HasPrefix v "-" then
          some (.error (.wrap (ErrInvalid.message ++ ": value appears to be a flag " ++ f
            ++ ": " ++ v) ErrInvalid))
        else some (.ok (i + 1, v)) := by
  have hlen : args.length - i = rest.length + 2 := by
    have := congrArg List.length hd
    simpa using this
  have hf : args[i]? = some f := by
    have := List.getElem?_drop (L := args) (i := i) (j := 0)
    rw [hd] at this
    simpa using this.symm
  have hv : args[i + 1]? = some v := by
    have := List.getElem?_drop (L := args) (i := i) (j := 1)
    rw [hd] at this
    simpa using this.symm
  unfold getNextValue
  rw [hf]
  simp only []
  rw [SplitN2_of_valued f key hc]
  simp only []
  rw [if_neg (by omega), hv]

theorem parseOptionsLoop_eq (args : List String) :
    ∀ (fuel i : Nat) (flags : Flags), args.length ≤ i + fuel →
      parseOptionsLoop args fuel i flags = some (parseOptionsFrom (args.drop i) flags) := by
  intro fuel
  induction fuel with
  | zero =>
    intro i flags h
    rw [List.drop_eq_nil_of_le (by omega)]
    rfl
  | succ fuel ih =>
    intro i flags h
    unfold parseOptionsLoop
    by_cases hi : args.length ≤ i
    · rw [if_pos hi, List.drop_eq_nil_of_le hi]
      rfl
    · rw [if_neg hi]
      have hlt : i < args.length := by omega
      have hdrop : args.drop i = args[i] :: args.drop (i + 1) := List.drop_eq_getElem_cons hlt
      rw [List.getElem?_eq_getElem hlt, hdrop]
      simp only []
      generalize args[i] = f at hdrop ⊢
      unfold parseOptionsFrom
      cases hc : optionCase f with
      | printHelp => rfl
      | printVersion => rfl
      | valued key =>
        simp only []
        cases ht : args.drop (i + 1) with
        | nil =>
          rw [ht] at hdrop
          rw [getNextValue_last args i f key hdrop hc]
          rfl
        | cons v rest2 =>
          rw [ht] at hdrop
          rw [getNextValue_next args i f v key rest2 hdrop hc]
          have hrest : args.drop (i + 1 + 1) = rest2 := by
            have := congrArg (List.drop 1) ht
            simpa using this
          by_cases hp : HasPrefix v "-" = true
          · rw [if_pos hp]
            simp only [hp, ↓reduceIte]
            rfl
          · rw [if_neg hp]
            simp only [hp, ↓reduceIte]
            rw [ih (i + 1 + 1) _ (by omega), hrest]
            simp
      | switch key value =>
        simp only []
        rw [ih (i + 1) _ (by omega)]
      | other =>
        simp only []
        by_cases hcmd : (commands.lookup f).isSome = true
        · rw [if_pos hcmd, if_pos hcmd]
        · rw [if_neg hcmd, if_neg hcmd]

theorem parseOptions_eq (args : List String) :
    parseOptions args = some (parseOptionsFrom (args.drop 1) []) :=
  parseOptionsLoop_eq args args.length 1 [] (by omega)

theorem parseOptionsFrom_valued (f key v : String) (rest : List String) (flags : Flags)
    (hc : optionCase f = .valued key) (hp : HasPrefix v "-" = false) :
    parseOptionsFrom (f :: v :: rest) flags = parseOptionsFrom rest (mapSet flags key v) := by
  simp only [parseOptionsFrom, hc, hp, Bool.false_eq_true, if_false]

theorem parseOptionsFrom_switch (f key value : String) (rest : List String) (flags : Flags)
    (hc : optionCase f = .switch key value) :
    parseOptionsFrom (f :: rest) flags = parseOptionsFrom rest (mapSet flags key value) := by
  simp only [parseOptionsFrom, hc]

theorem parseOptionsFrom_export (rest : List String) (flags : Flags) :
    parseOptionsFrom ("export" :: rest) flags = .ok (flags, "export" :: rest) := by
  have hc : optionCase "export" = .other := by decide
  have hl : (commands.lookup "export").isSome = true := by decide
  simp only [parseOptionsFrom, hc, hl, if_true]

theorem optionSetting_cases (o : WrittenOption) (kv : String × String)
    (h : optionSetting o = some kv) :
    (∃ v, o.2 = some v ∧ optionCase o.1 = .valued kv.1 ∧ kv.2 = v ∧ HasPrefix v "-" = false)
    ∨ (o.2 = none ∧ optionCase o.1 = .switch kv.1 kv.2) := by
  obtain ⟨name, value⟩ := o
  unfold optionSetting at h
  cases hc : optionCase name with
  | printHelp => rw [hc] at h; simp at h
  | printVersion => rw [hc] at h; simp at h
  | other => rw [hc] at h; simp at h
  | valued key =>
    rw [hc] at h
    cases value with
    | none => simp at h
    | some v =>
      simp only [] at h
      by_cases hp : HasPrefix v "-" = true
      · rw [if_pos hp] at h
        cases h
      · rw [if_neg hp] at h
        have hkv : (key, v) = kv := Option.some.inj h
        left
        refine ⟨v, rfl, ?_, ?_, by simpa using hp⟩
        · rw [← hkv]
        · rw [← hkv]
  | switch key val =>
    rw [hc] at h
    cases value with
    | some v => simp at h
    | none =>
      simp only [] at h
      have hkv : (key, val) = kv := Option.some.inj h
      right
      refine ⟨rfl, ?_⟩
      rw [← hkv]

theorem optionSetting_key (o : WrittenOption) (kv : String × String)
    (h : optionSetting o = some kv) :
    kv.1 ∈ ["config_file", "export_types", "sources", "targets_dir", "targets_file_ext",
      "targets_file_suffix", "export_first", "quiet", "debug"] := by
  rcases optionSetting_cases o kv h with ⟨v, _, hc, _, _⟩ | ⟨_, hc⟩
  · rcases optionCase_valued _ _ hc with ⟨_, e⟩ | ⟨_, e⟩ | ⟨_, e⟩ | ⟨_, e⟩ | ⟨_, e⟩ | ⟨_, e⟩ <;>
      rw [e] <;> decide
  · rcases (optionCase_switch _ _ _ hc).1 with ⟨_, e⟩ | ⟨_, e⟩ | ⟨_, e⟩ <;> rw [e] <;> decide

theorem parseOptionsFrom_options (opts : List WrittenOption) :
    ∀ (settings : Flags) (rest : List String) (flags : Flags),
      opts.map optionSetting = settings.map some →
      parseOptionsFrom (opts.flatMap optionArgs ++ rest) flags
        = parseOptionsFrom rest (settings.foldl (fun m kv => mapSet m kv.1 kv.2) flags) := by
  induction opts with
  | nil =>
    intro settings rest flags h
    cases settings with
    | nil => rfl
    | cons kv more => simp at h
  | cons o opts ih =>
    intro settings rest flags h
    cases settings with
    | nil => simp at h
    | cons kv more =>
      simp only [List.map_cons, List.cons.injEq] at h
      obtain ⟨h1, h2⟩ := h
      rw [List.flatMap_cons, List.append_assoc, List.foldl_cons]
      rcases optionSetting_cases o kv h1 with ⟨v, hv, hc, hkv, hp⟩ | ⟨hv, hc⟩
      · have ho : optionArgs o = [o.1, v] := by
          unfold optionArgs
          rw [hv]
          rfl
        rw [ho]
        show parseOptionsFrom (o.1 :: v :: (opts.flatMap optionArgs ++ rest)) flags = _
        rw [parseOptionsFrom_valued _ _ _ _ _ hc hp, ih more rest _ h2, ← hkv]
      · have ho : optionArgs o = [o.1] := by
          unfold optionArgs
          rw [hv]
          rfl
        rw [ho]
        show parseOptionsFrom (o.1 :: (opts.flatMap optionArgs ++ rest)) flags = _
        rw [parseOptionsFrom_switch _ _ _ _ _ hc, ih more rest _ h2]

theorem lookup_foldl_settings_ne (settings : Flags) (k : String)
    (hk : k ∉ settings.map Prod.fst) :
    ∀ flags : Flags,
      (settings.foldl (fun m kv => mapSet m kv.1 kv.2) flags).lookup k = flags.lookup k := by
  induction settings with
  | nil => intro flags; rfl
  | cons kv more ih =>
    intro flags
    rw [List.foldl_cons, ih (fun h => hk (by simp [h]))]
    exact lookup_mapSet_of_ne _ _ _ _ (fun h => hk (by simp [h]))

theorem foldl_settings_of_nodup (settings : Flags) :
    ∀ flags : Flags, NodupKeys (flags ++ settings) →
      settings.foldl (fun m kv => mapSet m kv.1 kv.2) flags = flags ++ settings := by
  induction settings with
  | nil => intro flags _; simp
  | cons kv more ih =>
    intro flags hnd
    have hnotin : kv.1 ∉ flags.map Prod.fst := by
      unfold NodupKeys at hnd
      rw [List.map_append, List.map_cons] at hnd
      have := (List.nodup_append.1 hnd).2.2
      intro hmem
      exact this hmem (List.mem_cons_self _ _)
    rw [List.foldl_cons, mapSet_of_lookup_none _ _ _ (lookup_none_of_not_mem_keys _ _ hnotin)]
    rw [ih (flags ++ [(kv.1, kv.2)]) (by simpa [List.append_assoc] using hnd)]
    simp [List.append_assoc]

theorem settings_keys (opts : List WrittenOption) (settings : Flags)
    (h : opts.map optionSetting = settings.map some) :
    ∀ k ∈ settings.map Prod.fst,
      k ∈ ["config_file", "export_types", "sources", "targets_dir", "targets_file_ext",
        "targets_file_suffix", "export_first", "quiet", "debug"] := by
  induction opts generalizing settings with
  | nil =>
    cases settings with
    | nil => intro k hk; simp at hk
    | cons kv more => simp at h
  | cons o opts ih =>
    cases settings with
    | nil => simp at h
    | cons kv more =>
      simp only [List.map_cons, List.cons.injEq] at h
      intro k hk
      rcases List.mem_cons.1 hk with e | e
      · rw [e]
        exact optionSetting_key o kv h.1
      · exact ih more h.2 k e

theorem parseExportLoop_rest (rest : List String) :
    ∀ (i : Nat) (flags : Flags) (a : List String), 3 ≤ i →
      parseExportLoop i rest flags a = (flags, a ++ rest) := by
  induction rest with
  | nil => intro i flags a _; simp [parseExportLoop]
  | cons v more ih =>
    intro i flags a hi
    unfold parseExportLoop
    rw [if_neg (by omega), if_neg (by omega), if_neg (by omega), ih (i + 1) flags _ (by omega)]
    simp

theorem parseArgs_export_of_options (urlParse : String → Except Error URL) (prog : String)
    (opts : List WrittenOption) (settings : Flags)
    (hopts : opts.map optionSetting = settings.map some) (positional : List String) :
    parseArgs urlParse (prog :: opts.flatMap optionArgs ++ "export" :: positional)
      = some (finishArgs
          (parseExportCommand (settings.foldl (fun m kv => mapSet m kv.1 kv.2) [])
            ("export" :: positional)).1
          (parseExportCommand (settings.foldl (fun m kv => mapSet m kv.1 kv.2) [])
            ("export" :: positional)).2) := by
  have hk := settings_keys opts settings hopts
  have hexit : (settings.foldl (fun m kv => mapSet m kv.1 kv.2) ([] : Flags)).lookup "exit_0"
      = none := by
    rw [lookup_foldl_settings_ne settings "exit_0" (fun h => absurd (hk _ h) (by decide))]
    rfl
  unfold parseArgs
  rw [parseOptions_eq]
  have hd : (prog :: opts.flatMap optionArgs ++ "export" :: positional).drop 1
      = opts.flatMap optionArgs ++ "export" :: positional := rfl
  rw [hd, parseOptionsFrom_options opts settings _ _ hopts, parseOptionsFrom_export]
  simp only [hexit, Option.isSome_none, Bool.false_eq_true, if_false, if_true]

theorem filterMap_of_map_some {α β : Type} (f : α → Option β) (l : List α) :
    ∀ s : List β, l.map f = s.map some → l.filterMap f = s := by
  induction l with
  | nil =>
    intro s h
    cases s with
    | nil => rfl
    | cons b more => simp at h
  | cons a rest ih =>
    intro s h
    cases s with
    | nil => simp at h
    | cons b more =>
      simp only [List.map_cons, List.cons.injEq] at h
      rw [List.filterMap_cons, h.1, ih more h.2]

theorem map_some_filterMap {α β : Type} (f : α → Option β) (l : List α)
    (h : ∀ x ∈ l, ∃ y, f x = some y) : l.map f = (l.filterMap f).map some := by
  induction l with
  | nil => rfl
  | cons a rest ih =>
    obtain ⟨y, hy⟩ := h a (List.mem_cons_self _ _)
    rw [List.map_cons, List.filterMap_cons, hy, List.map_cons,
      ih (fun x hx => h x (List.mem_cons_of_mem _ hx))]

theorem parseArgs_export_distinct (urlParse : String → Except Error URL) (prog : String)
    (opts : List WrittenOption) (settings : Flags)
    (hopts : opts.map optionSetting = settings.map some) (hnd : NodupKeys settings) :
    parseArgs urlParse (prog :: opts.flatMap optionArgs ++ ["export"])
        = some (.ok (settings ++ [("command", "export")]))
      ∧ NodupKeys (settings ++ [("command", "export")]) := by
  have hk := settings_keys opts settings hopts
  have hcmd : settings.lookup "command" = none :=
    lookup_none_of_not_mem_keys _ _ (fun h => absurd (hk _ h) (by decide))
  refine ⟨?_, nodupKeys_append_new _ _ _ hnd hcmd⟩
  rw [parseArgs_export_of_options urlParse prog opts settings hopts [],
    foldl_settings_of_nodup settings [] (by simpa using hnd)]
  simp only [List.nil_append, parseExportCommand, List.length_cons, List.length_nil,
    parseExportLoop]
  rw [mapSet_of_lookup_none _ _ _ hcmd]
  rfl

/-- C31: for every program name and every list of options written before the command
`export` (each valued option followed by a value that does not start with `-`,
each switch alone), `parseArgs` succeeds and returns the settings of the
options, assigned in the order written, with `command = export`.  When the
keys of the options are pairwise distinct this is the map of the settings of
the options plus `command = export`, its keys are distinct, and every other
order of the same options gives the same map (the entries listed in another
order).  The last conjunct gives the key of each option name. -/
theorem parseArgs_export_options (urlParse : String → Except Error URL) (prog : String)
    (opts : List WrittenOption) (settings : Flags)
    (hopts : opts.map optionSetting = settings.map some) :
    parseArgs urlParse (prog :: opts.flatMap optionArgs ++ ["export"])
      = some (.ok (mapSet (settings.foldl (fun m kv => mapSet m kv.1 kv.2) [])
          "command" "export"))
    ∧ (NodupKeys settings →
        parseArgs urlParse (prog :: opts.flatMap optionArgs ++ ["export"])
          = some (.ok (settings ++ [("command", "export")]))
        ∧ NodupKeys (settings ++ [("command", "export")])
        ∧ ∀ opts2 : List WrittenOption, opts2.Perm opts →
            ∃ settings2 : Flags, settings2.Perm settings
              ∧ parseArgs urlParse (prog :: opts2.flatMap optionArgs ++ ["export"])
                = some (.ok (settings2 ++ [("command", "export")]))
              ∧ ∀ k, (settings2 ++ [("command", "export")]).lookup k
                  = (settings ++ [("command", "export")]).lookup k)
    ∧ (optionCase "-c" = .valued "config_file" ∧ optionCase "--config-file" = .valued "config_file"
      ∧ optionCase "-e" = .valued "export_types"
      ∧ optionCase "--export-types" = .valued "export_types"
      ∧ optionCase "-s" = .valued "sources" ∧ optionCase "--sources" = .valued "sources"
      ∧ optionCase "-t" = .valued "targets_dir" ∧ optionCase "--targets" = .valued "targets_dir"
      ∧ optionCase "--targets-ext" = .valued "targets_file_ext"
      ∧ optionCase "--targets-suffix" = .valued "targets_file_suffix"
      ∧ optionCase "-v" = .switch "debug" "true" ∧ optionCase "--verbose" = .switch "debug" "true"
      ∧ optionCase "--export-first" = .switch "export_first" "true") := by
  refine ⟨?_, ?_, by decide⟩
  · rw [parseArgs_export_of_options urlParse prog opts settings hopts []]
    simp only [parseExportCommand, List.length_cons, List.length_nil, parseExportLoop]
    rfl
  · intro hnd
    obtain ⟨h1, h2⟩ := parseArgs_export_distinct urlParse prog opts settings hopts hnd
    refine ⟨h1, h2, ?_⟩
    intro opts2 hperm
    have hsome : ∀ x ∈ opts2, ∃ y, optionSetting x = some y := by
      intro x hx
      have hx1 : optionSetting x ∈ opts.map optionSetting :=
        List.mem_map_of_mem _ (hperm.mem_iff.1 hx)
      rw [hopts] at hx1
      obtain ⟨y, _, hy⟩ := List.mem_map.1 hx1
      exact ⟨y, hy.symm⟩
    have hopts2 := map_some_filterMap optionSetting opts2 hsome
    have hp2 : (opts2.filterMap optionSetting).Perm settings := by
      have := hperm.filterMap optionSetting
      rw [filterMap_of_map_some optionSetting opts settings hopts] at this
      exact this
    have hnd2 : NodupKeys (opts2.filterMap optionSetting) := nodupKeys_of_perm _ _ hnd hp2
    obtain ⟨h3, h4⟩ := parseArgs_export_distinct urlParse prog opts2 _ hopts2 hnd2
    refine ⟨_, hp2, h3, ?_⟩
    intro k
    exact lookup_perm _ _ k h4 (hp2.append_right _)

theorem parseArgs_export_options_witness :
    parseArgs hostURL ["app", "-v", "-c", "/tmp/pim.yml", "-e", "file_sd", "-s", "/tmp/sources",
        "export"]
      = some (.ok [("debug", "true"), ("config_file", "/tmp/pim.yml"),
          ("export_types", "file_sd"), ("sources", "/tmp/sources"), ("command", "export")]) :=
  ((parseArgs_export_options hostURL "app"
    [("-v", none), ("-c", some "/tmp/pim.yml"), ("-e", some "file_sd"),
      ("-s", some "/tmp/sources")]
    [("debug", "true"), ("config_file", "/tmp/pim.yml"), ("export_types", "file_sd"),
      ("sources", "/tmp/sources")] (by decide)).2.1 (by unfold NodupKeys; decide)).1

/-- C32: `parseExportCommand` assigns the first three arguments to `command`, `sources`
and `targets_dir` in this order, an assignment replacing the value the map
held for the key, and returns the arguments after the third; on the empty
list it returns an error wrapping `os.ErrInvalid` and leaves the map as it
was.  `parseArgs` on options followed by `export` and positional arguments
returns the map when at most two positional arguments follow the command and
fails with an error wrapping `os.ErrInvalid`, naming the first argument left
over, when there are more. -/
theorem parseExportCommand_positional (flags : Flags) :
    (parseExportCommand flags []
        = (flags, .error (.wrap (ErrInvalid.message ++ ": no command found") ErrInvalid))
      ∧ (Error.wrap (ErrInvalid.message ++ ": no command found") ErrInvalid).Is ErrInvalid = true)
    ∧ (∀ c, parseExportCommand flags [c] = (mapSet flags "command" c, .ok []))
    ∧ (∀ c s, parseExportCommand flags [c, s]
        = (mapSet (mapSet flags "command" c) "sources" s, .ok []))
    ∧ (∀ c s t rest, parseExportCommand flags (c :: s :: t :: rest)
        = (mapSet (mapSet (mapSet flags "command" c) "sources" s) "targets_dir" t, .ok rest))
    ∧ (∀ c s t,
        (mapSet (mapSet (mapSet flags "command" c) "sources" s) "targets_dir" t).lookup "command"
          = some c
        ∧ (mapSet (mapSet (mapSet flags "command" c) "sources" s) "targets_dir" t).lookup "sources"
          = some s
        ∧ (mapSet (mapSet (mapSet flags "command" c) "sources" s) "targets_dir" t).lookup
            "targets_dir" = some t)
    ∧ (∀ (urlParse : String → Except Error URL) (prog : String) (opts : List WrittenOption)
        (settings : Flags), opts.map optionSetting = settings.map some →
        (∀ s t x more,
          parseArgs urlParse (prog :: opts.flatMap optionArgs ++ "export" :: s :: t :: x :: more)
            = some (.error (.wrap ("export: " ++ ErrInvalid.message ++ ": " ++ x) ErrInvalid))
          ∧ (Error.wrap ("export: " ++ ErrInvalid.message ++ ": " ++ x) ErrInvalid).Is ErrInvalid
            = true)
        ∧ (∀ s t,
          parseArgs urlParse (prog :: opts.flatMap optionArgs ++ ["export", s, t])
            = some (.ok (mapSet (mapSet (mapSet
                (settings.foldl (fun m kv => mapSet m kv.1 kv.2) []) "command" "export")
                "sources" s) "targets_dir" t)))
        ∧ (∀ s,
          parseArgs urlParse (prog :: opts.flatMap optionArgs ++ ["export", s])
            = some (.ok (mapSet (mapSet
                (settings.foldl (fun m kv => mapSet m kv.1 kv.2) []) "command" "export")
                "sources" s)))) := by
  have h4 : ∀ (fl : Flags) (c s t : String) (rest : List String),
      parseExportCommand fl (c :: s :: t :: rest)
        = (mapSet (mapSet (mapSet fl "command" c) "sources" s) "targets_dir" t, .ok rest) := by
    intro fl c s t rest
    simp only [parseExportCommand, List.length_cons, parseExportLoop]
    rw [if_neg (by omega)]
    simp only [Nat.reduceAdd, zero_add, if_true, one_ne_zero, if_false, OfNat.ofNat_ne_zero,
      OfNat.ofNat_ne_one, Nat.reduceEqDiff]
    rw [parseExportLoop_rest rest 3 _ _ (by omega)]
    rfl
  refine ⟨⟨rfl, ErrInvalid_Is_wrap _⟩, ?_, ?_, ?_, ?_, ?_⟩
  · intro c
    simp [parseExportCommand, parseExportLoop]
  · intro c s
    simp [parseExportCommand, parseExportLoop]
  · intro c s t rest
    exact h4 flags c s t rest
  · intro c s t
    refine ⟨?_, ?_, lookup_mapSet_self _ _ _⟩
    · rw [lookup_mapSet_of_ne _ _ _ _ (by decide), lookup_mapSet_of_ne _ _ _ _ (by decide)]
      exact lookup_mapSet_self _ _ _
    · rw [lookup_mapSet_of_ne _ _ _ _ (by decide)]
      exact lookup_mapSet_self _ _ _
  · intro urlParse prog opts settings hopts
    refine ⟨?_, ?_, ?_⟩
    · intro s t x more
      refine ⟨?_, ErrInvalid_Is_wrap _⟩
      rw [parseArgs_export_of_options urlParse prog opts settings hopts (s :: t :: x :: more),
        h4]
      simp only [finishArgs]
      rw [lookup_mapSet_of_ne _ _ _ _ (by decide), lookup_mapSet_of_ne _ _ _ _ (by decide),
        lookup_mapSet_self]
      rfl
    · intro s t
      rw [parseArgs_export_of_options urlParse prog opts settings hopts [s, t], h4]
      rfl
    · intro s
      rw [parseArgs_export_of_options urlParse prog opts settings hopts [s]]
      simp [parseExportCommand, parseExportLoop, finishArgs]

/-! ## Options written with an equals sign, options without a value -/

theorem optionCase_of_equals (f : String) (heq : '=' ∈ f.data) :
    optionCase f = .other ∧ (commands.lookup f).isSome = false := by
  have key : ∀ lit : String, '=' ∉ lit.data → f ≠ lit := fun lit hl e => hl (e ▸ heq)
  constructor
  · unfold optionCase
    rw [if_neg (key "--help" (by decide))]
    rw [if_neg (key "--version" (by decide))]
    rw [if_neg (fun h => h.elim (key "-c" (by decide)) (key "--config-file" (by decide)))]
    rw [if_neg (key "--export-first" (by decide))]
    rw [if_neg (fun h => h.elim (key "-e" (by decide)) (key "--export-types" (by decide)))]
    rw [if_neg (fun h => h.elim (key "-q" (by decide)) (key "--quiet" (by decide)))]
    rw [if_neg (fun h => h.elim (key "-s" (by decide)) (key "--sources" (by decide)))]
    rw [if_neg (fun h => h.elim (key "-t" (by decide)) (key "--targets" (by decide)))]
    rw [if_neg (key "--targets-ext" (by decide))]
    rw [if_neg (key "--targets-suffix" (by decide))]
    rw [if_neg (fun h => h.elim (key "-v" (by decide)) (key "--verbose" (by decide)))]
  · have h1 : (f == "export") = false := by simpa using key "export" (by decide)
    have h2 : (f == "run") = false := by simpa using key "run" (by decide)
    simp [commands, List.lookup, h1, h2]

theorem parseOptionsFrom_equals (f : String) (rest : List String) (flags : Flags)
    (heq : '=' ∈ f.data) :
    parseOptionsFrom (f :: rest) flags
      = .error (.wrap ("failed: " ++ ErrInvalid.message ++ ": " ++ f) ErrInvalid) := by
  obtain ⟨hc, hl⟩ := optionCase_of_equals f heq
  simp only [parseOptionsFrom, hc, hl, Bool.false_eq_true, if_false]

/-- C34 (code): `parseOptions` compares the whole argument with the option names, so an
option written as `--name=value` matches no case of its `switch`, is not a
command either and is rejected: `pim --config-file=/tmp/pim.yml export` and
`pim --sources=/tmp/sources export` fail with an error wrapping
`os.ErrInvalid`, and so does every argument holding `=` that the options loop
reaches.  `getNextValue` does return the text after the `=` when it is handed
such an argument, but no caller hands it one. -/
theorem parseOptions_rejects_equals_form :
    parseArgs hostURL ["pim", "--config-file=/tmp/pim.yml", "export"]
      = some (.error (.wrap "failed: invalid argument: --config-file=/tmp/pim.yml" ErrInvalid))
    ∧ parseOptions ["pim", "--sources=/tmp/sources", "export"]
      = some (.error (.wrap "failed: invalid argument: --sources=/tmp/sources" ErrInvalid))
    ∧ getNextValue ["pim", "--config-file=/tmp/pim.yml", "export"] 1
      = some (.ok (1, "/tmp/pim.yml"))
    ∧ (∀ (prog : String) (opts : List WrittenOption) (settings : Flags) (f : String)
        (more : List String), opts.map optionSetting = settings.map some → '=' ∈ f.data →
        parseOptions (prog :: opts.flatMap optionArgs ++ f :: more)
          = some (.error (.wrap ("failed: " ++ ErrInvalid.message ++ ": " ++ f) ErrInvalid))) := by
  refine ⟨by decide, by decide, by decide, ?_⟩
  intro prog opts settings f more hopts heq
  rw [parseOptions_eq]
  have hd : (prog :: opts.flatMap optionArgs ++ f :: more).drop 1
      = opts.flatMap optionArgs ++ f :: more := rfl
  rw [hd, parseOptionsFrom_options opts settings _ _ hopts, parseOptionsFrom_equals _ _ _ heq]

/-- C35: `parseOptions` never reads past the end of the argument list (it returns for
every list).  When the options loop reaches a valued option, after any
options written before it, it fails with an error wrapping `os.ErrInvalid` if
the option is the last argument or the argument after it starts with `-`; an
empty value is accepted, the loop goes on behind it with the empty string
stored for the key, and with the command `export` next `parseArgs` returns a
map that holds the empty string for the key. -/
theorem parseOptions_valued_option (prog : String) (opts : List WrittenOption)
    (settings : Flags) (f key : String)
    (hopts : opts.map optionSetting = settings.map some)
    (hc : optionCase f = .valued key) :
    (∀ args : List String, ∃ r, parseOptions args = some r)
    ∧ (∃ e, parseOptions (prog :: opts.flatMap optionArgs ++ [f]) = some (.error e)
        ∧ e.Is ErrInvalid = true)
    ∧ (∀ (v : String) (more : List String), HasPrefix v "-" = true →
        ∃ e, parseOptions (prog :: opts.flatMap optionArgs ++ f :: v :: more) = some (.error e)
          ∧ e.Is ErrInvalid = true)
    ∧ (∀ more : List String,
        parseOptions (prog :: opts.flatMap optionArgs ++ f :: "" :: more)
          = some (parseOptionsFrom more
              (mapSet (settings.foldl (fun m kv => mapSet m kv.1 kv.2) []) key "")))
    ∧ (∀ urlParse : String → Except Error URL,
        ∃ m, parseArgs urlParse (prog :: opts.flatMap optionArgs ++ [f, "", "export"])
            = some (.ok m)
          ∧ m.lookup key = some "") := by
  have hd : ∀ rest : List String, (prog :: opts.flatMap optionArgs ++ rest).drop 1
      = opts.flatMap optionArgs ++ rest := fun _ => rfl
  refine ⟨fun args => ⟨_, parseOptions_eq args⟩, ?_, ?_, ?_, ?_⟩
  · refine ⟨.wrap (ErrInvalid.message ++ ": missing value for " ++ f ++ " for " ++ f)
      (.wrap (ErrInvalid.message ++ ": missing value for " ++ f) ErrInvalid), ?_, ?_⟩
    · rw [parseOptions_eq, hd, parseOptionsFrom_options opts settings _ _ hopts]
      simp only [parseOptionsFrom, hc]
    · simp [Error.Is, ErrInvalid]
  · intro v more hv
    refine ⟨.wrap (ErrInvalid.message ++ ": value appears to be a flag " ++ f ++ ": " ++ v
        ++ " for " ++ f)
      (.wrap (ErrInvalid.message ++ ": value appears to be a flag " ++ f ++ ": " ++ v)
        ErrInvalid), ?_, ?_⟩
    · rw [parseOptions_eq, hd, parseOptionsFrom_options opts settings _ _ hopts]
      simp only [parseOptionsFrom, hc, hv, if_true]
    · simp [Error.Is, ErrInvalid]
  · intro more
    rw [parseOptions_eq, hd, parseOptionsFrom_options opts settings _ _ hopts,
      parseOptionsFrom_valued f key "" more _ hc (by decide)]
  · intro urlParse
    have hkey : key ∈ ["config_file", "export_types", "sources", "targets_dir",
        "targets_file_ext", "targets_file_suffix"] := by
      rcases optionCase_valued f key hc with ⟨_, e⟩ | ⟨_, e⟩ | ⟨_, e⟩ | ⟨_, e⟩ | ⟨_, e⟩
        | ⟨_, e⟩ <;> rw [e] <;> decide
    have hopts2 : (opts ++ [(f, some "")]).map optionSetting
        = (settings ++ [(key, "")]).map some := by
      rw [List.map_append, List.map_append, hopts]
      congr 1
      simp only [List.map_cons, List.map_nil, List.cons.injEq, and_true]
      unfold optionSetting
      rw [hc]
      rfl
    have hargs : prog :: opts.flatMap optionArgs ++ [f, "", "export"]
        = prog :: (opts ++ [(f, some "")]).flatMap optionArgs ++ ["export"] := by
      rw [List.flatMap_append]
      simp [optionArgs]
    refine ⟨mapSet ((settings ++ [(key, "")]).foldl (fun m kv => mapSet m kv.1 kv.2) [])
      "command" "export", ?_, ?_⟩
    · rw [hargs, parseArgs_export_of_options urlParse prog _ _ hopts2 []]
      simp only [parseExportCommand, List.length_cons, List.length_nil, parseExportLoop]
      rfl
    · rw [lookup_mapSet_of_ne _ _ _ _ (by
        intro e
        rw [e] at hkey
        revert hkey
        decide)]
      rw [List.foldl_append]
      exact lookup_mapSet_self _ _ _

theorem parseOptions_valued_option_witness :
    (∃ e, parseOptions ["pim", "-v", "-c"] = some (.error e) ∧ e.Is ErrInvalid = true)
    ∧ (∃ e, parseOptions ["pim", "-v", "-c", "-e", "file_sd", "export"] = some (.error e)
        ∧ e.Is ErrInvalid = true) :=
  have h := parseOptions_valued_option "pim" [("-v", none)] [("debug", "true")] "-c"
    "config_file" (by decide) (by decide)
  ⟨h.2.1, h.2.2.1 "-e" ["file_sd", "export"] (by decide)⟩

/-- C37 (code): `pim -q export` is accepted by `parseArgs`, which returns the settings
map with the key `quiet`; `setConfigValue` does not know this key and
`NewConfig` rejects the map with an error wrapping `os.ErrInvalid` for every
environment, file system and visiting order.  The keys `http_tls_certfile`
and `http_export_first` of the run command are two more keys of this kind. -/
theorem parseArgs_returns_unknown_key :
    parseArgs hostURL ["pim", "-q", "export"]
      = some (.ok [("quiet", "true"), ("command", "export")])
    ∧ parseArgs hostURL ["pim", "--quiet", "export"]
      = some (.ok [("quiet", "true"), ("command", "export")])
    ∧ (∀ c : Config, c.setConfigValue "quiet" "true"
        = (c, some (.wrap "config: invalid argument: quiet" ErrInvalid)))
    ∧ (∀ (w : World) (env visit : Flags),
        visit.Perm (parseEnvVars w.envPrefix [("quiet", "true"), ("command", "export")] env) →
        (NewConfig w [("quiet", "true"), ("command", "export")] env visit).2 ≠ none)
    ∧ (NewConfig emptyWorld [("quiet", "true"), ("command", "export")] []
        [("quiet", "true"), ("command", "export")]).2
      = some (.wrap "config: invalid argument: quiet" ErrInvalid)
    ∧ parseArgs hostURL ["pim", "run", "--tls-keyfile", "/etc/pim/key.pem"]
      = some (.ok [("http_tls_certfile", "/etc/pim/key.pem"), ("command", "run")])
    ∧ parseArgs hostURL ["pim", "run", "http://0.0.0.0:9900", "/etc/pim/sources"]
      = some (.ok [("command", "run"), ("http_api_host", "0.0.0.0"), ("http_api_port", "9900"),
          ("sources", "/etc/pim/sources"), ("http_export_first", "true")]) := by
  refine ⟨by decide, by decide, ?_, ?_, by decide, by decide, by decide⟩
  · intro c
    rw [setConfigValue_unknown c _ _ (by decide)]
    rfl
  · intro w env visit hperm
    exact NewConfig_rejects_key w _ env visit "quiet" "true" (by decide) (by decide) hperm

/-! ## Looking for a file -/

theorem FindInDirLoop_first (w : World) (dir : String) (pre : List String) (n : String)
    (post : List String) (hpre : ∀ p ∈ pre, w.tester (dir ++ p) ≠ none)
    (hn : w.tester (dir ++ n) = none) :
    FindInDirLoop w dir (pre ++ n :: post) = (dir ++ n, none) := by
  induction pre with
  | nil =>
    simp only [List.nil_append, FindInDirLoop]
    rw [hn]
  | cons p rest ih =>
    simp only [List.cons_append, FindInDirLoop]
    cases ht : w.tester (dir ++ p) with
    | none => exact absurd ht (hpre p (List.mem_cons_self _ _))
    | some e => exact ih (fun x hx => hpre x (List.mem_cons_of_mem _ hx))

theorem FindInDirLoop_none (w : World) (dir : String) (names : List String)
    (h : ∀ n ∈ names, w.tester (dir ++ n) ≠ none) :
    FindInDirLoop w dir names = ("", some ErrNotExist) := by
  induction names with
  | nil => rfl
  | cons p rest ih =>
    simp only [FindInDirLoop]
    cases ht : w.tester (dir ++ p) with
    | none => exact absurd ht (h p (List.mem_cons_self _ _))
    | some e => exact ih (fun x hx => h x (List.mem_cons_of_mem _ hx))

theorem FindInDir_guard (names : List String) :
    (names.length = 0 ∨ (names.length = 1 ∧ names[0]? = some "")) ↔ (names = [] ∨ names = [""]) := by
  cases names with
  | nil => simp
  | cons a rest =>
    cases rest with
    | nil => simp
    | cons b more => simp

/-- C33: `FindInDir` puts `dir` and a slash before each name (nothing when `dir` is
empty, the slash alone when `dir` is `/`).  With no name, or with the empty
string as the only name, it returns the empty path and `os.ErrInvalid`.
Otherwise it returns the path of the first name, in the order given, whose
path passes the readability test, and the empty path with `os.ErrNotExist`
when no path passes. -/
theorem FindInDir_spec (w : World) (dir : String) (names : List String) :
    (dirPrefix "" = "" ∧ dirPrefix "/" = "/"
      ∧ (dir ≠ "" → dir ≠ "/" → dirPrefix dir = dir ++ "/"))
    ∧ (names = [] ∨ names = [""] → FindInDir w dir names = ("", some ErrInvalid))
    ∧ (names ≠ [] → names ≠ [""] → ∀ (pre : List String) (n : String) (post : List String),
        names = pre ++ n :: post → (∀ p ∈ pre, w.tester (dirPrefix dir ++ p) ≠ none) →
        w.tester (dirPrefix dir ++ n) = none →
        FindInDir w dir names = (dirPrefix dir ++ n, none))
    ∧ (names ≠ [] → names ≠ [""] → (∀ n ∈ names, w.tester (dirPrefix dir ++ n) ≠ none) →
        FindInDir w dir names = ("", some ErrNotExist)) := by
  refine ⟨⟨by decide, by decide, ?_⟩, ?_, ?_, ?_⟩
  · intro h1 h2
    unfold dirPrefix
    rw [if_neg h1, if_neg h2]
  · intro h
    unfold FindInDir
    rw [if_pos ((FindInDir_guard names).2 h)]
  · intro h1 h2 pre n post hn hpre hok
    unfold FindInDir
    rw [if_neg (fun h => ((FindInDir_guard names).1 h).elim h1 h2), hn]
    exact FindInDirLoop_first w _ pre n post hpre hok
  · intro h1 h2 hall
    unfold FindInDir
    rw [if_neg (fun h => ((FindInDir_guard names).1 h).elim h1 h2)]
    exact FindInDirLoop_none w _ names hall

theorem FindInDir_examples :
    FindInDir (readableWorld []) "" [] = ("", some ErrInvalid)
    ∧ FindInDir (readableWorld []) "" [""] = ("", some ErrInvalid)
    ∧ FindInDir (readableWorld ["test.file"]) "" ["test.file"] = ("test.file", none)
    ∧ FindInDir (readableWorld ["/test.file"]) "/" ["test.file"] = ("/test.file", none)
    ∧ FindInDir (readableWorld ["/home/tester/test.file"]) "/home/tester"
        ["test.file", "test2.file"] = ("/home/tester/test.file", none)
    ∧ FindInDir (readableWorld ["/home/tester/test2.file"]) "/home/tester"
        ["test.file", "test2.file"] = ("/home/tester/test2.file", none)
    ∧ FindInDir (readableWorld []) "/home/tester" ["test.file"] = ("", some ErrNotExist) := by
  decide

/-! ## A nil group in the loaded collection -/

theorem splitGroups_none_iff (config : Config) (t : TargetGroups) :
    ∀ files : TargetMap, splitGroups config t files = none ↔ none ∈ t := by
  induction t with
  | nil => intro files; simp [splitGroups]
  | cons g rest ih =>
    intro files
    cases g with
    | none => simp [splitGroups]
    | some tg =>
      simp only [splitGroups]
      rw [ih]
      simp

/-- C38 (code): a source file `targets.json` with the content `[null]` is read without
error as a collection with one nil pointer; `splitByJob` reads the jobs of
every group and faults on the nil one, so `export` neither completes nor
returns an error.  In general `splitByJob` faults exactly on the collections
that hold a nil pointer, and `export` faults whenever the loaded collection
holds one. -/
theorem splitByJob_faults_on_nil_group :
    NewTargetGroups nullFS (exportConfig "/etc/prometheus/file_sd") = .ok [none]
    ∧ splitByJob [none] (exportConfig "/etc/prometheus/file_sd") = none
    ∧ main.export nullFS (exportConfig "/etc/prometheus/file_sd") id = none
    ∧ (∀ (t : TargetGroups) (config : Config), splitByJob t config = none ↔ none ∈ t)
    ∧ (∀ (fs : FileSys) (config : Config) (visit : TargetMap → TargetMap) (t : TargetGroups),
        NewTargetGroups fs config = .ok t → none ∈ t → main.export fs config visit = none) := by
  refine ⟨by decide, by decide, by decide, ?_, ?_⟩
  · intro t config
    exact splitGroups_none_iff config t []
  · intro fs config visit t hload hnil
    have hs : splitByJob t config = none := (splitGroups_none_iff config t []).2 hnil
    unfold main.export
    rw [hload]
    simp only [ExportTargets, hs]

/-! ## Request durations -/

theorem wrap64_of_range (x : Int) (h1 : -(2 : Int) ^ 63 ≤ x) (h2 : x < (2 : Int) ^ 63) :
    wrap64 x = x := by
  unfold wrap64
  omega

theorem getDurationLoop_min (l : List Int) :
    ∀ total mn mx : Int,
      (getDurationLoop l total mn mx).2.1 ≤ mn
      ∧ (∀ d ∈ l, (getDurationLoop l total mn mx).2.1 ≤ d)
      ∧ ((getDurationLoop l total mn mx).2.1 = mn ∨ (getDurationLoop l total mn mx).2.1 ∈ l) := by
  induction l with
  | nil => intro total mn mx; simp [getDurationLoop]
  | cons d rest ih =>
    intro total mn mx
    simp only [getDurationLoop]
    obtain ⟨h1, h2, h3⟩ := ih (wrap64 (total + d)) (if d < mn then d else mn)
      (if d > mx then d else mx)
    by_cases hd : d < mn
    · rw [if_pos hd] at h1 h2 h3 ⊢
      refine ⟨by omega, ?_, ?_⟩
      · intro x hx
        rcases List.mem_cons.1 hx with e | e
        · rw [e]; exact h1
        · exact h2 x e
      · rcases h3 with e | e
        · right; rw [e]; exact List.mem_cons_self _ _
        · right; exact List.mem_cons_of_mem _ e
    · rw [if_neg hd] at h1 h2 h3 ⊢
      refine ⟨h1, ?_, ?_⟩
      · intro x hx
        rcases List.mem_cons.1 hx with e | e
        · rw [e]; omega
        · exact h2 x e
      · rcases h3 with e | e
        · left; exact e
        · right; exact List.mem_cons_of_mem _ e

theorem getDurationLoop_max (l : List Int) :
    ∀ total mn mx : Int,
      mx ≤ (getDurationLoop l total mn mx).2.2
      ∧ (∀ d ∈ l, d ≤ (getDurationLoop l total mn mx).2.2)
      ∧ ((getDurationLoop l total mn mx).2.2 = mx ∨ (getDurationLoop l total mn mx).2.2 ∈ l) := by
  induction l with
  | nil => intro total mn mx; simp [getDurationLoop]
  | cons d rest ih =>
    intro total mn mx
    simp only [getDurationLoop]
    obtain ⟨h1, h2, h3⟩ := ih (wrap64 (total + d)) (if d < mn then d else mn)
      (if d > mx then d else mx)
    by_cases hd : d > mx
    · rw [if_pos hd] at h1 h2 h3 ⊢
      refine ⟨by omega, ?_, ?_⟩
      · intro x hx
        rcases List.mem_cons.1 hx with e | e
        · rw [e]; exact h1
        · exact h2 x e
      · rcases h3 with e | e
        · right; rw [e]; exact List.mem_cons_self _ _
        · right; exact List.mem_cons_of_mem _ e
    · rw [if_neg hd] at h1 h2 h3 ⊢
      refine ⟨h1, ?_, ?_⟩
      · intro x hx
        rcases List.mem_cons.1 hx with e | e
        · rw [e]; omega
        · exact h2 x e
      · rcases h3 with e | e
        · left; exact e
        · right; exact List.mem_cons_of_mem _ e

theorem getDurationLoop_total (l : List Int) :
    ∀ total mn mx : Int, 0 ≤ total → (∀ d ∈ l, 0 ≤ d) → total + l.sum < (2 : Int) ^ 63 →
      (getDurationLoop l total mn mx).1 = total + l.sum := by
  induction l with
  | nil => intro total mn mx _ _ _; simp [getDurationLoop]
  | cons d rest ih =>
    intro total mn mx ht hpos hsum
    have hd : 0 ≤ d := hpos d (List.mem_cons_self _ _)
    have hrest : 0 ≤ rest.sum := List.sum_nonneg (fun x hx => hpos x (List.mem_cons_of_mem _ hx))
    rw [List.sum_cons] at hsum
    simp only [getDurationLoop]
    rw [wrap64_of_range (total + d) (by omega) (by omega),
      ih (total + d) _ _ (by omega) (fun x hx => hpos x (List.mem_cons_of_mem _ hx))
        (by omega), List.sum_cons]
    omega

/-- C36 (code): the minimum of `getDuration` starts at `time.Hour`, so for durations that
are all longer than one hour the minimum reported is one hour and not the
smallest duration: for the one duration of two hours it reports the minimum
3600 s beside the average and maximum 7200 s.  The empty list gives three
zeros.  For a list that is not empty, of durations that are not negative and
whose sum is below 2^63 ns, with at least one duration of at most one hour,
the minimum and the maximum reported are the smallest and the largest
duration of the list and the average is the sum divided by the count. -/
theorem getDuration_min_starts_at_hour :
    getDuration [7200000000000] = (3600000000000, 7200000000000, 7200000000000)
    ∧ getDuration [7200000000000, 5400000000000]
      = (3600000000000, 6300000000000, 7200000000000)
    ∧ getDuration [] = (0, 0, 0)
    ∧ (∀ l : List Int, l ≠ [] → (∀ d ∈ l, Hour < d) → (getDuration l).1 = Hour)
    ∧ (∀ l : List Int, l ≠ [] → (∀ d ∈ l, 0 ≤ d) → l.sum < (2 : Int) ^ 63 →
        (∃ d ∈ l, d ≤ Hour) →
        ((getDuration l).1 ∈ l ∧ ∀ d ∈ l, (getDuration l).1 ≤ d)
        ∧ (getDuration l).2.1 = Int.tdiv l.sum (l.length : Int)
        ∧ ((getDuration l).2.2 ∈ l ∧ ∀ d ∈ l, d ≤ (getDuration l).2.2)) := by
  refine ⟨by decide, by decide, by decide, ?_, ?_⟩
  · intro l hne hall
    have hlen : l.length ≠ 0 := fun h => hne (List.length_eq_zero.1 h)
    obtain ⟨h1, h2, h3⟩ := getDurationLoop_min l 0 Hour 0
    unfold getDuration
    rw [if_neg hlen]
    rcases h3 with e | e
    · exact e
    · have := hall _ e
      omega
  · intro l hne hpos hsum hsmall
    have hlen : l.length ≠ 0 := fun h => hne (List.length_eq_zero.1 h)
    obtain ⟨a1, a2, a3⟩ := getDurationLoop_min l 0 Hour 0
    obtain ⟨b1, b2, b3⟩ := getDurationLoop_max l 0 Hour 0
    have ht := getDurationLoop_total l 0 Hour 0 (le_refl _) hpos (by omega)
    unfold getDuration
    rw [if_neg hlen]
    refine ⟨⟨?_, a2⟩, ?_, ⟨?_, b2⟩⟩
    · rcases a3 with e | e
      · obtain ⟨d, hd, hle⟩ := hsmall
        have h := a2 d hd
        have hdeq : d = (getDurationLoop l 0 Hour 0).2.1 := by omega
        show (getDurationLoop l 0 Hour 0).2.1 ∈ l
        rw [← hdeq]
        exact hd
      · exact e
    · show Int.tdiv (getDurationLoop l 0 Hour 0).1 (l.length : Int) = _
      rw [ht, zero_add]
    · rcases b3 with e | e
      · cases l with
        | nil => exact absurd rfl hne
        | cons d rest =>
          have h1 := b2 d (List.mem_cons_self _ _)
          have h2 := hpos d (List.mem_cons_self _ _)
          have hdeq : d = (getDurationLoop (d :: rest) 0 Hour 0).2.2 := by omega
          show (getDurationLoop (d :: rest) 0 Hour 0).2.2 ∈ d :: rest
          rw [← hdeq]
          exact List.mem_cons_self _ _
      · exact e

/-! ## Middleware lists -/

theorem take_succ_of_lt {α : Type} (m : List α) (i : Nat) (h : i < m.length) :
    m.take (i + 1) = m.take i ++ [m[i]] := by
  rw [List.take_succ, List.getElem?_eq_getElem h]
  rfl

theorem cleanMiddlewareLoop_eq {α : Type} :
    ∀ (fuel i : Nat) (m : List (Option α)), m.length ≤ i + fuel →
      cleanMiddlewareLoop fuel i m = m.take i ++ removeNilSkipping (m.drop i) := by
  intro fuel
  induction fuel with
  | zero =>
    intro i m h
    rw [List.take_of_length_le (by omega), List.drop_eq_nil_of_le (by omega)]
    simp [cleanMiddlewareLoop, removeNilSkipping]
  | succ fuel ih =>
    intro i m h
    unfold cleanMiddlewareLoop
    by_cases hi : m.length ≤ i
    · rw [if_pos hi, List.take_of_length_le hi, List.drop_eq_nil_of_le hi]
      simp [removeNilSkipping]
    · rw [if_neg hi]
      have hlt : i < m.length := by omega
      have hdrop : m.drop i = m[i] :: m.drop (i + 1) := List.drop_eq_getElem_cons hlt
      have htake := take_succ_of_lt m i hlt
      rw [List.getElem?_eq_getElem hlt]
      cases hx : m[i] with
      | some f =>
        simp only []
        rw [ih (i + 1) m (by omega), htake, hdrop, hx, List.append_assoc]
        rfl
      | none =>
        simp only []
        by_cases hlast : i = m.length - 1
        · rw [if_pos hlast, hdrop, hx, List.drop_eq_nil_of_le (by omega)]
          simp [removeNilSkipping]
        · rw [if_neg hlast]
          have hlt2 : i + 1 < m.length := by omega
          have hdrop2 : m.drop (i + 1) = m[i + 1] :: m.drop (i + 1 + 1) :=
            List.drop_eq_getElem_cons hlt2
          have hlen : (m.take i ++ [m[i + 1]]).length = i + 1 := by
            rw [List.length_append, List.length_take]
            simp
            omega
          have hm : m.take i ++ m.drop (i + 1)
              = (m.take i ++ [m[i + 1]]) ++ m.drop (i + 1 + 1) := by
            rw [hdrop2, List.append_assoc]
            rfl
          rw [ih (i + 1) _ (by
            rw [List.length_append, List.length_take, List.length_drop]
            omega)]
          rw [hm, List.take_left' hlen, List.drop_left' hlen, hdrop, hx, hdrop2,
            List.append_assoc]
          rfl

theorem removeNilSkipping_of_chain {α : Type} (m : List (Option α))
    (h : m.Chain' (fun a b => ¬ (a = none ∧ b = none))) :
    removeNilSkipping m = m.filter (fun x => x.isSome) := by
  induction m using removeNilSkipping.induct with
  | case1 => rfl
  | case2 f rest ih =>
    simp only [removeNilSkipping, List.filter_cons, Option.isSome_some, if_true]
    rw [ih (List.Chain'.tail h)]
  | case3 => rfl
  | case4 x rest ih =>
    have h1 : ¬ ((none : Option α) = none ∧ x = none) := (List.chain'_cons.1 h).1
    have hx : x ≠ none := fun e => h1 ⟨rfl, e⟩
    cases x with
    | none => exact absurd rfl hx
    | some f =>
      have h2 : (some f :: rest).Chain' (fun a b => ¬ (a = none ∧ b = none)) :=
        (List.chain'_cons.1 h).2
      simp only [removeNilSkipping, List.filter_cons, Option.isSome_none, Bool.false_eq_true,
        if_false, Option.isSome_some, if_true]
      rw [ih (List.Chain'.tail h2)]

/-- C39 (code): the loop of `cleanMiddleware` removes a nil entry and then steps the index
past the entry that took its place, so the entry after a nil one is never
looked at.  For the list `[nil, nil, auth]` it returns `[nil, auth]`, and for
`[a, nil, nil]` it returns `[a, nil]`; `compile` on such a result calls the
nil middleware.  In general the result is the list with every nil entry
removed that is not passed over in this way, which is the list of the
entries that are not nil exactly when the list has no two nil entries next to
each other; the nil list gives the empty list. -/
theorem cleanMiddleware_keeps_nil_after_nil :
    cleanMiddleware (some [none, none, some "auth"]) = some [none, some "auth"]
    ∧ cleanMiddleware (some [some "a", none, none]) = some [some "a", none]
    ∧ compile ([] : List String) [none, some (fun h => "auth" :: h)] = none
    ∧ (∀ (α : Type) (m : List (Option α)),
        cleanMiddleware (some m) = some (removeNilSkipping m))
    ∧ (∀ (α : Type) (m : List (Option α)), m.Chain' (fun a b => ¬ (a = none ∧ b = none)) →
        cleanMiddleware (some m) = some (m.filter (fun x => x.isSome)))
    ∧ (∀ (α : Type) (rest : List (Option α)),
        removeNilSkipping (none :: none :: rest) = none :: removeNilSkipping rest)
    ∧ (∀ α : Type, cleanMiddleware (none : Option (List (Option α))) = some []) := by
  have hgen : ∀ (α : Type) (m : List (Option α)),
      cleanMiddleware (some m) = some (removeNilSkipping m) := by
    intro α m
    unfold cleanMiddleware
    simp only []
    rw [cleanMiddlewareLoop_eq m.length 0 m (by omega)]
    rfl
  refine ⟨by decide, by decide, rfl, hgen, ?_, ?_, fun _ => rfl⟩
  · intro α m hc
    rw [hgen, removeNilSkipping_of_chain m hc]
  · intro α rest
    rfl

/-! ## Route paths -/

theorem collapseSlashes_head (l : List Char) : (collapseSlashes l).head? = l.head? := by
  induction l using collapseSlashes.induct with
  | case1 => rfl
  | case2 c => rfl
  | case3 c d rest h ih =>
    rw [collapseSlashes, if_pos h, ih]
    simp [h.1, h.2]
  | case4 c d rest h ih =>
    rw [collapseSlashes, if_neg h]
    rfl

theorem collapseSlashes_chain (l : List Char) :
    (collapseSlashes l).Chain' (fun a b => ¬ (a = '/' ∧ b = '/')) := by
  induction l using collapseSlashes.induct with
  | case1 => simp [collapseSlashes]
  | case2 c => simp [collapseSlashes]
  | case3 c d rest h ih =>
    rw [collapseSlashes, if_pos h]
    exact ih
  | case4 c d rest h ih =>
    rw [collapseSlashes, if_neg h]
    apply List.Chain'.cons' ih
    intro y hy
    rw [collapseSlashes_head] at hy
    have hyd : d = y := by simpa using hy
    rw [← hyd]
    exact h

theorem collapseSlashes_of_chain (l : List Char)
    (h : l.Chain' (fun a b => ¬ (a = '/' ∧ b = '/'))) : collapseSlashes l = l := by
  induction l using collapseSlashes.induct with
  | case1 => rfl
  | case2 c => rfl
  | case3 c d rest hc ih => exact absurd hc (List.chain'_cons.1 h).1
  | case4 c d rest hc ih =>
    rw [collapseSlashes, if_neg hc, ih (List.chain'_cons.1 h).2]

theorem collapseSlashes_getLast (l : List Char) :
    (collapseSlashes l).getLast? = l.getLast? := by
  induction l using collapseSlashes.induct with
  | case1 => rfl
  | case2 c => rfl
  | case3 c d rest h ih =>
    rw [collapseSlashes, if_pos h, ih, List.getLast?_cons_cons]
  | case4 c d rest h ih =>
    rw [collapseSlashes, if_neg h]
    have hhead := collapseSlashes_head (d :: rest)
    cases hX : collapseSlashes (d :: rest) with
    | nil =>
      rw [hX] at hhead
      simp at hhead
    | cons x xs =>
      rw [List.getLast?_cons_cons, ← hX, ih, List.getLast?_cons_cons]

theorem trimPath_cases (p : String) :
    ∃ p2 : List Char,
      (p2 = ['/'] ∨ p2 = p.data ∨ (p2 = '/' :: p.data ∧ p.data.head? ≠ some '/'))
      ∧ p2.head? = some '/'
      ∧ trimPath p
        = if p2.length > 1 ∧ p2.getLast? = some '/' then p2.dropLast else p2 := by
  by_cases hp : p = ""
  · refine ⟨['/'], Or.inl rfl, rfl, ?_⟩
    simp [trimPath, hp]
  · by_cases hh : p.data.head? = some '/'
    · refine ⟨p.data, Or.inr (Or.inl rfl), hh, ?_⟩
      simp [trimPath, hp, hh]
    · refine ⟨'/' :: p.data, Or.inr (Or.inr ⟨rfl, hh⟩), rfl, ?_⟩
      simp only [trimPath, hp, if_false, ne_eq, hh, not_false_eq_true, if_true]

theorem trimPath_head (p : String) : (trimPath p).head? = some '/' := by
  obtain ⟨p2, _, hhead, ht⟩ := trimPath_cases p
  rw [ht]
  by_cases hc : p2.length > 1 ∧ p2.getLast? = some '/'
  · rw [if_pos hc]
    cases p2 with
    | nil => simp at hhead
    | cons a rest =>
      cases rest with
      | nil =>
        have := hc.1
        simp at this
      | cons b more =>
        rw [List.dropLast_cons₂]
        exact hhead
  · rw [if_neg hc]
    exact hhead

theorem cleanPath_fixed (l : List Char) (hhead : l.head? = some '/')
    (hchain : l.Chain' (fun a b => ¬ (a = '/' ∧ b = '/')))
    (hlast : l.getLast? ≠ some '/' ∨ l = ['/']) :
    cleanPath (String.mk l) = String.mk l := by
  have hne : String.mk l ≠ "" := by
    intro h
    have hd : l = [] := congrArg String.data h
    rw [hd] at hhead
    simp at hhead
  have ht : trimPath (String.mk l) = l := by
    simp only [trimPath, hne, if_false, ne_eq, hhead, not_true_eq_false]
    rw [if_neg]
    rintro ⟨h1, h2⟩
    rcases hlast with h | h
    · exact h h2
    · rw [h] at h1
      simp at h1
  unfold cleanPath
  rw [ht, collapseSlashes_of_chain l hchain]

theorem trimPath_last (p : String) (hp : ¬ List.IsSuffix ['/', '/'] p.data) :
    (trimPath p).getLast? ≠ some '/' ∨ trimPath p = ['/'] := by
  obtain ⟨p2, hp2, hhead, ht⟩ := trimPath_cases p
  have hsuf : ¬ List.IsSuffix ['/', '/'] p2 := by
    rcases hp2 with h | h | ⟨h, hh⟩
    · rw [h]
      rintro ⟨t, ht2⟩
      have := congrArg List.length ht2
      simp at this
    · rw [h]
      exact hp
    · rw [h]
      rintro ⟨t, ht2⟩
      cases t with
      | nil =>
        simp only [List.nil_append, List.cons.injEq, true_and] at ht2
        rw [← ht2] at hh
        simp at hh
      | cons a t2 =>
        simp only [List.cons_append, List.cons.injEq] at ht2
        exact hp ⟨t2, ht2.2⟩
  rw [ht]
  by_cases hc : p2.length > 1 ∧ p2.getLast? = some '/'
  · rw [if_pos hc]
    left
    intro hl
    apply hsuf
    refine ⟨p2.dropLast.dropLast, ?_⟩
    have e1 : p2.dropLast ++ ['/'] = p2 := List.dropLast_append_getLast? '/' (by simp [hc.2])
    have e2 : p2.dropLast.dropLast ++ ['/'] = p2.dropLast :=
      List.dropLast_append_getLast? '/' (by simp [hl])
    calc p2.dropLast.dropLast ++ ['/', '/']
        = (p2.dropLast.dropLast ++ ['/']) ++ ['/'] := by simp
      _ = p2 := by rw [e2, e1]
  · rw [if_neg hc]
    by_cases hlen : p2.length > 1
    · left
      exact fun h => hc ⟨hlen, h⟩
    · right
      cases p2 with
      | nil => simp at hhead
      | cons a rest =>
        cases rest with
        | nil =>
          have : a = '/' := by simpa using hhead
          rw [this]
        | cons b more =>
          simp at hlen

/-- C40 (code): `cleanPath` takes off one trailing slash before it replaces the runs of
slashes, so a path that ends in two or more slashes behind another character
keeps a trailing slash: `cleanPath("v1//")` is `/v1/`, and `cleanPath` of
that is `/v1`, so the function is not idempotent.  For every path the result
starts with a slash and holds no two slashes in a row; a result without
trailing slash (or the result `/`) is a fixed point of `cleanPath`; and every
path that does not end in two slashes has such a result. -/
theorem cleanPath_keeps_trailing_slash :
    cleanPath "v1//" = "/v1/"
    ∧ cleanPath (cleanPath "v1//") = "/v1"
    ∧ cleanPath "/v1///" = "/v1/"
    ∧ cleanPath "" = "/" ∧ cleanPath "v1" = "/v1" ∧ cleanPath "/v1/" = "/v1"
    ∧ cleanPath "//" = "/" ∧ cleanPath "a//b///c" = "/a/b/c"
    ∧ (∀ p : String, (cleanPath p).data.head? = some '/'
        ∧ (cleanPath p).data.Chain' (fun a b => ¬ (a = '/' ∧ b = '/')))
    ∧ (∀ p : String, ((cleanPath p).data.getLast? ≠ some '/' ∨ cleanPath p = "/") →
        cleanPath (cleanPath p) = cleanPath p)
    ∧ (∀ p : String, ¬ List.IsSuffix ['/', '/'] p.data →
        ((cleanPath p).data.getLast? ≠ some '/' ∨ cleanPath p = "/")
        ∧ cleanPath (cleanPath p) = cleanPath p) := by
  have hnorm : ∀ p : String, (cleanPath p).data.head? = some '/'
      ∧ (cleanPath p).data.Chain' (fun a b => ¬ (a = '/' ∧ b = '/')) := by
    intro p
    refine ⟨?_, collapseSlashes_chain _⟩
    show (collapseSlashes (trimPath p)).head? = some '/'
    rw [collapseSlashes_head, trimPath_head]
  have hfix : ∀ p : String, ((cleanPath p).data.getLast? ≠ some '/' ∨ cleanPath p = "/") →
      cleanPath (cleanPath p) = cleanPath p := by
    intro p h
    have h2 : (cleanPath p).data.getLast? ≠ some '/' ∨ (cleanPath p).data = ['/'] := by
      rcases h with h | h
      · exact Or.inl h
      · right
        rw [h]
    exact cleanPath_fixed (cleanPath p).data (hnorm p).1 (hnorm p).2 h2
  have hlast : ∀ p : String, ¬ List.IsSuffix ['/', '/'] p.data →
      ((cleanPath p).data.getLast? ≠ some '/' ∨ cleanPath p = "/") := by
    intro p hp
    rcases trimPath_last p hp with h | h
    · left
      show (collapseSlashes (trimPath p)).getLast? ≠ some '/'
      rw [collapseSlashes_getLast]
      exact h
    · right
      unfold cleanPath
      rw [h]
      rfl
  exact ⟨by decide, by decide, by decide, by decide, by decide, by decide, by decide, by decide,
    hnorm, hfix, fun p hp => ⟨hlast p hp, hfix p (hlast p hp)⟩⟩

/-! ## Quoted values in error messages -/

/-- `strconv.Quote` on examples, and the message of `strconv.ParseBool` for a value
that holds a quote. -/
theorem Quote_examples :
    Quote "x" = "\"x\""
    ∧ Quote "" = "\"\""
    ∧ Quote "a\"b\\c" = "\"a\\\"b\\\\c\""
    ∧ Quote "on\toff\n" = "\"on\\toff\\n\""
    ∧ Quote "\x00\x1b\x7f" = "\"\\x00\\x1b\\x7f\""
    ∧ Quote "\u0085\u00ad" = "\"\\u0085\\u00ad\""
    ∧ Quote "é ÷" = "\"é ÷\""
    ∧ ParseBool "\"yes\""
      = .error (.wrap "strconv.ParseBool: parsing \"\\\"yes\\\"\": invalid syntax" ErrSyntax) := by
  refine ⟨by decide, by decide, by decide, by decide, by decide, by decide, by decide, rfl⟩

/-! ## Lower case -/

/-- `strings.ToLower` on examples: ASCII letters, letters of other alphabets (no
special form for a final sigma), the capital I with dot, whose lower case is
the ASCII `i`, the title-case digraph, the capital sharp s, the ohm and kelvin
signs; characters without lower case are kept. -/
theorem ToLower_examples :
    ToLower "PIM_Targets_Dir" = "pim_targets_dir"
    ∧ ToLower "file_sd-1.json" = "file_sd-1.json"
    ∧ ToLower "TARGETS_DİR" = "targets_dir"
    ∧ ToLower "É" = "é"
    ∧ ToLower "ΣΊΣΥΦΟΣ" = "σίσυφοσ"
    ∧ ToLower "ЖУРНАЛ" = "журнал"
    ∧ ToLower "ǅ" = "ǆ"
    ∧ ToLower "ẞ" = "ß"
    ∧ ToLower "\u2126\u212A" = "ωk"
    ∧ ToLower "日本語 ß ÷" = "日本語 ß ÷" := by
  decide

/-- With the lower-casing of every Unicode letter the names `PIM_TARGETS_DIR` and
`PIM_TARGETS_DİR` give one and the same settings key. -/
theorem envKeys_unicode_collision :
    envKeys "PIM_" [("PIM_TARGETS_DIR", "/t"), ("PIM_TARGETS_DİR", "/i")]
      = ["targets_dir", "targets_dir"]
    ∧ ¬ (envKeys "PIM_" [("PIM_TARGETS_DIR", "/t"), ("PIM_TARGETS_DİR", "/i")]).Nodup := by
  decide

/-! ## Writing a target group and reading it back -/

/-- C23: at the level of documents, for both formats.  Decoding the document that
the encoder makes of a target group gives the group back: the same jobs and
the same targets in the same order and the same labels, also when some or all
of the three are empty (the encoder leaves an empty field out and the decoder
leaves a field without entry empty, so the group without anything is the empty
mapping and comes back as it was); the same holds for a collection, group by
group in order, a nil pointer coming back as a nil pointer.  (A slice or map
is its content here: the empty one and the nil one are not told apart.) -/
theorem TargetGroup_round_trip (fmt : Format) :
    (∀ g : TargetGroup, decodeGroup fmt (encodeGroup fmt g) = g)
    ∧ (∀ g : TargetGroup,
        (decodeGroup fmt (encodeGroup fmt g)).Jobs = g.Jobs
        ∧ (decodeGroup fmt (encodeGroup fmt g)).Targets = g.Targets
        ∧ (decodeGroup fmt (encodeGroup fmt g)).Labels = g.Labels)
    ∧ encodeGroup fmt { Jobs := [], Labels := [], Targets := [] } = []
    ∧ decodeGroup fmt [] = { Jobs := [], Labels := [], Targets := [] }
    ∧ (∀ tgs : TargetGroups, decodeGroups fmt (encodeGroups fmt tgs) = tgs)
    ∧ decodeGroup fmt (encodeGroup fmt
        { Jobs := ["prometheus"], Labels := [("environment", "test")],
          Targets := ["localhost:9090"] })
      = { Jobs := ["prometheus"], Labels := [("environment", "test")],
          Targets := ["localhost:9090"] } := by
  have key : ∀ g : TargetGroup, decodeGroup fmt (encodeGroup fmt g) = g := by
    intro g
    obtain ⟨jobs, labels, targets⟩ := g
    cases fmt <;> cases jobs <;> cases labels <;> cases targets <;>
      simp [decodeGroup, encodeGroup, TargetGroup.tags, List.lookup]
  refine ⟨key, ?_, ?_, ?_, ?_, key _⟩
  · intro g
    rw [key g]
    exact ⟨rfl, rfl, rfl⟩
  · cases fmt <;> rfl
  · cases fmt <;> rfl
  · intro tgs
    unfold decodeGroups encodeGroups
    rw [List.map_map]
    have hid : (Option.map (decodeGroup fmt) ∘ Option.map (encodeGroup fmt)) = id := by
      funext o
      cases o with
      | none => rfl
      | some g => simp [key g]
    rw [hid, List.map_id]

/-! ## The path functions on the examples of the Go documentation and tests -/

theorem Clean_examples : ["abc//def//ghi", "abc/./def", "abc/def/..", "abc/def/../..", "/abc/def/../../..",
    "abc/def/../../..", "abc/def/../../../ghi/jkl/../../../mno", "/../abc", "", "abc/", "/",
    "../../abc", "abc/../../././../def", "//abc", "/abc/", "."].map filepath.Clean
  = ["abc/def/ghi", "abc/def", "abc", ".", "/", "..", "../../mno", "/abc", ".", "abc", "/",
    "../../abc", "../../def", "/abc", "/abc", "."] := by decide

theorem Dir_examples :
    filepath.Dir "/foo/bar/baz.js" = "/foo/bar" ∧ filepath.Dir "/foo/bar/baz/" = "/foo/bar/baz"
  ∧ filepath.Dir "dev.txt" = "." ∧ filepath.Dir "../todo.txt" = ".." ∧ filepath.Dir ".." = "."
  ∧ filepath.Dir "/" = "/" ∧ filepath.Dir "" = "." ∧ filepath.Dir "/a" = "/" := by decide

theorem Join_examples :
    filepath.Join "a" "b/c" = "a/b/c" ∧ filepath.Join "a/b" "../../../xyz" = "../xyz"
  ∧ filepath.Join "" "" = "" ∧ filepath.Join "a" "" = "a" ∧ filepath.Join "" "a" = "a"
  ∧ filepath.Join "/" "a" = "/a" := by decide

theorem HasSuffix_examples :
    HasSuffix "a.json" ".json" = true ∧ HasSuffix "json" ".json" = false := by decide

end Pim
